import Mathlib

/-!
# Verification development for the radio-survey backend (package `backend`)

Shallow embedding of the Go sources under `internal/backend`.

Conventions of the embedding

* `float64` values are modelled as exact rationals `ℚ`; NaN and the infinities are
  outside the model, and arithmetic on them is exact.
* `int`, `int64` and `int8` are modelled as `Int` (no claim here depends on overflow).
* A Go `map` is modelled as an association list whose order is one enumeration
  order of the map; where the source ranges over a map the model ranges over the list.
* `sort.Slice` and `sort.SliceStable` are modelled as a stable insertion sort driven
  by the source's `less` closure.
* Standard-library functions whose tables are not part of the repository
  (`strconv.ParseFloat`, `strconv.FormatFloat`, `strings.ToLower`) are the fields of
  `GoLib`; every definition takes the library as its first argument and every
  general theorem holds for all libraries.
* File contents are lists of bytes; `utf8.Valid`, the conversion of valid bytes to a
  string and the decoders of package `charmap` are the fields of `TextCodecs`;
  `os.ReadFile` is a function from paths to results.  A string is a list of characters,
  and `bufio.Scanner` is modelled without its limit on the length of a line.
* The four regular expressions of `filters.go` are modelled by explicit matchers that
  return the matches of package `regexp` (leftmost match, greedy repetition, successive
  matches without overlap).
* `math.Hypot` and the verb `%v` of package `fmt` on `float64` are the fields of `NumLib`;
  `math.Floor` followed by the conversion to `int` is the floor of a rational number.
-/

namespace Backend

/-! ## Standard library -/

/-- The Go standard-library functions the program relies on, kept abstract.
`ParseFloat s` is `strconv.ParseFloat(s, 64)` (`none` when it returns an error) for the
texts whose value is a finite number; the texts that Go reads as NaN or as an infinity have
no value here, and `FloatLib` below is the parser with these values,
`FormatFloat v` is `strconv.FormatFloat(v, 'f', -1, 64)` and `ToLower` is
`strings.ToLower`. -/
structure GoLib where
  ParseFloat : String → Option ℚ
  FormatFloat : ℚ → String
  ToLower : String → String

/-- Go `unicode.IsSpace`: the code points with the Unicode White_Space property. -/
def isSpace (c : Char) : Bool :=
  let n := c.toNat
  (0x09 ≤ n && n ≤ 0x0D) || n == 0x20 || n == 0x85 || n == 0xA0 || n == 0x1680 ||
    (0x2000 ≤ n && n ≤ 0x200A) || n == 0x2028 || n == 0x2029 || n == 0x202F ||
    n == 0x205F || n == 0x3000

/-- Go `strings.TrimSpace`: drop leading and trailing white space. -/
def TrimSpace (s : String) : String :=
  String.mk ((s.data.dropWhile isSpace).reverse.dropWhile isSpace).reverse

/-- Go `strings.ReplaceAll(s, ",", ".")`. -/
def commaToDot (s : String) : String :=
  String.mk (s.data.map fun c => if c = ',' then '.' else c)

/-- Value of a decimal digit character. -/
def digitVal (c : Char) : Nat := c.toNat - '0'.toNat

/-- Value of a string of decimal digits, most significant first. -/
def digitsVal (ds : List Char) : Nat := ds.foldl (fun acc c => 10 * acc + digitVal c) 0

/-- Unsigned plain decimal literal `ddd` or `ddd.ddd` (at least one digit). -/
def parseUnsignedDecimal (cs : List Char) : Option ℚ :=
  let ip := cs.takeWhile Char.isDigit
  let rest := cs.dropWhile Char.isDigit
  match rest with
  | [] => if ip.isEmpty then none else some (digitsVal ip : ℚ)
  | '.' :: fp =>
    if fp.all Char.isDigit && !(ip.isEmpty && fp.isEmpty) then
      some ((digitsVal ip : ℚ) + (digitsVal fp : ℚ) / (10 ^ fp.length : ℕ))
    else none
  | _ => none

/-- Plain decimal literals with an optional sign: the fragment of
`strconv.ParseFloat` used to evaluate the model on concrete inputs. -/
def parseDecimal (s : String) : Option ℚ :=
  match s.data with
  | '-' :: cs => (parseUnsignedDecimal cs).map fun v => -v
  | '+' :: cs => parseUnsignedDecimal cs
  | cs => parseUnsignedDecimal cs

/-- Go `strconv.Itoa` / `strconv.FormatInt(v, 10)`. -/
def Itoa (n : Int) : String :=
  match n with
  | Int.ofNat m => String.mk (Nat.toDigits 10 m)
  | Int.negSucc m => String.mk ('-' :: Nat.toDigits 10 (m + 1))

/-- A concrete library used to run the model on examples: decimal literals and ASCII
lower-casing; `FormatFloat` prints the fraction `num/den` and is reached by no example,
since integral values are printed by `normalizeIntLikeString` itself. -/
def goLib : GoLib where
  ParseFloat := parseDecimal
  FormatFloat := fun v => Itoa v.num ++ "/" ++ Itoa v.den
  ToLower := fun s => String.mk (s.data.map Char.toLower)

/-- Equality of results is decidable, so that runs of the model can be compared. -/
instance instDecidableEqExcept {ε α : Type} [DecidableEq ε] [DecidableEq α] :
    DecidableEq (Except ε α) := fun a b =>
  match a, b with
  | .ok x, .ok y => if h : x = y then isTrue (by rw [h]) else isFalse (fun e => h (by cases e; rfl))
  | .error x, .error y =>
    if h : x = y then isTrue (by rw [h]) else isFalse (fun e => h (by cases e; rfl))
  | .ok _, .error _ => isFalse (fun e => by cases e)
  | .error _, .ok _ => isFalse (fun e => by cases e)

/-- Source: `parseNumberString` (filter_apply.go). -/
def parseNumberString (L : GoLib) (raw : String) : Option ℚ :=
  let s := TrimSpace raw
  if s = "" then none
  else L.ParseFloat (commaToDot s)

/-- Source: `cellAt` (processing_native.go). -/
def cellAt (row : List String) (idx : Int) : String :=
  if 0 ≤ idx ∧ idx < row.length then row.getD idx.toNat "" else ""

/-- Source: `indexOf` (filter_apply.go): first position of `needle`, or `-1`. -/
def indexOf (items : List String) (needle : String) : Int :=
  match items with
  | [] => -1
  | v :: rest =>
    if v = needle then 0
    else
      let r := indexOf rest needle
      if r = -1 then -1 else r + 1

/-- Go `sort.Slice(xs, less)` / `sort.SliceStable(xs, less)`: stable insertion sort
that places `a` before `b` unless `less b a`. `sort.Slice` does not promise stability;
the theorems about its callers use only that the result is a sorted permutation. -/
def sortSlice {α : Type} (less : α → α → Bool) (xs : List α) : List α :=
  xs.insertionSort (fun a b => less b a = false)

/-- Source: `compareNumericStringAsc` (processing_native.go). -/
def compareNumericStringAsc (L : GoLib) (a b : String) : Int :=
  match parseNumberString L a, parseNumberString L b with
  | some av, some bv => if av < bv then -1 else if av > bv then 1 else 0
  | some _, none => -1
  | none, some _ => 1
  | none, none => 0

/-! ## Data model -/

/-- Source: `Point` (projection_native.go). -/
structure Point where
  A : ℚ
  B : ℚ
deriving DecidableEq

/-- Source: `CSVFileInfo` (csv_loader.go). -/
structure CSVFileInfo where
  Encoding : String
  HeaderLine : Int
  OriginalHeader : String
deriving DecidableEq

/-- Source: `CSVData` (csv_loader.go). -/
structure CSVData where
  Columns : List String
  Rows : List (List String)
  FileInfo : CSVFileInfo
deriving DecidableEq

/-- Source: `CustomOperator` (types.go). -/
structure CustomOperator where
  MCC : String
  MNC : String
  PCI : String
deriving DecidableEq

/-- Source: `ProcessingConfig` (types.go); `ColumnMapping` is a Go map. -/
structure ProcessingConfig where
  FilePath : String
  ColumnMapping : List (String × Int)
  KeepOriginalRows : Bool
  ZoneMode : String
  ZoneSizeM : ℚ
  RSRPThreshold : ℚ
  SINRThreshold : ℚ
  IncludeEmptyZones : Bool
  AddCustomOperators : Bool
  CustomOperators : List CustomOperator
  FilterPaths : Option (List String)
  OutputSuffix : String
  MobileModeEnabled : Bool
  MobileLTEFilePath : String
  MobileTimeToleranceMS : Int
  MobileRequireNRYES : Bool
  MobileNRColumnName : String
  ProgressEnabled : Bool

/-- Source: `DefaultProcessingConfig` (types.go). -/
def DefaultProcessingConfig : ProcessingConfig where
  FilePath := ""
  ColumnMapping := []
  KeepOriginalRows := false
  ZoneMode := "segments"
  ZoneSizeM := 100
  RSRPThreshold := -110
  SINRThreshold := -5
  IncludeEmptyZones := false
  AddCustomOperators := false
  CustomOperators := []
  FilterPaths := none
  OutputSuffix := ""
  MobileModeEnabled := false
  MobileLTEFilePath := ""
  MobileTimeToleranceMS := 1000
  MobileRequireNRYES := false
  MobileNRColumnName := "5G NR"
  ProgressEnabled := true

/-- Source: `ProcessedRow` (processing_native.go). -/
structure ProcessedRow where
  Raw : List String
  OriginalExcelRow : Int
  XMeters : ℚ
  YMeters : ℚ
  ZonaX : ℚ
  ZonaY : ℚ
  ZonaKey : String
  OperatorKey : String
  ZonaOperatorKey : String
  MCC : String
  MNC : String
  PCI : String
  Frequency : String
  NRValue : String
  RSRP : ℚ
  SINR : ℚ
  HasSINR : Bool
deriving DecidableEq

/-- Source: `ProcessedDataset` (processing_native.go); `SegmentMeta` is a Go map. -/
structure ProcessedDataset where
  Rows : List ProcessedRow
  Columns : List String
  FileInfo : CSVFileInfo
  SegmentMeta : List (Int × Point)
deriving DecidableEq

/-- Source: `ZoneStat` (processing_native.go). -/
structure ZoneStat where
  ZonaKey : String
  OperatorKey : String
  ZonaX : ℚ
  ZonaY : ℚ
  MCC : String
  MNC : String
  PCI : String
  RSRPAvg : ℚ
  PocetMerani : Int
  NajcastejsiaFrekvencia : String
  NRValue : String
  VsetkyFrekvencie : List String
  OriginalExcelRows : List Int
  SINRAvg : ℚ
  HasSINRAvg : Bool
  ZonaStredX : ℚ
  ZonaStredY : ℚ
  Longitude : ℚ
  Latitude : ℚ
  RSRPKategoria : String
deriving DecidableEq

/-! ## Geodetic transformer (batch interface) -/

/-- Source: `PyProjTransformer` (projection_native.go). The per-point kernels
`forwardOne` and `inverseOne` are floating-point geodesy and are kept abstract. -/
structure PyProjTransformer where
  forwardOne : ℚ → ℚ → Except String (ℚ × ℚ)
  inverseOne : ℚ → ℚ → Except String (ℚ × ℚ)

/-- A cancellation context as seen by one batch call: `ctx i` is the error that the
`i`-th poll of `ctxErr(ctx)` returns, `none` while the context is live. -/
abbrev Context := Nat → Option String

/-- The loop shared by `Forward` and `Inverse`: poll the context, convert one point. -/
def transformLoop (one : ℚ → ℚ → Except String (ℚ × ℚ)) (ctx : Context) :
    Nat → List Point → Except String (List Point)
  | _, [] => .ok []
  | i, p :: ps =>
    match ctx i with
    | some e => .error e
    | none =>
      match one p.A p.B with
      | .error e => .error e
      | .ok (x, y) =>
        match transformLoop one ctx (i + 1) ps with
        | .error e => .error e
        | .ok out => .ok (⟨x, y⟩ :: out)

/-- Source: `(*PyProjTransformer).Forward`. -/
def PyProjTransformer.Forward (t : PyProjTransformer) (ctx : Context) (lonLat : List Point) :
    Except String (List Point) :=
  transformLoop t.forwardOne ctx 0 lonLat

/-- Source: `(*PyProjTransformer).Inverse`. -/
def PyProjTransformer.Inverse (t : PyProjTransformer) (ctx : Context) (xy : List Point) :
    Except String (List Point) :=
  transformLoop t.inverseOne ctx 0 xy

/-! ## Zone aggregation -/

/-- Source: `aggKey` (local type of `CalculateZoneStatsNative`). -/
structure aggKey where
  ZonaKey : String
  OperatorKey : String
  ZonaX : ℚ
  ZonaY : ℚ
  MCC : String
  MNC : String
  PCI : String
  Freq : String
deriving DecidableEq

/-- Source: `aggVal` (local type of `CalculateZoneStatsNative`). -/
structure aggVal where
  RSRPSum : ℚ
  Count : Int
  OriginalRows : List Int
  SINRSum : ℚ
  SINRCount : Int
  NRYesCount : Int
  NRNoCount : Int
deriving DecidableEq

/-- The zero value `&aggVal{}`. -/
def aggVal.zero : aggVal := ⟨0, 0, [], 0, 0, 0, 0⟩

/-- Body of the aggregation loop after the map lookup (lines 301-313). -/
def aggVal.addRow (v : aggVal) (r : ProcessedRow) : aggVal :=
  { RSRPSum := v.RSRPSum + r.RSRP
    Count := v.Count + 1
    OriginalRows := v.OriginalRows ++ [r.OriginalExcelRow]
    NRYesCount := if r.NRValue = "yes" then v.NRYesCount + 1 else v.NRYesCount
    NRNoCount := if r.NRValue = "no" then v.NRNoCount + 1 else v.NRNoCount
    SINRSum := if r.HasSINR then v.SINRSum + r.SINR else v.SINRSum
    SINRCount := if r.HasSINR then v.SINRCount + 1 else v.SINRCount }

/-- The grouping key of a row (lines 286-295). -/
def aggKeyOf (r : ProcessedRow) : aggKey :=
  ⟨r.ZonaKey, r.OperatorKey, r.ZonaX, r.ZonaY, r.MCC, r.MNC, r.PCI, r.Frequency⟩

/-- Rows skipped by the aggregation loop (line 282). -/
def hasBlankKey (r : ProcessedRow) : Bool :=
  TrimSpace r.MCC = "" || TrimSpace r.MNC = "" || TrimSpace r.PCI = "" ||
    TrimSpace r.Frequency = ""

/-- Map update `v := agg[key]; if v == nil { agg[key] = &aggVal{} }; ...`: the entry of
`key` absorbs the row, a new entry is created at the end when there is none. -/
def aggInsert (agg : List (aggKey × aggVal)) (key : aggKey) (r : ProcessedRow) :
    List (aggKey × aggVal) :=
  match agg with
  | [] => [(key, aggVal.zero.addRow r)]
  | (k, v) :: rest =>
    if k = key then (k, v.addRow r) :: rest else (k, v) :: aggInsert rest key r

/-- The aggregation loop (lines 280-314). -/
def aggregate (rows : List ProcessedRow) : List (aggKey × aggVal) :=
  rows.foldl (fun agg r => if hasBlankKey r then agg else aggInsert agg (aggKeyOf r) r) []

/-- Source: `zoneFreqStat` (local type of `CalculateZoneStatsNative`). -/
structure zoneFreqStat where
  Key : aggKey
  RSRPAvg : ℚ
  Count : Int
  Rows : List Int
  NRValue : String
  SINRAvg : ℚ
  HasSINR : Bool
deriving DecidableEq

/-- One entry of the map turned into a `zoneFreqStat` (lines 328-343). The sum and the
quotient are exact here; `toZoneFreqStatF` below leaves the rounding of `float64` to a
library. -/
def toZoneFreqStat (kv : aggKey × aggVal) : zoneFreqStat :=
  { Key := kv.1
    RSRPAvg := kv.2.RSRPSum / (kv.2.Count : ℚ)
    Count := kv.2.Count
    Rows := kv.2.OriginalRows
    NRValue := if kv.2.NRYesCount > 0 then "yes" else if kv.2.NRNoCount > 0 then "no" else ""
    SINRAvg := if kv.2.SINRCount > 0 then kv.2.SINRSum / (kv.2.SINRCount : ℚ) else 0
    HasSINR := decide (kv.2.SINRCount > 0) }

/-- The `less` closure of the first `sort.Slice` (lines 346-364). -/
def zoneFreqLess (L : GoLib) (a b : zoneFreqStat) : Bool :=
  if a.RSRPAvg ≠ b.RSRPAvg then decide (a.RSRPAvg > b.RSRPAvg)
  else if a.Count ≠ b.Count then decide (a.Count > b.Count)
  else if compareNumericStringAsc L a.Key.Freq b.Key.Freq ≠ 0 then
    decide (compareNumericStringAsc L a.Key.Freq b.Key.Freq < 0)
  else if a.Key.Freq ≠ b.Key.Freq then decide (a.Key.Freq < b.Key.Freq)
  else if compareNumericStringAsc L a.Key.PCI b.Key.PCI ≠ 0 then
    decide (compareNumericStringAsc L a.Key.PCI b.Key.PCI < 0)
  else decide (a.Key.PCI < b.Key.PCI)

/-- Source: `chosenKey` (local type of `CalculateZoneStatsNative`). -/
structure chosenKey where
  ZonaKey : String
  OperatorKey : String
  ZonaX : ℚ
  ZonaY : ℚ
  MCC : String
  MNC : String
deriving DecidableEq

/-- The key under which a group competes (lines 377-384). -/
def chosenKeyOf (z : zoneFreqStat) : chosenKey :=
  ⟨z.Key.ZonaKey, z.Key.OperatorKey, z.Key.ZonaX, z.Key.ZonaY, z.Key.MCC, z.Key.MNC⟩

/-- The selection loop (lines 374-390): walking the sorted groups, keep a group iff its
key has not been seen; `seen` holds the keys of `chosen` so far. The result lists
`chosen[key]` for `key` in `chosenOrder`. -/
def chooseLoop : List zoneFreqStat → List chosenKey → List zoneFreqStat
  | [], _ => []
  | z :: rest, seen =>
    if chosenKeyOf z ∈ seen then chooseLoop rest seen
    else z :: chooseLoop rest (chosenKeyOf z :: seen)

/-- Zone centre handed to the inverse projection (lines 396-401). -/
def zoneCenter (cfg : ProcessingConfig) (z : zoneFreqStat) : Point :=
  if cfg.ZoneMode = "segments" then ⟨z.Key.ZonaX, z.Key.ZonaY⟩
  else ⟨z.Key.ZonaX + cfg.ZoneSizeM / 2, z.Key.ZonaY + cfg.ZoneSizeM / 2⟩

/-- Coverage category (lines 436-448). -/
def rsrpKategoria (cfg : ProcessingConfig) (rsrpAvg sinrAvg : ℚ) (hasSINR : Bool) : String :=
  if hasSINR then
    if rsrpAvg ≥ cfg.RSRPThreshold ∧ sinrAvg ≥ cfg.SINRThreshold then "RSRP_GOOD" else "RSRP_BAD"
  else
    if rsrpAvg ≥ cfg.RSRPThreshold then "RSRP_GOOD" else "RSRP_BAD"

/-- One `ZoneStat` built from a chosen group and its back-projected centre (lines 413-448). -/
def mkZoneStat (cfg : ProcessingConfig) (z : zoneFreqStat) (lonLat : Point) : ZoneStat :=
  { ZonaKey := z.Key.ZonaKey
    OperatorKey := z.Key.OperatorKey
    ZonaX := z.Key.ZonaX
    ZonaY := z.Key.ZonaY
    MCC := z.Key.MCC
    MNC := z.Key.MNC
    PCI := z.Key.PCI
    RSRPAvg := z.RSRPAvg
    PocetMerani := z.Count
    NajcastejsiaFrekvencia := z.Key.Freq
    NRValue := z.NRValue
    VsetkyFrekvencie := [z.Key.Freq]
    OriginalExcelRows := z.Rows
    SINRAvg := if z.HasSINR then z.SINRAvg else 0
    HasSINRAvg := z.HasSINR
    ZonaStredX := (zoneCenter cfg z).A
    ZonaStredY := (zoneCenter cfg z).B
    Longitude := lonLat.A
    Latitude := lonLat.B
    RSRPKategoria := rsrpKategoria cfg z.RSRPAvg (if z.HasSINR then z.SINRAvg else 0) z.HasSINR }

/-- The `less` closure of the final `sort.Slice` (lines 451-481). -/
def zoneStatLess (L : GoLib) (a b : ZoneStat) : Bool :=
  if a.ZonaKey ≠ b.ZonaKey then decide (a.ZonaKey < b.ZonaKey)
  else if a.OperatorKey ≠ b.OperatorKey then decide (a.OperatorKey < b.OperatorKey)
  else if a.ZonaX ≠ b.ZonaX then decide (a.ZonaX < b.ZonaX)
  else if a.ZonaY ≠ b.ZonaY then decide (a.ZonaY < b.ZonaY)
  else if compareNumericStringAsc L a.MCC b.MCC ≠ 0 then
    decide (compareNumericStringAsc L a.MCC b.MCC < 0)
  else if a.MCC ≠ b.MCC then decide (a.MCC < b.MCC)
  else if compareNumericStringAsc L a.MNC b.MNC ≠ 0 then
    decide (compareNumericStringAsc L a.MNC b.MNC < 0)
  else if a.MNC ≠ b.MNC then decide (a.MNC < b.MNC)
  else if compareNumericStringAsc L a.PCI b.PCI ≠ 0 then
    decide (compareNumericStringAsc L a.PCI b.PCI < 0)
  else decide (a.PCI < b.PCI)

/-- The groups in the order in which the selection loop meets them (lines 326-364). -/
def sortedZoneFreqStats (L : GoLib) (rows : List ProcessedRow) : List zoneFreqStat :=
  sortSlice (zoneFreqLess L) ((aggregate rows).map toZoneFreqStat)

/-- The representatives, `chosen[key]` for `key` in `chosenOrder` (lines 366-390). -/
def chosenGroups (L : GoLib) (rows : List ProcessedRow) : List zoneFreqStat :=
  chooseLoop (sortedZoneFreqStats L rows) []

/-- Source: `CalculateZoneStatsNative` (processing_native.go). -/
def CalculateZoneStatsNative (L : GoLib) (ctx : Context) (ds : Option ProcessedDataset)
    (cfg : ProcessingConfig) (transformer : PyProjTransformer) :
    Except String (List ZoneStat) :=
  match ds with
  | none => .error "nil ProcessedDataset"
  | some ds =>
    let chosen := chosenGroups L ds.Rows
    match transformer.Inverse ctx (chosen.map (zoneCenter cfg)) with
    | .error e => .error e
    | .ok lonLat =>
      .ok (sortSlice (zoneStatLess L) ((chosen.zip lonLat).map fun zp => mkZoneStat cfg zp.1 zp.2))

/-! ## Sort keys -/

/-- Numeric rank of a text value: its number, or the top element when it does not parse. -/
def numKey (L : GoLib) (s : String) : WithTop ℚ :=
  match parseNumberString L s with
  | some v => (v : WithTop ℚ)
  | none => ⊤

/-- The sort key of a group: the comparator is the strict lexicographic order of these keys. -/
def zfKey (L : GoLib) (z : zoneFreqStat) :
    ℚ ×ₗ (ℤ ×ₗ (WithTop ℚ ×ₗ (String ×ₗ (WithTop ℚ ×ₗ String)))) :=
  toLex (-z.RSRPAvg, toLex (-z.Count, toLex (numKey L z.Key.Freq,
    toLex (z.Key.Freq, toLex (numKey L z.Key.PCI, z.Key.PCI)))))

/-! ## The tie-break order in the words of the specification -/

/-- The (PCI, frequency) groups of a processed dataset, each with its mean RSRP and its
measurement count, as the aggregation loop builds them. -/
def zoneFreqStats (rows : List ProcessedRow) : List zoneFreqStat :=
  (aggregate rows).map toZoneFreqStat

/-- Specification wording: `a` is smaller than `b` when both parse as numbers and `a` is
the smaller number, when only `a` parses as a number, and, on a remaining tie, when `a`
is the smaller text. -/
def specSmaller (L : GoLib) (a b : String) : Prop :=
  match parseNumberString L a, parseNumberString L b with
  | some x, some y => x < y ∨ (x = y ∧ a < b)
  | some _, none => True
  | none, some _ => False
  | none, none => a < b

/-- Specification wording: `g` comes before `h` when it has the higher mean RSRP, then
the higher measurement count, then the smaller frequency, then the smaller PCI. -/
def specBefore (L : GoLib) (g h : zoneFreqStat) : Prop :=
  g.RSRPAvg > h.RSRPAvg ∨ (g.RSRPAvg = h.RSRPAvg ∧
    (g.Count > h.Count ∨ (g.Count = h.Count ∧
      (specSmaller L g.Key.Freq h.Key.Freq ∨
        (g.Key.Freq = h.Key.Freq ∧ specSmaller L g.Key.PCI h.Key.PCI)))))

/-- A `ZoneStat` reports the group `g`. -/
def reportsGroup (s : ZoneStat) (g : zoneFreqStat) : Prop :=
  s.ZonaKey = g.Key.ZonaKey ∧ s.OperatorKey = g.Key.OperatorKey ∧ s.ZonaX = g.Key.ZonaX ∧
    s.ZonaY = g.Key.ZonaY ∧ s.MCC = g.Key.MCC ∧ s.MNC = g.Key.MNC ∧ s.PCI = g.Key.PCI ∧
    s.NajcastejsiaFrekvencia = g.Key.Freq ∧ s.RSRPAvg = g.RSRPAvg ∧ s.PocetMerani = g.Count

/-! ## Example data -/

/-- A transformer whose kernels are the identity, for running examples. -/
def idTransformer : PyProjTransformer where
  forwardOne := fun x y => .ok (x, y)
  inverseOne := fun x y => .ok (x, y)

/-- A context that is never cancelled. -/
def liveContext : Context := fun _ => none

/-- A processed row of zone `100_200` and operator `231_01` with PCI 7 and RSRP -90. -/
def exampleRow (freq : String) : ProcessedRow where
  Raw := []
  OriginalExcelRow := 1
  XMeters := 150
  YMeters := 250
  ZonaX := 100
  ZonaY := 200
  ZonaKey := "100_200"
  OperatorKey := "231_01"
  ZonaOperatorKey := "100_200_231_01"
  MCC := "231"
  MNC := "01"
  PCI := "7"
  Frequency := freq
  NRValue := ""
  RSRP := -90
  SINR := 0
  HasSINR := false

/-- Two measurements of one zone and operator that differ only in frequency. -/
def exampleDataset : ProcessedDataset where
  Rows := [exampleRow "100", exampleRow "20"]
  Columns := []
  FileInfo := ⟨"utf-8", 0, ""⟩
  SegmentMeta := []

/-- Grid configuration with the default thresholds. -/
def exampleConfig : ProcessingConfig :=
  { DefaultProcessingConfig with ZoneMode := "center" }

/-- The statistic expected for `exampleDataset`. -/
def exampleStat : ZoneStat where
  ZonaKey := "100_200"
  OperatorKey := "231_01"
  ZonaX := 100
  ZonaY := 200
  MCC := "231"
  MNC := "01"
  PCI := "7"
  RSRPAvg := -90
  PocetMerani := 1
  NajcastejsiaFrekvencia := "20"
  NRValue := ""
  VsetkyFrekvencie := ["20"]
  OriginalExcelRows := [1]
  SINRAvg := 0
  HasSINRAvg := false
  ZonaStredX := 150
  ZonaStredY := 250
  Longitude := 150
  Latitude := 250
  RSRPKategoria := "RSRP_GOOD"

/-- Number of processed rows whose MCC, MNC, PCI and frequency are all non-blank. -/
def nonBlankRowCount (rows : List ProcessedRow) : Int :=
  ((rows.filter fun r => !hasBlankKey r).length : Int)

/-- Sum of the measurement counts (`PocetMerani`) of a list of statistics. -/
def totalPocetMerani (stats : List ZoneStat) : Int :=
  (stats.map fun s => s.PocetMerani).sum

/-- Two measurements that fall into one (PCI, frequency) group. -/
def exampleDatasetOneGroup : ProcessedDataset where
  Rows := [exampleRow "20", exampleRow "20"]
  Columns := []
  FileInfo := ⟨"utf-8", 0, ""⟩
  SegmentMeta := []

/-! ## Filter rules -/

/-- Source: `ConditionKind` (filters.go), a string type. -/
abbrev ConditionKind := String

/-- Source: `ConditionEq`. -/
def ConditionEq : ConditionKind := "eq"

/-- Source: `ConditionRange`. -/
def ConditionRange : ConditionKind := "range"

/-- Source: `Condition` (filters.go). -/
structure Condition where
  Field : String
  Kind : ConditionKind
  Low : ℚ
  High : ℚ
deriving DecidableEq

/-- Source: `FilterRule` (filters.go); `Assignments` is a Go map, listed in one
enumeration order. -/
structure FilterRule where
  Name : String
  Assignments : List (String × List ℚ)
  ConditionGroups : List (List Condition)
deriving DecidableEq

/-- Go map assignment `m[k] = v`: replace the entry of `k`, or add one. -/
def mapSet {κ β : Type} [DecidableEq κ] (m : List (κ × β)) (k : κ) (v : β) : List (κ × β) :=
  match m with
  | [] => [(k, v)]
  | (k', v') :: rest => if k' = k then (k, v) :: rest else (k', v') :: mapSet rest k v

/-- Go map read `m[k]` with the zero value `dflt` for a missing key. -/
def mapGet {κ β : Type} [DecidableEq κ] (m : List (κ × β)) (k : κ) (dflt : β) : β :=
  match m with
  | [] => dflt
  | (k', v') :: rest => if k' = k then v' else mapGet rest k dflt

/-- Go map read `v, ok := m[k]`. -/
def mapFind {κ β : Type} [DecidableEq κ] (m : List (κ × β)) (k : κ) : Option β :=
  match m with
  | [] => none
  | (k', v') :: rest => if k' = k then some v' else mapFind rest k

/-- Source: `filterFieldAliases` (filter_apply.go). -/
def filterFieldAliases : List (String × String) :=
  [("latitude", "latitude"), ("lat", "latitude"), ("longitude", "longitude"),
   ("lon", "longitude"), ("frequency", "frequency"), ("freq", "frequency"),
   ("earfcn", "frequency"), ("pci", "pci"), ("mcc", "mcc"), ("mnc", "mnc"),
   ("rsrp", "rsrp"), ("sinr", "sinr")]

/-- Source: `normalizeHeaderToken` (mapping.go). -/
def normalizeHeaderToken (L : GoLib) (value : String) : String :=
  String.mk ((L.ToLower (TrimSpace value)).data.filter fun r =>
    ('a' ≤ r && r ≤ 'z') || ('0' ≤ r && r ≤ '9'))

/-- Source: `findColumnNameNative` (mobile_sync_native.go): the map from normalised
token to column keeps the last column of each token. -/
def findColumnNameNative (L : GoLib) (columns : List String) : List String → String
  | [] => ""
  | cand :: rest =>
    match columns.reverse.find? fun c => normalizeHeaderToken L c = normalizeHeaderToken L cand with
    | some v => v
    | none => findColumnNameNative L columns rest

/-- Go conversion `int64(v)` of a float whose value is the integer `n`: `n` itself when it
lies in the range of `int64`.  Outside that range the language leaves the result to the
implementation; the model takes what the conversion instruction of amd64 returns, the
smallest `int64`. -/
def int64OfIntegral (n : Int) : Int :=
  if -9223372036854775808 ≤ n ∧ n ≤ 9223372036854775807 then n else -9223372036854775808

/-- Source: `normalizeIntLikeString` (filter_apply.go:63-68):
`strconv.FormatInt(int64(v), 10)` for an integral value, else `strconv.FormatFloat`. -/
def normalizeIntLikeString (L : GoLib) (v : ℚ) : String :=
  if v.den = 1 then Itoa (int64OfIntegral v.num) else L.FormatFloat v

/-- Source: `resolveColumnName` (filter_apply.go); a nil `columnMapping` is the empty map. -/
def resolveColumnName (L : GoLib) (field : String) (columns : List String)
    (columnMapping : List (String × Int)) : String :=
  if field ∈ columns then field
  else
    let fieldLower := L.ToLower (TrimSpace field)
    match columns.find? fun c => L.ToLower (TrimSpace c) = fieldLower with
    | some c => c
    | none =>
      if fieldLower = "frequency" ∧ findColumnNameNative L columns ["SSRef"] ≠ "" then
        findColumnNameNative L columns ["SSRef"]
      else
        let mappingKey := mapGet filterFieldAliases fieldLower ""
        if mappingKey ≠ "" then
          match mapFind columnMapping mappingKey with
          | some idx => if 0 ≤ idx ∧ idx < columns.length then columns.getD idx.toNat "" else field
          | none => field
        else field

/-- Inner loop of `resolveFilterRules` (lines 105-117): add the values of one field to the
resolved map, skipping values already present. -/
def mergeAssignmentValues (resolved : List (String × List ℚ)) (resolvedField : String)
    (values : List ℚ) : List (String × List ℚ) :=
  values.foldl (fun acc value =>
    if value ∈ mapGet acc resolvedField [] then acc
    else mapSet acc resolvedField (mapGet acc resolvedField [] ++ [value])) resolved

/-- Assignments of one rule with their fields resolved (lines 102-118). -/
def resolveAssignments (L : GoLib) (assignments : List (String × List ℚ))
    (columns : List String) (columnMapping : List (String × Int)) : List (String × List ℚ) :=
  assignments.foldl (fun acc fv =>
    mergeAssignmentValues acc (resolveColumnName L fv.1 columns columnMapping) fv.2) []

/-- Condition groups of one rule with their fields resolved, empty groups dropped
(lines 120-130). -/
def resolveGroups (L : GoLib) (groups : List (List Condition)) (columns : List String)
    (columnMapping : List (String × Int)) : List (List Condition) :=
  (groups.map fun group =>
    group.map fun cond => { cond with Field := resolveColumnName L cond.Field columns columnMapping }).filter
    fun resolvedGroup => decide (resolvedGroup.length > 0)

/-- Source: `resolveFilterRules` (filter_apply.go). -/
def resolveFilterRules (L : GoLib) (rules : List FilterRule) (columns : List String)
    (columnMapping : List (String × Int)) : List FilterRule :=
  rules.map fun rule =>
    { Name := rule.Name
      Assignments := resolveAssignments L rule.Assignments columns columnMapping
      ConditionGroups := resolveGroups L rule.ConditionGroups columns columnMapping }

/-- The loop of `rowValueMap` from column position `i` on. -/
def rowValueMapFrom (row : List String) : Nat → List String → List (String × String) →
    List (String × String)
  | _, [], m => m
  | i, c :: cs, m => rowValueMapFrom row (i + 1) cs (mapSet m c (if i < row.length then row.getD i "" else ""))

/-- Source: `rowValueMap` (filter_apply.go). -/
def rowValueMap (columns : List String) (row : List String) : List (String × String) :=
  rowValueMapFrom row 0 columns []

/-- Source: `rowMatchesGroup` (filter_apply.go). -/
def rowMatchesGroup (L : GoLib) (row : List (String × String)) : List Condition → Bool
  | [] => true
  | cond :: rest =>
    match mapFind row cond.Field with
    | none => false
    | some raw =>
      match parseNumberString L raw with
      | none => false
      | some val =>
        if cond.Kind = ConditionEq then
          if val ≠ cond.Low then false else rowMatchesGroup L row rest
        else if cond.Kind = ConditionRange then
          if cond.Low = cond.High then
            if val ≠ cond.Low then false else rowMatchesGroup L row rest
          else
            if val < cond.Low ∨ val ≥ cond.High then false else rowMatchesGroup L row rest
        else false

/-- Go `sort.Strings`. -/
def sortStrings (xs : List String) : List String :=
  sortSlice (fun a b => decide (a < b)) xs

/-- Source: `buildAssignmentCombinations` (filter_apply.go). -/
def buildAssignmentCombinations (assignments : List (String × List ℚ)) :
    List (List (String × ℚ)) :=
  if assignments.length = 0 then [[]]
  else
    (sortStrings (assignments.map Prod.fst)).foldl (fun combinations field =>
      combinations.flatMap fun combo =>
        (mapGet assignments field []).map fun v => mapSet combo field v) [[]]

/-- Source: `matchingRule` (filter_apply.go). -/
structure matchingRule where
  bestGroupSize : Int
  rule : FilterRule
deriving DecidableEq

/-- The strength loop of `ApplyFiltersCSV` (lines 259-264). -/
def bestGroupSizeOf (L : GoLib) (rowMap : List (String × String)) (rule : FilterRule) : Int :=
  rule.ConditionGroups.foldl (fun best group =>
    if rowMatchesGroup L rowMap group ∧ (group.length : Int) > best then (group.length : Int)
    else best) 0

/-- The rules that hit a row, in rule order (lines 257-268). -/
def collectMatches (L : GoLib) (rowMap : List (String × String)) (resolvedRules : List FilterRule) :
    List matchingRule :=
  resolvedRules.filterMap fun rule =>
    if bestGroupSizeOf L rowMap rule > 0 then some ⟨bestGroupSizeOf L rowMap rule, rule⟩ else none

/-- The `less` closure that ranks the hits (lines 272-277). -/
def matchLess (a b : matchingRule) : Bool :=
  if a.bestGroupSize ≠ b.bestGroupSize then decide (a.bestGroupSize > b.bestGroupSize)
  else decide (a.rule.Name < b.rule.Name)

/-- The selected rule (lines 270-279): `nil` when nothing hits, else the first hit after
sorting. -/
def selectRule (L : GoLib) (rowMap : List (String × String)) (resolvedRules : List FilterRule) :
    Option FilterRule :=
  ((sortSlice matchLess (collectMatches L rowMap resolvedRules)).head?).map fun m => m.rule

/-- Slice write `row[idx] = v` for an index returned by `indexOf`. -/
def setAt (row : List String) (idx : Int) (v : String) : List String :=
  if idx ≥ 0 then row.set idx.toNat v else row

/-- Source: the closure `appendOutputRow` of `ApplyFiltersCSV` (lines 281-297); returns
the row that the closure appends. -/
def appendOutputRow (L : GoLib) (outputColumns : List String) (rowNumber : Int)
    (base : List (String × String)) (assignments : List (String × ℚ))
    (includeOriginalRow : Bool) : List String :=
  let rowOut := outputColumns.map fun col => mapGet base col ""
  let rowOut :=
    if includeOriginalRow then setAt rowOut (indexOf outputColumns "original_excel_row") (Itoa rowNumber)
    else rowOut
  assignments.foldl (fun out fv =>
    setAt out (indexOf outputColumns fv.1) (normalizeIntLikeString L fv.2)) rowOut

/-- Output columns (lines 235-248). -/
def outputColumnsOf (baseColumns : List String) (resolvedRules : List FilterRule) : List String :=
  resolvedRules.foldl (fun cols rule =>
    rule.Assignments.foldl (fun cols fv =>
      if indexOf cols fv.1 = -1 then cols ++ [fv.1] else cols) cols)
    (if indexOf baseColumns "original_excel_row" = -1 then baseColumns ++ ["original_excel_row"]
     else baseColumns)

/-- The rows emitted for the input row at position `pos` (body of the loop, lines 253-309). -/
def emitRows (L : GoLib) (baseColumns outputColumns : List String) (resolvedRules : List FilterRule)
    (keepOriginalOnMatch : Bool) (headerLine : Int) (pos : Nat) (row : List String) :
    List (List String) :=
  let rowMap := rowValueMap baseColumns row
  let rowNumber : Int := pos + headerLine + 1
  match selectRule L rowMap resolvedRules with
  | some selected =>
    (if keepOriginalOnMatch then [appendOutputRow L outputColumns rowNumber rowMap [] true] else []) ++
      (buildAssignmentCombinations selected.Assignments).map fun combo =>
        appendOutputRow L outputColumns rowNumber rowMap combo true
  | none => [appendOutputRow L outputColumns rowNumber rowMap [] true]

/-- Source: `(*CSVData).clone` (filter_apply.go). -/
def CSVData.clone (d : CSVData) : CSVData where
  Columns := d.Columns.map fun c => c
  Rows := d.Rows.map fun r => r.map fun c => c
  FileInfo := d.FileInfo

/-- Source: `ApplyFiltersCSV` (filter_apply.go). -/
def ApplyFiltersCSV (L : GoLib) (data : Option CSVData) (rules : List FilterRule)
    (keepOriginalOnMatch : Bool) (columnMapping : List (String × Int)) : Except String CSVData :=
  match data with
  | none => .error "nil CSVData"
  | some data =>
    if rules.length = 0 then .ok data.clone
    else
      let baseColumns := data.Columns
      let resolvedRules := resolveFilterRules L rules baseColumns columnMapping
      let outputColumns := outputColumnsOf baseColumns resolvedRules
      .ok { Columns := outputColumns
            Rows := data.Rows.enum.flatMap fun pr =>
              emitRows L baseColumns outputColumns resolvedRules keepOriginalOnMatch
                data.FileInfo.HeaderLine pr.1 pr.2
            FileInfo := data.FileInfo }

/-! ## Rule selection in the words of the specification -/

/-- A rule hits a row: the row satisfies at least one of its condition groups. -/
def ruleHits (L : GoLib) (rowMap : List (String × String)) (rule : FilterRule) : Prop :=
  ∃ g ∈ rule.ConditionGroups, rowMatchesGroup L rowMap g = true

/-- Specification wording: the strength of a rule on a row is the size of its largest
condition group satisfied by the row. -/
def IsStrength (L : GoLib) (rowMap : List (String × String)) (rule : FilterRule) (n : Nat) : Prop :=
  (∃ g ∈ rule.ConditionGroups, rowMatchesGroup L rowMap g = true ∧ g.length = n) ∧
    ∀ g ∈ rule.ConditionGroups, rowMatchesGroup L rowMap g = true → g.length ≤ n

/-- The sort key of a hit: the ranking closure is the strict lexicographic order of
these keys. -/
def matchKey (m : matchingRule) : ℤ ×ₗ String :=
  toLex (-m.bestGroupSize, m.rule.Name)

/-! ## Example data for the filter engine -/

/-- The rule of the specification's scenario B: `"RSRP"=-80;("PCI"=10-20)`. -/
def exampleRule : FilterRule where
  Name := "rule.txt"
  Assignments := [("RSRP", [-80])]
  ConditionGroups := [[⟨"PCI", ConditionRange, 10, 20⟩]]

/-- A dataset with columns PCI and RSRP and one row whose PCI is `pci`. -/
def exampleCSV (pci : String) : CSVData where
  Columns := ["PCI", "RSRP"]
  Rows := [[pci, "-95"]]
  FileInfo := ⟨"utf-8", 0, "PCI;RSRP"⟩

/-- A dataset that already has a column named `original_excel_row`. -/
def exampleCSVWithRowColumn (pci : String) : CSVData where
  Columns := ["PCI", "original_excel_row"]
  Rows := [[pci, "77"]]
  FileInfo := ⟨"utf-8", 0, "PCI;original_excel_row"⟩

/-- Specification wording: the Cartesian product of the value lists of the fields `fs`,
the first field varying slowest and the last fastest, each field's values in listed
order; a combination lists one `(field, value)` pair per field. -/
def specCombinations (assignments : List (String × List ℚ)) :
    List String → List (List (String × ℚ))
  | [] => [[]]
  | f :: fs =>
    (mapGet assignments f []).flatMap fun v =>
      (specCombinations assignments fs).map fun c => (f, v) :: c

/-- A rule that assigns the two fields `X` and `Y`, neither of which is a column of
`exampleCSV`; `assignments` lists the entries of the Go map in one enumeration order. -/
def exampleRuleTwoFields (assignments : List (String × List ℚ)) : FilterRule where
  Name := "two.txt"
  Assignments := assignments
  ConditionGroups := [[⟨"PCI", ConditionEq, 15, 15⟩]]

/-! ## Time-series sync: window lookup -/

/-- Source: `mobileLookup` (mobile_sync_native.go). -/
structure mobileLookup where
  times : List Int
  yesPrefix : List Int
  noPrefix : List Int
deriving DecidableEq

/-- Source: `nrScore` (mobile_sync_native.go). -/
def nrScore (v : String) : Int :=
  if v = "yes" then 2 else if v = "no" then 1 else 0

/-- The prefix-count loop of `buildMobileLookup` (lines 387-397) for one of the two
slices: entry `k` counts the scores among the first `k` that satisfy `p`. -/
def prefixFrom (p : Int → Bool) (acc : Int) : List Int → List Int
  | [] => [acc]
  | score :: rest => acc :: prefixFrom p (if p score then acc + 1 else acc) rest

/-- Source: `buildMobileLookup` (mobile_sync_native.go). -/
def buildMobileLookup (times : List Int) (scores : List Int) : mobileLookup :=
  let idx := sortSlice (fun i j => decide (times.getD i 0 < times.getD j 0))
    (List.range times.length)
  let sortedTimes := idx.map fun original => times.getD original 0
  let sortedScores := idx.map fun original => scores.getD original 0
  { times := sortedTimes
    yesPrefix := prefixFrom (fun score => score == 2) 0 sortedScores
    noPrefix := prefixFrom (fun score => score != 2 && score == 1) 0 sortedScores }

/-- The loop of Go `sort.Search`: binary search on `[i, j)`. -/
def sortSearchLoop (f : Nat → Bool) (i j : Nat) : Nat :=
  if i < j then
    if !f ((i + j) / 2) then sortSearchLoop f ((i + j) / 2 + 1) j
    else sortSearchLoop f i ((i + j) / 2)
  else i
termination_by j - i
decreasing_by all_goals omega

/-- Go `sort.Search(n, f)`. -/
def sortSearch (n : Nat) (f : Nat → Bool) : Nat := sortSearchLoop f 0 n

/-- Source: `resolveWindowScore` (mobile_sync_native.go); the result is
`(score, matched, conflict)`. -/
def resolveWindowScore (lookup : mobileLookup) (timeMS tolerance : Int) : Int × Bool × Bool :=
  if lookup.times.length = 0 then (0, false, false)
  else
    let left := sortSearch lookup.times.length fun i =>
      decide (lookup.times.getD i 0 ≥ timeMS - tolerance)
    let right := sortSearch lookup.times.length fun i =>
      decide (lookup.times.getD i 0 > timeMS + tolerance)
    if right ≤ left then (0, false, false)
    else
      let yes := lookup.yesPrefix.getD right 0 - lookup.yesPrefix.getD left 0
      let no := lookup.noPrefix.getD right 0 - lookup.noPrefix.getD left 0
      let conflict := decide (yes > 0 ∧ no > 0)
      if yes > 0 then (2, true, conflict)
      else if no > 0 then (1, true, conflict)
      else (0, true, false)

/-- Specification wording: a secondary row `(time, signal)` lies in the window of the
primary time `t` when `t - w <= time <= t + w`, both ends inclusive. -/
def inWindow (t w : Int) (row : Int × Int) : Prop :=
  t - w ≤ row.1 ∧ row.1 ≤ t + w

/-- Specification wording: the window holds a row with the given signal score, found by
a direct scan of the rows. -/
def windowHolds (rows : List (Int × Int)) (t w : Int) (score : Int) : Prop :=
  ∃ row ∈ rows, inWindow t w row ∧ row.2 = score

/-! ## Time-series sync: matching -/

/-- Source: `mobileSyncStats` (mobile_sync_native.go). -/
structure mobileSyncStats where
  SyncStrategy : String
  RowsTotal : Int
  RowsYes : Int
  RowsNo : Int
  RowsBlank : Int
  RowsWithMatch : Int
  ConflictingWindows : Int
  FallbackTimeOnlyRows : Int
  WindowMS : Int
deriving DecidableEq

/-- Source: `timeSeriesNative` (mobile_sync_native.go). -/
structure timeSeriesNative where
  Values : List Int
  Valid : List Bool
deriving DecidableEq

/-- Source: `lteRow` (local type of `syncMobileNRFromLTECSVNative`). -/
structure lteRow where
  mcc : String
  mnc : String
  timeMS : Int
  score : Int
deriving DecidableEq

/-- Source: `fivegCandidate` (local type of `syncMobileNRFromLTECSVNative`). -/
structure fivegCandidate where
  index : Nat
  mcc : String
  mnc : String
  timeMS : Int
deriving DecidableEq

/-- Trailing zeros removed from a reversed character list. -/
def dropLeadingZeros : List Char → List Char
  | '0' :: rest => dropLeadingZeros rest
  | cs => cs

/-- Source: `normalizeKeyStringNative` (mobile_sync_native.go). The loop strips trailing
zeros while the text contains a dot; stripping a zero never removes the dot, so the
`Contains` test is made once. -/
def normalizeKeyStringNative (s : String) : String :=
  let t := TrimSpace (commaToDot s)
  if t = "" then ""
  else
    let r := if '.' ∈ t.data then (dropLeadingZeros t.data.reverse).reverse else t.data
    String.mk (if r.getLast? = some '.' then r.dropLast else r)

/-- Source: `normalizeNRValueNative` (mobile_sync_native.go). -/
def normalizeNRValueNative (L : GoLib) (s : String) : String :=
  let t := L.ToLower (TrimSpace s)
  if t ∈ ["yes", "true", "1", "y", "t", "a", "ano", "áno"] then "yes"
  else if t ∈ ["no", "false", "0", "n", "f"] then "no"
  else ""

/-- Source: `(*CSVData).columnIndexByName` (filter_apply.go). -/
def CSVData.columnIndexByName (d : CSVData) (name : String) : Int :=
  indexOf d.Columns name

/-- The secondary rows kept for matching (lines 97-109): rows with a valid time and
non-empty normalised MCC and MNC, whatever their signal. -/
def lteRowsOf (L : GoLib) (dfLTE : CSVData) (lteMCCIdx lteMNCIdx lteNRIdx : Int)
    (lteTimeMS : timeSeriesNative) : List lteRow :=
  dfLTE.Rows.enum.filterMap fun ir =>
    if lteTimeMS.Valid.getD ir.1 false = false then none
    else
      let mcc := normalizeKeyStringNative (cellAt ir.2 lteMCCIdx)
      let mnc := normalizeKeyStringNative (cellAt ir.2 lteMNCIdx)
      if mcc = "" ∨ mnc = "" then none
      else some ⟨mcc, mnc, lteTimeMS.Values.getD ir.1 0,
        nrScore (normalizeNRValueNative L (cellAt ir.2 lteNRIdx))⟩

/-- The primary rows with a usable time (lines 128-139). -/
def fivegCandidatesOf (df5g : CSVData) (fivegMCCIdx fivegMNCIdx : Int)
    (fivegTimeMS : timeSeriesNative) : List fivegCandidate :=
  df5g.Rows.enum.filterMap fun ir =>
    if fivegTimeMS.Valid.getD ir.1 false = false then none
    else some ⟨ir.1, normalizeKeyStringNative (cellAt ir.2 fivegMCCIdx),
      normalizeKeyStringNative (cellAt ir.2 fivegMNCIdx), fivegTimeMS.Values.getD ir.1 0⟩

/-- The map key of an operator (line 148). -/
def operatorMapKey (mcc mnc : String) : String := mcc ++ "\x1f" ++ mnc

/-- The grouping loop (lines 144-152): `groupedLTE[k] = append(groupedLTE[k], r)`. -/
def groupLTE (lteRows : List lteRow) : List (String × List lteRow) :=
  lteRows.foldl (fun grouped r =>
    mapSet grouped (operatorMapKey r.mcc r.mnc)
      (mapGet grouped (operatorMapKey r.mcc r.mnc) [] ++ [r])) []

/-- The per-operator lookups (lines 153-162). -/
def lteLookupsOf (lteRows : List lteRow) : List (String × mobileLookup) :=
  (groupLTE lteRows).map fun kv =>
    (kv.1, buildMobileLookup (kv.2.map fun r => r.timeMS) (kv.2.map fun r => r.score))

/-- The key-agnostic lookup (line 163). -/
def globalLookupOf (lteRows : List lteRow) : mobileLookup :=
  buildMobileLookup (lteRows.map fun r => r.timeMS) (lteRows.map fun r => r.score)

/-- The mutable state of the two matching loops. -/
structure matchState where
  windowScores : List Int
  matchedRows : Int
  conflictingWindows : Int
  fallbackTimeOnlyRows : Int
deriving DecidableEq

/-- Body of the first matching loop (lines 174-190): rows with MCC and MNC. -/
def keyedStep (lteLookups : List (String × mobileLookup)) (tolerance : Int)
    (st : matchState) (c : fivegCandidate) : matchState :=
  if c.mcc = "" ∨ c.mnc = "" then st
  else
    match mapFind lteLookups (operatorMapKey c.mcc c.mnc) with
    | none => st
    | some lookup =>
      match resolveWindowScore lookup c.timeMS tolerance with
      | (score, matched, conflict) =>
        if matched then
          { windowScores := st.windowScores.set c.index score
            matchedRows := st.matchedRows + 1
            conflictingWindows :=
              if conflict then st.conflictingWindows + 1 else st.conflictingWindows
            fallbackTimeOnlyRows := st.fallbackTimeOnlyRows }
        else st

/-- Body of the second matching loop (lines 191-204): rows without MCC or MNC. -/
def fallbackStep (globalLookup : mobileLookup) (tolerance : Int)
    (st : matchState) (c : fivegCandidate) : matchState :=
  if c.mcc ≠ "" ∧ c.mnc ≠ "" then st
  else
    match resolveWindowScore globalLookup c.timeMS tolerance with
    | (score, matched, conflict) =>
      if matched then
        { windowScores := st.windowScores.set c.index score
          matchedRows := st.matchedRows + 1
          conflictingWindows :=
            if conflict then st.conflictingWindows + 1 else st.conflictingWindows
          fallbackTimeOnlyRows := st.fallbackTimeOnlyRows + 1 }
      else st

/-- Both matching loops (lines 165-204) from the initial state. -/
def matchCandidates (lteRows : List lteRow) (candidates : List fivegCandidate)
    (nRows : Nat) (tolerance : Int) : matchState :=
  candidates.foldl (fallbackStep (globalLookupOf lteRows) tolerance)
    (candidates.foldl (keyedStep (lteLookupsOf lteRows) tolerance)
      ⟨List.replicate nRows 0, 0, 0, 0⟩)

/-- The text written for a window score (lines 218-228). -/
def nrValueOfScore (score : Int) : String :=
  if score = 2 then "yes" else if score = 1 then "no" else ""

/-- One output row (lines 229-234): pad the row up to the signal column, then write. -/
def writeNRCell (row : List String) (nrIdx : Nat) (val : String) : List String :=
  (if nrIdx ≥ row.length then row ++ List.replicate (nrIdx + 1 - row.length) "" else row).set
    nrIdx val

/-- Position of the signal column in the output (lines 207-214): the column of that name,
or a new last column. -/
def nrColumnIndex (df5g : CSVData) (nrColumnName : String) : Nat :=
  if df5g.clone.columnIndexByName nrColumnName < 0 then df5g.clone.Columns.length
  else (df5g.clone.columnIndexByName nrColumnName).toNat

/-- Source: `syncMobileNRFromLTECSVNative` (mobile_sync_native.go), lines 92-249: the
matching of the two loaded datasets. The arguments are the values computed by lines
37-90: the loaded (and filtered) secondary dataset, the resolved column positions, the
two time series and their strategies. -/
def syncMobileNRCore (L : GoLib) (df5g dfLTE : CSVData)
    (lteMCCIdx lteMNCIdx lteNRIdx fivegMCCIdx fivegMNCIdx : Int)
    (lteTimeMS fivegTimeMS : timeSeriesNative) (lteStrategy fivegStrategy : String)
    (nrColumnName : String) (timeToleranceMS : Int) : Except String (CSVData × mobileSyncStats) :=
  let lteRows := lteRowsOf L dfLTE lteMCCIdx lteMNCIdx lteNRIdx lteTimeMS
  if lteRows.length = 0 then
    .error "mobile mode: LTE súbor neobsahuje použiteľné MCC/MNC hodnoty"
  else if (lteRows.filter fun r => r.score = 2).length = 0 then
    .error "mobile mode: v LTE súbore sa nenašli žiadne riadky s 5G NR = yes"
  else
    let fivegCandidates := fivegCandidatesOf df5g fivegMCCIdx fivegMNCIdx fivegTimeMS
    if fivegCandidates.length = 0 then
      .error ("mobile mode: nepodarilo sa načítať čas pre porovnanie (UTC alebo Date+Time) " ++
        "v jednom zo súborov")
    else
      let tolerance := if timeToleranceMS < 0 then 0 else timeToleranceMS
      let st := matchCandidates lteRows fivegCandidates df5g.Rows.length tolerance
      let out := df5g.clone
      let found := out.columnIndexByName nrColumnName
      let columns := if found < 0 then out.Columns ++ [nrColumnName] else out.Columns
      let rows := if found < 0 then out.Rows.map fun r => r ++ [""] else out.Rows
      let nrIdx := nrColumnIndex df5g nrColumnName
      let scores := rows.enum.map fun ir => st.windowScores.getD ir.1 0
      .ok ({ Columns := columns
             Rows := rows.enum.map fun ir =>
               writeNRCell ir.2 nrIdx (nrValueOfScore (st.windowScores.getD ir.1 0))
             FileInfo := out.FileInfo },
           { SyncStrategy := fivegStrategy ++ "->" ++ lteStrategy
             RowsTotal := rows.length
             RowsYes := (scores.filter fun s => s = 2).length
             RowsNo := (scores.filter fun s => s = 1).length
             RowsBlank := (scores.filter fun s => s ≠ 2 ∧ s ≠ 1).length
             RowsWithMatch := st.matchedRows
             ConflictingWindows := st.conflictingWindows
             FallbackTimeOnlyRows := st.fallbackTimeOnlyRows
             WindowMS := tolerance })

/-! ## Matching in the words of the specification -/

/-- Membership in a window is decidable. -/
instance instDecidableInWindow (t w : Int) (row : Int × Int) : Decidable (inWindow t w row) :=
  inferInstanceAs (Decidable (t - w ≤ row.1 ∧ row.1 ≤ t + w))

/-- The secondary rows `(time, signal)` against which a primary row is matched: all of
them when its MCC or MNC is blank, else those filed under its operator key. -/
def secondaryRowsFor (lteRows : List lteRow) (c : fivegCandidate) : List (Int × Int) :=
  if c.mcc = "" ∨ c.mnc = "" then lteRows.map fun r => (r.timeMS, r.score)
  else
    (lteRows.filter fun r =>
      operatorMapKey r.mcc r.mnc = operatorMapKey c.mcc c.mnc).map fun r => (r.timeMS, r.score)

/-- The window of a primary row holds at least one secondary row, of any signal. -/
def windowNonEmpty (lteRows : List lteRow) (tolerance : Int) (c : fivegCandidate) : Bool :=
  (secondaryRowsFor lteRows c).any fun row => decide (inWindow c.timeMS tolerance row)

/-- Secondary dataset of the example: a positive row at 1000 ms and a row of unknown
signal at 50000 ms, both of operator 310/410; the column UTC holds seconds. -/
def exampleLTE : CSVData where
  Columns := ["MCC", "MNC", "5G NR", "UTC"]
  Rows := [["310", "410", "yes", "1"], ["310", "410", "maybe", "50"]]
  FileInfo := ⟨"utf-8", 0, "MCC;MNC;5G NR;UTC"⟩

/-- Primary dataset of the example: a row at 50500 ms, whose window of 1000 ms holds only
the unknown secondary row, and a row at 90000 ms, whose window holds no secondary row. -/
def example5G : CSVData where
  Columns := ["MCC", "MNC", "UTC"]
  Rows := [["310", "410", "50.5"], ["310", "410", "90"]]
  FileInfo := ⟨"utf-8", 0, "MCC;MNC;UTC"⟩

/-- The answer `(score, matched, conflict)` of the lookup built from the secondary rows
against which a primary row is matched. -/
def candidateOutcome (lteRows : List lteRow) (tolerance : Int) (c : fivegCandidate) :
    Int × Bool × Bool :=
  resolveWindowScore
    (buildMobileLookup ((secondaryRowsFor lteRows c).map Prod.fst)
      ((secondaryRowsFor lteRows c).map Prod.snd)) c.timeMS tolerance

/-- The state update made for a matched row by either loop. -/
def applyOutcome (st : matchState) (c : fivegCandidate) (o : Int × Bool × Bool)
    (fallback : Bool) : matchState where
  windowScores := st.windowScores.set c.index o.1
  matchedRows := st.matchedRows + 1
  conflictingWindows := if o.2.2 then st.conflictingWindows + 1 else st.conflictingWindows
  fallbackTimeOnlyRows :=
    if fallback then st.fallbackTimeOnlyRows + 1 else st.fallbackTimeOnlyRows

/-- Time series of `exampleLTE` (column UTC in seconds, the values in milliseconds). -/
def exampleLTETimes : timeSeriesNative := ⟨[1000, 50000], [true, true]⟩

/-- Time series of `example5G`. -/
def example5GTimes : timeSeriesNative := ⟨[50500, 90000], [true, true]⟩

/-- Output dataset of the example sync: both primary rows are left blank. -/
def exampleSyncOut : CSVData where
  Columns := ["MCC", "MNC", "UTC", "5G NR"]
  Rows := [["310", "410", "50.5", ""], ["310", "410", "90", ""]]
  FileInfo := ⟨"utf-8", 0, "MCC;MNC;UTC"⟩

/-- Summary of the example sync: one row counts as matched. -/
def exampleSyncStats : mobileSyncStats where
  SyncStrategy := "utc_numeric->utc_numeric"
  RowsTotal := 2
  RowsYes := 0
  RowsNo := 0
  RowsBlank := 2
  RowsWithMatch := 1
  ConflictingWindows := 0
  FallbackTimeOnlyRows := 0
  WindowMS := 1000

/-! ## Tabular decoder: lines and header detection

Source: `csv_loader.go`.  A line is a `String`; the decoders of the text-encoding
libraries and the validity test of `unicode/utf8` are fields of `TextCodecs`; file
contents are lists of bytes.  `bufio.Scanner` is modelled without its limit on the
length of a line. -/

/-- Go `strings.TrimRight(line, "\r\n")`: drop the trailing carriage returns and
newlines. -/
def trimRightCRLF (s : String) : String :=
  String.mk (s.data.reverse.dropWhile fun c => c = '\r' ∨ c = '\n').reverse

/-- Go `strings.Split(s, ";")` on the characters of `s`: always at least one field. -/
def splitOnSemicolon : List Char → List (List Char)
  | [] => [[]]
  | c :: cs =>
    if c = ';' then [] :: splitOnSemicolon cs
    else
      match splitOnSemicolon cs with
      | [] => [[c]]
      | f :: fs => (c :: f) :: fs

/-- Source: `splitSemicolonColumns` (csv_loader.go:30-37). -/
def splitSemicolonColumns (line : String) : List String :=
  let cols := (splitOnSemicolon (trimRightCRLF line).data).map String.mk
  (cols.reverse.dropWhile fun c => c = "").reverse

/-- Source: `maxInt` (csv_loader.go:263-268). -/
def maxInt (a b : Int) : Int := if a > b then a else b

/-- Loop of `hasTabularFollowup` (csv_loader.go:44-61) over the lines after the start
index, with the counters `seenCandidates` and `tabularRows`. -/
def hasTabularFollowupLoop (threshold : Int) : List String → Int → Int → Bool
  | [], _, _ => false
  | line :: rest, seenCandidates, tabularRows =>
    if TrimSpace line = "" then hasTabularFollowupLoop threshold rest seenCandidates tabularRows
    else
      let seenCandidates := seenCandidates + 1
      let colsCount : Int := (splitSemicolonColumns line).length
      if colsCount ≥ threshold then
        let tabularRows := tabularRows + 1
        if tabularRows ≥ 2 then true
        else if seenCandidates ≥ 25 then false
        else hasTabularFollowupLoop threshold rest seenCandidates tabularRows
      else if seenCandidates ≥ 25 then false
      else hasTabularFollowupLoop threshold rest seenCandidates tabularRows

/-- Source: `hasTabularFollowup` (csv_loader.go:39-62); the start index is a position of
`lines`, hence a natural number. -/
def hasTabularFollowup (lines : List String) (startIndex : Nat)
    (expectedColumns minColumns : Int) : Bool :=
  hasTabularFollowupLoop (maxInt minColumns (expectedColumns - 1))
    (lines.drop (startIndex + 1)) 0 0

/-- Loop of `findTabularHeader` (csv_loader.go:68-85): `i` is the index of the head of
the remaining lines, `firstCandidateIndex` and `firstCandidateLine` the first candidate
seen so far. -/
def findTabularHeaderLoop (lines : List String) (minColumns : Int) :
    Nat → List String → Int → String → Int × String
  | _, [], firstCandidateIndex, firstCandidateLine =>
    if firstCandidateIndex ≠ -1 then (firstCandidateIndex, firstCandidateLine) else (-1, "")
  | i, line :: rest, firstCandidateIndex, firstCandidateLine =>
    let cols := splitSemicolonColumns line
    if (cols.length : Int) < minColumns then
      findTabularHeaderLoop lines minColumns (i + 1) rest firstCandidateIndex firstCandidateLine
    else
      let first : Int × String :=
        if firstCandidateIndex = -1 then ((i : Int), TrimSpace line)
        else (firstCandidateIndex, firstCandidateLine)
      if hasTabularFollowup lines i cols.length minColumns then ((i : Int), TrimSpace line)
      else findTabularHeaderLoop lines minColumns (i + 1) rest first.1 first.2

/-- Source: `findTabularHeader` (csv_loader.go:64-86). -/
def findTabularHeader (lines : List String) (minColumns : Int) : Int × String :=
  findTabularHeaderLoop lines minColumns 0 lines (-1) ""

/-- Variable `base` of `makeUniqueColumnNames` (csv_loader.go:92-95) for the name `raw`
at index `i`. -/
def columnBase (i : Nat) (raw : String) : String :=
  if TrimSpace raw = "" then "column_" ++ Itoa ((i : Int) + 1) else TrimSpace raw

/-- Loop of `makeUniqueColumnNames` (csv_loader.go:91-102): `i` is the index of the head
of the remaining names, `seen` the map of occurrence counts. -/
def makeUniqueColumnNamesLoop : Nat → List String → List (String × Int) → List String
  | _, [], _ => []
  | i, raw :: rest, seen =>
    let base := columnBase i raw
    let n := mapGet seen base 0 + 1
    (if n = 1 then base else base ++ "_" ++ Itoa n) ::
      makeUniqueColumnNamesLoop (i + 1) rest (mapSet seen base n)

/-- Source: `makeUniqueColumnNames` (csv_loader.go:88-104). -/
def makeUniqueColumnNames (columns : List String) : List String :=
  makeUniqueColumnNamesLoop 0 columns []

/-! ## Tabular decoder: decoding and loading -/

/-- Library functions behind the candidate decoders: `utf8.Valid`, the conversion
`string(data)` of valid UTF-8 bytes, and the `String` methods of the decoders of
`charmap.ISO8859_1`, `charmap.ISO8859_2` and `charmap.Windows1250`. -/
structure TextCodecs where
  utf8Valid : List UInt8 → Bool
  utf8String : List UInt8 → String
  ISO8859_1 : List UInt8 → Except String String
  ISO8859_2 : List UInt8 → Except String String
  Windows1250 : List UInt8 → Except String String

/-- Source: `textDecoder` (csv_loader.go:25-28). -/
structure textDecoder where
  name : String
  decode : List UInt8 → Except String String

/-- Source: `decodeUTF8` (csv_loader.go:106-111). -/
def decodeUTF8 (C : TextCodecs) (data : List UInt8) : Except String String :=
  if ¬ C.utf8Valid data then .error "invalid utf-8" else .ok (C.utf8String data)

/-- Source: `defaultTextDecoders` (csv_loader.go:113-122). -/
def defaultTextDecoders (C : TextCodecs) : List textDecoder :=
  [⟨"utf-8", decodeUTF8 C⟩, ⟨"latin1", C.ISO8859_1⟩, ⟨"latin2", C.ISO8859_2⟩,
   ⟨"cp1250", C.Windows1250⟩, ⟨"windows-1250", C.Windows1250⟩, ⟨"iso-8859-2", C.ISO8859_2⟩]

/-- One trailing carriage return is dropped (`dropCR` of package `bufio`). -/
def dropCR (cs : List Char) : List Char :=
  if cs.getLast? = some '\r' then cs.dropLast else cs

/-- Scanning with `bufio.ScanLines` of a text whose lines are shorter than the token limit
of the scanner: `cur` holds the characters of the current line in reverse; a last line
without newline is a line when it is not empty. The limit is modelled by
`scanLinesBoundedLoop`. -/
def scanLinesLoop : List Char → List Char → List String
  | [], cur => if cur = [] then [] else [String.mk (dropCR cur.reverse)]
  | c :: rest, cur =>
    if c = '\n' then String.mk (dropCR cur.reverse) :: scanLinesLoop rest []
    else scanLinesLoop rest (c :: cur)

/-- Source: `splitLinesPreserveEmpty` (csv_loader.go:124-133), for a text whose lines are
shorter than the token limit of the scanner (`splitLinesBounded` models the limit). -/
def splitLinesPreserveEmpty (text : String) : List String :=
  scanLinesLoop text.data []

/-- The five values that `decodeWithCandidates` returns beside the error. -/
structure decodedText where
  text : String
  encoding : String
  lines : List String
  headerLine : Int
  originalHeader : String
deriving DecidableEq

/-- Loop and tail of `decodeWithCandidates` (csv_loader.go:141-168) over the remaining
decoders, with the variables `selectedText`, `selectedEncoding`, `headerLine` and
`originalHeader`. -/
def decodeWithCandidatesLoop (data : List UInt8) :
    List textDecoder → String → String → Int → String → Except String decodedText
  | [], selectedText, selectedEncoding, headerLine, originalHeader =>
    if selectedText = "" then .error "unable to decode CSV with supported encodings"
    else
      let lines := splitLinesPreserveEmpty selectedText
      if headerLine = -1 then
        .ok ⟨selectedText, selectedEncoding, lines, (findTabularHeader lines 6).1,
          (findTabularHeader lines 6).2⟩
      else .ok ⟨selectedText, selectedEncoding, lines, headerLine, originalHeader⟩
  | dec :: rest, selectedText, selectedEncoding, headerLine, originalHeader =>
    match dec.decode data with
    | .error _ =>
      decodeWithCandidatesLoop data rest selectedText selectedEncoding headerLine originalHeader
    | .ok text =>
      let lines := splitLinesPreserveEmpty text
      let found := findTabularHeader lines 6
      if found.1 ≠ -1 then .ok ⟨text, dec.name, lines, found.1, found.2⟩
      else if selectedText = "" then
        decodeWithCandidatesLoop data rest text dec.name found.1 found.2
      else
        decodeWithCandidatesLoop data rest selectedText selectedEncoding headerLine
          originalHeader

/-- Source: `decodeWithCandidates` (csv_loader.go:135-169). -/
def decodeWithCandidates (C : TextCodecs) (data : List UInt8) : Except String decodedText :=
  decodeWithCandidatesLoop data (defaultTextDecoders C) "" "" (-1) ""

/-- Header fields of `LoadCSVFile` (csv_loader.go:185-191). -/
def headerColsOf (lines : List String) (headerLine : Int) (originalHeader : String) :
    List String :=
  let headerCols := if originalHeader ≠ "" then splitSemicolonColumns originalHeader else []
  if headerCols.length = 0 ∧ headerLine ≥ 0 ∧ headerLine < lines.length then
    splitSemicolonColumns (lines.getD headerLine.toNat "")
  else headerCols

/-- Lines that the two loops of `LoadCSVFile` visit (csv_loader.go:194-197, 230-233):
those after the header line that are not blank. -/
def dataLinesOf (lines : List String) (headerLine : Int) : List String :=
  (lines.enum.filter fun p => ¬ (((p.1 : Nat) : Int) ≤ headerLine ∨ TrimSpace p.2 = "")).map
    Prod.snd

/-- Width of the dataset, `maxFields` of `LoadCSVFile` (csv_loader.go:193-202). -/
def maxFieldsOf (headerCols dataLines : List String) : Int :=
  let maxFields := dataLines.foldl
    (fun m line => maxInt m ((splitSemicolonColumns line).length : Int)) (headerCols.length : Int)
  if maxFields ≤ 0 then maxInt headerCols.length 1 else maxFields

/-- Header of `LoadCSVFile` brought to the width `maxFields` (csv_loader.go:203-225). -/
def reconcileHeader (headerCols : List String) (maxFields : Int) : List String :=
  let h1 := if (headerCols.length : Int) > maxFields then headerCols.take maxFields.toNat
    else headerCols
  let h2 := if (h1.length : Int) < maxFields then
      h1 ++ (List.range (maxFields.toNat - h1.length)).map fun (k : Nat) =>
        "extra_col_" ++ Itoa ((k : Int) + 1)
    else h1
  if (h2.length : Int) ≠ maxFields then
    (List.range maxFields.toNat).map fun (i : Nat) =>
      if i < h2.length then h2.getD i "" else "extra_col_" ++ Itoa ((i : Int) - h2.length + 1)
  else h2

/-- Fields of one data row brought to the width `maxFields` (csv_loader.go:234-241). -/
def fitRow (fields : List String) (maxFields : Int) : List String :=
  if (fields.length : Int) < maxFields then
    fields ++ List.replicate (maxFields.toNat - fields.length) ""
  else if (fields.length : Int) > maxFields then fields.take maxFields.toNat
  else fields

/-- Body of `LoadCSVFile` after decoding (csv_loader.go:181-260). -/
def buildCSVData (dec : decodedText) : CSVData :=
  let headerLine := if dec.headerLine = -1 then 0 else dec.headerLine
  let headerCols := headerColsOf dec.lines headerLine dec.originalHeader
  let dataLines := dataLinesOf dec.lines headerLine
  let maxFields := maxFieldsOf headerCols dataLines
  let rows := dataLines.map fun line => fitRow (splitSemicolonColumns line) maxFields
  let originalHeader :=
    if trimRightCRLF dec.originalHeader = "" ∧ headerLine ≥ 0 ∧ headerLine < dec.lines.length then
      trimRightCRLF (dec.lines.getD headerLine.toNat "")
    else trimRightCRLF dec.originalHeader
  ⟨makeUniqueColumnNames (reconcileHeader headerCols maxFields), rows,
    ⟨dec.encoding, headerLine, originalHeader⟩⟩

/-- Source: `LoadCSVFile` (csv_loader.go:171-261); `ReadFile` stands for `os.ReadFile`. -/
def LoadCSVFile (C : TextCodecs) (ReadFile : String → Except String (List UInt8))
    (path : String) : Except String CSVData :=
  match ReadFile path with
  | .error e => .error e
  | .ok raw =>
    match decodeWithCandidates C raw with
    | .error e => .error e
    | .ok dec => .ok (buildCSVData dec)

/-! ## Header detection and width in spec words, example files -/

/-- Number of fields of the line at index `i` (no fields beyond the last line). -/
def fieldCountAt (lines : List String) (i : Nat) : Int :=
  ((splitSemicolonColumns (lines.getD i "")).length : Int)

/-- The line at index `i` has at least `minColumns` fields and is followed by tabular
data. -/
def followedByTabularData (lines : List String) (minColumns : Int) (i : Nat) : Bool :=
  decide (minColumns ≤ fieldCountAt lines i) &&
    hasTabularFollowup lines i (fieldCountAt lines i) minColumns

/-- Header index in spec words: the smallest index of a line with at least `minColumns`
fields that is followed by tabular data; if there is none, the smallest index of a line
with at least `minColumns` fields; if there is none, -1. -/
def specHeaderIndex (lines : List String) (minColumns : Int) : Int :=
  match (List.range lines.length).find? fun i => followedByTabularData lines minColumns i with
  | some i => (i : Int)
  | none =>
    match (List.range lines.length).find? fun i => decide (minColumns ≤ fieldCountAt lines i) with
    | some i => (i : Int)
    | none => -1

/-- The first 25 non-blank lines after the line at index `startIndex`. -/
def followupWindow (lines : List String) (startIndex : Nat) : List String :=
  ((lines.drop (startIndex + 1)).filter fun line => TrimSpace line ≠ "").take 25

/-- Number of lines of the follow-up window with at least `threshold` fields. -/
def tabularFollowupCount (lines : List String) (startIndex : Nat) (threshold : Int) : Nat :=
  (followupWindow lines startIndex).countP fun line =>
    decide (threshold ≤ ((splitSemicolonColumns line).length : Int))

/-- Follow-up test in spec words for a candidate with `c` fields: at least two lines of
the window have at least `c - 1` fields. -/
def specHasTabularFollowup (lines : List String) (startIndex : Nat) (c : Int) : Bool :=
  decide (2 ≤ tabularFollowupCount lines startIndex (c - 1))

/-- Largest field count among the data lines, 0 when there is none. -/
def maxDataFields (dataLines : List String) : Nat :=
  (dataLines.map fun line => (splitSemicolonColumns line).length).foldr max 0

/-- Codecs for examples; they agree with the libraries on ASCII bytes, the only bytes of
the examples. -/
def asciiCodecs : TextCodecs where
  utf8Valid := fun data => data.all fun b => b.toNat < 128
  utf8String := fun data => String.mk (data.map fun b => Char.ofNat b.toNat)
  ISO8859_1 := fun data => .ok (String.mk (data.map fun b => Char.ofNat b.toNat))
  ISO8859_2 := fun data => .ok (String.mk (data.map fun b => Char.ofNat b.toNat))
  Windows1250 := fun data => .ok (String.mk (data.map fun b => Char.ofNat b.toNat))

/-- Bytes of an ASCII text. -/
def asciiBytes (s : String) : List UInt8 := s.data.map fun c => UInt8.ofNat c.toNat

/-- A file system with one file content under every path. -/
def oneFile (content : List UInt8) : String → Except String (List UInt8) := fun _ => .ok content

/-- Two metadata lines, a header of eight fields and three data rows of eight fields. -/
def exampleMetadataLines : List String :=
  ["Measurement export", "Device;X1", "Date;Time;UTC;Latitude;Longitude;MCC;MNC;RSRP",
   "1;2;3;4;5;6;7;8", "1;2;3;4;5;6;7;8", "1;2;3;4;5;6;7;8"]

/-- A candidate of six fields followed by two lines of five fields. -/
def exampleSixFieldLines : List String :=
  ["a;b;c;d;e;f", "1;2;3;4;5", "1;2;3;4;5"]

/-- A file without any line of six fields. -/
def exampleNarrowFile : List UInt8 := asciiBytes "a;b\n1;2\n"

/-- A file whose header has a field named like the first placeholder column and whose
data rows have one field more than the header. -/
def exampleExtraColFile : List UInt8 :=
  asciiBytes "extra_col_1;B;C;D;E;F\n1;2;3;4;5;6;7\n1;2;3;4;5;6;7\n"

/-- A file whose header repeats a name and also holds that name with the suffix. -/
def exampleDuplicateFile : List UInt8 :=
  asciiBytes "A;A;A_2;D;E;F\n1;2;3;4;5;6\n1;2;3;4;5;6\n"

/-- The names `base` that `makeUniqueColumnNames` computes for the names from index `i`
on. -/
def columnBasesFrom : Nat → List String → List String
  | _, [] => []
  | i, raw :: rest => columnBase i raw :: columnBasesFrom (i + 1) rest

/-- Name that `makeUniqueColumnNames` emits for a base that has occurred `n` times, this
occurrence included (csv_loader.go:97-101). -/
def uniqueName (base : String) (n : Int) : String :=
  if n = 1 then base else base ++ "_" ++ Itoa n

/-- Name of the placeholder column number `k`, counted from 1 (csv_loader.go:211). -/
def extraColName (k : Nat) : String := "extra_col_" ++ Itoa (k : Int)

/-- A file whose header has six fields, whose first data row has eight fields and whose
second data row has three fields followed by empty ones. -/
def exampleShortHeaderFile : List UInt8 :=
  asciiBytes "A;B;C;D;E;F\n1;2;3;4;5;6;7;8\n1;2;3;;;;;;;;\n"

/-- What `decodeWithCandidates` returns for `exampleShortHeaderFile`. -/
def exampleShortHeaderDecoded : decodedText :=
  ⟨"A;B;C;D;E;F\n1;2;3;4;5;6;7;8\n1;2;3;;;;;;;;\n", "utf-8",
    ["A;B;C;D;E;F", "1;2;3;4;5;6;7;8", "1;2;3;;;;;;;;"], 0, "A;B;C;D;E;F"⟩

/-! ## Filter rule compiler: the four patterns

Source: `filters.go`.  The four regular expressions of the source are modelled by
matchers on lists of characters that return what `regexp` returns for them: leftmost
match, greedy repetition, successive matches that do not overlap. -/

/-- White-space class of the pattern syntax: tab, newline, form feed, carriage return,
space. -/
def reSpace (c : Char) : Bool :=
  c = '\t' || c = '\n' || c = '\x0c' || c = '\r' || c = ' '

/-- Value class of `filterValueRE`: minus sign, digit, point, comma, white space. -/
def reValueChar (c : Char) : Bool :=
  c = '-' || c.isDigit || c = '.' || c = ',' || reSpace c

/-- The double quote character. -/
def doubleQuote : Char := Char.ofNat 34

/-- Match of `filterValueRE` (filters.go:14) at the start of `cs`: a double quote, the
field (group 1, one or more characters other than a double quote), a double quote, white
space, `=`, white space, the value (group 2, one or more characters of the value class,
as many as possible); returns the two groups and the text after the match.  When no
character of the value class follows the white space after `=`, the white space gives
back its last character, which then is the value. -/
def filterValueMatchAt (cs : List Char) : Option (List Char × List Char × List Char) :=
  match cs with
  | [] => none
  | c :: r1 =>
    if c ≠ doubleQuote then none
    else
      let field := r1.takeWhile fun x => x ≠ doubleQuote
      match r1.dropWhile fun x => x ≠ doubleQuote with
      | [] => none
      | _ :: r2 =>
        if field = [] then none
        else
          match r2.dropWhile reSpace with
          | [] => none
          | e :: r4 =>
            if e ≠ '=' then none
            else
              let r5 := r4.dropWhile reSpace
              let v := r5.takeWhile reValueChar
              if v ≠ [] then some (field, v, r5.dropWhile reValueChar)
              else
                match (r4.takeWhile reSpace).getLast? with
                | some w => some (field, [w], r5)
                | none => none

/-- Successive matches of `filterValueRE` in the remaining text; `skip` counts the
characters of the last match that are still ahead. -/
def filterValueFindAllLoop : List Char → Nat → List (String × String)
  | [], _ => []
  | _ :: cs, skip + 1 => filterValueFindAllLoop cs skip
  | c :: cs, 0 =>
    match filterValueMatchAt (c :: cs) with
    | some (field, value, rest) =>
      (String.mk field, String.mk value) ::
        filterValueFindAllLoop cs ((c :: cs).length - rest.length - 1)
    | none => filterValueFindAllLoop cs 0

/-- Groups 1 and 2 of `filterValueRE.FindAllStringSubmatch(text, -1)`. -/
def filterValueFindAll (text : String) : List (String × String) :=
  filterValueFindAllLoop text.data 0

/-- Match of the unsigned part of the number pattern of `rangeValueRE` at the start of
`r`: one or more digits, and optionally a point or comma followed by one or more digits;
returns the matched text and the rest. -/
def reUnsignedPrefix (r : List Char) : Option (List Char × List Char) :=
  let digits := r.takeWhile Char.isDigit
  if digits = [] then none
  else
    match r.dropWhile Char.isDigit with
    | [] => some (digits, [])
    | c :: r3 =>
      if (c = '.' ∨ c = ',') ∧ r3.takeWhile Char.isDigit ≠ [] then
        some (digits ++ c :: r3.takeWhile Char.isDigit, r3.dropWhile Char.isDigit)
      else some (digits, c :: r3)

/-- Match of the number pattern of `rangeValueRE` at the start of `cs`: an optional
minus sign followed by the unsigned part; returns the number text and the rest. -/
def reNumberPrefix (cs : List Char) : Option (List Char × List Char) :=
  match cs with
  | [] => none
  | c :: r =>
    if c = '-' then (reUnsignedPrefix r).map fun p => ('-' :: p.1, p.2)
    else reUnsignedPrefix (c :: r)

/-- Groups 1 and 2 of `rangeValueRE` (filters.go:15) on the whole text: a number, white
space, `-`, white space, a number, and nothing else. -/
def rangeValueMatch (cs : List Char) : Option (List Char × List Char) :=
  match reNumberPrefix cs with
  | none => none
  | some (m1, r) =>
    match r.dropWhile reSpace with
    | [] => none
    | c :: r2 =>
      if c ≠ '-' then none
      else
        match reNumberPrefix (r2.dropWhile reSpace) with
        | some (m2, []) => some (m1, m2)
        | _ => none

/-- The text `cs` starts with the lower-case pattern, letters compared without case;
returns the text after it. -/
def ciPrefix : List Char → List Char → Option (List Char)
  | [], cs => some cs
  | _ :: _, [] => none
  | p :: ps, c :: cs => if c.toLower = p then ciPrefix ps cs else none

/-- Text before the first closing tag `</Query>`; `acc` holds the text passed so far in
reverse. -/
def queryCloseSearch : List Char → List Char → Option (List Char)
  | [], _ => none
  | c :: cs, acc =>
    match ciPrefix "</query>".data (c :: cs) with
    | some _ => some acc.reverse
    | none => queryCloseSearch cs (c :: acc)

/-- Group 1 of `queryRE` (filters.go:16): the text between the first opening tag
`<Query>` and the first closing tag after it, tags compared without case. -/
def queryMatch : List Char → Option (List Char)
  | [] => none
  | c :: cs =>
    match ciPrefix "<query>".data (c :: cs) with
    | some rest =>
      match queryCloseSearch rest [] with
      | some content => some content
      | none => queryMatch cs
    | none => queryMatch cs

/-- Match of `groupRE` (filters.go:17) at the start of `cs`: an opening parenthesis, any
characters other than parentheses (group 1), a closing parenthesis; returns group 1 and
the text after the match. -/
def groupMatchAt (cs : List Char) : Option (List Char × List Char) :=
  match cs with
  | [] => none
  | c :: r1 =>
    if c ≠ '(' then none
    else
      match r1.dropWhile fun x => x ≠ '(' ∧ x ≠ ')' with
      | [] => none
      | e :: rest =>
        if e = ')' then some (r1.takeWhile fun x => x ≠ '(' ∧ x ≠ ')', rest) else none

/-- Successive matches of `groupRE` in the remaining text; `skip` as in
`filterValueFindAllLoop`. -/
def groupFindAllLoop : List Char → Nat → List String
  | [], _ => []
  | _ :: cs, skip + 1 => groupFindAllLoop cs skip
  | c :: cs, 0 =>
    match groupMatchAt (c :: cs) with
    | some (inner, rest) =>
      String.mk inner :: groupFindAllLoop cs ((c :: cs).length - rest.length - 1)
    | none => groupFindAllLoop cs 0

/-- Group 1 of `groupRE.FindAllStringSubmatch(text, -1)`. -/
def groupFindAll (text : String) : List String :=
  groupFindAllLoop text.data 0

/-! ## Filter rule compiler: parsing -/

/-- Source: `extractQueryContent` (filters.go:40-46). -/
def extractQueryContent (text : String) : String :=
  match queryMatch text.data with
  | some content => String.mk content
  | none => text

/-- Source: `splitAssignmentAndConditions` (filters.go:48-54): split at the first
semicolon. -/
def splitAssignmentAndConditions (queryText : String) : String × String :=
  match queryText.data.dropWhile fun c => c ≠ ';' with
  | [] => (queryText, "")
  | _ :: rest => (String.mk (queryText.data.takeWhile fun c => c ≠ ';'), String.mk rest)

/-- Source: `parseNumber` (filters.go:56-67). -/
def parseNumber (L : GoLib) (raw : String) : Option ℚ :=
  let s := TrimSpace raw
  if s = "" then none
  else L.ParseFloat (commaToDot s)

/-- Loop of `parseAssignments` (filters.go:72-94) over the matches of `filterValueRE`,
with the map built so far. -/
def parseAssignmentsLoop (L : GoLib) :
    List (String × String) → List (String × List ℚ) → Except String (List (String × List ℚ))
  | [], assignments => .ok assignments
  | (field, value) :: rest, assignments =>
    let rawValue := TrimSpace value
    if (rangeValueMatch rawValue.data).isSome then
      .error ("assignment hodnoty nemozu byt rozsah: " ++ rawValue)
    else
      match parseNumber L rawValue with
      | none => .error ("neplatna assignment hodnota: " ++ rawValue)
      | some val =>
        let existing := mapGet assignments field []
        if val ∈ existing then parseAssignmentsLoop L rest assignments
        else parseAssignmentsLoop L rest (mapSet assignments field (existing ++ [val]))

/-- Source: `parseAssignments` (filters.go:69-95). -/
def parseAssignments (L : GoLib) (text : String) : Except String (List (String × List ℚ)) :=
  parseAssignmentsLoop L (filterValueFindAll text) []

/-- Source: `parseConditionValue` (filters.go:97-118); `none` stands for `ok = false`. -/
def parseConditionValue (L : GoLib) (rawValue : String) : Option (ConditionKind × ℚ × ℚ) :=
  let rawValue := TrimSpace rawValue
  if rawValue = "" then none
  else
    match rangeValueMatch rawValue.data with
    | some (m1, m2) =>
      match parseNumber L (String.mk m1), parseNumber L (String.mk m2) with
      | some start, some stop =>
        if start ≤ stop then some (ConditionRange, start, stop)
        else some (ConditionRange, stop, start)
      | _, _ => none
    | none =>
      match parseNumber L rawValue with
      | some val => some (ConditionEq, val, val)
      | none => none

/-- Source: `parseConditionGroup` (filters.go:120-136). -/
def parseConditionGroup (L : GoLib) (text : String) : List Condition :=
  (filterValueFindAll text).filterMap fun m =>
    match parseConditionValue L m.2 with
    | none => none
    | some (kind, low, high) => some ⟨m.1, kind, low, high⟩

/-- Source: `parseConditionGroups` (filters.go:138-154). -/
def parseConditionGroups (L : GoLib) (text : String) : List (List Condition) :=
  let groups := ((groupFindAll text).map fun m => parseConditionGroup L m).filter
    fun group => group.length > 0
  if groups.length = 0 then
    if (parseConditionGroup L text).length > 0 then [parseConditionGroup L text] else []
  else groups

/-- Body of `LoadFilterRuleFromFile` after reading the file (filters.go:161-177): the
rule compiled from the text of a rule file, `name` being the base name of its path. -/
def compileFilterRule (L : GoLib) (name : String) (text : String) : Except String FilterRule :=
  let queryText := extractQueryContent text
  let parts := splitAssignmentAndConditions queryText
  match parseAssignments L parts.1 with
  | .error e => .error e
  | .ok assignments =>
    let conditionGroups := parseConditionGroups L parts.2
    if assignments.length = 0 ∨ conditionGroups.length = 0 then
      .error "filter je neplatny alebo nema podmienky"
    else .ok ⟨name, assignments, conditionGroups⟩

/-- Source: `LoadFilterRuleFromFile` (filters.go:156-178); `ReadFile` stands for
`os.ReadFile` followed by the conversion to a string, `Base` for `filepath.Base`. -/
def LoadFilterRuleFromFile (L : GoLib) (ReadFile : String → Except String String)
    (Base : String → String) (path : String) : Except String FilterRule :=
  match ReadFile path with
  | .error e => .error e
  | .ok raw => compileFilterRule L (Base path) raw

/-- Tokens of a clause: the matches of `filterValueRE`, each with its field and its value
without surrounding white space. -/
def clauseTokens (text : String) : List (String × String) :=
  (filterValueFindAll text).map fun m => (m.1, TrimSpace m.2)

/-- The value text is a numeric range `low-high`. -/
def isRangeText (value : String) : Bool := (rangeValueMatch value.data).isSome

/-- Text of a rule file with the assignment token of field `MNC` and value `1,3`, and one
condition group. -/
def exampleRuleTextComma : String :=
  "<Query>\x22MNC\x22=1,3;(\x22PCI\x22=10-20)</Query>"

/-- Text of a rule file that repeats the assignment token of field `MNC` with the values 1
and 3. -/
def exampleRuleTextRepeated : String :=
  "<Query>\x22MNC\x22=1 \x22MNC\x22=3;(\x22PCI\x22=10-20)</Query>"

/-- Text of a rule file whose condition group holds a well-formed condition on `PCI` and a
malformed one on `RSRP`. -/
def exampleRuleTextMalformed : String :=
  "\x22MNC\x22=1;(\x22PCI\x22=10-20 \x22RSRP\x22=1-2-3)"

/-- Assignment clause of a rule text: the query text before its first semicolon. -/
def assignmentClause (text : String) : String :=
  (splitAssignmentAndConditions (extractQueryContent text)).1

/-- Conditions clause of a rule text: the query text after its first semicolon. -/
def conditionsClause (text : String) : String :=
  (splitAssignmentAndConditions (extractQueryContent text)).2

/-- Text of a rule file whose assignment value is a numeric range. -/
def exampleRuleTextRange : String :=
  "\x22MNC\x22=1-3;(\x22PCI\x22=10-20)"

/-- The text is a number in the sense of `rangeValueRE`: an optional minus sign, digits,
and optionally a point or comma followed by digits. -/
def isNumberText (m : List Char) : Prop := reNumberPrefix m = some (m, [])

instance instDecidableIsNumberText (m : List Char) : Decidable (isNumberText m) :=
  inferInstanceAs (Decidable (reNumberPrefix m = some (m, [])))

/-- A file of two lines: a header and one data row, the contents of `exampleCSV "15"`. -/
def exampleTwoLineFile : List UInt8 := asciiBytes "PCI;RSRP\n15;-95\n"

/-! ## Row processing

Source: `ProcessDataNative` (processing_native.go:62-248).  `math.Hypot` and the `%v`
verb of package `fmt` are the fields of `NumLib`; `math.Floor` followed by the conversion
to `int` is the floor of a rational number. -/

/-- Library functions of `ProcessDataNative`: `Hypot x y` is `math.Hypot(x, y)` and
`FormatV v` is the text that `fmt.Sprintf` writes for the `float64` value `v` under the
verb `%v`. -/
structure NumLib where
  Hypot : ℚ → ℚ → ℚ
  FormatV : ℚ → String

/-- Go `strconv.Atoi`: an optional sign and decimal digits, within the range of `int`. -/
def Atoi (s : String) : Option Int :=
  let neg := decide (s.data.head? = some '-')
  let ds := if s.data.head? = some '-' ∨ s.data.head? = some '+' then s.data.tail else s.data
  if ds = [] ∨ ds.all Char.isDigit = false then none
  else
    let v : Int := if neg then -(digitsVal ds : Int) else (digitsVal ds : Int)
    if v < -9223372036854775808 ∨ v > 9223372036854775807 then none else some v

/-- Source: `rawParsed` (local type of `ProcessDataNative`, lines 90-98). -/
structure rawParsed where
  row : List String
  originalExcelRow : Int
  lat : ℚ
  lon : ℚ
  rsrp : ℚ
  sinr : ℚ
  hasSINR : Bool
deriving DecidableEq

/-- Variable `originalExcelRow` of the row loop (lines 103-108) for the row at position
`i`. -/
def originalExcelRowOf (headerLine origExcelIdx : Int) (i : Nat) (row : List String) : Int :=
  if origExcelIdx ≥ 0 ∧ origExcelIdx < row.length then
    match Atoi (TrimSpace (row.getD origExcelIdx.toNat "")) with
    | some v => v
    | none => (i : Int) + headerLine + 1
  else (i : Int) + headerLine + 1

/-- The row loop (lines 100-141) from position `i` on: rows without a numeric RSRP are
skipped, a row with a numeric RSRP and a non-numeric latitude or longitude ends the run
with an error. -/
def parseRowsLoop (L : GoLib) (headerLine origExcelIdx rsrpIdx latIdx lonIdx sinrIdx : Int)
    (hasSINRCol : Bool) : Nat → List (List String) → Except String (List rawParsed)
  | _, [] => .ok []
  | i, row :: rest =>
    match parseNumberString L (cellAt row rsrpIdx) with
    | none =>
      parseRowsLoop L headerLine origExcelIdx rsrpIdx latIdx lonIdx sinrIdx hasSINRCol (i + 1) rest
    | some rsrp =>
      match parseNumberString L (cellAt row latIdx) with
      | none =>
        .error ("invalid latitude at row " ++
          Itoa (originalExcelRowOf headerLine origExcelIdx i row))
      | some lat =>
        match parseNumberString L (cellAt row lonIdx) with
        | none =>
          .error ("invalid longitude at row " ++
            Itoa (originalExcelRowOf headerLine origExcelIdx i row))
        | some lon =>
          let sinr := if hasSINRCol then parseNumberString L (cellAt row sinrIdx) else none
          match parseRowsLoop L headerLine origExcelIdx rsrpIdx latIdx lonIdx sinrIdx
              hasSINRCol (i + 1) rest with
          | .error e => .error e
          | .ok out =>
            .ok (⟨row, originalExcelRowOf headerLine origExcelIdx i row, lat, lon, rsrp,
              sinr.getD 0, sinr.isSome⟩ :: out)

/-- Constant `epsilon` of `ProcessDataNative` (line 159). -/
def epsilon : ℚ := 1 / 1000000000

/-- Segment number of a cumulative distance (lines 172, 173, 191). -/
def segmentOf (zoneSize cumulativeDistance : ℚ) : Int :=
  ⌊(cumulativeDistance + epsilon) / zoneSize⌋

/-- Inner loop over the segment boundaries crossed by one step (lines 175-188). -/
def segmentBoundaries (zoneSize prevCumulative stepDistance prevX prevY x y : ℚ)
    (prevSegment newSegment : Int) (segmentMeta : List (Int × Point)) : List (Int × Point) :=
  (List.range (newSegment - prevSegment).toNat).foldl (fun sm (k : Nat) =>
    let segID : Int := prevSegment + 1 + (k : Int)
    let boundaryDistance := (segID : ℚ) * zoneSize
    let offset := boundaryDistance - prevCumulative
    let fraction := offset / stepDistance
    let fraction := if fraction < 0 then 0 else if fraction > 1 then 1 else fraction
    mapSet sm segID ⟨prevX + (x - prevX) * fraction, prevY + (y - prevY) * fraction⟩) segmentMeta

/-- The segment loop (lines 166-193) over the points after the first one, with the
variables `cumulativeDistance`, `prevX`, `prevY` and the map `segmentMeta`; returns the
segment numbers of these points and the final map. -/
def segmentLoop (M : NumLib) (zoneSize : ℚ) :
    List Point → ℚ → ℚ → ℚ → List (Int × Point) → List Int × List (Int × Point)
  | [], _, _, _, segmentMeta => ([], segmentMeta)
  | p :: rest, cumulativeDistance, prevX, prevY, segmentMeta =>
    let stepDistance := M.Hypot (p.A - prevX) (p.B - prevY)
    let newCumulative :=
      if stepDistance > 0 then cumulativeDistance + stepDistance else cumulativeDistance
    let newMeta :=
      if stepDistance > 0 ∧ segmentOf zoneSize newCumulative > segmentOf zoneSize cumulativeDistance
      then
        segmentBoundaries zoneSize cumulativeDistance stepDistance prevX prevY p.A p.B
          (segmentOf zoneSize cumulativeDistance) (segmentOf zoneSize newCumulative) segmentMeta
      else segmentMeta
    let r := segmentLoop M zoneSize rest newCumulative p.A p.B newMeta
    (segmentOf zoneSize newCumulative :: r.1, r.2)

/-- Segment numbers and segment starts (lines 153, 159-194); all numbers are 0 outside
segment mode. -/
def segmentsOf (M : NumLib) (zoneMode : String) (zoneSize : ℚ) (xy : List Point) :
    List Int × List (Int × Point) :=
  match xy with
  | [] => ([], [])
  | p0 :: rest =>
    if zoneMode = "segments" then
      let r := segmentLoop M zoneSize rest 0 p0.A p0.B [(0, ⟨p0.A, p0.B⟩)]
      (0 :: r.1, r.2)
    else ((p0 :: rest).map fun _ => 0, [])

/-- One derived row (lines 196-239): `p` is the projected point of the source row, `segID`
its segment number and `first` the first projected point. -/
def buildProcessedRow (L : GoLib) (M : NumLib) (zoneMode : String) (zoneSize : ℚ)
    (mccIdx mncIdx pciIdx freqIdx nrIdx : Int) (segmentMeta : List (Int × Point))
    (first : Point) (src : rawParsed) (p : Point) (segID : Int) : ProcessedRow :=
  let mcc := cellAt src.row mccIdx
  let mnc := cellAt src.row mncIdx
  let operatorKey := mcc ++ "_" ++ mnc
  let start := (mapFind segmentMeta segID).getD first
  let zonaX := if zoneMode = "segments" then start.A else (⌊p.A / zoneSize⌋ : ℚ) * zoneSize
  let zonaY := if zoneMode = "segments" then start.B else (⌊p.B / zoneSize⌋ : ℚ) * zoneSize
  let zonaKey :=
    if zoneMode = "segments" then "segment_" ++ Itoa segID
    else M.FormatV zonaX ++ "_" ++ M.FormatV zonaY
  { Raw := src.row
    OriginalExcelRow := src.originalExcelRow
    XMeters := p.A
    YMeters := p.B
    ZonaX := zonaX
    ZonaY := zonaY
    ZonaKey := zonaKey
    OperatorKey := operatorKey
    ZonaOperatorKey := zonaKey ++ "_" ++ operatorKey
    MCC := mcc
    MNC := mnc
    PCI := cellAt src.row pciIdx
    Frequency := cellAt src.row freqIdx
    NRValue := normalizeNRValueNative L (cellAt src.row nrIdx)
    RSRP := src.rsrp
    SINR := src.sinr
    HasSINR := src.hasSINR }

/-- The keys that `ProcessDataNative` requires in the column mapping (line 67). -/
def requiredKeys : List String :=
  ["latitude", "longitude", "frequency", "pci", "mcc", "mnc", "rsrp"]

/-- The zone size in use (lines 154-157). -/
def effectiveZoneSize (cfg : ProcessingConfig) : ℚ :=
  if cfg.ZoneSizeM ≤ 0 then 100 else cfg.ZoneSizeM

/-- Candidate names of the secondary-signal column (lines 82-85). -/
def nrCandidatesOf (cfg : ProcessingConfig) : List String :=
  if TrimSpace cfg.MobileNRColumnName ≠ "" then
    TrimSpace cfg.MobileNRColumnName :: ["5G NR", "5GNR", "NR"]
  else ["5G NR", "5GNR", "NR"]

/-- The rows that pass the row loop of `ProcessDataNative` for a dataset and a
configuration (lines 74-141). -/
def filteredRowsOf (L : GoLib) (data : CSVData) (cfg : ProcessingConfig) :
    Except String (List rawParsed) :=
  parseRowsLoop L data.FileInfo.HeaderLine (indexOf data.Columns "original_excel_row")
    (mapGet cfg.ColumnMapping "rsrp" 0) (mapGet cfg.ColumnMapping "latitude" 0)
    (mapGet cfg.ColumnMapping "longitude" 0) (mapGet cfg.ColumnMapping "sinr" 0)
    (mapFind cfg.ColumnMapping "sinr").isSome 0 data.Rows

/-- Source: `ProcessDataNative` (processing_native.go:62-248). -/
def ProcessDataNative (L : GoLib) (M : NumLib) (ctx : Context) (data : Option CSVData)
    (cfg : ProcessingConfig) (transformer : PyProjTransformer) : Except String ProcessedDataset :=
  match data with
  | none => .error "nil CSVData"
  | some data =>
    match requiredKeys.find? fun key => (mapFind cfg.ColumnMapping key).isNone with
    | some key => .error ("missing required column mapping: " ++ key)
    | none =>
      let nrIdx := data.columnIndexByName (findColumnNameNative L data.Columns (nrCandidatesOf cfg))
      match filteredRowsOf L data cfg with
      | .error e => .error e
      | .ok filtered =>
        match transformer.Forward ctx (filtered.map fun r => ⟨r.lon, r.lat⟩) with
        | .error e => .error e
        | .ok xy =>
          let zoneSize := effectiveZoneSize cfg
          let segments := segmentsOf M cfg.ZoneMode zoneSize xy
          let rows := (filtered.zip (xy.zip segments.1)).map fun t =>
            buildProcessedRow L M cfg.ZoneMode zoneSize (mapGet cfg.ColumnMapping "mcc" 0)
              (mapGet cfg.ColumnMapping "mnc" 0) (mapGet cfg.ColumnMapping "pci" 0)
              (mapGet cfg.ColumnMapping "frequency" 0) nrIdx segments.2
              (xy.headD ⟨0, 0⟩) t.1 t.2.1 t.2.2
          .ok ⟨rows, data.Columns, data.FileInfo, segments.2⟩

/-- Library for examples: the distance of two points that differ in one coordinate only is
exact, and integral values are printed like integers, as `fmt` prints them below one
million. -/
def exampleNumLib : NumLib where
  Hypot := fun x y => if y = 0 then |x| else if x = 0 then |y| else |x| + |y|
  FormatV := fun v => if v.den = 1 then Itoa v.num else Itoa v.num ++ "/" ++ Itoa v.den

/-- Column mapping of the examples: latitude, longitude, frequency, PCI, MCC, MNC, RSRP in
the columns 0 to 6. -/
def exampleMapping : List (String × Int) :=
  [("latitude", 0), ("longitude", 1), ("frequency", 2), ("pci", 3), ("mcc", 4), ("mnc", 5),
   ("rsrp", 6)]

/-- A dataset with the seven mapped columns and the given rows. -/
def exampleMeasurements (rows : List (List String)) : CSVData where
  Columns := ["Latitude", "Longitude", "Frequency", "PCI", "MCC", "MNC", "RSRP"]
  Rows := rows
  FileInfo := ⟨"utf-8", 0, "Latitude;Longitude;Frequency;PCI;MCC;MNC;RSRP"⟩

/-- Grid configuration with zone size 100 and the example mapping. -/
def exampleGridConfig : ProcessingConfig :=
  { DefaultProcessingConfig with ZoneMode := "center", ColumnMapping := exampleMapping }

/-- Segment configuration with zone size 100 and the example mapping. -/
def exampleSegmentConfig : ProcessingConfig :=
  { DefaultProcessingConfig with ColumnMapping := exampleMapping }

/-- Two measurements whose projected points are (150, 250) and (180, 270). -/
def exampleGridData : CSVData :=
  exampleMeasurements [["250", "150", "800", "7", "231", "01", "-90"],
    ["270", "180", "800", "7", "231", "01", "-95"]]

/-- A derived row of the examples: operator 231/01, PCI 7, frequency 800, no SINR. -/
def exampleDerivedRow (raw : List String) (rowNumber : Int) (x y zonaX zonaY : ℚ)
    (zonaKey : String) (rsrp : ℚ) : ProcessedRow where
  Raw := raw
  OriginalExcelRow := rowNumber
  XMeters := x
  YMeters := y
  ZonaX := zonaX
  ZonaY := zonaY
  ZonaKey := zonaKey
  OperatorKey := "231_01"
  ZonaOperatorKey := zonaKey ++ "_231_01"
  MCC := "231"
  MNC := "01"
  PCI := "7"
  Frequency := "800"
  NRValue := ""
  RSRP := rsrp
  SINR := 0
  HasSINR := false

/-- What `ProcessDataNative` returns for `exampleGridData`. -/
def exampleGridProcessed : ProcessedDataset where
  Rows := [exampleDerivedRow ["250", "150", "800", "7", "231", "01", "-90"] 1 150 250 100 200
      "100_200" (-90),
    exampleDerivedRow ["270", "180", "800", "7", "231", "01", "-95"] 2 180 270 100 200
      "100_200" (-95)]
  Columns := exampleGridData.Columns
  FileInfo := exampleGridData.FileInfo
  SegmentMeta := []

/-- Straight-line distances between consecutive points. -/
def stepDistances (M : NumLib) : List Point → List ℚ
  | [] => []
  | p :: rest =>
    match rest with
    | [] => []
    | q :: _ => M.Hypot (q.A - p.A) (q.B - p.B) :: stepDistances M rest

/-- Cumulative distance in spec words: the sum of the straight-line distances between
consecutive points from the first point up to the point at index `i`. -/
def cumulativeDistanceAt (M : NumLib) (xy : List Point) (i : Nat) : ℚ :=
  ((stepDistances M xy).take i).sum

/-- Two measurements on one line, the second 99.9999999995 m after the first. -/
def exampleNearBoundaryData : CSVData :=
  exampleMeasurements [["0", "0", "800", "7", "231", "01", "-90"],
    ["0", "99.9999999995", "800", "7", "231", "01", "-95"]]

/-- Three measurements on one line, at 0 m, 60 m and 250 m. -/
def exampleLineData : CSVData :=
  exampleMeasurements [["0", "0", "800", "7", "231", "01", "-90"],
    ["0", "60", "800", "7", "231", "01", "-95"], ["0", "250", "800", "7", "231", "01", "-95"]]

/-- What `ProcessDataNative` returns for `exampleLineData` in segment mode. -/
def exampleLineProcessed : ProcessedDataset where
  Rows := [exampleDerivedRow ["0", "0", "800", "7", "231", "01", "-90"] 1 0 0 0 0
      "segment_0" (-90),
    exampleDerivedRow ["0", "60", "800", "7", "231", "01", "-95"] 2 60 0 0 0
      "segment_0" (-95),
    exampleDerivedRow ["0", "250", "800", "7", "231", "01", "-95"] 3 250 0 200 0
      "segment_2" (-95)]
  Columns := exampleLineData.Columns
  FileInfo := exampleLineData.FileInfo
  SegmentMeta := [(0, ⟨0, 0⟩), (1, ⟨100, 0⟩), (2, ⟨200, 0⟩)]

/-- Segment number in spec words: the floor of the cumulative distance divided by the zone
size. -/
def specSegmentIdAt (M : NumLib) (zoneSize : ℚ) (xy : List Point) (i : Nat) : Int :=
  ⌊cumulativeDistanceAt M xy i / zoneSize⌋

/-- Segment number of the point at index `i`: 0 for the first point, and for a later point
the floor of the cumulative distance, increased by `epsilon`, divided by the zone size. -/
def segmentIdAt (M : NumLib) (zoneSize : ℚ) (xy : List Point) (i : Nat) : Int :=
  if i = 0 then 0 else ⌊(cumulativeDistanceAt M xy i + epsilon) / zoneSize⌋

/-- The row has a numeric RSRP under the column mapping of the configuration. -/
def hasNumericRSRP (L : GoLib) (cfg : ProcessingConfig) (row : List String) : Bool :=
  (parseNumberString L (cellAt row (mapGet cfg.ColumnMapping "rsrp" 0))).isSome

/-- The row has a numeric latitude and a numeric longitude under the column mapping of the
configuration. -/
def hasNumericLatLon (L : GoLib) (cfg : ProcessingConfig) (row : List String) : Bool :=
  (parseNumberString L (cellAt row (mapGet cfg.ColumnMapping "latitude" 0))).isSome &&
    (parseNumberString L (cellAt row (mapGet cfg.ColumnMapping "longitude" 0))).isSome

/-- One measurement without RSRP whose latitude is not a number. -/
def exampleBadLatitudeData : CSVData :=
  exampleMeasurements [["abc", "150", "800", "7", "231", "01", ""]]

/-! ## Groups and keys of the aggregated statistics -/

/-- The rows that the aggregation loop puts under the key `k` (lines 281-296): those with
non-blank MCC, MNC, PCI and frequency whose grouping key is `k`, in input order. -/
def groupRows (rows : List ProcessedRow) (k : aggKey) : List ProcessedRow :=
  rows.filter fun r => !hasBlankKey r && decide (aggKeyOf r = k)

/-- The rows of the group that a `ZoneStat` describes: same zone key, operator key, zone
X/Y, MCC, MNC, PCI and frequency, in input order. -/
def groupOfStat (rows : List ProcessedRow) (s : ZoneStat) : List ProcessedRow :=
  rows.filter fun r => decide (r.ZonaKey = s.ZonaKey ∧ r.OperatorKey = s.OperatorKey ∧
    r.ZonaX = s.ZonaX ∧ r.ZonaY = s.ZonaY ∧ r.MCC = s.MCC ∧ r.MNC = s.MNC ∧ r.PCI = s.PCI ∧
    r.Frequency = s.NajcastejsiaFrekvencia)

/-- The (zone key, operator key) pair of a derived row. -/
def pairOfRow (r : ProcessedRow) : String × String := (r.ZonaKey, r.OperatorKey)

/-- The (zone key, operator key) pair of a statistic. -/
def pairOfStat (s : ZoneStat) : String × String := (s.ZonaKey, s.OperatorKey)

/-- The key of the map `chosen` for a derived row: zone key, operator key, zone X/Y, MCC
and MNC. -/
def chosenKeyOfRow (r : ProcessedRow) : chosenKey :=
  ⟨r.ZonaKey, r.OperatorKey, r.ZonaX, r.ZonaY, r.MCC, r.MNC⟩

/-- The key of the map `chosen` under which a statistic was kept. -/
def chosenKeyOfStat (s : ZoneStat) : chosenKey :=
  ⟨s.ZonaKey, s.OperatorKey, s.ZonaX, s.ZonaY, s.MCC, s.MNC⟩

/-- Two measurements of one grid cell: MCC `1_2` with MNC `3`, and MCC `1` with MNC
`2_3`. -/
def exampleUnderscoreData : CSVData :=
  exampleMeasurements [["250", "150", "800", "7", "1_2", "3", "-90"],
    ["270", "180", "800", "7", "1", "2_3", "-95"]]

/-- Source: `isZoneStatGoodForStats` (outputs_native.go:150-159). -/
def isZoneStatGoodForStats (L : GoLib) (z : ZoneStat) (cfg : ProcessingConfig) : Bool :=
  let good := decide (z.RSRPAvg ≥ cfg.RSRPThreshold)
  let good := if z.HasSINRAvg then good && decide (z.SINRAvg ≥ cfg.SINRThreshold) else good
  let good :=
    if cfg.MobileModeEnabled then good && decide (normalizeNRValueNative L z.NRValue = "yes")
    else good
  good

/-- Specification wording: the statistic `a` comes before `b` when it has the smaller
zone key, then the smaller operator key (both as text), then the smaller zone X, then the
smaller zone Y, then the smaller MCC, MNC and PCI, each compared as numbers when both
parse, a number before a non-number, and as text where that does not decide. -/
def specStatBefore (L : GoLib) (a b : ZoneStat) : Prop :=
  a.ZonaKey < b.ZonaKey ∨ (a.ZonaKey = b.ZonaKey ∧
    (a.OperatorKey < b.OperatorKey ∨ (a.OperatorKey = b.OperatorKey ∧
      (a.ZonaX < b.ZonaX ∨ (a.ZonaX = b.ZonaX ∧
        (a.ZonaY < b.ZonaY ∨ (a.ZonaY = b.ZonaY ∧
          (specSmaller L a.MCC b.MCC ∨ (a.MCC = b.MCC ∧
            (specSmaller L a.MNC b.MNC ∨ (a.MNC = b.MNC ∧
              specSmaller L a.PCI b.PCI)))))))))))

/-- The sort key of a statistic: the comparator of the final sort is the strict
lexicographic order of these keys. -/
def zsKey (L : GoLib) (s : ZoneStat) :
    String ×ₗ (String ×ₗ (ℚ ×ₗ (ℚ ×ₗ (WithTop ℚ ×ₗ (String ×ₗ (WithTop ℚ ×ₗ (String ×ₗ
      (WithTop ℚ ×ₗ String)))))))) :=
  toLex (s.ZonaKey, toLex (s.OperatorKey, toLex (s.ZonaX, toLex (s.ZonaY,
    toLex (numKey L s.MCC, toLex (s.MCC, toLex (numKey L s.MNC, toLex (s.MNC,
      toLex (numKey L s.PCI, s.PCI)))))))))

/-- A derived row of zone `100_200` and operator `231_01` with the given PCI, RSRP, SINR
and secondary signal. -/
def exampleSignalRow (rowNumber : Int) (pci nr : String) (rsrp : ℚ) (hasSINR : Bool)
    (sinr : ℚ) : ProcessedRow :=
  { exampleRow "800" with
    OriginalExcelRow := rowNumber, PCI := pci, NRValue := nr, RSRP := rsrp, SINR := sinr,
    HasSINR := hasSINR }

/-- A processed dataset with the given rows. -/
def exampleProcessed (rows : List ProcessedRow) : ProcessedDataset where
  Rows := rows
  Columns := []
  FileInfo := ⟨"utf-8", 0, ""⟩
  SegmentMeta := []

/-- Grid configuration with the default thresholds and mobile-sync active. -/
def exampleMobileConfig : ProcessingConfig :=
  { exampleConfig with MobileModeEnabled := true }

/-- The statistic that `CalculateZoneStatsNative` returns for `exampleGridProcessed`. -/
def exampleGridStat : ZoneStat where
  ZonaKey := "100_200"
  OperatorKey := "231_01"
  ZonaX := 100
  ZonaY := 200
  MCC := "231"
  MNC := "01"
  PCI := "7"
  RSRPAvg := -185 / 2
  PocetMerani := 2
  NajcastejsiaFrekvencia := "800"
  NRValue := ""
  VsetkyFrekvencie := ["800"]
  OriginalExcelRows := [1, 2]
  SINRAvg := 0
  HasSINRAvg := false
  ZonaStredX := 150
  ZonaStredY := 250
  Longitude := 150
  Latitude := 250
  RSRPKategoria := "RSRP_GOOD"

/-- Three measurements of one group: RSRP -90, -100 and -95, the first and the third with
SINR 10 and 20, the second without SINR. -/
def exampleSignalDataset : ProcessedDataset :=
  exampleProcessed [exampleSignalRow 1 "7" "yes" (-90) true 10,
    exampleSignalRow 2 "7" "" (-100) false 0, exampleSignalRow 3 "7" "no" (-95) true 20]

/-- The statistic that `CalculateZoneStatsNative` returns for `exampleSignalDataset`. -/
def exampleSignalStat : ZoneStat :=
  { exampleStat with
    RSRPAvg := -95, PocetMerani := 3, NajcastejsiaFrekvencia := "800", NRValue := "yes",
    VsetkyFrekvencie := ["800"], OriginalExcelRows := [1, 2, 3], SINRAvg := 15,
    HasSINRAvg := true }

/-- A derived row of zone `100_200` with the given MCC, frequency 800 and RSRP -90. -/
def exampleMccRow (mcc : String) : ProcessedRow :=
  { exampleRow "800" with MCC := mcc }

/-- The statistic of the group of `exampleMccRow mcc`. -/
def exampleMccStat (mcc : String) : ZoneStat :=
  { exampleStat with MCC := mcc, NajcastejsiaFrekvencia := "800", VsetkyFrekvencie := ["800"] }

/-- One measurement with RSRP -90 whose secondary signal is `no`. -/
def exampleNoSignalDataset : ProcessedDataset :=
  exampleProcessed [exampleSignalRow 1 "7" "no" (-90) false 0]

/-! ## Loading a batch of rule files -/

/-- Source: `LoadFilterRulesFromPaths` (filters.go:204-214): the loop over the paths; the
first failure ends the run with the error `path: cause`. -/
def LoadFilterRulesFromPaths (L : GoLib) (ReadFile : String → Except String String)
    (Base : String → String) : List String → Except String (List FilterRule)
  | [] => .ok []
  | path :: rest =>
    match LoadFilterRuleFromFile L ReadFile Base path with
    | .error e => .error (path ++ ": " ++ e)
    | .ok rule =>
      match LoadFilterRulesFromPaths L ReadFile Base rest with
      | .error e => .error e
      | .ok rules => .ok (rule :: rules)

/-- A file system for examples: `a.txt` and `c.txt` hold a rule that compiles, `b.txt` a
rule whose assignment is a range, and no other file exists. -/
def exampleRuleFiles (path : String) : Except String String :=
  if path = "a.txt" ∨ path = "c.txt" then .ok exampleRuleTextRepeated
  else if path = "b.txt" then .ok exampleRuleTextRange
  else .error ("open " ++ path ++ ": no such file or directory")

/-- The point that a per-point kernel returns for the point `p`. -/
def kernelPoint (one : ℚ → ℚ → Except String (ℚ × ℚ)) (p : Point) : Except String Point :=
  match one p.A p.B with
  | .error e => .error e
  | .ok (x, y) => .ok ⟨x, y⟩

/-- A context that is cancelled from the poll `k` on, with the error text of
`context.Canceled`. -/
def cancelledFrom (k : Nat) : Context := fun i => if k ≤ i then some "context canceled" else none

/-- Specification wording for a batch call `run` with per-point kernel `one`: the context
is polled once before each point; a cancellation reported by the poll before point `k`,
all earlier polls being live and all earlier points converting, makes the call return the
cancellation error (and no points); without cancellation and with every point converting
the call returns as many points as it was given, the `i`-th being the kernel's answer for
the `i`-th input point; every successful call is of this kind; an empty batch returns an
empty result whatever the context; and the result depends on the context only through the
polls before the points. -/
def IsAllOrNothingBatch (run : Context → List Point → Except String (List Point))
    (one : ℚ → ℚ → Except String (ℚ × ℚ)) : Prop :=
  (∀ (ctx : Context) (ps : List Point) (k : Nat) (e : String), k < ps.length →
    (∀ j, j < k → ctx j = none) →
    (∀ j, j < k → ∃ q, (ps[j]?).map (kernelPoint one) = some (.ok q)) →
    ctx k = some e → run ctx ps = .error e) ∧
  (∀ (ctx : Context) (ps : List Point), (∀ j, j < ps.length → ctx j = none) →
    (∀ p ∈ ps, ∃ q, kernelPoint one p = .ok q) →
    ∃ out, run ctx ps = .ok out ∧ out.length = ps.length ∧
      ∀ i : Nat, (out[i]?).map Except.ok = (ps[i]?).map (kernelPoint one)) ∧
  (∀ (ctx : Context) (ps out : List Point), run ctx ps = .ok out →
    out.length = ps.length ∧ (∀ j, j < ps.length → ctx j = none) ∧
      ∀ i : Nat, (out[i]?).map Except.ok = (ps[i]?).map (kernelPoint one)) ∧
  (∀ ctx : Context, run ctx [] = .ok []) ∧
  (∀ (ctx ctx2 : Context) (ps : List Point), (∀ j, j < ps.length → ctx j = ctx2 j) →
    run ctx ps = run ctx2 ps)

/-! ## Datum shift

Source: `applyHelmertSJTSKtoWGS84_4` (projection_native.go:141-191).  The function uses
only field operations and the constant `math.Pi`; it is modelled over an arbitrary field
`K` with decidable equality, `pi` standing for the value of `math.Pi`, so that it runs on
`ℚ` and can be instantiated with the real numbers and the number π. -/

/-- Variables `rxr`, `ryr`, `rzr` (lines 151-154): the three rotations in radians. -/
def helmertRotations {K : Type} [Field K] (pi : K) : K × K × K :=
  let secToRad := pi / (180 * 3600)
  ((7786 / 1000) * secToRad, (4398 / 1000) * secToRad, (4103 / 1000) * secToRad)

/-- Variable `det` (line 173): the determinant of the matrix of the transform. -/
def helmertDet {K : Type} [Field K] (pi : K) : K :=
  let rxr := (helmertRotations pi).1
  let ryr := (helmertRotations pi).2.1
  let rzr := (helmertRotations pi).2.2
  let m : K := 1 + 0 * (1 / 1000000)
  let a11 := m
  let a12 := -rzr
  let a13 := ryr
  let a21 := rzr
  let a22 := m
  let a23 := -rxr
  let a31 := -ryr
  let a32 := rxr
  let a33 := m
  a11 * (a22 * a33 - a23 * a32) - a12 * (a21 * a33 - a23 * a31) + a13 * (a21 * a32 - a22 * a31)

/-- Source: `applyHelmertSJTSKtoWGS84_4` (projection_native.go:141-191). -/
def applyHelmertSJTSKtoWGS84_4 {K : Type} [Field K] [DecidableEq K] (pi : K) (x y z : K)
    ( inverse : Bool) : K × K × K :=
  let tx : K := 485
  let ty : K := 1695 / 10
  let tz : K := 4838 / 10
  let rxr := (helmertRotations pi).1
  let ryr := (helmertRotations pi).2.1
  let rzr := (helmertRotations pi).2.2
  let m : K := 1 + 0 * (1 / 1000000)
  let a11 := m
  let a12 := -rzr
  let a13 := ryr
  let a21 := rzr
  let a22 := m
  let a23 := -rxr
  let a31 := -ryr
  let a32 := rxr
  let a33 := m
  if ¬ inverse then
    (tx + a11 * x + a12 * y + a13 * z, ty + a21 * x + a22 * y + a23 * z,
      tz + a31 * x + a32 * y + a33 * z)
  else
    let bx := x - tx
    let by_ := y - ty
    let bz := z - tz
    let det := helmertDet pi
    if det = 0 then (x, y, z)
    else
      let inv11 := (a22 * a33 - a23 * a32) / det
      let inv12 := (a13 * a32 - a12 * a33) / det
      let inv13 := (a12 * a23 - a13 * a22) / det
      let inv21 := (a23 * a31 - a21 * a33) / det
      let inv22 := (a11 * a33 - a13 * a31) / det
      let inv23 := (a13 * a21 - a11 * a23) / det
      let inv31 := (a21 * a32 - a22 * a31) / det
      let inv32 := (a12 * a31 - a11 * a32) / det
      let inv33 := (a11 * a22 - a12 * a21) / det
      (inv11 * bx + inv12 * by_ + inv13 * bz, inv21 * bx + inv22 * by_ + inv23 * bz,
        inv31 * bx + inv32 * by_ + inv33 * bz)

/-! ## Refinement of the inverse projection

Source: `(*PyProjTransformer).inverseOne` (projection_native.go:76-122).  The forward
transform `forwardOne` and the approximate inverse `inverseApproxOne` are parameters. -/

/-- Constant `stepDeg` of `inverseOne` (line 84). -/
def stepDeg : ℚ := 1 / 1000000

/-- The refinement loop of `inverseOne` (lines 85-121) with `n` passes left, from the
estimate `(lon, lat)`. -/
def inverseOneLoop (M : NumLib) (forwardOne : ℚ → ℚ → Except String (ℚ × ℚ)) (x y : ℚ) :
    Nat → ℚ → ℚ → Except String (ℚ × ℚ)
  | 0, lon, lat => .ok (lon, lat)
  | n + 1, lon, lat =>
    match forwardOne lon lat with
    | .error e => .error e
    | .ok f =>
      let rx := x - f.1
      let ry := y - f.2
      if M.Hypot rx ry < 1 / 1000000 then .ok (lon, lat)
      else
        match forwardOne (lon + stepDeg) lat with
        | .error e => .error e
        | .ok fLon =>
          match forwardOne lon (lat + stepDeg) with
          | .error e => .error e
          | .ok fLat =>
            let j11 := (fLon.1 - f.1) / stepDeg
            let j21 := (fLon.2 - f.2) / stepDeg
            let j12 := (fLat.1 - f.1) / stepDeg
            let j22 := (fLat.2 - f.2) / stepDeg
            let det := j11 * j22 - j12 * j21
            if |det| < 1 / 1000000000000 then .ok (lon, lat)
            else
              let dLon := (rx * j22 - ry * j12) / det
              let dLat := (ry * j11 - rx * j21) / det
              if |dLon| + |dLat| < 1 / 1000000000000 then .ok (lon + dLon, lat + dLat)
              else inverseOneLoop M forwardOne x y n (lon + dLon) (lat + dLat)

/-- Source: `(*PyProjTransformer).inverseOne` (projection_native.go:76-122); the loop
makes at most 8 passes. -/
def inverseOneRefined (M : NumLib) (forwardOne inverseApproxOne : ℚ → ℚ → Except String (ℚ × ℚ))
    (x y : ℚ) : Except String (ℚ × ℚ) :=
  match inverseApproxOne x y with
  | .error e => .error e
  | .ok p => inverseOneLoop M forwardOne x y 8 p.1 p.2

/-! ### The refinement in the words of the specification -/

/-- Planar residual of the estimate `p` against the target `(x, y)`. -/
def planarResidual (M : NumLib) (fwd : ℚ → ℚ → ℚ × ℚ) (x y : ℚ) (p : ℚ × ℚ) : ℚ :=
  M.Hypot (x - (fwd p.1 p.2).1) (y - (fwd p.1 p.2).2)

/-- Determinant of the finite-difference Jacobian of the forward transform at `p`. -/
def jacobianDet (fwd : ℚ → ℚ → ℚ × ℚ) (p : ℚ × ℚ) : ℚ :=
  ((fwd (p.1 + stepDeg) p.2).1 - (fwd p.1 p.2).1) / stepDeg *
      (((fwd p.1 (p.2 + stepDeg)).2 - (fwd p.1 p.2).2) / stepDeg) -
    ((fwd p.1 (p.2 + stepDeg)).1 - (fwd p.1 p.2).1) / stepDeg *
      (((fwd (p.1 + stepDeg) p.2).2 - (fwd p.1 p.2).2) / stepDeg)

/-- The Newton-Raphson correction `(dLon, dLat)` at the estimate `p`. -/
def newtonDelta (fwd : ℚ → ℚ → ℚ × ℚ) (x y : ℚ) (p : ℚ × ℚ) : ℚ × ℚ :=
  (((x - (fwd p.1 p.2).1) * (((fwd p.1 (p.2 + stepDeg)).2 - (fwd p.1 p.2).2) / stepDeg) -
      (y - (fwd p.1 p.2).2) * (((fwd p.1 (p.2 + stepDeg)).1 - (fwd p.1 p.2).1) / stepDeg)) /
      jacobianDet fwd p,
   ((y - (fwd p.1 p.2).2) * (((fwd (p.1 + stepDeg) p.2).1 - (fwd p.1 p.2).1) / stepDeg) -
      (x - (fwd p.1 p.2).1) * (((fwd (p.1 + stepDeg) p.2).2 - (fwd p.1 p.2).2) / stepDeg)) /
      jacobianDet fwd p)

/-- One Newton-Raphson step: the estimate `p` corrected by `newtonDelta`. -/
def newtonStep (fwd : ℚ → ℚ → ℚ × ℚ) (x y : ℚ) (p : ℚ × ℚ) : ℚ × ℚ :=
  (p.1 + (newtonDelta fwd x y p).1, p.2 + (newtonDelta fwd x y p).2)

/-- A forward transform for examples: the second coordinate is kept, the first is a
piecewise linear function with slope 4 below 10, slope 2 from 10 to 40 and slope 1 from
40 on. -/
def exampleKinkForward (lon lat : ℚ) : ℚ × ℚ :=
  (if lon < 10 then 4 * lon else if lon < 40 then 40 + 2 * (lon - 10) else 100 + (lon - 40),
   lat)

/-- An approximate inverse for examples: the estimate `(0, y)`. -/
def exampleApproxInverse (_ y : ℚ) : Except String (ℚ × ℚ) := .ok (0, y)

/-! ## Enumeration order of the grouping map -/

/-- `CalculateZoneStatsNative` after the aggregation loop (lines 326-483), with the
enumeration order of the map `agg` made explicit: the loop `for k, v := range agg` yields
the entries in the order of the list `enum`. -/
def CalculateZoneStatsNativeEnum (L : GoLib) (ctx : Context) (enum : List (aggKey × aggVal))
    (cfg : ProcessingConfig) (transformer : PyProjTransformer) :
    Except String (List ZoneStat) :=
  let chosen := chooseLoop (sortSlice (zoneFreqLess L) (enum.map toZoneFreqStat)) []
  match transformer.Inverse ctx (chosen.map (zoneCenter cfg)) with
  | .error e => .error e
  | .ok lonLat =>
    .ok (sortSlice (zoneStatLess L) ((chosen.zip lonLat).map fun zp => mkZoneStat cfg zp.1 zp.2))

/-- The back-projected centre of a group, or the origin when the kernel fails. -/
def centerLonLat (cfg : ProcessingConfig) (t : PyProjTransformer) (z : zoneFreqStat) : Point :=
  match kernelPoint t.inverseOne (zoneCenter cfg z) with
  | .ok p => p
  | .error _ => ⟨0, 0⟩

/-- Two measurements of zone `100_200` with equal RSRP that differ in the operator. -/
def exampleTwoOperators : ProcessedDataset :=
  exampleProcessed [exampleMccRow "232", exampleMccRow "231"]

/-! ## Segment representatives -/

/-- The segment ids `0, 1, ..., m` in increasing order. -/
def idsUpTo (m : Int) : List Int := (List.range (m.toNat + 1)).map fun (k : Nat) => (k : Int)

/-- Variable `fraction` after the clamping of lines 179-183. -/
def clampFraction (f : ℚ) : ℚ := if f < 0 then 0 else if f > 1 then 1 else f

/-- The point written for the boundary of segment `segID` on the step from
`(prevX, prevY)` to `(x, y)` (lines 176-187). -/
def boundaryPoint (zoneSize prevCumulative stepDistance prevX prevY x y : ℚ) (segID : Int) :
    Point :=
  ⟨prevX + (x - prevX) * clampFraction (((segID : ℚ) * zoneSize - prevCumulative) / stepDistance),
   prevY + (y - prevY) * clampFraction (((segID : ℚ) * zoneSize - prevCumulative) / stepDistance)⟩

/-- Segment configuration with the zone size 1e-9, the value of `epsilon`. -/
def exampleTinyZoneConfig : ProcessingConfig :=
  { exampleSegmentConfig with ZoneSizeM := 1 / 1000000000 }

/-- Two measurements at the same place. -/
def exampleSamePlaceData : CSVData :=
  exampleMeasurements [["0", "0", "800", "7", "231", "01", "-90"],
    ["0", "0", "800", "7", "231", "01", "-95"]]

/-! ## Per-operator statistics file

Source: `SaveStatsNative` (outputs_native.go:62-148).  `os.WriteFile` is a parameter; the
text handed to it is `statsFileText`. -/

/-- Source: `numberLabel` (outputs_native.go:723-728): `strconv.FormatInt(int64(v), 10)`
for an integral value, else `strconv.FormatFloat`. -/
def numberLabel (L : GoLib) (v : ℚ) : String :=
  if v.den = 1 then Itoa (int64OfIntegral v.num) else L.FormatFloat v

/-- Source: `formatIntLikeString` (outputs_native.go:716-721). -/
def formatIntLikeString (L : GoLib) (s : String) : String :=
  match parseNumberString L s with
  | some v => normalizeIntLikeString L v
  | none => s

/-- Source: `statsBucket` (local type of `SaveStatsNative`); the set `existingZones` is
the list of its keys. -/
structure statsBucket where
  good : Int
  bad : Int
  existingZones : List String
deriving DecidableEq

/-- Variable `goodColumn` (lines 73-82). -/
def goodColumnOf (L : GoLib) (zoneStats : List ZoneStat) (cfg : ProcessingConfig) : String :=
  let hasSINR := zoneStats.any fun z => z.HasSINRAvg
  let goodColumn :=
    if hasSINR then
      "RSRP >= " ++ numberLabel L cfg.RSRPThreshold ++ " a SINR >= " ++
        numberLabel L cfg.SINRThreshold
    else "RSRP >= " ++ numberLabel L cfg.RSRPThreshold
  if cfg.MobileModeEnabled then goodColumn ++ " a 5G NR = yes" else goodColumn

/-- Variable `badColumn` (lines 74-82). -/
def badColumnOf (L : GoLib) (zoneStats : List ZoneStat) (cfg : ProcessingConfig) : String :=
  let hasSINR := zoneStats.any fun z => z.HasSINRAvg
  let badColumn :=
    if hasSINR then
      "RSRP < " ++ numberLabel L cfg.RSRPThreshold ++ " alebo SINR < " ++
        numberLabel L cfg.SINRThreshold
    else "RSRP < " ++ numberLabel L cfg.RSRPThreshold
  if cfg.MobileModeEnabled then badColumn ++ " alebo 5G NR != yes" else badColumn

/-- The update of a bucket by one statistic (lines 101-106). -/
def statsBucket.add (L : GoLib) (cfg : ProcessingConfig) (b : statsBucket) (z : ZoneStat) :
    statsBucket :=
  { good := if isZoneStatGoodForStats L z cfg then b.good + 1 else b.good
    bad := if isZoneStatGoodForStats L z cfg then b.bad else b.bad + 1
    existingZones :=
      if z.ZonaKey ∈ b.existingZones then b.existingZones else b.existingZones ++ [z.ZonaKey] }

/-- Body of the grouping loop (lines 93-107) on the map `group` and the slice `order`. -/
def statsGroupStep (L : GoLib) (cfg : ProcessingConfig)
    (st : List ((String × String) × statsBucket) × List (String × String)) (z : ZoneStat) :
    List ((String × String) × statsBucket) × List (String × String) :=
  match mapFind st.1 (z.MCC, z.MNC) with
  | none =>
    (mapSet st.1 (z.MCC, z.MNC) ((⟨0, 0, []⟩ : statsBucket).add L cfg z), st.2 ++ [(z.MCC, z.MNC)])
  | some b => (mapSet st.1 (z.MCC, z.MNC) (b.add L cfg z), st.2)

/-- The grouping loop (lines 91-107). -/
def statsGroups (L : GoLib) (cfg : ProcessingConfig) (zoneStats : List ZoneStat) :
    List ((String × String) × statsBucket) × List (String × String) :=
  zoneStats.foldl (statsGroupStep L cfg) ([], [])

/-- Variable `totalUniqueZones` (lines 108-118). -/
def totalUniqueZonesOf (zoneStats : List ZoneStat) (allZones : List String) : Int :=
  if allZones.length = 0 then
    ((zoneStats.foldl (fun (seen : List String) z =>
      if z.ZonaKey ∈ seen then seen else seen ++ [z.ZonaKey]) []).length : Int)
  else (allZones.length : Int)

/-- The values written on the line of one operator (lines 128-143): the texts of MNC and
MCC and the two counts. -/
def statsRowOf (L : GoLib) (cfg : ProcessingConfig) (totalUniqueZones : Int)
    (k : String × String) (b : statsBucket) : String × String × Int × Int :=
  let missingZones := totalUniqueZones - (b.existingZones.length : Int)
  let bad :=
    if cfg.IncludeEmptyZones ∧ totalUniqueZones > 0 then
      if missingZones > 0 then b.bad + missingZones else b.bad
    else b.bad
  (formatIntLikeString L k.2, formatIntLikeString L k.1, b.good, bad)

/-- The rows of the statistics file, one per key of `order` (lines 127-145). -/
def statsRows (L : GoLib) (zoneStats : List ZoneStat) (cfg : ProcessingConfig)
    (allZones : List String) : List (String × String × Int × Int) :=
  (statsGroups L cfg zoneStats).2.map fun k =>
    statsRowOf L cfg (totalUniqueZonesOf zoneStats allZones) k
      ((mapFind (statsGroups L cfg zoneStats).1 k).getD ⟨0, 0, []⟩)

/-- One line of the statistics file (lines 137-144). -/
def statsLine (row : String × String × Int × Int) : String :=
  row.1 ++ ";" ++ row.2.1 ++ ";" ++ Itoa row.2.2.1 ++ ";" ++ Itoa row.2.2.2 ++ "\n"

/-- The text that `SaveStatsNative` writes. -/
def statsFileText (L : GoLib) (zoneStats : List ZoneStat) (cfg : ProcessingConfig)
    (allZones : List String) : String :=
  if zoneStats.length = 0 then "\n"
  else
    "MNC;MCC;" ++ goodColumnOf L zoneStats cfg ++ ";" ++ badColumnOf L zoneStats cfg ++ "\n" ++
      String.join ((statsRows L zoneStats cfg allZones).map statsLine)

/-- Source: `SaveStatsNative` (outputs_native.go:62-148); `WriteFile` stands for
`os.WriteFile` with the mode 0644. -/
def SaveStatsNative (L : GoLib) (WriteFile : String → String → Except String Unit)
    (zoneStats : List ZoneStat) (cfg : ProcessingConfig) (statsFile : String)
    (allZones : List String) : Except String Unit :=
  WriteFile statsFile (statsFileText L zoneStats cfg allZones)

/-! ### The statistics file in the words of the specification -/

/-- The distinct elements of a list in the order of their first appearance. -/
def firstOccurrences {α : Type} [DecidableEq α] (l : List α) : List α :=
  l.foldl (fun seen a => if a ∈ seen then seen else seen ++ [a]) []

/-- The statistics of the operator `k = (MCC, MNC)`. -/
def statsOfOperator (zoneStats : List ZoneStat) (k : String × String) : List ZoneStat :=
  zoneStats.filter fun z => decide ((z.MCC, z.MNC) = k)

/-- The number of known zones: the length of `allZones`, or the number of distinct zone
keys of the statistics when `allZones` is empty. -/
def knownZones (zoneStats : List ZoneStat) (allZones : List String) : Int :=
  if allZones.length = 0 then ((firstOccurrences (zoneStats.map fun z => z.ZonaKey)).length : Int)
  else (allZones.length : Int)

/-- The number of known zones in which the operator `k` has no statistic, counted only
when empty-zone synthesis is enabled. -/
def missingZonesOf (zoneStats : List ZoneStat) (cfg : ProcessingConfig)
    (allZones : List String) (k : String × String) : Int :=
  if cfg.IncludeEmptyZones then
    max 0 (knownZones zoneStats allZones -
      ((firstOccurrences ((statsOfOperator zoneStats k).map fun z => z.ZonaKey)).length : Int))
  else 0

/-- Three statistics: operator 231/01 in two zones, operator 231/02 in one. -/
def exampleStatsInput : List ZoneStat :=
  [exampleStat, { exampleStat with MNC := "02", OperatorKey := "231_02" },
   { exampleStat with
     ZonaKey := "200_200", ZonaX := 200, RSRPAvg := (-120), RSRPKategoria := "RSRP_BAD" }]

/-- The row of the operator `k` in the words of the specification: the texts of MNC and
MCC, the number of its statistics that are good, and the number of the others increased
by the number of known zones without a statistic of the operator. -/
def specStatsRow (L : GoLib) (zoneStats : List ZoneStat) (cfg : ProcessingConfig)
    (allZones : List String) (k : String × String) : String × String × Int × Int :=
  (formatIntLikeString L k.2, formatIntLikeString L k.1,
    (((statsOfOperator zoneStats k).filter fun z => isZoneStatGoodForStats L z cfg).length : Int),
    (((statsOfOperator zoneStats k).filter fun z => !isZoneStatGoodForStats L z cfg).length : Int)
      + missingZonesOf zoneStats cfg allZones k)

/-! ## Candidate decoders: what the header test sees of a text

The candidate decoders are library code.  What they have in common is that they are
transparent for ASCII: an ASCII byte is decoded to the character of that code, and a run
of other bytes is decoded to a run of other characters.  `charShape` and `byteShape` keep
exactly that of a text and of the bytes: the ASCII content, and where the rest is. -/

/-- Class of a character: an ASCII character stands for itself, any other for `none`. -/
def charClass (c : Char) : Option Char := if c.toNat < 128 then some c else none

/-- Class of a byte: an ASCII byte stands for its character, any other for `none`. -/
def byteClass (b : UInt8) : Option Char :=
  if b.toNat < 128 then some (Char.ofNat b.toNat) else none

/-- Every run of `none` becomes a single `none`. -/
def squeezeClasses : List (Option Char) → List (Option Char)
  | [] => []
  | a :: r => if a = none ∧ r.head? = some none then squeezeClasses r else a :: squeezeClasses r

/-- ASCII content of a text, with one mark for each run of other characters. -/
def charShape (cs : List Char) : List (Option Char) := squeezeClasses (cs.map charClass)

/-- ASCII content of the bytes, with one mark for each run of other bytes. -/
def byteShape (data : List UInt8) : List (Option Char) := squeezeClasses (data.map byteClass)

/-- A decoder is transparent for ASCII: the text it returns has the shape of the bytes.
Decoding valid UTF-8 is (a character outside ASCII is encoded by two to four bytes above
127), and so is every decoder of package `charmap` used here (one character per byte, the
ASCII bytes to themselves, the others to characters outside ASCII). -/
def IsAsciiTransparent (decode : List UInt8 → Except String String) : Prop :=
  ∀ data text, decode data = .ok text → charShape text.data = byteShape data

/-- The header test of `decodeWithCandidates` (csv_loader.go:146-148) for a decoded
text. -/
def headerFound (text : String) : Bool :=
  decide ((findTabularHeader (splitLinesPreserveEmpty text) 6).1 ≠ -1)

/-- The line has at least six fields (csv_loader.go:69-70 with `minColumns` 6). -/
def wideLine (line : String) : Bool := decide (6 ≤ (splitSemicolonColumns line).length)

/-- Number of fields that `splitSemicolonColumns` keeps of the fields `fs`. -/
def keptFields (fs : List (List Char)) : Nat :=
  (((fs.map String.mk).reverse.dropWhile fun c => c = "").reverse).length

/-- State of a scan of a text for a line of six fields: `found` for the lines before the
current one; for the current line so far, `wide` tells whether it has six fields,
`wideRaw` whether it has six fields when a carriage return at its end counts as content,
and `semis` is its number of semicolons. -/
structure headerScan where
  found : Bool
  wide : Bool
  wideRaw : Bool
  semis : Nat
deriving DecidableEq

/-- One character of the scan. -/
def headerScan.step (s : headerScan) (c : Char) : headerScan :=
  if c = '\n' then ⟨s.found || s.wide, false, false, 0⟩
  else if c = ';' then ⟨s.found, s.wideRaw, s.wideRaw, s.semis + 1⟩
  else if c = '\r' then ⟨s.found, s.wide, decide (5 ≤ s.semis), s.semis⟩
  else ⟨s.found, decide (5 ≤ s.semis), decide (5 ≤ s.semis), s.semis⟩

/-- One class of the scan: a character outside ASCII is no separator. -/
def headerScan.stepClass (s : headerScan) (o : Option Char) : headerScan :=
  s.step (o.getD 'x')

/-- Result of the scan. -/
def headerScan.accept (s : headerScan) : Bool := s.found || s.wide

/-- A text that is not valid UTF-8 for `asciiCodecs`: the letter A and the byte 0xE9. -/
def exampleLatin1File : List UInt8 := [65, 233]

/-! ## Time-series sync: loading, column lookup and time series

Source: `mobile_sync_native.go`, lines 28-90 and 267-372, and `mapping.go`.  Parsing a
date is library code: `TimeLib.ParseInLocation layout value` stands for
`time.ParseInLocation(layout, value, time.Local)` followed by `UnixMilli`.  The conversion
of a float to `int64` is modelled for values within the range of `int64`. -/

/-- Library functions of package `time`. -/
structure TimeLib where
  ParseInLocation : String → String → Option Int

/-- Source: `suggestColumnMappingFromHeaders` (mapping.go:16-43); in the map from
normalised token to position the last column of a token wins. -/
def suggestColumnMappingFromHeaders (L : GoLib) (columns : List String) : List (String × Int) :=
  let candidates : List (String × List String) :=
    [("latitude", ["Latitude"]), ("longitude", ["Longitude"]),
     ("frequency", ["NR-ARFCN", "EARFCN", "Frequency"]), ("pci", ["PCI"]), ("mcc", ["MCC"]),
     ("mnc", ["MNC"]), ("rsrp", ["SSS-RSRP", "RSRP"]), ("sinr", ["SSS-SINR", "SINR"])]
  let normalized : List (String × Int) :=
    columns.enum.foldl (fun m ic => mapSet m (normalizeHeaderToken L ic.2) (ic.1 : Int)) []
  candidates.filterMap fun kn =>
    (kn.2.findSome? fun name => mapFind normalized (normalizeHeaderToken L name)).map
      fun idx => (kn.1, idx)

/-- Source: `BuildColumnMappingFromHeaders` (mapping.go:45-47). -/
def BuildColumnMappingFromHeaders (L : GoLib) (columns : List String) : List (String × Int) :=
  suggestColumnMappingFromHeaders L columns

/-- Go conversion `int64(v)` of a float: the fraction is dropped. -/
def int64OfFloat (v : ℚ) : Int := if v ≥ 0 then ⌊v⌋ else ⌈v⌉

/-- Source: `mathRound` (mobile_sync_native.go:367-372). -/
def mathRound (v : ℚ) : ℚ :=
  if v ≥ 0 then (int64OfFloat (v + 1 / 2) : ℚ) else (int64OfFloat (v - 1 / 2) : ℚ)

/-- Source: `parseDateTimeToMillis` (mobile_sync_native.go:346-365); the last two layouts
are `time.RFC3339Nano` and `time.RFC3339`. -/
def parseDateTimeToMillis (T : TimeLib) (s : String) : Option Int :=
  let s := TrimSpace s
  if s = "" then none
  else
    ["2006-01-02 15:04:05.999999999", "2006-01-02 15:04:05", "2.1.2006 15:04:05",
     "02.01.2006 15:04:05", "2006-01-02T15:04:05.999999999Z07:00",
     "2006-01-02T15:04:05Z07:00"].findSome? fun layout => T.ParseInLocation layout s

/-- The time series that holds the value of every row that has one. -/
def timeSeriesOf (vals : List (Option Int)) : timeSeriesNative :=
  ⟨vals.map fun o => o.getD 0, vals.map fun o => o.isSome⟩

/-- Source: `buildTimeMillisSeriesNative` (mobile_sync_native.go:267-344) for a dataset
that is not nil: numeric UTC (seconds, or milliseconds when the median is at least 1e11),
else UTC as a date, else the columns Date and Time, else nothing. -/
def buildTimeMillisSeriesNative (L : GoLib) (T : TimeLib) (data : CSVData)
    (utcIdx dateIdx timeIdx : Int) : timeSeriesNative × String :=
  let tmp : List (Option ℚ) := data.Rows.map fun row => parseNumberString L (cellAt row utcIdx)
  let validVals : List ℚ := tmp.filterMap fun o => o.map fun v => if v < 0 then -v else v
  if utcIdx ≥ 0 ∧ validVals.length > 0 then
    let sorted := sortSlice (fun a b => decide (a < b)) validVals
    let medianAbs := sorted.getD (sorted.length / 2) 0
    let factor : ℚ := if medianAbs ≥ 100000000000 then 1 else 1000
    (timeSeriesOf (tmp.map fun o => o.map fun v => int64OfFloat (mathRound (v * factor))),
      "utc_numeric")
  else
    let utcDates : List (Option Int) :=
      data.Rows.map fun row => parseDateTimeToMillis T (TrimSpace (cellAt row utcIdx))
    if utcIdx ≥ 0 ∧ utcDates.any (fun o => o.isSome) then (timeSeriesOf utcDates, "utc_datetime")
    else
      let dates : List (Option Int) := data.Rows.map fun row =>
        let d := TrimSpace (cellAt row dateIdx)
        let t := TrimSpace (cellAt row timeIdx)
        if d = "" ∨ t = "" then none else parseDateTimeToMillis T (d ++ " " ++ t)
      if dateIdx ≥ 0 ∧ timeIdx ≥ 0 ∧ dates.any (fun o => o.isSome) then
        (timeSeriesOf dates, "date_time")
      else (timeSeriesOf (data.Rows.map fun _ => none), "missing")

/-- Source: `syncMobileNRFromLTECSVNative` (mobile_sync_native.go:28-249); the lines
92-249 are `syncMobileNRCore`.  A nil dataset and a nil mapping are `none`. -/
def syncMobileNRFromLTECSVNative (L : GoLib) (T : TimeLib) (C : TextCodecs)
    (ReadFile : String → Except String (List UInt8)) (df5g : Option CSVData)
    (columnMapping : Option (List (String × Int))) (lteFilePath nrColumnName : String)
    (timeToleranceMS : Int) (filterRules : List FilterRule) (keepOriginalRows : Bool) :
    Except String (CSVData × mobileSyncStats) :=
  match df5g with
  | none => .error "mobile mode: nil 5G dataset"
  | some df5g =>
    match LoadCSVFile C ReadFile lteFilePath with
    | .error e => .error ("mobile mode: load LTE CSV: " ++ e)
    | .ok loaded =>
      match (if filterRules.length > 0 then
          ApplyFiltersCSV L (some loaded) filterRules keepOriginalRows
            (BuildColumnMappingFromHeaders L loaded.Columns)
        else .ok loaded) with
      | .error e => .error ("mobile mode: apply LTE filters: " ++ e)
      | .ok dfLTE =>
        let lteMCCCol := findColumnNameNative L dfLTE.Columns ["MCC"]
        let lteMNCCol := findColumnNameNative L dfLTE.Columns ["MNC"]
        let lteNRCol := findColumnNameNative L dfLTE.Columns ["5G NR", "5GNR", "NR"]
        if lteMCCCol = "" ∨ lteMNCCol = "" ∨ lteNRCol = "" then
          .error "mobile mode: LTE súbor musí obsahovať stĺpce MCC, MNC a 5G NR"
        else
          let lteUTCCol := findColumnNameNative L dfLTE.Columns ["UTC"]
          let lteDateCol := findColumnNameNative L dfLTE.Columns ["Date"]
          let lteTimeCol := findColumnNameNative L dfLTE.Columns ["Time"]
          match columnMapping with
          | none => .error "mobile mode: missing 5G column mapping"
          | some columnMapping =>
            match mapFind columnMapping "mcc", mapFind columnMapping "mnc" with
            | some mccIdx, some mncIdx =>
              if mccIdx < 0 ∨ mccIdx ≥ df5g.Columns.length ∨ mncIdx < 0 ∨
                  mncIdx ≥ df5g.Columns.length then
                .error "mobile mode: neplatné mapovanie stĺpcov pre 5G súbor"
              else
                let fivegMCCCol := df5g.Columns.getD mccIdx.toNat ""
                let fivegMNCCol := df5g.Columns.getD mncIdx.toNat ""
                let fivegUTCCol := findColumnNameNative L df5g.Columns ["UTC"]
                let fivegDateCol := findColumnNameNative L df5g.Columns ["Date"]
                let fivegTimeCol := findColumnNameNative L df5g.Columns ["Time"]
                let lteTime := buildTimeMillisSeriesNative L T dfLTE
                  (dfLTE.columnIndexByName lteUTCCol) (dfLTE.columnIndexByName lteDateCol)
                  (dfLTE.columnIndexByName lteTimeCol)
                let fivegTime := buildTimeMillisSeriesNative L T df5g
                  (df5g.columnIndexByName fivegUTCCol) (df5g.columnIndexByName fivegDateCol)
                  (df5g.columnIndexByName fivegTimeCol)
                syncMobileNRCore L df5g dfLTE (dfLTE.columnIndexByName lteMCCCol)
                  (dfLTE.columnIndexByName lteMNCCol) (dfLTE.columnIndexByName lteNRCol)
                  (df5g.columnIndexByName fivegMCCCol) (df5g.columnIndexByName fivegMNCCol)
                  lteTime.1 fivegTime.1 lteTime.2 fivegTime.2 nrColumnName timeToleranceMS
            | _, _ => .error "mobile mode: neplatné mapovanie stĺpcov pre 5G súbor"

/-- A time library for examples whose times are numbers: no text is a date. -/
def exampleTimeLib : TimeLib where
  ParseInLocation := fun _ _ => none

/-- Column mapping of the primary example datasets: MCC and MNC in the columns 0 and 1. -/
def exampleSyncMapping : List (String × Int) := [("mcc", 0), ("mnc", 1)]

/-- Content of the secondary file of the example `exampleLTE`. -/
def exampleLTEFile : List UInt8 := asciiBytes "MCC;MNC;5G NR;UTC\n310;410;yes;1\n310;410;maybe;50\n"

/-- A secondary file with a positive row at 1000 ms and a negative row at 5000 ms of
operator 310/410, and a positive row at 50000 ms without MCC and MNC. -/
def exampleOperatorLTEFile : List UInt8 :=
  asciiBytes "MCC;MNC;5G NR;UTC\n310;410;yes;1\n310;410;no;5\n;;yes;50\n"

/-- What `LoadCSVFile` returns for `exampleOperatorLTEFile`. -/
def exampleOperatorLTE : CSVData where
  Columns := ["MCC", "MNC", "5G NR", "UTC"]
  Rows := [["310", "410", "yes", "1"], ["310", "410", "no", "5"], ["", "", "yes", "50"]]
  FileInfo := ⟨"utf-8", 0, "MCC;MNC;5G NR;UTC"⟩

/-- A primary dataset with a column of the signal name: rows of operator 310/410 at
1200 ms, 5100 ms and 90000 ms, a row without MCC and MNC at 50000 ms, a row without MCC
at 1500 ms, a row of operator 999/99 at 1000 ms and a row without a time. -/
def exampleOperator5G : CSVData where
  Columns := ["MCC", "MNC", "5G NR", "UTC"]
  Rows := [["310", "410", "old", "1.2"], ["310", "410", "old", "5.1"],
    ["310", "410", "old", "90"], ["", "", "old", "50"], ["", "410", "old", "1.5"],
    ["999", "99", "old", "1"], ["310", "410", "old", "x"]]
  FileInfo := ⟨"utf-8", 0, "MCC;MNC;5G NR;UTC"⟩

/-- Output of the sync of `exampleOperator5G` with `exampleOperatorLTEFile`. -/
def exampleOperatorOut : CSVData where
  Columns := ["MCC", "MNC", "5G NR", "UTC"]
  Rows := [["310", "410", "yes", "1.2"], ["310", "410", "no", "5.1"],
    ["310", "410", "", "90"], ["", "", "", "50"], ["", "410", "yes", "1.5"],
    ["999", "99", "", "1"], ["310", "410", "", "x"]]
  FileInfo := ⟨"utf-8", 0, "MCC;MNC;5G NR;UTC"⟩

/-- Summary of the sync of `exampleOperator5G` with `exampleOperatorLTEFile`. -/
def exampleOperatorStats : mobileSyncStats where
  SyncStrategy := "utc_numeric->utc_numeric"
  RowsTotal := 7
  RowsYes := 2
  RowsNo := 1
  RowsBlank := 4
  RowsWithMatch := 3
  ConflictingWindows := 0
  FallbackTimeOnlyRows := 1
  WindowMS := 1000

/-- Specification wording of the resolution rule: `cell` is the signal text for the
window `[t - w, t + w]` over the rows `(time, signal)`: "yes" when a positive row lies in
the window, else "no" when a negative row lies in it, else "". -/
def IsSignalOfWindow (rows : List (Int × Int)) (t w : Int) (cell : String) : Prop :=
  (windowHolds rows t w 2 → cell = "yes") ∧
  (¬ windowHolds rows t w 2 → windowHolds rows t w 1 → cell = "no") ∧
  (¬ windowHolds rows t w 2 → ¬ windowHolds rows t w 1 → cell = "")

/-- Time series of `exampleOperatorLTE`. -/
def exampleOperatorLTETimes : timeSeriesNative := ⟨[1000, 5000, 50000], [true, true, true]⟩

/-- Time series of `exampleOperator5G`: the last row has no time. -/
def exampleOperator5GTimes : timeSeriesNative :=
  ⟨[1200, 5100, 90000, 50000, 1500, 1000, 0], [true, true, true, true, true, true, false]⟩

/-! ## Tabular decoder: the token limit of the line scanner

`bufio.Scanner` gives up on a line that fills its buffer of `bufio.MaxScanTokenSize`
bytes before the line feed is found, and `splitLinesPreserveEmpty` does not read
`scanner.Err()`: that line and all later lines are dropped without an error.
`splitLinesBounded` models this; on a text whose lines are shorter it returns the lines
of `splitLinesPreserveEmpty` above. -/

/-- Go `bufio.MaxScanTokenSize`, 64 KiB. -/
def maxScanTokenSize : Nat := 65536

/-- Number of bytes of the characters in a Go string (UTF-8). -/
def utf8Len (cs : List Char) : Nat := (cs.map fun c => c.utf8Size).sum

/-- Scanning with `bufio.ScanLines` under the token limit: `cur` holds the characters of
the current line in reverse; the scan ends when the current line, the carriage return
included and the line feed not, has `maxScanTokenSize` bytes or more. -/
def scanLinesBoundedLoop : List Char → List Char → List String
  | [], cur =>
    if cur = [] ∨ maxScanTokenSize ≤ utf8Len cur then [] else [String.mk (dropCR cur.reverse)]
  | c :: rest, cur =>
    if c = '\n' then
      if maxScanTokenSize ≤ utf8Len cur then []
      else String.mk (dropCR cur.reverse) :: scanLinesBoundedLoop rest []
    else scanLinesBoundedLoop rest (c :: cur)

/-- Source: `splitLinesPreserveEmpty` (csv_loader.go:124-133) with the token limit of the
scanner. -/
def splitLinesBounded (text : String) : List String :=
  scanLinesBoundedLoop text.data []

/-- Loop and tail of `decodeWithCandidates` (csv_loader.go:141-168) with the token limit
of the scanner. -/
def decodeWithCandidatesBoundedLoop (data : List UInt8) :
    List textDecoder → String → String → Int → String → Except String decodedText
  | [], selectedText, selectedEncoding, headerLine, originalHeader =>
    if selectedText = "" then .error "unable to decode CSV with supported encodings"
    else
      let lines := splitLinesBounded selectedText
      if headerLine = -1 then
        .ok ⟨selectedText, selectedEncoding, lines, (findTabularHeader lines 6).1,
          (findTabularHeader lines 6).2⟩
      else .ok ⟨selectedText, selectedEncoding, lines, headerLine, originalHeader⟩
  | dec :: rest, selectedText, selectedEncoding, headerLine, originalHeader =>
    match dec.decode data with
    | .error _ =>
      decodeWithCandidatesBoundedLoop data rest selectedText selectedEncoding headerLine
        originalHeader
    | .ok text =>
      let lines := splitLinesBounded text
      let found := findTabularHeader lines 6
      if found.1 ≠ -1 then .ok ⟨text, dec.name, lines, found.1, found.2⟩
      else if selectedText = "" then
        decodeWithCandidatesBoundedLoop data rest text dec.name found.1 found.2
      else
        decodeWithCandidatesBoundedLoop data rest selectedText selectedEncoding headerLine
          originalHeader

/-- Source: `decodeWithCandidates` (csv_loader.go:135-169) with the token limit of the
scanner. -/
def decodeWithCandidatesBounded (C : TextCodecs) (data : List UInt8) :
    Except String decodedText :=
  decodeWithCandidatesBoundedLoop data (defaultTextDecoders C) "" "" (-1) ""

/-- Source: `LoadCSVFile` (csv_loader.go:171-261) with the token limit of the scanner;
`ReadFile` stands for `os.ReadFile`. -/
def LoadCSVFileBounded (C : TextCodecs) (ReadFile : String → Except String (List UInt8))
    (path : String) : Except String CSVData :=
  match ReadFile path with
  | .error e => .error e
  | .ok raw =>
    match decodeWithCandidatesBounded C raw with
    | .error e => .error e
    | .ok dec => .ok (buildCSVData dec)

/-- A text whose second line has `maxScanTokenSize` bytes: the letter x repeated. -/
def exampleLongLineText : List Char :=
  "a;b;c;d;e;f".data ++ '\n' ::
    (List.replicate maxScanTokenSize 'x' ++ '\n' :: "1;2;3;4;5;6;7\n".data)

/-- Bytes of `exampleLongLineText`, an ASCII text. -/
def exampleLongLineFile : List UInt8 := exampleLongLineText.map fun c => UInt8.ofNat c.toNat

/-! ## Floating-point values with NaN and infinities

The definitions above take a `float64` for the rational number it denotes; a text that Go
parses to NaN or to an infinity has no value there. The definitions of this part follow the
same source lines with the values of `float64` that comparisons tell apart, and with the
rounding of the arithmetic left to a library. -/

/-- A Go `float64` as comparisons see it: a finite value, an infinity or NaN. The two zeros
are one value, since they compare equal. -/
inductive float64 where
  | num (v : ℚ)
  | posInf
  | negInf
  | nan
deriving DecidableEq

/-- Go `a == b` on `float64`: false when an operand is NaN. -/
def float64.eq : float64 → float64 → Bool
  | .num a, .num b => decide (a = b)
  | .posInf, .posInf => true
  | .negInf, .negInf => true
  | _, _ => false

/-- Go `a != b` on `float64`: true when an operand is NaN. -/
def float64.ne (a b : float64) : Bool := !(a.eq b)

/-- Go `a < b` on `float64`: false when an operand is NaN. -/
def float64.lt : float64 → float64 → Bool
  | .num a, .num b => decide (a < b)
  | .num _, .posInf => true
  | .negInf, .num _ => true
  | .negInf, .posInf => true
  | _, _ => false

/-- Go `a > b` on `float64`. -/
def float64.gt (a b : float64) : Bool := b.lt a

/-- Go `a >= b` on `float64`: false when an operand is NaN. -/
def float64.ge (a b : float64) : Bool := b.lt a || a.eq b

/-- The parser of the standard library, with NaN and the infinities among its results:
`ParseFloat s` is `strconv.ParseFloat(s, 64)`, `none` when it returns an error. -/
structure FloatLib where
  ParseFloat : String → Option float64

/-- The arithmetic of `float64`, whose rounding is left open: `add` is `+`, `div` is `/`
and `ofInt` is the conversion `float64(n)`. -/
structure FloatArith where
  add : float64 → float64 → float64
  div : float64 → float64 → float64
  ofInt : Int → float64

/-- A concrete parser for examples: `strconv.ParseFloat` reads the texts `nan`, `inf` and
`infinity` in any letter case, the latter two with an optional sign; other texts are read
as plain decimal literals. -/
def exampleFloatLib : FloatLib where
  ParseFloat := fun s =>
    let t := String.mk (s.data.map Char.toLower)
    if t = "nan" then some .nan
    else if t = "inf" ∨ t = "+inf" ∨ t = "infinity" ∨ t = "+infinity" then some .posInf
    else if t = "-inf" ∨ t = "-infinity" then some .negInf
    else (parseDecimal s).map .num

/-- A concrete arithmetic for examples: exact on finite values, with the rules of IEEE 754
for NaN, the infinities and division by zero. -/
def exampleFloatArith : FloatArith where
  add := fun a b =>
    match a, b with
    | .nan, _ => .nan
    | _, .nan => .nan
    | .num x, .num y => .num (x + y)
    | .posInf, .negInf => .nan
    | .negInf, .posInf => .nan
    | .posInf, _ => .posInf
    | .negInf, _ => .negInf
    | .num _, .posInf => .posInf
    | .num _, .negInf => .negInf
  div := fun a b =>
    match a, b with
    | .nan, _ => .nan
    | _, .nan => .nan
    | .num x, .num y =>
      if y = 0 then (if x = 0 then .nan else if x > 0 then .posInf else .negInf)
      else .num (x / y)
    | .num _, _ => .num 0
    | .posInf, .num y => if y ≥ 0 then .posInf else .negInf
    | .negInf, .num y => if y ≥ 0 then .negInf else .posInf
    | _, _ => .nan
  ofInt := fun n => .num n

/-- Source: `parseNumberString` (filter_apply.go:50-61), with NaN and the infinities among
the results. -/
def parseNumberStringF (L : FloatLib) (raw : String) : Option float64 :=
  let s := TrimSpace raw
  if s = "" then none
  else L.ParseFloat (commaToDot s)

/-- Source: `Condition` (filters.go), with `float64` bounds. -/
structure ConditionF where
  Field : String
  Kind : ConditionKind
  Low : float64
  High : float64
deriving DecidableEq

/-- Source: `rowMatchesGroup` (filter_apply.go:153-183), with the comparisons of
`float64`. -/
def rowMatchesGroupF (L : FloatLib) (row : List (String × String)) : List ConditionF → Bool
  | [] => true
  | cond :: rest =>
    match mapFind row cond.Field with
    | none => false
    | some raw =>
      match parseNumberStringF L raw with
      | none => false
      | some val =>
        if cond.Kind = ConditionEq then
          if val.ne cond.Low then false else rowMatchesGroupF L row rest
        else if cond.Kind = ConditionRange then
          if cond.Low.eq cond.High then
            if val.ne cond.Low then false else rowMatchesGroupF L row rest
          else
            if val.lt cond.Low || val.ge cond.High then false else rowMatchesGroupF L row rest
        else false

/-- A condition of the model above as a condition with `float64` bounds. -/
def Condition.toF (c : Condition) : ConditionF := ⟨c.Field, c.Kind, .num c.Low, .num c.High⟩

/-- Source: `compareNumericStringAsc` (processing_native.go:493-513), with the comparisons
of `float64`. -/
def compareNumericStringAscF (L : FloatLib) (a b : String) : Int :=
  match parseNumberStringF L a, parseNumberStringF L b with
  | some av, some bv => if av.lt bv then -1 else if av.gt bv then 1 else 0
  | some _, none => -1
  | none, some _ => 1
  | none, none => 0

/-! ## Zone aggregation with `float64` signal values

The coordinates of a zone stay rational numbers: the projection rejects NaN. -/

/-- Source: `ProcessedRow` (processing_native.go), with `float64` signal values. -/
structure ProcessedRowF where
  Raw : List String
  OriginalExcelRow : Int
  XMeters : ℚ
  YMeters : ℚ
  ZonaX : ℚ
  ZonaY : ℚ
  ZonaKey : String
  OperatorKey : String
  ZonaOperatorKey : String
  MCC : String
  MNC : String
  PCI : String
  Frequency : String
  NRValue : String
  RSRP : float64
  SINR : float64
  HasSINR : Bool
deriving DecidableEq

/-- Source: `ZoneStat` (processing_native.go), with `float64` signal values. -/
structure ZoneStatF where
  ZonaKey : String
  OperatorKey : String
  ZonaX : ℚ
  ZonaY : ℚ
  MCC : String
  MNC : String
  PCI : String
  RSRPAvg : float64
  PocetMerani : Int
  NajcastejsiaFrekvencia : String
  NRValue : String
  VsetkyFrekvencie : List String
  OriginalExcelRows : List Int
  SINRAvg : float64
  HasSINRAvg : Bool
  ZonaStredX : ℚ
  ZonaStredY : ℚ
  Longitude : ℚ
  Latitude : ℚ
  RSRPKategoria : String
deriving DecidableEq

/-- Source: `aggVal` (local type of `CalculateZoneStatsNative`), with `float64` sums. -/
structure aggValF where
  RSRPSum : float64
  Count : Int
  OriginalRows : List Int
  SINRSum : float64
  SINRCount : Int
  NRYesCount : Int
  NRNoCount : Int
deriving DecidableEq

/-- The zero value `&aggVal{}`. -/
def aggValF.zero : aggValF := ⟨.num 0, 0, [], .num 0, 0, 0, 0⟩

/-- Body of the aggregation loop after the map lookup (lines 301-313). -/
def aggValF.addRow (A : FloatArith) (v : aggValF) (r : ProcessedRowF) : aggValF :=
  { RSRPSum := A.add v.RSRPSum r.RSRP
    Count := v.Count + 1
    OriginalRows := v.OriginalRows ++ [r.OriginalExcelRow]
    NRYesCount := if r.NRValue = "yes" then v.NRYesCount + 1 else v.NRYesCount
    NRNoCount := if r.NRValue = "no" then v.NRNoCount + 1 else v.NRNoCount
    SINRSum := if r.HasSINR then A.add v.SINRSum r.SINR else v.SINRSum
    SINRCount := if r.HasSINR then v.SINRCount + 1 else v.SINRCount }

/-- The grouping key of a row (lines 286-295). -/
def aggKeyOfF (r : ProcessedRowF) : aggKey :=
  ⟨r.ZonaKey, r.OperatorKey, r.ZonaX, r.ZonaY, r.MCC, r.MNC, r.PCI, r.Frequency⟩

/-- Rows skipped by the aggregation loop (line 282). -/
def hasBlankKeyF (r : ProcessedRowF) : Bool :=
  TrimSpace r.MCC = "" || TrimSpace r.MNC = "" || TrimSpace r.PCI = "" ||
    TrimSpace r.Frequency = ""

/-- Map update `v := agg[key]; if v == nil { agg[key] = &aggVal{} }; ...`: the entry of
`key` absorbs the row, a new entry is created when there is none. The list holds the
entries of the map; its order is not the order in which `range` yields them. -/
def aggInsertF (A : FloatArith) (agg : List (aggKey × aggValF)) (key : aggKey)
    (r : ProcessedRowF) : List (aggKey × aggValF) :=
  match agg with
  | [] => [(key, aggValF.zero.addRow A r)]
  | (k, v) :: rest =>
    if k = key then (k, v.addRow A r) :: rest else (k, v) :: aggInsertF A rest key r

/-- The aggregation loop (lines 280-314): the entries of the map `agg`. -/
def aggregateF (A : FloatArith) (rows : List ProcessedRowF) : List (aggKey × aggValF) :=
  rows.foldl (fun agg r => if hasBlankKeyF r then agg else aggInsertF A agg (aggKeyOfF r) r) []

/-- Source: `zoneFreqStat` (local type of `CalculateZoneStatsNative`), with `float64`
means. -/
structure zoneFreqStatF where
  Key : aggKey
  RSRPAvg : float64
  Count : Int
  Rows : List Int
  NRValue : String
  SINRAvg : float64
  HasSINR : Bool
deriving DecidableEq

/-- One entry of the map turned into a `zoneFreqStat` (lines 328-343). -/
def toZoneFreqStatF (A : FloatArith) (kv : aggKey × aggValF) : zoneFreqStatF :=
  { Key := kv.1
    RSRPAvg := A.div kv.2.RSRPSum (A.ofInt kv.2.Count)
    Count := kv.2.Count
    Rows := kv.2.OriginalRows
    NRValue := if kv.2.NRYesCount > 0 then "yes" else if kv.2.NRNoCount > 0 then "no" else ""
    SINRAvg := if kv.2.SINRCount > 0 then A.div kv.2.SINRSum (A.ofInt kv.2.SINRCount) else .num 0
    HasSINR := decide (kv.2.SINRCount > 0) }

/-- The `less` closure of the first `sort.Slice` (lines 346-364). -/
def zoneFreqLessF (L : FloatLib) (a b : zoneFreqStatF) : Bool :=
  if a.RSRPAvg.ne b.RSRPAvg then a.RSRPAvg.gt b.RSRPAvg
  else if a.Count ≠ b.Count then decide (a.Count > b.Count)
  else if compareNumericStringAscF L a.Key.Freq b.Key.Freq ≠ 0 then
    decide (compareNumericStringAscF L a.Key.Freq b.Key.Freq < 0)
  else if a.Key.Freq ≠ b.Key.Freq then decide (a.Key.Freq < b.Key.Freq)
  else if compareNumericStringAscF L a.Key.PCI b.Key.PCI ≠ 0 then
    decide (compareNumericStringAscF L a.Key.PCI b.Key.PCI < 0)
  else decide (a.Key.PCI < b.Key.PCI)

/-- The key under which a group competes (lines 377-384). -/
def chosenKeyOfF (z : zoneFreqStatF) : chosenKey :=
  ⟨z.Key.ZonaKey, z.Key.OperatorKey, z.Key.ZonaX, z.Key.ZonaY, z.Key.MCC, z.Key.MNC⟩

/-- The selection loop (lines 374-390): walking the sorted groups, keep a group iff its
key has not been seen. -/
def chooseLoopF : List zoneFreqStatF → List chosenKey → List zoneFreqStatF
  | [], _ => []
  | z :: rest, seen =>
    if chosenKeyOfF z ∈ seen then chooseLoopF rest seen
    else z :: chooseLoopF rest (chosenKeyOfF z :: seen)

/-- Zone centre handed to the inverse projection (lines 396-401). -/
def zoneCenterF (cfg : ProcessingConfig) (z : zoneFreqStatF) : Point :=
  if cfg.ZoneMode = "segments" then ⟨z.Key.ZonaX, z.Key.ZonaY⟩
  else ⟨z.Key.ZonaX + cfg.ZoneSizeM / 2, z.Key.ZonaY + cfg.ZoneSizeM / 2⟩

/-- Coverage category (lines 436-448). -/
def rsrpKategoriaF (cfg : ProcessingConfig) (rsrpAvg sinrAvg : float64) (hasSINR : Bool) :
    String :=
  if hasSINR then
    if rsrpAvg.ge (.num cfg.RSRPThreshold) && sinrAvg.ge (.num cfg.SINRThreshold) then
      "RSRP_GOOD"
    else "RSRP_BAD"
  else
    if rsrpAvg.ge (.num cfg.RSRPThreshold) then "RSRP_GOOD" else "RSRP_BAD"

/-- One `ZoneStat` built from a chosen group and its back-projected centre (lines 413-448). -/
def mkZoneStatF (cfg : ProcessingConfig) (z : zoneFreqStatF) (lonLat : Point) : ZoneStatF :=
  { ZonaKey := z.Key.ZonaKey
    OperatorKey := z.Key.OperatorKey
    ZonaX := z.Key.ZonaX
    ZonaY := z.Key.ZonaY
    MCC := z.Key.MCC
    MNC := z.Key.MNC
    PCI := z.Key.PCI
    RSRPAvg := z.RSRPAvg
    PocetMerani := z.Count
    NajcastejsiaFrekvencia := z.Key.Freq
    NRValue := z.NRValue
    VsetkyFrekvencie := [z.Key.Freq]
    OriginalExcelRows := z.Rows
    SINRAvg := if z.HasSINR then z.SINRAvg else .num 0
    HasSINRAvg := z.HasSINR
    ZonaStredX := (zoneCenterF cfg z).A
    ZonaStredY := (zoneCenterF cfg z).B
    Longitude := lonLat.A
    Latitude := lonLat.B
    RSRPKategoria :=
      rsrpKategoriaF cfg z.RSRPAvg (if z.HasSINR then z.SINRAvg else .num 0) z.HasSINR }

/-- The `less` closure of the final `sort.Slice` (lines 451-481). -/
def zoneStatLessF (L : FloatLib) (a b : ZoneStatF) : Bool :=
  if a.ZonaKey ≠ b.ZonaKey then decide (a.ZonaKey < b.ZonaKey)
  else if a.OperatorKey ≠ b.OperatorKey then decide (a.OperatorKey < b.OperatorKey)
  else if a.ZonaX ≠ b.ZonaX then decide (a.ZonaX < b.ZonaX)
  else if a.ZonaY ≠ b.ZonaY then decide (a.ZonaY < b.ZonaY)
  else if compareNumericStringAscF L a.MCC b.MCC ≠ 0 then
    decide (compareNumericStringAscF L a.MCC b.MCC < 0)
  else if a.MCC ≠ b.MCC then decide (a.MCC < b.MCC)
  else if compareNumericStringAscF L a.MNC b.MNC ≠ 0 then
    decide (compareNumericStringAscF L a.MNC b.MNC < 0)
  else if a.MNC ≠ b.MNC then decide (a.MNC < b.MNC)
  else if compareNumericStringAscF L a.PCI b.PCI ≠ 0 then
    decide (compareNumericStringAscF L a.PCI b.PCI < 0)
  else decide (a.PCI < b.PCI)

/-- Source: `CalculateZoneStatsNative` (processing_native.go:262-483) for a dataset that is
present, with the enumeration order of the map `agg` made explicit: `enum` lists the
entries of the map in the order in which `for k, v := range agg` yields them, a
permutation of `aggregateF A rows`. -/
def CalculateZoneStatsNativeEnumF (L : FloatLib) (A : FloatArith) (ctx : Context)
    (enum : List (aggKey × aggValF)) (cfg : ProcessingConfig)
    (transformer : PyProjTransformer) : Except String (List ZoneStatF) :=
  let chosen := chooseLoopF (sortSlice (zoneFreqLessF L) (enum.map (toZoneFreqStatF A))) []
  match transformer.Inverse ctx (chosen.map (zoneCenterF cfg)) with
  | .error e => .error e
  | .ok lonLat =>
    .ok (sortSlice (zoneStatLessF L)
      ((chosen.zip lonLat).map fun zp => mkZoneStatF cfg zp.1 zp.2))

/-- A `ZoneStat` reports the group `g`. -/
def reportsGroupF (s : ZoneStatF) (g : zoneFreqStatF) : Prop :=
  s.ZonaKey = g.Key.ZonaKey ∧ s.OperatorKey = g.Key.OperatorKey ∧ s.ZonaX = g.Key.ZonaX ∧
    s.ZonaY = g.Key.ZonaY ∧ s.MCC = g.Key.MCC ∧ s.MNC = g.Key.MNC ∧ s.PCI = g.Key.PCI ∧
    s.NajcastejsiaFrekvencia = g.Key.Freq ∧ s.RSRPAvg = g.RSRPAvg ∧ s.PocetMerani = g.Count

/-- A processed row of zone `100_200` and operator `231_01` with PCI 7. -/
def exampleRowF (freq : String) (rsrp : float64) : ProcessedRowF where
  Raw := []
  OriginalExcelRow := 1
  XMeters := 150
  YMeters := 250
  ZonaX := 100
  ZonaY := 200
  ZonaKey := "100_200"
  OperatorKey := "231_01"
  ZonaOperatorKey := "100_200_231_01"
  MCC := "231"
  MNC := "01"
  PCI := "7"
  Frequency := freq
  NRValue := ""
  RSRP := rsrp
  SINR := .num 0
  HasSINR := false

/-- Two measurements of one zone and operator: frequency 20 with the RSRP cell `NaN`, and
frequency 100 with RSRP -100. -/
def exampleRowsNaN : List ProcessedRowF :=
  [exampleRowF "20" .nan, exampleRowF "100" (.num (-100))]

/-- The group of `exampleRowF freq rsrp` when its mean is `rsrp`. -/
def exampleGroupF (freq : String) (rsrp : float64) : zoneFreqStatF :=
  ⟨⟨"100_200", "231_01", 100, 200, "231", "01", "7", freq⟩, rsrp, 1, [1], "", .num 0, false⟩

/-- The statistic of the group of `exampleRowF freq rsrp`. -/
def exampleStatF (freq : String) (rsrp : float64) (kategoria : String) : ZoneStatF where
  ZonaKey := "100_200"
  OperatorKey := "231_01"
  ZonaX := 100
  ZonaY := 200
  MCC := "231"
  MNC := "01"
  PCI := "7"
  RSRPAvg := rsrp
  PocetMerani := 1
  NajcastejsiaFrekvencia := freq
  NRValue := ""
  VsetkyFrekvencie := [freq]
  OriginalExcelRows := [1]
  SINRAvg := .num 0
  HasSINRAvg := false
  ZonaStredX := 150
  ZonaStredY := 250
  Longitude := 150
  Latitude := 250
  RSRPKategoria := kategoria

/-! # Theorems -/

set_option maxRecDepth 20000

/-! ## Order facts about the tie-break comparator -/

theorem compareNumericStringAsc_ne_zero (L : GoLib) (a b : String) :
    compareNumericStringAsc L a b ≠ 0 ↔ numKey L a ≠ numKey L b := by
  unfold compareNumericStringAsc numKey
  cases ha : parseNumberString L a <;> cases hb : parseNumberString L b <;> simp
  rename_i x y
  rcases lt_trichotomy x y with h | h | h
  · simp [h, h.ne]
  · simp [h]
  · simp [h, not_lt.mpr h.le, h.ne']

theorem compareNumericStringAsc_neg (L : GoLib) (a b : String) :
    compareNumericStringAsc L a b < 0 ↔ numKey L a < numKey L b := by
  unfold compareNumericStringAsc numKey
  cases ha : parseNumberString L a <;> cases hb : parseNumberString L b <;> simp
  rename_i x y
  rcases lt_trichotomy x y with h | h | h
  · simp [h]
  · simp [h]
  · simp [h, not_lt.mpr h.le]

theorem zoneFreqLess_iff (L : GoLib) (a b : zoneFreqStat) :
    zoneFreqLess L a b = true ↔ zfKey L a < zfKey L b := by
  unfold zoneFreqLess zfKey
  simp only [Prod.Lex.lt_iff, ne_eq, compareNumericStringAsc_ne_zero,
    compareNumericStringAsc_neg, neg_lt_neg_iff, neg_inj, ite_not]
  split_ifs <;> simp_all [ne_comm]

/-! ## Sorting with a comparator that is the strict order of a key -/

theorem sortSlice_perm {α : Type} (less : α → α → Bool) (xs : List α) :
    (sortSlice less xs).Perm xs :=
  List.perm_insertionSort _ xs

theorem mem_sortSlice {α : Type} (less : α → α → Bool) (xs : List α) (x : α) :
    x ∈ sortSlice less xs ↔ x ∈ xs :=
  (sortSlice_perm less xs).mem_iff

/-- When `less` is the strict order of a key in a linear order, `sortSlice` returns
the elements with non-decreasing keys. -/
theorem sortSlice_pairwise {α κ : Type} [LinearOrder κ] (less : α → α → Bool) (key : α → κ)
    (hless : ∀ a b, less a b = true ↔ key a < key b) (xs : List α) :
    (sortSlice less xs).Pairwise (fun a b => key a ≤ key b) := by
  have hr : ∀ a b, (less b a = false) ↔ key a ≤ key b := by
    intro a b
    rw [← not_lt, ← hless b a]
    simp
  haveI : IsTotal α (fun a b => less b a = false) :=
    ⟨fun a b => by simp only [hr]; exact le_total _ _⟩
  haveI : IsTrans α (fun a b => less b a = false) :=
    ⟨fun a b c hab hbc => by simp only [hr] at *; exact le_trans hab hbc⟩
  have hs := List.sorted_insertionSort (fun a b => less b a = false) xs
  exact List.Pairwise.imp (fun {a b} h => (hr a b).mp h) hs

/-! ## The selection loop keeps the first group of every key -/

theorem chooseLoop_sublist (zs : List zoneFreqStat) (seen : List chosenKey) :
    (chooseLoop zs seen).Sublist zs := by
  induction zs generalizing seen with
  | nil => simp [chooseLoop]
  | cons x rest ih =>
    unfold chooseLoop
    split_ifs
    · exact (ih seen).cons x
    · exact (ih _).cons₂ x

theorem chooseLoop_key_not_seen (zs : List zoneFreqStat) (seen : List chosenKey)
    (z : zoneFreqStat) (hz : z ∈ chooseLoop zs seen) : chosenKeyOf z ∉ seen := by
  induction zs generalizing seen with
  | nil => simp [chooseLoop] at hz
  | cons x rest ih =>
    unfold chooseLoop at hz
    split_ifs at hz with hx
    · exact ih seen hz
    · rcases List.mem_cons.mp hz with rfl | hz
      · exact hx
      · exact fun h => ih _ hz (List.mem_cons_of_mem _ h)

/-- A kept group precedes every other group of its key. -/
theorem chooseLoop_first {R : zoneFreqStat → zoneFreqStat → Prop} (zs : List zoneFreqStat)
    (seen : List chosenKey) (hp : zs.Pairwise R) (z : zoneFreqStat)
    (hz : z ∈ chooseLoop zs seen) (h : zoneFreqStat) (hh : h ∈ zs)
    (hk : chosenKeyOf h = chosenKeyOf z) : h = z ∨ R z h := by
  induction zs generalizing seen with
  | nil => simp at hh
  | cons x rest ih =>
    rw [List.pairwise_cons] at hp
    unfold chooseLoop at hz
    split_ifs at hz with hx
    · rcases List.mem_cons.mp hh with rfl | hh
      · exact absurd (hk ▸ hx) (chooseLoop_key_not_seen rest seen z hz)
      · exact ih seen hp.2 hz hh
    · rcases List.mem_cons.mp hz with rfl | hz
      · rcases List.mem_cons.mp hh with rfl | hh
        · exact Or.inl rfl
        · exact Or.inr (hp.1 h hh)
      · rcases List.mem_cons.mp hh with rfl | hh
        · have := chooseLoop_key_not_seen rest _ z hz
          exact absurd (by rw [hk]; exact List.mem_cons_self _ _) this
        · exact ih _ hp.2 hz hh

/-- Every key that is not yet seen gets a representative. -/
theorem chooseLoop_covers (zs : List zoneFreqStat) (seen : List chosenKey)
    (h : zoneFreqStat) (hh : h ∈ zs) (hk : chosenKeyOf h ∉ seen) :
    ∃ z ∈ chooseLoop zs seen, chosenKeyOf z = chosenKeyOf h := by
  induction zs generalizing seen with
  | nil => simp at hh
  | cons x rest ih =>
    unfold chooseLoop
    split_ifs with hx
    · rcases List.mem_cons.mp hh with rfl | hh
      · exact absurd hx hk
      · exact ih seen hh hk
    · by_cases hxk : chosenKeyOf x = chosenKeyOf h
      · exact ⟨x, List.mem_cons_self _ _, hxk⟩
      · rcases List.mem_cons.mp hh with rfl | hh
        · exact absurd rfl hxk
        · obtain ⟨z, hz, hzk⟩ := ih (chosenKeyOf x :: seen) hh
            (by simp only [List.mem_cons, not_or]; exact ⟨fun e => hxk e.symm, hk⟩)
          exact ⟨z, List.mem_cons_of_mem _ hz, hzk⟩

/-! ## The grouping map has one entry per key -/

theorem aggInsert_keys (agg : List (aggKey × aggVal)) (key : aggKey) (r : ProcessedRow) :
    (aggInsert agg key r).map Prod.fst =
      if key ∈ agg.map Prod.fst then agg.map Prod.fst else agg.map Prod.fst ++ [key] := by
  induction agg with
  | nil => simp [aggInsert]
  | cons kv rest ih =>
    obtain ⟨k, v⟩ := kv
    unfold aggInsert
    by_cases hk : k = key
    · simp [hk]
    · have hk2 : ¬ key = k := fun e => hk e.symm
      simp only [hk, if_false, List.map_cons, ih, List.mem_cons, hk2, false_or]
      split_ifs <;> simp

theorem aggInsert_nodup (agg : List (aggKey × aggVal)) (key : aggKey) (r : ProcessedRow)
    (h : (agg.map Prod.fst).Nodup) : ((aggInsert agg key r).map Prod.fst).Nodup := by
  rw [aggInsert_keys]
  split_ifs with hk
  · exact h
  · exact List.Nodup.append h (List.nodup_singleton _) (by simpa using hk)

theorem foldl_aggregate_nodup (rows : List ProcessedRow) (agg : List (aggKey × aggVal))
    (h : (agg.map Prod.fst).Nodup) :
    ((rows.foldl (fun agg r => if hasBlankKey r then agg else aggInsert agg (aggKeyOf r) r)
      agg).map Prod.fst).Nodup := by
  induction rows generalizing agg with
  | nil => simpa using h
  | cons r rest ih =>
    simp only [List.foldl_cons]
    apply ih
    split_ifs
    · exact h
    · exact aggInsert_nodup _ _ _ h

theorem aggregate_nodup (rows : List ProcessedRow) :
    ((aggregate rows).map Prod.fst).Nodup :=
  foldl_aggregate_nodup rows [] (by simp)

/-! ## The representative of a (zone, operator) pair, for means that are numbers -/

theorem specSmaller_iff (L : GoLib) (a b : String) :
    specSmaller L a b ↔ numKey L a < numKey L b ∨ (numKey L a = numKey L b ∧ a < b) := by
  unfold specSmaller numKey
  cases parseNumberString L a <;> cases parseNumberString L b <;> simp

theorem specBefore_iff (L : GoLib) (g h : zoneFreqStat) :
    specBefore L g h ↔ zfKey L g < zfKey L h := by
  unfold specBefore zfKey
  simp only [Prod.Lex.lt_iff, specSmaller_iff, neg_lt_neg_iff, neg_inj, gt_iff_lt]
  constructor
  · rintro (h1 | ⟨h1, h2 | ⟨h2, (h3 | ⟨h3, h4⟩) | ⟨h3, h4 | ⟨h4, h5⟩⟩⟩⟩)
    · exact Or.inl h1
    · exact Or.inr ⟨h1.symm ▸ rfl, Or.inl h2⟩
    · exact Or.inr ⟨h1, Or.inr ⟨h2, Or.inl h3⟩⟩
    · exact Or.inr ⟨h1, Or.inr ⟨h2, Or.inr ⟨h3, Or.inl h4⟩⟩⟩
    · exact Or.inr ⟨h1, Or.inr ⟨h2, Or.inr ⟨by rw [h3], Or.inr ⟨h3, Or.inl h4⟩⟩⟩⟩
    · exact Or.inr ⟨h1, Or.inr ⟨h2, Or.inr ⟨by rw [h3], Or.inr ⟨h3, Or.inr ⟨h4, h5⟩⟩⟩⟩⟩
  · rintro (h1 | ⟨h1, h2 | ⟨h2, h3 | ⟨h3, h4 | ⟨h4, h5 | ⟨h5, h6⟩⟩⟩⟩⟩)
    · exact Or.inl h1
    · exact Or.inr ⟨h1, Or.inl h2⟩
    · exact Or.inr ⟨h1, Or.inr ⟨h2, Or.inl (Or.inl h3)⟩⟩
    · exact Or.inr ⟨h1, Or.inr ⟨h2, Or.inl (Or.inr ⟨h3, h4⟩)⟩⟩
    · exact Or.inr ⟨h1, Or.inr ⟨h2, Or.inr ⟨h4, Or.inl h5⟩⟩⟩
    · exact Or.inr ⟨h1, Or.inr ⟨h2, Or.inr ⟨h4, Or.inr ⟨h5, h6⟩⟩⟩⟩

theorem transformLoop_length (one : ℚ → ℚ → Except String (ℚ × ℚ)) (ctx : Context)
    (i : Nat) (ps out : List Point) (h : transformLoop one ctx i ps = .ok out) :
    out.length = ps.length := by
  induction ps generalizing i out with
  | nil => simp [transformLoop] at h; subst h; rfl
  | cons p ps ih =>
    unfold transformLoop at h
    split at h
    · cases h
    · split at h
      · cases h
      · split at h
        · cases h
        · rename_i out' hrec
          cases h
          simp [ih _ _ hrec]

theorem exists_zip_of_mem {α β : Type} (l₁ : List α) (l₂ : List β)
    (hlen : l₂.length = l₁.length) (a : α) (ha : a ∈ l₁) : ∃ b, (a, b) ∈ l₁.zip l₂ := by
  induction l₁ generalizing l₂ with
  | nil => simp at ha
  | cons x xs ih =>
    cases l₂ with
    | nil => simp at hlen
    | cons y ys =>
      rcases List.mem_cons.mp ha with rfl | ha
      · exact ⟨y, by simp⟩
      · obtain ⟨b, hb⟩ := ih ys (by simpa using hlen) ha
        exact ⟨b, by simp [hb]⟩

theorem zoneFreqStats_key_inj (rows : List ProcessedRow) (g h : zoneFreqStat)
    (hg : g ∈ zoneFreqStats rows) (hh : h ∈ zoneFreqStats rows) (hk : g.Key = h.Key) :
    g = h := by
  unfold zoneFreqStats at hg hh
  obtain ⟨kg, hkg, rfl⟩ := List.mem_map.mp hg
  obtain ⟨kh, hkh, rfl⟩ := List.mem_map.mp hh
  have hnd := aggregate_nodup rows
  have : kg = kh := by
    have hinj := List.inj_on_of_nodup_map hnd
    exact hinj hkg hkh hk
  rw [this]

theorem chosenGroups_mem (L : GoLib) (rows : List ProcessedRow) (z : zoneFreqStat)
    (hz : z ∈ chosenGroups L rows) : z ∈ zoneFreqStats rows := by
  have h1 := (chooseLoop_sublist (sortedZoneFreqStats L rows) []).subset hz
  exact (mem_sortSlice _ _ _).mp h1

theorem chosenGroups_first (L : GoLib) (rows : List ProcessedRow) (z : zoneFreqStat)
    (hz : z ∈ chosenGroups L rows) (h : zoneFreqStat) (hh : h ∈ zoneFreqStats rows)
    (hk : chosenKeyOf h = chosenKeyOf z) (hne : h ≠ z) : specBefore L z h := by
  have hp := sortSlice_pairwise (zoneFreqLess L) (zfKey L) (zoneFreqLess_iff L)
    (zoneFreqStats rows)
  have hh' : h ∈ sortedZoneFreqStats L rows := (mem_sortSlice _ _ _).mpr hh
  have hle : zfKey L z ≤ zfKey L h := by
    rcases chooseLoop_first (sortedZoneFreqStats L rows) [] hp z hz h hh' hk with e | e
    · exact absurd e hne
    · exact e
  rw [specBefore_iff]
  refine lt_of_le_of_ne hle ?_
  intro heq
  apply hne
  apply zoneFreqStats_key_inj rows h z hh (chosenGroups_mem L rows z hz)
  have hf : h.Key.Freq = z.Key.Freq := by
    have := congrArg (fun k => (ofLex (ofLex (ofLex (ofLex k).2).2).2).1) heq
    exact this.symm
  have hpci : h.Key.PCI = z.Key.PCI := by
    have := congrArg (fun k => (ofLex (ofLex (ofLex (ofLex (ofLex k).2).2).2).2).2) heq
    exact this.symm
  have hkk := hk
  unfold chosenKeyOf at hkk
  simp only [chosenKey.mk.injEq] at hkk
  obtain ⟨k1, k2, k3, k4, k5, k6⟩ := hkk
  cases hK : h.Key
  cases hZ : z.Key
  simp_all

/-- With exact means and RSRP values that are numbers (the model over the rationals has no
NaN and no rounding): whenever `CalculateZoneStatsNative` returns, every reported
`ZoneStat` is one of
the (PCI, frequency) groups of its (zone, operator) pair — the pair being identified, as
in the source, by zone key, operator key, zone X/Y, MCC and MNC — and that group comes
before every other group of the pair under the order: higher mean RSRP, then higher
count, then smaller frequency, then smaller PCI (numeric when both parse, numbers before
non-numbers, remaining ties as text); every pair that has a group is reported; and with
equal mean and count the frequency "20" comes before the frequency "100". -/
theorem CalculateZoneStatsNative_reports_first_group (L : GoLib) (ctx : Context)
    (ds : ProcessedDataset) (cfg : ProcessingConfig) (transformer : PyProjTransformer)
    (stats : List ZoneStat)
    (hrun : CalculateZoneStatsNative L ctx (some ds) cfg transformer = .ok stats) :
    (∀ s ∈ stats, ∃ g ∈ zoneFreqStats ds.Rows, reportsGroup s g ∧
      ∀ h ∈ zoneFreqStats ds.Rows, chosenKeyOf h = chosenKeyOf g → h ≠ g → specBefore L g h) ∧
    (∀ g ∈ zoneFreqStats ds.Rows, ∃ s ∈ stats, s.ZonaKey = g.Key.ZonaKey ∧
      s.OperatorKey = g.Key.OperatorKey ∧ s.ZonaX = g.Key.ZonaX ∧ s.ZonaY = g.Key.ZonaY ∧
      s.MCC = g.Key.MCC ∧ s.MNC = g.Key.MNC) ∧
    (∀ g h : zoneFreqStat, g.RSRPAvg = h.RSRPAvg → g.Count = h.Count →
      g.Key.Freq = "20" → h.Key.Freq = "100" →
      L.ParseFloat "20" = some 20 → L.ParseFloat "100" = some 100 →
      specBefore L g h ∧ ¬ specBefore L h g) := by
  unfold CalculateZoneStatsNative at hrun
  simp only at hrun
  split at hrun
  · cases hrun
  rename_i lonLat hinv
  cases hrun
  have hlen : lonLat.length = (chosenGroups L ds.Rows).length := by
    have := transformLoop_length _ _ _ _ _ hinv
    simpa using this
  refine ⟨?_, ?_, ?_⟩
  · intro s hs
    rw [mem_sortSlice] at hs
    obtain ⟨⟨z, p⟩, hzp, rfl⟩ := List.mem_map.mp hs
    have hz : z ∈ chosenGroups L ds.Rows := (List.of_mem_zip hzp).1
    refine ⟨z, chosenGroups_mem L _ z hz, ?_, ?_⟩
    · simp [reportsGroup, mkZoneStat]
    · intro h hh hk hne
      exact chosenGroups_first L _ z hz h hh hk hne
  · intro g hg
    have hg' : g ∈ sortedZoneFreqStats L ds.Rows := (mem_sortSlice _ _ _).mpr hg
    obtain ⟨z, hz, hzk⟩ := chooseLoop_covers _ [] g hg' (by simp)
    obtain ⟨p, hp⟩ := exists_zip_of_mem _ lonLat hlen z hz
    refine ⟨mkZoneStat cfg z p, ?_, ?_⟩
    · rw [mem_sortSlice]
      exact List.mem_map.mpr ⟨(z, p), hp, rfl⟩
    · unfold chosenKeyOf at hzk
      simp only [chosenKey.mk.injEq] at hzk
      simpa [mkZoneStat] using hzk
  · intro g h havg hcnt hg hh h20 h100
    have p20 : parseNumberString L "20" = some 20 := by
      have : parseNumberString L "20" = L.ParseFloat "20" := by
        unfold parseNumberString
        have e1 : TrimSpace "20" = "20" := by decide
        have e2 : commaToDot "20" = "20" := by decide
        simp only [e1, e2]
        rfl
      rw [this, h20]
    have p100 : parseNumberString L "100" = some 100 := by
      have : parseNumberString L "100" = L.ParseFloat "100" := by
        unfold parseNumberString
        have e1 : TrimSpace "100" = "100" := by decide
        have e2 : commaToDot "100" = "100" := by decide
        simp only [e1, e2]
        rfl
      rw [this, h100]
    constructor
    · unfold specBefore
      refine Or.inr ⟨havg, Or.inr ⟨hcnt, Or.inl ?_⟩⟩
      unfold specSmaller
      rw [hg, hh, p20, p100]
      exact Or.inl (by norm_num)
    · unfold specBefore
      rw [hg, hh]
      intro hb
      rcases hb with hb | ⟨-, hb | ⟨-, hb | ⟨hb, -⟩⟩⟩
      · exact absurd hb (by rw [havg]; exact lt_irrefl _)
      · exact absurd hb (by rw [hcnt]; exact lt_irrefl _)
      · unfold specSmaller at hb
        rw [p20, p100] at hb
        rcases hb with hb | ⟨hb, -⟩
        · norm_num at hb
        · norm_num at hb
      · exact absurd hb (by decide)

/-- The tie-break on the example: of the two groups of zone `100_200` and operator `231_01` with equal
mean RSRP and equal count, the one with frequency "20" is reported. -/
theorem CalculateZoneStatsNative_reports_first_group_witness :
    CalculateZoneStatsNative goLib liveContext (some exampleDataset) exampleConfig idTransformer
        = .ok [exampleStat] ∧
    ((∀ s ∈ [exampleStat], ∃ g ∈ zoneFreqStats exampleDataset.Rows, reportsGroup s g ∧
      ∀ h ∈ zoneFreqStats exampleDataset.Rows, chosenKeyOf h = chosenKeyOf g → h ≠ g →
        specBefore goLib g h) ∧
    (∀ g ∈ zoneFreqStats exampleDataset.Rows, ∃ s ∈ [exampleStat], s.ZonaKey = g.Key.ZonaKey ∧
      s.OperatorKey = g.Key.OperatorKey ∧ s.ZonaX = g.Key.ZonaX ∧ s.ZonaY = g.Key.ZonaY ∧
      s.MCC = g.Key.MCC ∧ s.MNC = g.Key.MNC) ∧
    (∀ g h : zoneFreqStat, g.RSRPAvg = h.RSRPAvg → g.Count = h.Count →
      g.Key.Freq = "20" → h.Key.Freq = "100" →
      goLib.ParseFloat "20" = some 20 → goLib.ParseFloat "100" = some 100 →
      specBefore goLib g h ∧ ¬ specBefore goLib h g)) :=
  ⟨by with_unfolding_all decide,
   CalculateZoneStatsNative_reports_first_group goLib liveContext exampleDataset exampleConfig
     idTransformer [exampleStat] (by with_unfolding_all decide)⟩

/-! ## C2: measurement counts -/

theorem aggInsert_count_sum (agg : List (aggKey × aggVal)) (key : aggKey) (r : ProcessedRow) :
    ((aggInsert agg key r).map fun kv => kv.2.Count).sum
      = (agg.map fun kv => kv.2.Count).sum + 1 := by
  induction agg with
  | nil => simp [aggInsert, aggVal.addRow, aggVal.zero]
  | cons kv rest ih =>
    obtain ⟨k, v⟩ := kv
    unfold aggInsert
    split_ifs
    · simp [aggVal.addRow]; ring
    · simp [ih]; ring

theorem aggInsert_count_pos (agg : List (aggKey × aggVal)) (key : aggKey) (r : ProcessedRow)
    (h : ∀ kv ∈ agg, 1 ≤ kv.2.Count) : ∀ kv ∈ aggInsert agg key r, 1 ≤ kv.2.Count := by
  induction agg with
  | nil => simp [aggInsert, aggVal.addRow, aggVal.zero]
  | cons kv rest ih =>
    obtain ⟨k, v⟩ := kv
    unfold aggInsert
    have hv : 1 ≤ v.Count := h (k, v) (List.mem_cons_self _ _)
    have hrest : ∀ kv ∈ rest, 1 ≤ kv.2.Count := fun kv hkv => h kv (List.mem_cons_of_mem _ hkv)
    split_ifs
    · intro kv hkv
      rcases List.mem_cons.mp hkv with rfl | hkv
      · simp only [aggVal.addRow]; omega
      · exact hrest kv hkv
    · intro kv hkv
      rcases List.mem_cons.mp hkv with rfl | hkv
      · exact hv
      · exact ih hrest kv hkv

theorem foldl_aggregate_count (rows : List ProcessedRow) (agg : List (aggKey × aggVal)) :
    ((rows.foldl (fun agg r => if hasBlankKey r then agg else aggInsert agg (aggKeyOf r) r)
        agg).map fun kv => kv.2.Count).sum
      = (agg.map fun kv => kv.2.Count).sum + nonBlankRowCount rows := by
  induction rows generalizing agg with
  | nil => simp [nonBlankRowCount]
  | cons r rest ih =>
    simp only [List.foldl_cons]
    rw [ih]
    by_cases hb : hasBlankKey r = true
    · simp [hb, nonBlankRowCount]
    · have hb' : hasBlankKey r = false := by simpa using hb
      simp only [hb', Bool.false_eq_true, if_false, aggInsert_count_sum, nonBlankRowCount]
      simp only [List.filter_cons, hb', Bool.not_false, if_true, List.length_cons]
      push_cast
      ring

theorem foldl_aggregate_count_pos (rows : List ProcessedRow) (agg : List (aggKey × aggVal))
    (h : ∀ kv ∈ agg, 1 ≤ kv.2.Count) :
    ∀ kv ∈ rows.foldl (fun agg r => if hasBlankKey r then agg else aggInsert agg (aggKeyOf r) r)
      agg, 1 ≤ kv.2.Count := by
  induction rows generalizing agg with
  | nil => simpa using h
  | cons r rest ih =>
    simp only [List.foldl_cons]
    apply ih
    split_ifs
    · exact h
    · exact aggInsert_count_pos _ _ _ h

theorem zoneFreqStats_count_sum (rows : List ProcessedRow) :
    ((zoneFreqStats rows).map fun g => g.Count).sum = nonBlankRowCount rows := by
  unfold zoneFreqStats aggregate
  rw [List.map_map]
  have := foldl_aggregate_count rows []
  simpa [toZoneFreqStat, Function.comp_def] using this

theorem zoneFreqStats_count_pos (rows : List ProcessedRow) (g : zoneFreqStat)
    (hg : g ∈ zoneFreqStats rows) : 1 ≤ g.Count := by
  unfold zoneFreqStats aggregate at hg
  obtain ⟨kv, hkv, rfl⟩ := List.mem_map.mp hg
  exact foldl_aggregate_count_pos rows [] (by simp) kv hkv

theorem zoneFreqStats_nodup (rows : List ProcessedRow) : (zoneFreqStats rows).Nodup := by
  have h := aggregate_nodup rows
  have h2 : ((zoneFreqStats rows).map fun g => g.Key).Nodup := by
    unfold zoneFreqStats
    rw [List.map_map]
    exact h
  exact List.Nodup.of_map _ h2

theorem chooseLoop_eq_self (zs : List zoneFreqStat) (seen : List chosenKey)
    (hp : zs.Pairwise fun a b => chosenKeyOf a ≠ chosenKeyOf b)
    (hs : ∀ z ∈ zs, chosenKeyOf z ∉ seen) : chooseLoop zs seen = zs := by
  induction zs generalizing seen with
  | nil => rfl
  | cons x rest ih =>
    rw [List.pairwise_cons] at hp
    unfold chooseLoop
    rw [if_neg (hs x (List.mem_cons_self _ _))]
    congr 1
    apply ih _ hp.2
    intro z hz
    simp only [List.mem_cons, not_or]
    exact ⟨fun e => hp.1 z hz e.symm, hs z (List.mem_cons_of_mem _ hz)⟩

theorem totalPocetMerani_run (L : GoLib) (ctx : Context) (ds : ProcessedDataset)
    (cfg : ProcessingConfig) (transformer : PyProjTransformer) (stats : List ZoneStat)
    (hrun : CalculateZoneStatsNative L ctx (some ds) cfg transformer = .ok stats) :
    totalPocetMerani stats = ((chosenGroups L ds.Rows).map fun g => g.Count).sum := by
  unfold CalculateZoneStatsNative at hrun
  simp only at hrun
  split at hrun
  · cases hrun
  rename_i lonLat hinv
  cases hrun
  have hlen : lonLat.length = (chosenGroups L ds.Rows).length := by
    have := transformLoop_length _ _ _ _ _ hinv
    simpa using this
  unfold totalPocetMerani
  rw [((sortSlice_perm _ _).map _).sum_eq, List.map_map]
  have h1 : ((fun s : ZoneStat => s.PocetMerani) ∘ fun zp : zoneFreqStat × Point =>
      mkZoneStat cfg zp.1 zp.2) = (fun g : zoneFreqStat => g.Count) ∘ Prod.fst := by
    funext zp
    simp [mkZoneStat]
  rw [h1, ← List.map_map, List.map_fst_zip _ _ (le_of_eq hlen.symm)]

/-- C2 (as amended): the measurement counts of all (zone, operator, PCI, frequency) groups
add up to the number of processed rows with non-blank MCC, MNC, PCI and frequency; the
counts of the returned `ZoneStat`s, which keep one representative group per
(zone, operator) pair, add up to at most that number, and to exactly that number when
every pair has a single (PCI, frequency) group. -/
theorem CalculateZoneStatsNative_count_sum (L : GoLib) (ctx : Context)
    (ds : ProcessedDataset) (cfg : ProcessingConfig) (transformer : PyProjTransformer)
    (stats : List ZoneStat)
    (hrun : CalculateZoneStatsNative L ctx (some ds) cfg transformer = .ok stats) :
    ((zoneFreqStats ds.Rows).map fun g => g.Count).sum = nonBlankRowCount ds.Rows ∧
    totalPocetMerani stats ≤ nonBlankRowCount ds.Rows ∧
    ((∀ g ∈ zoneFreqStats ds.Rows, ∀ h ∈ zoneFreqStats ds.Rows,
        chosenKeyOf g = chosenKeyOf h → g = h) →
      totalPocetMerani stats = nonBlankRowCount ds.Rows) := by
  have hsum := totalPocetMerani_run L ctx ds cfg transformer stats hrun
  have hperm : (sortedZoneFreqStats L ds.Rows).Perm (zoneFreqStats ds.Rows) :=
    sortSlice_perm _ _
  have htot : ((sortedZoneFreqStats L ds.Rows).map fun g => g.Count).sum
      = nonBlankRowCount ds.Rows := by
    rw [(hperm.map _).sum_eq, zoneFreqStats_count_sum]
  refine ⟨zoneFreqStats_count_sum ds.Rows, ?_, ?_⟩
  · rw [hsum, ← htot]
    have hsub : ((chosenGroups L ds.Rows).map fun g => g.Count).Sublist
        ((sortedZoneFreqStats L ds.Rows).map fun g => g.Count) :=
      (chooseLoop_sublist _ _).map _
    apply hsub.sum_le_sum
    intro c hc
    obtain ⟨g, hg, rfl⟩ := List.mem_map.mp hc
    have := zoneFreqStats_count_pos ds.Rows g (hperm.mem_iff.mp hg)
    omega
  · intro hone
    rw [hsum, ← htot]
    have hnd : (sortedZoneFreqStats L ds.Rows).Nodup :=
      hperm.nodup_iff.mpr (zoneFreqStats_nodup ds.Rows)
    have hp : (sortedZoneFreqStats L ds.Rows).Pairwise
        fun a b => chosenKeyOf a ≠ chosenKeyOf b := by
      have hnd' : (sortedZoneFreqStats L ds.Rows).Pairwise (fun a b => a ≠ b) := hnd
      refine List.Pairwise.imp_of_mem ?_ hnd'
      intro a b ha hb hab hk
      exact hab (hone a (hperm.mem_iff.mp ha) b (hperm.mem_iff.mp hb) hk)
    have : chosenGroups L ds.Rows = sortedZoneFreqStats L ds.Rows :=
      chooseLoop_eq_self _ [] hp (by simp)
    rw [this]

/-- C2 (as amended) on a dataset whose two rows form one group: one statistic with count 2. -/
theorem CalculateZoneStatsNative_count_sum_witness :
    CalculateZoneStatsNative goLib liveContext (some exampleDatasetOneGroup) exampleConfig
        idTransformer
      = .ok [{ exampleStat with PocetMerani := 2, OriginalExcelRows := [1, 1] }] ∧
    totalPocetMerani [{ exampleStat with PocetMerani := 2, OriginalExcelRows := [1, 1] }] = 2 ∧
    nonBlankRowCount exampleDatasetOneGroup.Rows = 2 ∧
    (((zoneFreqStats exampleDatasetOneGroup.Rows).map fun g => g.Count).sum
        = nonBlankRowCount exampleDatasetOneGroup.Rows ∧
      totalPocetMerani [{ exampleStat with PocetMerani := 2, OriginalExcelRows := [1, 1] }]
        ≤ nonBlankRowCount exampleDatasetOneGroup.Rows ∧
      ((∀ g ∈ zoneFreqStats exampleDatasetOneGroup.Rows,
          ∀ h ∈ zoneFreqStats exampleDatasetOneGroup.Rows,
          chosenKeyOf g = chosenKeyOf h → g = h) →
        totalPocetMerani [{ exampleStat with PocetMerani := 2, OriginalExcelRows := [1, 1] }]
          = nonBlankRowCount exampleDatasetOneGroup.Rows)) :=
  ⟨by with_unfolding_all decide, by with_unfolding_all decide, by with_unfolding_all decide,
   CalculateZoneStatsNative_count_sum goLib liveContext exampleDatasetOneGroup exampleConfig
     idTransformer _ (by with_unfolding_all decide)⟩

/-- C2 as stated fails: two rows with non-blank MCC, MNC, PCI and frequency in one zone and
operator but with different frequencies yield a single `ZoneStat` whose count is 1. -/
theorem CalculateZoneStatsNative_count_sum_counterexample :
    CalculateZoneStatsNative goLib liveContext (some exampleDataset) exampleConfig idTransformer
        = .ok [exampleStat] ∧
    totalPocetMerani [exampleStat] = 1 ∧
    nonBlankRowCount exampleDataset.Rows = 2 ∧
    totalPocetMerani [exampleStat] ≠ nonBlankRowCount exampleDataset.Rows :=
  ⟨by with_unfolding_all decide, by with_unfolding_all decide, by with_unfolding_all decide,
   by with_unfolding_all decide⟩

/-! ## Go maps as association lists -/

theorem mapFind_mapSet {κ β : Type} [DecidableEq κ] (m : List (κ × β)) (k k' : κ) (v : β) :
    mapFind (mapSet m k v) k' = if k = k' then some v else mapFind m k' := by
  induction m with
  | nil => simp [mapSet, mapFind]
  | cons kv rest ih =>
    obtain ⟨k0, v0⟩ := kv
    unfold mapSet
    by_cases h0 : k0 = k
    · subst h0
      simp only [if_true, mapFind]
      split_ifs <;> rfl
    · simp only [h0, if_false, mapFind, ih]
      by_cases h1 : k0 = k'
      · subst h1
        have : ¬ k = k0 := fun e => h0 e.symm
        simp [this]
      · simp [h1]

theorem mapGet_eq_mapFind {κ β : Type} [DecidableEq κ] (m : List (κ × β)) (k : κ) (d : β) :
    mapGet m k d = (mapFind m k).getD d := by
  induction m with
  | nil => simp [mapGet, mapFind]
  | cons kv rest ih =>
    obtain ⟨k0, v0⟩ := kv
    unfold mapGet mapFind
    split_ifs <;> simp [ih]

theorem mapSet_keys {κ β : Type} [DecidableEq κ] (m : List (κ × β)) (k : κ) (v : β) :
    (mapSet m k v).map Prod.fst =
      if k ∈ m.map Prod.fst then m.map Prod.fst else m.map Prod.fst ++ [k] := by
  induction m with
  | nil => simp [mapSet]
  | cons kv rest ih =>
    obtain ⟨k0, v0⟩ := kv
    unfold mapSet
    by_cases h0 : k0 = k
    · simp [h0]
    · have h1 : ¬ k = k0 := fun e => h0 e.symm
      simp only [h0, if_false, List.map_cons, ih, List.mem_cons, h1, false_or]
      split_ifs <;> simp

theorem mapSet_of_not_mem {κ β : Type} [DecidableEq κ] (m : List (κ × β)) (k : κ) (v : β)
    (h : k ∉ m.map Prod.fst) : mapSet m k v = m ++ [(k, v)] := by
  induction m with
  | nil => simp [mapSet]
  | cons kv rest ih =>
    obtain ⟨k0, v0⟩ := kv
    simp only [List.map_cons, List.mem_cons, not_or] at h
    unfold mapSet
    have h0 : ¬ k0 = k := fun e => h.1 e.symm
    simp [h0, ih h.2]

theorem mapFind_eq_none {κ β : Type} [DecidableEq κ] (m : List (κ × β)) (k : κ) :
    mapFind m k = none ↔ k ∉ m.map Prod.fst := by
  induction m with
  | nil => simp [mapFind]
  | cons kv rest ih =>
    obtain ⟨k0, v0⟩ := kv
    unfold mapFind
    by_cases h0 : k0 = k
    · simp [h0]
    · have h1 : ¬ k = k0 := fun e => h0 e.symm
      simp [h0, h1, ih]

/-! ## `indexOf` -/

theorem indexOf_ge (items : List String) (needle : String) : -1 ≤ indexOf items needle := by
  induction items with
  | nil => simp [indexOf]
  | cons v rest ih =>
    unfold indexOf
    simp only
    split_ifs
    · simp
    · simp
    · omega

theorem indexOf_eq_neg_one (items : List String) (needle : String) :
    indexOf items needle = -1 ↔ needle ∉ items := by
  induction items with
  | nil => simp [indexOf]
  | cons v rest ih =>
    have hge := indexOf_ge rest needle
    unfold indexOf
    by_cases h : v = needle
    · simp [h]
    · have h' : ¬ needle = v := fun e => h e.symm
      simp only [h, if_false, List.mem_cons, h', false_or]
      rw [← ih]
      split_ifs with h2
      · simp [h2]
      · constructor
        · intro h3; omega
        · intro h3; exact absurd h3 h2

theorem indexOf_getElem (items : List String) (needle : String) (h : needle ∈ items) :
    0 ≤ indexOf items needle ∧ items[(indexOf items needle).toNat]? = some needle := by
  induction items with
  | nil => simp at h
  | cons v rest ih =>
    unfold indexOf
    by_cases hv : v = needle
    · simp [hv]
    · have hmem : needle ∈ rest := by
        rcases List.mem_cons.mp h with e | e
        · exact absurd e.symm hv
        · exact e
      obtain ⟨h0, h1⟩ := ih hmem
      have hne : indexOf rest needle ≠ -1 := by omega
      simp only [hv, if_false, hne]
      refine ⟨by omega, ?_⟩
      have : (indexOf rest needle + 1).toNat = (indexOf rest needle).toNat + 1 := by omega
      rw [this]
      simpa using h1

theorem indexOf_of_getElem_nodup (items : List String) (hnd : items.Nodup) (i : Nat)
    (c : String) (hc : items[i]? = some c) : indexOf items c = i := by
  induction items generalizing i with
  | nil => simp at hc
  | cons v rest ih =>
    rw [List.nodup_cons] at hnd
    cases i with
    | zero =>
      simp at hc
      simp [indexOf, hc]
    | succ j =>
      simp at hc
      have hmem : c ∈ rest := by
        obtain ⟨hj, hjc⟩ := List.getElem?_eq_some.mp hc
        exact hjc ▸ List.getElem_mem hj
      have hv : ¬ v = c := fun e => hnd.1 (e ▸ hmem)
      have := ih hnd.2 j hc
      unfold indexOf
      simp only [hv, if_false, this]
      have : ¬ ((j : Int) = -1) := by omega
      simp [this]

/-! ## The row map -/

theorem mapFind_rowValueMapFrom_not_mem (row : List String) (i : Nat) (cs : List String)
    (m : List (String × String)) (k : String) (hk : k ∉ cs) :
    mapFind (rowValueMapFrom row i cs m) k = mapFind m k := by
  induction cs generalizing i m with
  | nil => rfl
  | cons c cs ih =>
    simp only [List.mem_cons, not_or] at hk
    unfold rowValueMapFrom
    rw [ih _ _ hk.2, mapFind_mapSet]
    have : ¬ c = k := fun e => hk.1 e.symm
    simp [this]

theorem mapFind_rowValueMapFrom (row : List String) (i : Nat) (cs : List String)
    (m : List (String × String)) (hnd : cs.Nodup) (j : Nat) (c : String)
    (hc : cs[j]? = some c) :
    mapFind (rowValueMapFrom row i cs m) c
      = some (if i + j < row.length then row.getD (i + j) "" else "") := by
  induction cs generalizing i m j with
  | nil => simp at hc
  | cons c0 cs ih =>
    rw [List.nodup_cons] at hnd
    unfold rowValueMapFrom
    cases j with
    | zero =>
      simp at hc
      subst hc
      rw [mapFind_rowValueMapFrom_not_mem _ _ _ _ _ hnd.1, mapFind_mapSet]
      simp
    | succ j =>
      simp at hc
      rw [ih (i + 1) _ hnd.2 j hc]
      have : i + 1 + j = i + (j + 1) := by omega
      rw [this]

theorem mapFind_rowValueMap (columns row : List String) (hnd : columns.Nodup) (j : Nat)
    (c : String) (hc : columns[j]? = some c) :
    mapFind (rowValueMap columns row) c = some (if j < row.length then row.getD j "" else "") := by
  have := mapFind_rowValueMapFrom row 0 columns [] hnd j c hc
  simpa [rowValueMap] using this

theorem mapFind_rowValueMap_none (columns row : List String) (k : String) (hk : k ∉ columns) :
    mapFind (rowValueMap columns row) k = none := by
  unfold rowValueMap
  rw [mapFind_rowValueMapFrom_not_mem _ _ _ _ _ hk]
  rfl

/-! ## Strength of a rule -/

theorem foldl_bestGroupSize (L : GoLib) (rowMap : List (String × String))
    (groups : List (List Condition)) (b0 : Int) (hb0 : 0 ≤ b0) :
    let b := groups.foldl (fun best group =>
      if rowMatchesGroup L rowMap group ∧ (group.length : Int) > best then (group.length : Int)
      else best) b0
    b0 ≤ b ∧ (∀ g ∈ groups, rowMatchesGroup L rowMap g = true → (g.length : Int) ≤ b) ∧
      (b = b0 ∨ ∃ g ∈ groups, rowMatchesGroup L rowMap g = true ∧ (g.length : Int) = b) := by
  induction groups generalizing b0 with
  | nil => simp
  | cons g rest ih =>
    simp only [List.foldl_cons]
    by_cases hg : rowMatchesGroup L rowMap g = true ∧ (g.length : Int) > b0
    · rw [if_pos hg]
      obtain ⟨h1, h2, h3⟩ := ih (g.length : Int) (by omega)
      refine ⟨by omega, ?_, ?_⟩
      · intro g' hg' hm
        rcases List.mem_cons.mp hg' with rfl | hg'
        · exact h1
        · exact h2 g' hg' hm
      · rcases h3 with h3 | ⟨g', hg', hm, hl⟩
        · exact Or.inr ⟨g, List.mem_cons_self _ _, hg.1, h3.symm⟩
        · exact Or.inr ⟨g', List.mem_cons_of_mem _ hg', hm, hl⟩
    · rw [if_neg hg]
      obtain ⟨h1, h2, h3⟩ := ih b0 hb0
      refine ⟨h1, ?_, ?_⟩
      · intro g' hg' hm
        rcases List.mem_cons.mp hg' with rfl | hg'
        · have : ¬ ((g'.length : Int) > b0) := fun hgt => hg ⟨hm, hgt⟩
          omega
        · exact h2 g' hg' hm
      · rcases h3 with h3 | ⟨g', hg', hm, hl⟩
        · exact Or.inl h3
        · exact Or.inr ⟨g', List.mem_cons_of_mem _ hg', hm, hl⟩

/-- For a rule without empty groups, `bestGroupSizeOf` is positive exactly when the rule
hits, and it is then the strength of the rule. -/
theorem bestGroupSizeOf_spec (L : GoLib) (rowMap : List (String × String)) (rule : FilterRule)
    (hne : ∀ g ∈ rule.ConditionGroups, g ≠ []) :
    (bestGroupSizeOf L rowMap rule > 0 ↔ ruleHits L rowMap rule) ∧
    (∀ n : Nat, IsStrength L rowMap rule n ↔
      (bestGroupSizeOf L rowMap rule > 0 ∧ bestGroupSizeOf L rowMap rule = n)) := by
  obtain ⟨h1, h2, h3⟩ := foldl_bestGroupSize L rowMap rule.ConditionGroups 0 (le_refl _)
  have hpos : ∀ g ∈ rule.ConditionGroups, 0 < (g.length : Int) := by
    intro g hg
    have := List.length_pos.mpr (hne g hg)
    omega
  change 0 ≤ bestGroupSizeOf L rowMap rule at h1
  change ∀ g ∈ rule.ConditionGroups, rowMatchesGroup L rowMap g = true →
    (g.length : Int) ≤ bestGroupSizeOf L rowMap rule at h2
  change bestGroupSizeOf L rowMap rule = 0 ∨ ∃ g ∈ rule.ConditionGroups,
    rowMatchesGroup L rowMap g = true ∧ (g.length : Int) = bestGroupSizeOf L rowMap rule at h3
  constructor
  · constructor
    · intro hb
      rcases h3 with h3 | ⟨g, hg, hm, -⟩
      · omega
      · exact ⟨g, hg, hm⟩
    · rintro ⟨g, hg, hm⟩
      have := h2 g hg hm
      have := hpos g hg
      omega
  · intro n
    constructor
    · rintro ⟨⟨g, hg, hm, hl⟩, hmax⟩
      have hle := h2 g hg hm
      have hp := hpos g hg
      refine ⟨by omega, ?_⟩
      rcases h3 with h3 | ⟨g', hg', hm', hl'⟩
      · omega
      · have := hmax g' hg' hm'
        omega
    · rintro ⟨hb, hn⟩
      rcases h3 with h3 | ⟨g', hg', hm', hl'⟩
      · omega
      · refine ⟨⟨g', hg', hm', by omega⟩, ?_⟩
        intro g hg hm
        have := h2 g hg hm
        omega

theorem matchLess_iff (a b : matchingRule) : matchLess a b = true ↔ matchKey a < matchKey b := by
  unfold matchLess matchKey
  simp only [Prod.Lex.lt_iff, ne_eq, neg_lt_neg_iff, neg_inj, ite_not]
  split_ifs <;> simp_all [ne_comm]

theorem resolveFilterRules_groups_ne_nil (L : GoLib) (rules : List FilterRule)
    (columns : List String) (columnMapping : List (String × Int)) (r : FilterRule)
    (hr : r ∈ resolveFilterRules L rules columns columnMapping) :
    ∀ g ∈ r.ConditionGroups, g ≠ [] := by
  unfold resolveFilterRules at hr
  obtain ⟨rule, -, rfl⟩ := List.mem_map.mp hr
  intro g hg
  simp only [resolveGroups, List.mem_filter, decide_eq_true_eq] at hg
  exact List.length_pos.mp hg.2

/-! ## Selection of the rule -/

theorem mem_collectMatches (L : GoLib) (rowMap : List (String × String)) (R : List FilterRule)
    (m : matchingRule) :
    m ∈ collectMatches L rowMap R ↔
      ∃ r ∈ R, bestGroupSizeOf L rowMap r > 0 ∧ m = ⟨bestGroupSizeOf L rowMap r, r⟩ := by
  unfold collectMatches
  rw [List.mem_filterMap]
  constructor
  · rintro ⟨r, hr, h⟩
    split_ifs at h with hb
    exact ⟨r, hr, hb, (Option.some.inj h).symm⟩
  · rintro ⟨r, hr, hb, rfl⟩
    exact ⟨r, hr, by rw [if_pos hb]⟩

/-- The selected rule is a hit of maximal strength and, among those, of smallest name;
no rule is selected exactly when no rule hits. -/
theorem selectRule_spec (L : GoLib) (rowMap : List (String × String)) (R : List FilterRule)
    (hne : ∀ r ∈ R, ∀ g ∈ r.ConditionGroups, g ≠ []) :
    (selectRule L rowMap R = none ↔ ∀ r ∈ R, ¬ ruleHits L rowMap r) ∧
    (∀ sel, selectRule L rowMap R = some sel → sel ∈ R ∧ ∃ n, IsStrength L rowMap sel n ∧
      ∀ r ∈ R, ∀ m, IsStrength L rowMap r m → m ≤ n ∧ (m = n → ¬ r.Name < sel.Name)) := by
  have hperm := sortSlice_perm matchLess (collectMatches L rowMap R)
  have hpw := sortSlice_pairwise matchLess matchKey matchLess_iff (collectMatches L rowMap R)
  unfold selectRule
  cases hs : sortSlice matchLess (collectMatches L rowMap R) with
  | nil =>
    rw [hs] at hperm
    have hnil : collectMatches L rowMap R = [] := List.Perm.eq_nil hperm.symm
    constructor
    · simp only [List.head?_nil, Option.map_none', true_iff]
      intro r hr hhit
      have hb := ((bestGroupSizeOf_spec L rowMap r (hne r hr)).1).mpr hhit
      have : (⟨bestGroupSizeOf L rowMap r, r⟩ : matchingRule) ∈ collectMatches L rowMap R :=
        (mem_collectMatches L rowMap R _).mpr ⟨r, hr, hb, rfl⟩
      rw [hnil] at this
      simp at this
    · intro sel h
      simp at h
  | cons m0 tl =>
    rw [hs] at hperm hpw
    have hm0 : m0 ∈ collectMatches L rowMap R := hperm.mem_iff.mp (List.mem_cons_self _ _)
    obtain ⟨r0, hr0, hb0, rfl⟩ := (mem_collectMatches L rowMap R m0).mp hm0
    constructor
    · simp only [List.head?_cons, Option.map_some']
      constructor
      · intro h
        cases h
      · intro h
        exact absurd (((bestGroupSizeOf_spec L rowMap r0 (hne r0 hr0)).1).mp hb0) (h r0 hr0)
    · intro sel h
      simp only [List.head?_cons, Option.map_some', Option.some.injEq] at h
      subst h
      refine ⟨hr0, (bestGroupSizeOf L rowMap r0).toNat, ?_, ?_⟩
      · exact ((bestGroupSizeOf_spec L rowMap r0 (hne r0 hr0)).2 _).mpr ⟨hb0, by omega⟩
      · intro r hr m hm
        obtain ⟨hb, hbm⟩ := ((bestGroupSizeOf_spec L rowMap r (hne r hr)).2 m).mp hm
        have hmem : (⟨bestGroupSizeOf L rowMap r, r⟩ : matchingRule) ∈
            ({ bestGroupSize := bestGroupSizeOf L rowMap r0, rule := r0 } :: tl : List matchingRule) :=
          hperm.mem_iff.mpr ((mem_collectMatches L rowMap R _).mpr ⟨r, hr, hb, rfl⟩)
        have hle : matchKey ⟨bestGroupSizeOf L rowMap r0, r0⟩ ≤
            matchKey ⟨bestGroupSizeOf L rowMap r, r⟩ := by
          rcases List.mem_cons.mp hmem with e | e
          · rw [e]
          · exact (List.pairwise_cons.mp hpw).1 _ e
        unfold matchKey at hle
        rw [Prod.Lex.le_iff] at hle
        simp only [neg_lt_neg_iff, neg_inj] at hle
        rcases hle with hlt | ⟨heq, hname⟩
        · constructor
          · omega
          · intro hmn
            omega
        · constructor
          · omega
          · intro _
            exact not_lt.mpr hname

/-! ## Output columns and the unmodified row -/

theorem foldl_append_columns (fields : List (String × List ℚ)) (cols : List String) :
    ∃ extra, fields.foldl (fun cols fv =>
      if indexOf cols fv.1 = -1 then cols ++ [fv.1] else cols) cols = cols ++ extra := by
  induction fields generalizing cols with
  | nil => exact ⟨[], by simp⟩
  | cons fv rest ih =>
    simp only [List.foldl_cons]
    split_ifs
    · obtain ⟨e, he⟩ := ih (cols ++ [fv.1])
      exact ⟨[fv.1] ++ e, by rw [he]; simp⟩
    · exact ih cols

theorem foldl_rules_columns (R : List FilterRule) (cols : List String) :
    ∃ extra, R.foldl (fun cols rule =>
      rule.Assignments.foldl (fun cols fv =>
        if indexOf cols fv.1 = -1 then cols ++ [fv.1] else cols) cols) cols = cols ++ extra := by
  induction R generalizing cols with
  | nil => exact ⟨[], by simp⟩
  | cons r rest ih =>
    simp only [List.foldl_cons]
    obtain ⟨e1, he1⟩ := foldl_append_columns r.Assignments cols
    rw [he1]
    obtain ⟨e2, he2⟩ := ih (cols ++ e1)
    exact ⟨e1 ++ e2, by rw [he2]; simp⟩

/-- The output columns start with the input columns. -/
theorem outputColumnsOf_prefix (baseColumns : List String) (R : List FilterRule) :
    ∃ extra, outputColumnsOf baseColumns R = baseColumns ++ extra := by
  unfold outputColumnsOf
  split_ifs
  · obtain ⟨e, he⟩ := foldl_rules_columns R (baseColumns ++ ["original_excel_row"])
    exact ⟨["original_excel_row"] ++ e, by rw [he]; simp⟩
  · exact foldl_rules_columns R baseColumns

theorem setAt_length (row : List String) (idx : Int) (v : String) :
    (setAt row idx v).length = row.length := by
  unfold setAt
  split_ifs <;> simp

theorem setAt_indexOf_getElem_ne (oc row : List String) (x v c : String) (i : Nat)
    (hc : oc[i]? = some c) (hne : c ≠ x) :
    (setAt row (indexOf oc x) v)[i]? = row[i]? := by
  unfold setAt
  split_ifs with h
  · have hx : x ∈ oc := by
      by_contra hx
      have := (indexOf_eq_neg_one oc x).mpr hx
      omega
    have h2 := (indexOf_getElem oc x hx).2
    have hi : (indexOf oc x).toNat ≠ i := by
      intro e
      rw [e, hc] at h2
      exact hne (Option.some.inj h2)
    exact List.getElem?_set_ne hi
  · rfl

/-- The row emitted without assignments keeps every input cell except that of a column
named `original_excel_row`. -/
theorem appendOutputRow_nil_getElem (L : GoLib) (columns extra row : List String)
    (rowNumber : Int) (hnd : columns.Nodup) (hlen : row.length = columns.length)
    (i : Nat) (c : String) (hc : columns[i]? = some c) (hne : c ≠ "original_excel_row") :
    (appendOutputRow L (columns ++ extra) rowNumber (rowValueMap columns row) [] true)[i]?
      = row[i]? := by
  have hi : i < columns.length := (List.getElem?_eq_some.mp hc).1
  have hoc : (columns ++ extra)[i]? = some c := by
    rw [List.getElem?_append_left hi]
    exact hc
  unfold appendOutputRow
  simp only [if_true, List.foldl_nil]
  rw [setAt_indexOf_getElem_ne _ _ _ _ c i hoc hne, List.getElem?_map, hoc]
  simp only [Option.map_some']
  rw [mapGet_eq_mapFind, mapFind_rowValueMap columns row hnd i c hc]
  have hir : i < row.length := by omega
  simp [hir, List.getD_eq_getElem?_getD]

/-! ## C3: which rule is applied -/

theorem ApplyFiltersCSV_eq (L : GoLib) (d : CSVData) (rules : List FilterRule)
    (keepOriginalOnMatch : Bool) (columnMapping : List (String × Int)) (hrules : rules ≠ []) :
    ApplyFiltersCSV L (some d) rules keepOriginalOnMatch columnMapping =
      .ok { Columns := outputColumnsOf d.Columns (resolveFilterRules L rules d.Columns columnMapping)
            Rows := d.Rows.enum.flatMap fun pr =>
              emitRows L d.Columns
                (outputColumnsOf d.Columns (resolveFilterRules L rules d.Columns columnMapping))
                (resolveFilterRules L rules d.Columns columnMapping) keepOriginalOnMatch
                d.FileInfo.HeaderLine pr.1 pr.2
            FileInfo := d.FileInfo } := by
  unfold ApplyFiltersCSV
  have : ¬ rules.length = 0 := fun h => hrules (List.length_eq_zero.mp h)
  simp only [this, if_false]

/-- C3 (as amended): for a dataset with unique column names and full-width rows and a
non-empty rule list, the output rows are the concatenation, in row order, of the rows
emitted per input row; the rule applied to a row is a (resolved) rule whose strength is
maximal among the rules with a satisfied group and whose name is smallest among the rules
of that strength; and if no rule has a satisfied group exactly one row is emitted, in
which every input field is unchanged except that of a column named `original_excel_row`. -/
theorem ApplyFiltersCSV_applies_strongest_rule (L : GoLib) (d : CSVData)
    (rules : List FilterRule) (keepOriginalOnMatch : Bool) (columnMapping : List (String × Int))
    (hrules : rules ≠ []) (hnd : d.Columns.Nodup)
    (hwidth : ∀ row ∈ d.Rows, row.length = d.Columns.length) :
    ApplyFiltersCSV L (some d) rules keepOriginalOnMatch columnMapping =
      .ok { Columns := outputColumnsOf d.Columns (resolveFilterRules L rules d.Columns columnMapping)
            Rows := d.Rows.enum.flatMap fun pr =>
              emitRows L d.Columns
                (outputColumnsOf d.Columns (resolveFilterRules L rules d.Columns columnMapping))
                (resolveFilterRules L rules d.Columns columnMapping) keepOriginalOnMatch
                d.FileInfo.HeaderLine pr.1 pr.2
            FileInfo := d.FileInfo } ∧
    ∀ (pos : Nat) (row : List String), row ∈ d.Rows →
      (∀ sel, selectRule L (rowValueMap d.Columns row)
          (resolveFilterRules L rules d.Columns columnMapping) = some sel →
        sel ∈ resolveFilterRules L rules d.Columns columnMapping ∧
        ∃ n, IsStrength L (rowValueMap d.Columns row) sel n ∧
          ∀ r ∈ resolveFilterRules L rules d.Columns columnMapping, ∀ m,
            IsStrength L (rowValueMap d.Columns row) r m →
              m ≤ n ∧ (m = n → ¬ r.Name < sel.Name)) ∧
      ((∀ r ∈ resolveFilterRules L rules d.Columns columnMapping,
          ¬ ruleHits L (rowValueMap d.Columns row) r) →
        ∃ out, emitRows L d.Columns
            (outputColumnsOf d.Columns (resolveFilterRules L rules d.Columns columnMapping))
            (resolveFilterRules L rules d.Columns columnMapping) keepOriginalOnMatch
            d.FileInfo.HeaderLine pos row = [out] ∧
          ∀ (i : Nat) (c : String), d.Columns[i]? = some c → c ≠ "original_excel_row" →
            out[i]? = row[i]?) := by
  refine ⟨ApplyFiltersCSV_eq L d rules keepOriginalOnMatch columnMapping hrules, ?_⟩
  intro pos row hrow
  have hspec := selectRule_spec L (rowValueMap d.Columns row)
    (resolveFilterRules L rules d.Columns columnMapping)
    (fun r hr => resolveFilterRules_groups_ne_nil L rules d.Columns columnMapping r hr)
  refine ⟨hspec.2, ?_⟩
  intro hno
  have hnone := hspec.1.mpr hno
  obtain ⟨extra, hextra⟩ := outputColumnsOf_prefix d.Columns
    (resolveFilterRules L rules d.Columns columnMapping)
  refine ⟨appendOutputRow L
    (outputColumnsOf d.Columns (resolveFilterRules L rules d.Columns columnMapping))
    (pos + d.FileInfo.HeaderLine + 1) (rowValueMap d.Columns row) [] true, ?_, ?_⟩
  · unfold emitRows
    simp only [hnone]
  · intro i c hc hne
    rw [hextra]
    exact appendOutputRow_nil_getElem L d.Columns extra row _ hnd (hwidth row hrow) i c hc hne

/-- C3 (as amended) on the scenario-B rule and a row with PCI 5, which the rule does not hit:
one row is emitted and its PCI and RSRP cells are those of the input. -/
theorem ApplyFiltersCSV_applies_strongest_rule_witness :
    ([exampleRule] ≠ [] ∧ (exampleCSV "5").Columns.Nodup ∧
      ∀ row ∈ (exampleCSV "5").Rows, row.length = (exampleCSV "5").Columns.length) ∧
    ApplyFiltersCSV goLib (some (exampleCSV "5")) [exampleRule] true [] =
      .ok { Columns := ["PCI", "RSRP", "original_excel_row"]
            Rows := [["5", "-95", "1"]]
            FileInfo := (exampleCSV "5").FileInfo } ∧
    (∀ (pos : Nat) (row : List String), row ∈ (exampleCSV "5").Rows →
      (∀ sel, selectRule goLib (rowValueMap (exampleCSV "5").Columns row)
          (resolveFilterRules goLib [exampleRule] (exampleCSV "5").Columns []) = some sel →
        sel ∈ resolveFilterRules goLib [exampleRule] (exampleCSV "5").Columns [] ∧
        ∃ n, IsStrength goLib (rowValueMap (exampleCSV "5").Columns row) sel n ∧
          ∀ r ∈ resolveFilterRules goLib [exampleRule] (exampleCSV "5").Columns [], ∀ m,
            IsStrength goLib (rowValueMap (exampleCSV "5").Columns row) r m →
              m ≤ n ∧ (m = n → ¬ r.Name < sel.Name)) ∧
      ((∀ r ∈ resolveFilterRules goLib [exampleRule] (exampleCSV "5").Columns [],
          ¬ ruleHits goLib (rowValueMap (exampleCSV "5").Columns row) r) →
        ∃ out, emitRows goLib (exampleCSV "5").Columns
            (outputColumnsOf (exampleCSV "5").Columns
              (resolveFilterRules goLib [exampleRule] (exampleCSV "5").Columns []))
            (resolveFilterRules goLib [exampleRule] (exampleCSV "5").Columns []) true
            (exampleCSV "5").FileInfo.HeaderLine pos row = [out] ∧
          ∀ (i : Nat) (c : String), (exampleCSV "5").Columns[i]? = some c →
            c ≠ "original_excel_row" → out[i]? = row[i]?)) :=
  ⟨⟨by decide, by decide, by decide⟩, by with_unfolding_all decide,
   (ApplyFiltersCSV_applies_strongest_rule goLib (exampleCSV "5") [exampleRule] true []
     (by decide) (by decide) (by decide)).2⟩

/-- C3 as stated fails: on a dataset with a column named `original_excel_row` and a rule
that the row does not hit, the single emitted row holds the line number "1" where the
input row holds "77". -/
theorem ApplyFiltersCSV_applies_strongest_rule_counterexample :
    selectRule goLib (rowValueMap (exampleCSVWithRowColumn "5").Columns ["5", "77"])
      (resolveFilterRules goLib [exampleRule] (exampleCSVWithRowColumn "5").Columns []) = none ∧
    ApplyFiltersCSV goLib (some (exampleCSVWithRowColumn "5")) [exampleRule] false [] =
      .ok { Columns := ["PCI", "original_excel_row", "RSRP"]
            Rows := [["5", "1", ""]]
            FileInfo := (exampleCSVWithRowColumn "5").FileInfo } ∧
    (exampleCSVWithRowColumn "5").Rows = [["5", "77"]] ∧
    (exampleCSVWithRowColumn "5").Columns[1]? = some "original_excel_row" ∧
    (["5", "1", ""] : List String)[1]? ≠ (["5", "77"] : List String)[1]? :=
  ⟨by with_unfolding_all decide, by with_unfolding_all decide, by decide, by decide, by decide⟩

/-! ## C4: the rows emitted on a hit -/

theorem foldl_combinations (assignments : List (String × List ℚ)) (fs : List String)
    (init : List (List (String × ℚ))) (hnd : fs.Nodup)
    (hfresh : ∀ c ∈ init, ∀ f ∈ fs, f ∉ c.map Prod.fst) :
    fs.foldl (fun combinations field =>
        combinations.flatMap fun combo =>
          (mapGet assignments field []).map fun v => mapSet combo field v) init
      = init.flatMap fun c0 => (specCombinations assignments fs).map fun c => c0 ++ c := by
  induction fs generalizing init with
  | nil => simp [specCombinations]
  | cons f fs ih =>
    rw [List.nodup_cons] at hnd
    simp only [List.foldl_cons]
    have hstep : (init.flatMap fun combo =>
        (mapGet assignments f []).map fun v => mapSet combo f v)
        = init.flatMap fun combo => (mapGet assignments f []).map fun v => combo ++ [(f, v)] := by
      apply List.flatMap_congr
      intro combo hc
      apply List.map_congr_left
      intro v _
      exact mapSet_of_not_mem combo f v (hfresh combo hc f (List.mem_cons_self _ _))
    rw [hstep, ih _ hnd.2]
    · simp only [specCombinations, List.flatMap_assoc, List.map_flatMap, List.flatMap_map,
        List.map_map]
      apply List.flatMap_congr
      intro c0 _
      apply List.flatMap_congr
      intro v _
      apply List.map_congr_left
      intro c _
      simp
    · intro c hc f' hf'
      obtain ⟨c0, hc0, hcv⟩ := List.mem_flatMap.mp hc
      obtain ⟨v, -, rfl⟩ := List.mem_map.mp hcv
      simp only [List.map_append, List.map_cons, List.map_nil, List.mem_append,
        List.mem_singleton, not_or]
      refine ⟨hfresh c0 hc0 f' (List.mem_cons_of_mem _ hf'), ?_⟩
      intro e
      exact hnd.1 (e ▸ hf')

/-- The combinations built by the source are the Cartesian product of the specification,
enumerated over the field names in ascending order. -/
theorem buildAssignmentCombinations_eq (assignments : List (String × List ℚ))
    (hnd : (assignments.map Prod.fst).Nodup) :
    buildAssignmentCombinations assignments
      = specCombinations assignments (sortStrings (assignments.map Prod.fst)) := by
  unfold buildAssignmentCombinations
  split_ifs with h0
  · have : assignments = [] := List.length_eq_zero.mp h0
    subst this
    rfl
  · have hnd' : (sortStrings (assignments.map Prod.fst)).Nodup :=
      (sortSlice_perm _ _).nodup_iff.mpr hnd
    rw [foldl_combinations assignments _ [[]] hnd' (by simp)]
    simp

theorem specCombinations_length (assignments : List (String × List ℚ)) (fs : List String) :
    (specCombinations assignments fs).length
      = (fs.map fun f => (mapGet assignments f []).length).prod := by
  induction fs with
  | nil => simp [specCombinations]
  | cons f fs ih =>
    simp only [specCombinations, List.length_flatMap, List.length_map, List.map_cons,
      List.prod_cons]
    rw [← ih]
    simp [List.sum_const_nat, Function.comp_def]

theorem mapGet_of_mem_nodup (m : List (String × List ℚ)) (hnd : (m.map Prod.fst).Nodup)
    (kv : String × List ℚ) (hkv : kv ∈ m) : mapGet m kv.1 [] = kv.2 := by
  induction m with
  | nil => simp at hkv
  | cons kv0 rest ih =>
    obtain ⟨k0, v0⟩ := kv0
    simp only [List.map_cons, List.nodup_cons] at hnd
    unfold mapGet
    rcases List.mem_cons.mp hkv with rfl | hmem
    · simp
    · have hne : ¬ k0 = kv.1 := by
        intro e
        apply hnd.1
        rw [e]
        exact List.mem_map_of_mem Prod.fst hmem
      simp only [hne, if_false]
      exact ih hnd.2 hmem

/-- With one entry per field, the number of combinations is the product of the sizes of
the value lists. -/
theorem buildAssignmentCombinations_length (assignments : List (String × List ℚ))
    (hnd : (assignments.map Prod.fst).Nodup) :
    (buildAssignmentCombinations assignments).length
      = (assignments.map fun fv => fv.2.length).prod := by
  rw [buildAssignmentCombinations_eq assignments hnd, specCombinations_length]
  have hperm : (sortStrings (assignments.map Prod.fst)).Perm (assignments.map Prod.fst) :=
    sortSlice_perm _ _
  rw [(hperm.map _).prod_eq, List.map_map]
  congr 1
  apply List.map_congr_left
  intro kv hkv
  simp [mapGet_of_mem_nodup assignments hnd kv hkv]

theorem mergeAssignmentValues_nodup (resolved : List (String × List ℚ)) (field : String)
    (values : List ℚ) (h : (resolved.map Prod.fst).Nodup) :
    ((mergeAssignmentValues resolved field values).map Prod.fst).Nodup := by
  unfold mergeAssignmentValues
  induction values generalizing resolved with
  | nil => simpa using h
  | cons v rest ih =>
    simp only [List.foldl_cons]
    apply ih
    split_ifs
    · exact h
    · rw [mapSet_keys]
      split_ifs with hk
      · exact h
      · exact List.Nodup.append h (List.nodup_singleton _) (by simpa using hk)

theorem resolveAssignments_nodup (L : GoLib) (assignments : List (String × List ℚ))
    (columns : List String) (columnMapping : List (String × Int)) :
    ((resolveAssignments L assignments columns columnMapping).map Prod.fst).Nodup := by
  unfold resolveAssignments
  have : ∀ (acc : List (String × List ℚ)), (acc.map Prod.fst).Nodup →
      ((assignments.foldl (fun acc fv =>
        mergeAssignmentValues acc (resolveColumnName L fv.1 columns columnMapping) fv.2)
        acc).map Prod.fst).Nodup := by
    induction assignments with
    | nil => intro acc h; simpa using h
    | cons fv rest ih =>
      intro acc h
      simp only [List.foldl_cons]
      exact ih _ (mergeAssignmentValues_nodup acc _ _ h)
  exact this [] (by simp)

theorem resolveFilterRules_assignments_nodup (L : GoLib) (rules : List FilterRule)
    (columns : List String) (columnMapping : List (String × Int)) (r : FilterRule)
    (hr : r ∈ resolveFilterRules L rules columns columnMapping) :
    (r.Assignments.map Prod.fst).Nodup := by
  unfold resolveFilterRules at hr
  obtain ⟨rule, -, rfl⟩ := List.mem_map.mp hr
  exact resolveAssignments_nodup L _ _ _

theorem foldl_append_columns_nodup (fields : List (String × List ℚ)) (cols : List String)
    (h : cols.Nodup) :
    (fields.foldl (fun cols fv =>
      if indexOf cols fv.1 = -1 then cols ++ [fv.1] else cols) cols).Nodup := by
  induction fields generalizing cols with
  | nil => simpa using h
  | cons fv rest ih =>
    simp only [List.foldl_cons]
    apply ih
    split_ifs with hi
    · have hn := (indexOf_eq_neg_one cols fv.1).mp hi
      exact List.Nodup.append h (List.nodup_singleton _) (by simpa using hn)
    · exact h

/-- The output column names are pairwise distinct when the input column names are. -/
theorem outputColumnsOf_nodup (baseColumns : List String) (R : List FilterRule)
    (h : baseColumns.Nodup) : (outputColumnsOf baseColumns R).Nodup := by
  unfold outputColumnsOf
  have hstep : ∀ (R : List FilterRule) (cols : List String), cols.Nodup →
      (R.foldl (fun cols rule =>
        rule.Assignments.foldl (fun cols fv =>
          if indexOf cols fv.1 = -1 then cols ++ [fv.1] else cols) cols) cols).Nodup := by
    intro R
    induction R with
    | nil => intro cols hc; simpa using hc
    | cons r rest ih =>
      intro cols hc
      simp only [List.foldl_cons]
      exact ih _ (foldl_append_columns_nodup r.Assignments cols hc)
  apply hstep
  split_ifs with hi
  · have hn := (indexOf_eq_neg_one baseColumns "original_excel_row").mp hi
    exact List.Nodup.append h (List.nodup_singleton _) (by simpa using hn)
  · exact h

theorem specCombinations_keys (assignments : List (String × List ℚ)) (fs : List String)
    (c : List (String × ℚ)) (hc : c ∈ specCombinations assignments fs) :
    c.map Prod.fst = fs := by
  induction fs generalizing c with
  | nil => simp [specCombinations] at hc; subst hc; rfl
  | cons f fs ih =>
    simp only [specCombinations, List.mem_flatMap, List.mem_map] at hc
    obtain ⟨v, -, c', hc', rfl⟩ := hc
    simp [ih c' hc']

theorem foldl_setAt_getElem (L : GoLib) (oc : List String) (hoc : oc.Nodup)
    (combo : List (String × ℚ)) (r0 : List String) (j : Nat) (cj : String)
    (hj : oc[j]? = some cj) :
    (combo.foldl (fun out fv =>
        setAt out (indexOf oc fv.1) (normalizeIntLikeString L fv.2)) r0).length = r0.length ∧
    (cj ∉ combo.map Prod.fst →
      (combo.foldl (fun out fv =>
        setAt out (indexOf oc fv.1) (normalizeIntLikeString L fv.2)) r0)[j]? = r0[j]?) ∧
    ((combo.map Prod.fst).Nodup → j < r0.length → ∀ v, (cj, v) ∈ combo →
      (combo.foldl (fun out fv =>
        setAt out (indexOf oc fv.1) (normalizeIntLikeString L fv.2)) r0)[j]?
        = some (normalizeIntLikeString L v)) := by
  induction combo generalizing r0 with
  | nil => simp
  | cons fv rest ih =>
    obtain ⟨f, v0⟩ := fv
    simp only [List.foldl_cons]
    obtain ⟨h1, h2, h3⟩ := ih (setAt r0 (indexOf oc f) (normalizeIntLikeString L v0))
    refine ⟨by rw [h1, setAt_length], ?_, ?_⟩
    · intro hn
      simp only [List.map_cons, List.mem_cons, not_or] at hn
      rw [h2 hn.2]
      exact setAt_indexOf_getElem_ne oc r0 f _ cj j hj hn.1
    · intro hnd hlt v hv
      simp only [List.map_cons, List.nodup_cons] at hnd
      rcases List.mem_cons.mp hv with e | hv
      · simp only [Prod.mk.injEq] at e
        obtain ⟨rfl, rfl⟩ := e
        rw [h2 hnd.1]
        have hidx := indexOf_of_getElem_nodup oc hoc j cj hj
        unfold setAt
        rw [hidx]
        simp [hlt]
      · exact h3 hnd.2 (by rw [setAt_length]; exact hlt) v hv

/-- Cells of a row emitted for a combination: an assigned column holds the rendered
value, any other input column except `original_excel_row` holds the input cell. -/
theorem appendOutputRow_combo_getElem (L : GoLib) (columns extra row : List String)
    (rowNumber : Int) (combo : List (String × ℚ)) (hoc : (columns ++ extra).Nodup)
    (hlen : row.length = columns.length) (hkeys : (combo.map Prod.fst).Nodup)
    (j : Nat) (cj : String) (hj : (columns ++ extra)[j]? = some cj) :
    (∀ v, (cj, v) ∈ combo →
      (appendOutputRow L (columns ++ extra) rowNumber (rowValueMap columns row) combo true)[j]?
        = some (normalizeIntLikeString L v)) ∧
    (cj ∉ combo.map Prod.fst → cj ≠ "original_excel_row" → j < columns.length →
      (appendOutputRow L (columns ++ extra) rowNumber (rowValueMap columns row) combo true)[j]?
        = row[j]?) := by
  have hjlt : j < (columns ++ extra).length := (List.getElem?_eq_some.mp hj).1
  unfold appendOutputRow
  simp only [if_true]
  obtain ⟨-, h2, h3⟩ := foldl_setAt_getElem L (columns ++ extra) hoc combo
    (setAt (List.map (fun col => mapGet (rowValueMap columns row) col "") (columns ++ extra))
      (indexOf (columns ++ extra) "original_excel_row") (Itoa rowNumber)) j cj hj
  constructor
  · intro v hv
    exact h3 hkeys (by rw [setAt_length, List.length_map]; exact hjlt) v hv
  · intro hn hne hcol
    rw [h2 hn]
    have hnd : columns.Nodup := (List.nodup_append.mp hoc).1
    have hc : columns[j]? = some cj := by
      rw [List.getElem?_append_left hcol] at hj
      exact hj
    have := appendOutputRow_nil_getElem L columns extra row rowNumber hnd hlen j cj hc hne
    unfold appendOutputRow at this
    simpa using this

/-- C4 (as amended): for a dataset with unique column names and full-width rows, on an
input row for which a rule is selected the emitted rows are, in this order, the row
without assignments iff `keepOriginalOnMatch` is set, then one row per element of the
Cartesian product of the selected rule's value lists, fields in ascending name order, the
last field varying fastest and each field's values in listed order. In the row without
assignments every input field is unchanged except that of a column named
`original_excel_row`; in a combination row every assigned column holds the combination's
value, rendered as an integer when integral and within the range of `int64`, and every
other input column except `original_excel_row` holds the input cell.  An integral value
outside the range of `int64` is rendered as the result of its conversion to `int64`, the
smallest `int64`; a value that is not integral is rendered by `strconv.FormatFloat`.  The
row contributes (1 if `keepOriginalOnMatch` else 0) + product of the value-list sizes
output rows. -/
theorem ApplyFiltersCSV_emits_combinations (L : GoLib) (d : CSVData)
    (rules : List FilterRule) (keepOriginalOnMatch : Bool) (columnMapping : List (String × Int))
    (hrules : rules ≠ []) (hnd : d.Columns.Nodup)
    (hwidth : ∀ row ∈ d.Rows, row.length = d.Columns.length)
    (pos : Nat) (row : List String) (hrow : row ∈ d.Rows) (sel : FilterRule)
    (hsel : selectRule L (rowValueMap d.Columns row)
      (resolveFilterRules L rules d.Columns columnMapping) = some sel) :
    ApplyFiltersCSV L (some d) rules keepOriginalOnMatch columnMapping =
      .ok { Columns := outputColumnsOf d.Columns (resolveFilterRules L rules d.Columns columnMapping)
            Rows := d.Rows.enum.flatMap fun pr =>
              emitRows L d.Columns
                (outputColumnsOf d.Columns (resolveFilterRules L rules d.Columns columnMapping))
                (resolveFilterRules L rules d.Columns columnMapping) keepOriginalOnMatch
                d.FileInfo.HeaderLine pr.1 pr.2
            FileInfo := d.FileInfo } ∧
    emitRows L d.Columns
        (outputColumnsOf d.Columns (resolveFilterRules L rules d.Columns columnMapping))
        (resolveFilterRules L rules d.Columns columnMapping) keepOriginalOnMatch
        d.FileInfo.HeaderLine pos row
      = (if keepOriginalOnMatch then
          [appendOutputRow L
            (outputColumnsOf d.Columns (resolveFilterRules L rules d.Columns columnMapping))
            (pos + d.FileInfo.HeaderLine + 1) (rowValueMap d.Columns row) [] true]
         else []) ++
        (specCombinations sel.Assignments (sortStrings (sel.Assignments.map Prod.fst))).map
          (fun combo => appendOutputRow L
            (outputColumnsOf d.Columns (resolveFilterRules L rules d.Columns columnMapping))
            (pos + d.FileInfo.HeaderLine + 1) (rowValueMap d.Columns row) combo true) ∧
    (∀ (i : Nat) (c : String), d.Columns[i]? = some c → c ≠ "original_excel_row" →
      (appendOutputRow L
        (outputColumnsOf d.Columns (resolveFilterRules L rules d.Columns columnMapping))
        (pos + d.FileInfo.HeaderLine + 1) (rowValueMap d.Columns row) [] true)[i]? = row[i]?) ∧
    (∀ combo ∈ specCombinations sel.Assignments (sortStrings (sel.Assignments.map Prod.fst)),
      ∀ (j : Nat) (cj : String),
        (outputColumnsOf d.Columns (resolveFilterRules L rules d.Columns columnMapping))[j]?
          = some cj →
        (∀ v, (cj, v) ∈ combo →
          (appendOutputRow L
            (outputColumnsOf d.Columns (resolveFilterRules L rules d.Columns columnMapping))
            (pos + d.FileInfo.HeaderLine + 1) (rowValueMap d.Columns row) combo true)[j]?
            = some (normalizeIntLikeString L v)) ∧
        (cj ∉ combo.map Prod.fst → cj ≠ "original_excel_row" → j < d.Columns.length →
          (appendOutputRow L
            (outputColumnsOf d.Columns (resolveFilterRules L rules d.Columns columnMapping))
            (pos + d.FileInfo.HeaderLine + 1) (rowValueMap d.Columns row) combo true)[j]?
            = row[j]?)) ∧
    (emitRows L d.Columns
        (outputColumnsOf d.Columns (resolveFilterRules L rules d.Columns columnMapping))
        (resolveFilterRules L rules d.Columns columnMapping) keepOriginalOnMatch
        d.FileInfo.HeaderLine pos row).length
      = (if keepOriginalOnMatch then 1 else 0)
        + (sel.Assignments.map fun fv => fv.2.length).prod ∧
    (∀ n : Int, -9223372036854775808 ≤ n → n ≤ 9223372036854775807 →
      normalizeIntLikeString L (n : ℚ) = Itoa n) ∧
    (∀ n : Int, n < -9223372036854775808 ∨ 9223372036854775807 < n →
      normalizeIntLikeString L (n : ℚ) = Itoa (-9223372036854775808)) ∧
    (∀ v : ℚ, v.den ≠ 1 → normalizeIntLikeString L v = L.FormatFloat v) := by
  have hspec := selectRule_spec L (rowValueMap d.Columns row)
    (resolveFilterRules L rules d.Columns columnMapping)
    (fun r hr => resolveFilterRules_groups_ne_nil L rules d.Columns columnMapping r hr)
  have hselR := (hspec.2 sel hsel).1
  have hkeys := resolveFilterRules_assignments_nodup L rules d.Columns columnMapping sel hselR
  obtain ⟨extra, hextra⟩ := outputColumnsOf_prefix d.Columns
    (resolveFilterRules L rules d.Columns columnMapping)
  have hocnd := outputColumnsOf_nodup d.Columns
    (resolveFilterRules L rules d.Columns columnMapping) hnd
  have hemit : emitRows L d.Columns
        (outputColumnsOf d.Columns (resolveFilterRules L rules d.Columns columnMapping))
        (resolveFilterRules L rules d.Columns columnMapping) keepOriginalOnMatch
        d.FileInfo.HeaderLine pos row
      = (if keepOriginalOnMatch then
          [appendOutputRow L
            (outputColumnsOf d.Columns (resolveFilterRules L rules d.Columns columnMapping))
            (pos + d.FileInfo.HeaderLine + 1) (rowValueMap d.Columns row) [] true]
         else []) ++
        (specCombinations sel.Assignments (sortStrings (sel.Assignments.map Prod.fst))).map
          (fun combo => appendOutputRow L
            (outputColumnsOf d.Columns (resolveFilterRules L rules d.Columns columnMapping))
            (pos + d.FileInfo.HeaderLine + 1) (rowValueMap d.Columns row) combo true) := by
    unfold emitRows
    simp only [hsel]
    rw [buildAssignmentCombinations_eq sel.Assignments hkeys]
  refine ⟨ApplyFiltersCSV_eq L d rules keepOriginalOnMatch columnMapping hrules, hemit, ?_, ?_,
    ?_, ?_, ?_, ?_⟩
  · intro i c hc hne
    rw [hextra]
    exact appendOutputRow_nil_getElem L d.Columns extra row _ hnd (hwidth row hrow) i c hc hne
  · intro combo hcombo j cj hj
    have hck : (combo.map Prod.fst).Nodup := by
      rw [specCombinations_keys _ _ combo hcombo]
      exact (sortSlice_perm _ _).nodup_iff.mpr hkeys
    rw [hextra] at hj hocnd ⊢
    exact appendOutputRow_combo_getElem L d.Columns extra row _ combo hocnd (hwidth row hrow)
      hck j cj hj
  · rw [hemit, List.length_append, List.length_map,
      ← buildAssignmentCombinations_eq sel.Assignments hkeys,
      buildAssignmentCombinations_length sel.Assignments hkeys]
    cases keepOriginalOnMatch <;> simp
  · intro n h1 h2
    unfold normalizeIntLikeString int64OfIntegral
    simp only [Rat.intCast_den, if_true, Rat.intCast_num]
    rw [if_pos ⟨h1, h2⟩]
  · intro n h
    unfold normalizeIntLikeString int64OfIntegral
    simp only [Rat.intCast_den, if_true, Rat.intCast_num]
    rw [if_neg (by omega)]
  · intro v hv
    unfold normalizeIntLikeString
    rw [if_neg hv]

/-- C4 (as amended) on scenario B: the rule `"RSRP"=-80;("PCI"=10-20)` applied with
`keepOriginalOnMatch` to a row with PCI 15 yields the original row and one row whose
RSRP is "-80". -/
theorem ApplyFiltersCSV_emits_combinations_witness :
    ApplyFiltersCSV goLib (some (exampleCSV "15")) [exampleRule] true [] =
      .ok { Columns := ["PCI", "RSRP", "original_excel_row"]
            Rows := [["15", "-95", "1"], ["15", "-80", "1"]]
            FileInfo := (exampleCSV "15").FileInfo } ∧
    (emitRows goLib (exampleCSV "15").Columns
        (outputColumnsOf (exampleCSV "15").Columns
          (resolveFilterRules goLib [exampleRule] (exampleCSV "15").Columns []))
        (resolveFilterRules goLib [exampleRule] (exampleCSV "15").Columns []) true
        (exampleCSV "15").FileInfo.HeaderLine 0 ["15", "-95"]).length
      = (if true then 1 else 0) + (exampleRule.Assignments.map fun fv => fv.2.length).prod :=
  ⟨by with_unfolding_all decide,
   (ApplyFiltersCSV_emits_combinations goLib (exampleCSV "15") [exampleRule] true []
     (by decide) (by decide) (by decide) 0 ["15", "-95"] (by decide) exampleRule
     (by with_unfolding_all decide)).2.2.2.2.1⟩

/-- C4 as stated fails: on a dataset with a column named `original_excel_row`, the row
emitted as the original and the combination row hold the line number "1" where the input
row holds "77". -/
theorem ApplyFiltersCSV_emits_combinations_counterexample :
    selectRule goLib (rowValueMap (exampleCSVWithRowColumn "15").Columns ["15", "77"])
      (resolveFilterRules goLib [exampleRule] (exampleCSVWithRowColumn "15").Columns [])
      = some exampleRule ∧
    ApplyFiltersCSV goLib (some (exampleCSVWithRowColumn "15")) [exampleRule] true [] =
      .ok { Columns := ["PCI", "original_excel_row", "RSRP"]
            Rows := [["15", "1", ""], ["15", "1", "-80"]]
            FileInfo := (exampleCSVWithRowColumn "15").FileInfo } ∧
    (exampleCSVWithRowColumn "15").Rows = [["15", "77"]] ∧
    (exampleCSVWithRowColumn "15").Columns[1]? = some "original_excel_row" ∧
    (["15", "1", ""] : List String)[1]? ≠ (["15", "77"] : List String)[1]? ∧
    (["15", "1", "-80"] : List String)[1]? ≠ (["15", "77"] : List String)[1]? :=
  ⟨by with_unfolding_all decide, by with_unfolding_all decide, by decide, by decide, by decide,
   by decide⟩

/-! ## Conditions and groups, for cells that are finite numbers -/

theorem dropWhile_isSpace_map_comma (cs : List Char) :
    (cs.map fun c => if c = ',' then '.' else c).dropWhile isSpace
      = (cs.dropWhile isSpace).map fun c => if c = ',' then '.' else c := by
  induction cs with
  | nil => rfl
  | cons c cs ih =>
    by_cases hc : c = ','
    · subst hc
      have h1 : isSpace ',' = false := by decide
      have h2 : isSpace '.' = false := by decide
      simp [List.dropWhile, h1, h2]
    · simp only [List.map_cons, hc, if_false, List.dropWhile]
      cases isSpace c
      · simp [hc]
      · simpa using ih

theorem TrimSpace_commaToDot (s : String) :
    TrimSpace (commaToDot s) = commaToDot (TrimSpace s) := by
  unfold TrimSpace commaToDot
  congr 1
  simp only
  rw [dropWhile_isSpace_map_comma, ← List.map_reverse, dropWhile_isSpace_map_comma,
    List.map_reverse]

theorem commaToDot_idem (s : String) : commaToDot (commaToDot s) = commaToDot s := by
  unfold commaToDot
  congr 1
  simp only [List.map_map]
  apply List.map_congr_left
  intro c _
  by_cases hc : c = ','
  · simp [hc]
  · simp [hc]

theorem commaToDot_eq_empty (s : String) : commaToDot s = "" ↔ s = "" := by
  unfold commaToDot
  constructor
  · intro h
    have h2 := congrArg String.data h
    simp only [List.map_eq_nil_iff] at h2
    exact String.ext h2
  · intro h
    subst h
    rfl

/-- A comma is read as the decimal separator. -/
theorem parseNumberString_commaToDot (L : GoLib) (raw : String) :
    parseNumberString L (commaToDot raw) = parseNumberString L raw := by
  unfold parseNumberString
  simp only [TrimSpace_commaToDot, commaToDot_eq_empty, commaToDot_idem]

theorem rowMatchesGroup_cons (L : GoLib) (row : List (String × String)) (cond : Condition)
    (rest : List Condition) :
    rowMatchesGroup L row (cond :: rest)
      = (rowMatchesGroup L row [cond] && rowMatchesGroup L row rest) := by
  simp only [rowMatchesGroup]
  split
  · simp
  · split
    · simp
    · split_ifs <;> simp

/-- Conditions on cells whose value is a finite number (the model over the rationals has no
NaN): a condition on a cell that parses to the number `v` is satisfied iff `v = low`
(Equality), iff `low <= v < high` (Range with `low < high`), iff `v = low` (Range with
`low = high`); a condition on a column that the row does not have, or whose cell is not a
number, is never satisfied; a group is satisfied iff all its conditions are; and a comma
in a cell is read as the decimal separator. -/
theorem rowMatchesGroup_semantics (L : GoLib) (row : List (String × String)) :
    (∀ (cond : Condition) (raw : String) (v : ℚ), mapFind row cond.Field = some raw →
      parseNumberString L raw = some v →
      (cond.Kind = ConditionEq → (rowMatchesGroup L row [cond] = true ↔ v = cond.Low)) ∧
      (cond.Kind = ConditionRange → cond.Low < cond.High →
        (rowMatchesGroup L row [cond] = true ↔ cond.Low ≤ v ∧ v < cond.High)) ∧
      (cond.Kind = ConditionRange → cond.Low = cond.High →
        (rowMatchesGroup L row [cond] = true ↔ v = cond.Low))) ∧
    (∀ cond : Condition, mapFind row cond.Field = none →
      rowMatchesGroup L row [cond] = false) ∧
    (∀ (columns cells : List String) (cond : Condition), cond.Field ∉ columns →
      rowMatchesGroup L (rowValueMap columns cells) [cond] = false) ∧
    (∀ (cond : Condition) (raw : String), mapFind row cond.Field = some raw →
      parseNumberString L raw = none → rowMatchesGroup L row [cond] = false) ∧
    (∀ group : List Condition, rowMatchesGroup L row group = true ↔
      ∀ cond ∈ group, rowMatchesGroup L row [cond] = true) ∧
    (∀ raw : String, parseNumberString L (commaToDot raw) = parseNumberString L raw) := by
  have hne : ConditionRange ≠ ConditionEq := by decide
  refine ⟨?_, ?_, ?_, ?_, ?_, parseNumberString_commaToDot L⟩
  · intro cond raw v hraw hv
    refine ⟨?_, ?_, ?_⟩
    · intro hk
      simp [rowMatchesGroup, hraw, hv, hk]
    · intro hk hlt
      have hlh : ¬ cond.Low = cond.High := ne_of_lt hlt
      simp only [rowMatchesGroup, hraw, hv, hk, hne, if_false, if_true, hlh]
      by_cases hc : v < cond.Low ∨ v ≥ cond.High
      · simp only [hc, if_true, Bool.false_eq_true, false_iff, not_and, not_lt]
        intro hle
        rcases hc with hc | hc
        · exact absurd hle (not_le.mpr hc)
        · exact hc
      · simp only [hc, if_false, true_iff]
        simp only [not_or, not_lt, ge_iff_le, not_le] at hc
        exact hc
    · intro hk heq
      simp [rowMatchesGroup, hraw, hv, hk, hne, heq]
  · intro cond hnone
    simp [rowMatchesGroup, hnone]
  · intro columns cells cond hf
    simp [rowMatchesGroup, mapFind_rowValueMap_none columns cells cond.Field hf]
  · intro cond raw hraw hv
    simp [rowMatchesGroup, hraw, hv]
  · intro group
    induction group with
    | nil => simp [rowMatchesGroup]
    | cons cond rest ih =>
      rw [rowMatchesGroup_cons, Bool.and_eq_true, ih]
      simp

/-- Conditions on examples: the range 10-20 holds for the cells "15" and "10", fails for "20" and
for a non-numeric cell, and the cell "1,5" is the number 3/2. -/
theorem rowMatchesGroup_examples :
    rowMatchesGroup goLib [("PCI", "15")] [⟨"PCI", ConditionRange, 10, 20⟩] = true ∧
    rowMatchesGroup goLib [("PCI", "10")] [⟨"PCI", ConditionRange, 10, 20⟩] = true ∧
    rowMatchesGroup goLib [("PCI", "20")] [⟨"PCI", ConditionRange, 10, 20⟩] = false ∧
    rowMatchesGroup goLib [("PCI", "abc")] [⟨"PCI", ConditionRange, 10, 20⟩] = false ∧
    rowMatchesGroup goLib [("PCI", "15")] [⟨"RSRP", ConditionRange, 10, 20⟩] = false ∧
    parseNumberString goLib "1,5" = some (3 / 2) := by
  refine ⟨?_, ?_, ?_, ?_, ?_, ?_⟩ <;> with_unfolding_all decide

/-! ## C6: filtering without rules -/

theorem CSVData.clone_eq (d : CSVData) : d.clone = d := by
  cases d
  simp [CSVData.clone]

/-- C6: with an empty rule list `ApplyFiltersCSV` succeeds and returns a dataset equal to
its input — same columns, same rows in the same order, same source info — for both values
of `keepOriginalOnMatch` and every column mapping. -/
theorem ApplyFiltersCSV_no_rules (L : GoLib) (d : CSVData) (keepOriginalOnMatch : Bool)
    (columnMapping : List (String × Int)) :
    ApplyFiltersCSV L (some d) [] keepOriginalOnMatch columnMapping = .ok d := by
  simp [ApplyFiltersCSV, CSVData.clone_eq]

/-- C6 on an example: the dataset comes back unchanged, without an `original_excel_row`
column. -/
theorem ApplyFiltersCSV_no_rules_example :
    ApplyFiltersCSV goLib (some (exampleCSV "15")) [] true [("pci", 0)]
      = .ok { Columns := ["PCI", "RSRP"], Rows := [["15", "-95"]],
              FileInfo := ⟨"utf-8", 0, "PCI;RSRP"⟩ } := by
  with_unfolding_all decide

/-! ## C7: dependence on the enumeration order of the assignment map -/

/-- C7 fails on the code: one rule whose assignment map has the entries `X -> [1]` and
`Y -> [2]`, enumerated in the two possible orders, yields different output columns (and
rows); and a map with the entries `RSRP -> [1]` and `rsrp -> [2]`, which resolve to the
same column, yields the combination rows in different orders. -/
theorem ApplyFiltersCSV_depends_on_map_enumeration :
    List.Perm [("X", [(1 : ℚ)]), ("Y", [2])] [("Y", [2]), ("X", [1])] ∧
    ApplyFiltersCSV goLib (some (exampleCSV "15"))
        [exampleRuleTwoFields [("X", [1]), ("Y", [2])]] false [] =
      .ok { Columns := ["PCI", "RSRP", "original_excel_row", "X", "Y"]
            Rows := [["15", "-95", "1", "1", "2"]]
            FileInfo := (exampleCSV "15").FileInfo } ∧
    ApplyFiltersCSV goLib (some (exampleCSV "15"))
        [exampleRuleTwoFields [("Y", [2]), ("X", [1])]] false [] =
      .ok { Columns := ["PCI", "RSRP", "original_excel_row", "Y", "X"]
            Rows := [["15", "-95", "1", "2", "1"]]
            FileInfo := (exampleCSV "15").FileInfo } ∧
    ApplyFiltersCSV goLib (some (exampleCSV "15"))
        [exampleRuleTwoFields [("RSRP", [1]), ("rsrp", [2])]] false [] =
      .ok { Columns := ["PCI", "RSRP", "original_excel_row"]
            Rows := [["15", "1", "1"], ["15", "2", "1"]]
            FileInfo := (exampleCSV "15").FileInfo } ∧
    ApplyFiltersCSV goLib (some (exampleCSV "15"))
        [exampleRuleTwoFields [("rsrp", [2]), ("RSRP", [1])]] false [] =
      .ok { Columns := ["PCI", "RSRP", "original_excel_row"]
            Rows := [["15", "2", "1"], ["15", "1", "1"]]
            FileInfo := (exampleCSV "15").FileInfo } := by
  refine ⟨by decide, ?_, ?_, ?_, ?_⟩ <;> with_unfolding_all decide

/-! ## C8: the sorted lookup answers like a direct scan -/

/-- Binary search on a predicate that is monotone on `[0, n)` returns the boundary between
its `false` and its `true` indices. -/
theorem sortSearchLoop_spec (f : Nat → Bool) (n : Nat)
    (hmono : ∀ a b, a ≤ b → b < n → f a = true → f b = true) :
    ∀ (d i j : Nat), j - i = d → i ≤ j → j ≤ n → (∀ k, k < i → f k = false) →
      (∀ k, j ≤ k → k < n → f k = true) →
      i ≤ sortSearchLoop f i j ∧ sortSearchLoop f i j ≤ j ∧
        (∀ k, k < sortSearchLoop f i j → f k = false) ∧
        (∀ k, sortSearchLoop f i j ≤ k → k < n → f k = true) := by
  intro d
  induction d using Nat.strong_induction_on with
  | _ d ih =>
    intro i j hd hij hjn hlo hhi
    rw [sortSearchLoop]
    by_cases hlt : i < j
    · simp only [hlt, if_true]
      have hm1 : i ≤ (i + j) / 2 := by omega
      have hm2 : (i + j) / 2 < j := by omega
      cases hf : f ((i + j) / 2) with
      | false =>
        simp only [Bool.not_false, if_true]
        have hlo' : ∀ k, k < (i + j) / 2 + 1 → f k = false := by
          intro k hk
          cases hfk : f k with
          | false => rfl
          | true =>
            have := hmono k ((i + j) / 2) (by omega) (by omega) hfk
            rw [hf] at this
            cases this
        obtain ⟨h1, h2, h3, h4⟩ := ih (j - ((i + j) / 2 + 1)) (by omega) ((i + j) / 2 + 1) j rfl
          (by omega) hjn hlo' hhi
        exact ⟨by omega, h2, h3, h4⟩
      | true =>
        simp only [Bool.not_true, Bool.false_eq_true, if_false]
        have hhi' : ∀ k, (i + j) / 2 ≤ k → k < n → f k = true := by
          intro k hk hkn
          exact hmono ((i + j) / 2) k hk hkn hf
        obtain ⟨h1, h2, h3, h4⟩ := ih ((i + j) / 2 - i) (by omega) i ((i + j) / 2) rfl
          hm1 (by omega) hlo hhi'
        exact ⟨h1, by omega, h3, h4⟩
    · simp only [hlt, if_false]
      have : i = j := by omega
      subst this
      exact ⟨le_refl _, le_refl _, hlo, hhi⟩

theorem sortSearch_spec (f : Nat → Bool) (n : Nat)
    (hmono : ∀ a b, a ≤ b → b < n → f a = true → f b = true) :
    sortSearch n f ≤ n ∧ (∀ k, k < sortSearch n f → f k = false) ∧
      (∀ k, sortSearch n f ≤ k → k < n → f k = true) := by
  obtain ⟨-, h2, h3, h4⟩ := sortSearchLoop_spec f n hmono n 0 n rfl (Nat.zero_le _) (le_refl _)
    (by intro k hk; omega) (by intro k hk hkn; omega)
  exact ⟨h2, h3, h4⟩

theorem prefixFrom_getD (p : Int → Bool) (acc : Int) (l : List Int) (k : Nat)
    (hk : k ≤ l.length) :
    (prefixFrom p acc l).getD k 0 = acc + ((l.take k).countP p : Int) := by
  induction l generalizing acc k with
  | nil =>
    have : k = 0 := by simpa using hk
    subst this
    simp [prefixFrom]
  | cons s rest ih =>
    cases k with
    | zero => simp [prefixFrom]
    | succ k =>
      simp only [prefixFrom, List.getD_cons_succ, List.take_succ_cons]
      rw [ih _ k (by simpa using hk), List.countP_cons]
      split_ifs
      · push_cast
        omega
      · simp

theorem mem_drop_take_iff {α : Type} (l : List α) (s r : Nat) (a : α) :
    a ∈ (l.take r).drop s ↔ ∃ k, s ≤ k ∧ k < r ∧ l[k]? = some a := by
  rw [List.mem_iff_getElem?]
  constructor
  · rintro ⟨i, hi⟩
    rw [List.getElem?_drop, List.getElem?_take] at hi
    split_ifs at hi with h
    · exact ⟨s + i, by omega, h, hi⟩
  · rintro ⟨k, hsk, hkr, hk⟩
    refine ⟨k - s, ?_⟩
    rw [List.getElem?_drop, List.getElem?_take]
    have : s + (k - s) = k := by omega
    rw [this, if_pos hkr]
    exact hk

/-- Difference of two prefix counts: it is positive iff a score between the two positions
satisfies the predicate. -/
theorem prefixFrom_diff_pos (p : Int → Bool) (scores : List Int) (left right : Nat)
    (hlr : left ≤ right) (hr : right ≤ scores.length) :
    (prefixFrom p 0 scores).getD right 0 - (prefixFrom p 0 scores).getD left 0 > 0 ↔
      ∃ k, left ≤ k ∧ k < right ∧ ∃ s, scores[k]? = some s ∧ p s = true := by
  rw [prefixFrom_getD p 0 scores right hr, prefixFrom_getD p 0 scores left (by omega)]
  have hsplit : scores.take right = scores.take left ++ (scores.take right).drop left := by
    have h1 : (scores.take right).take left = scores.take left := by
      rw [List.take_take, min_eq_left hlr]
    rw [← h1]
    exact (List.take_append_drop left (scores.take right)).symm
  have hc : (scores.take right).countP p
      = (scores.take left).countP p + ((scores.take right).drop left).countP p := by
    conv_lhs => rw [hsplit]
    rw [List.countP_append]
  rw [hc]
  push_cast
  have hpos : (0 + ((scores.take left).countP p + ((scores.take right).drop left).countP p : Int)
      - (0 + ((scores.take left).countP p : Int)) > 0) ↔
      0 < ((scores.take right).drop left).countP p := by
    constructor <;> intro h <;> omega
  rw [hpos, List.countP_pos_iff]
  constructor
  · rintro ⟨s, hs, hps⟩
    obtain ⟨k, h1, h2, h3⟩ := (mem_drop_take_iff scores left right s).mp hs
    exact ⟨k, h1, h2, s, h3, hps⟩
  · rintro ⟨k, h1, h2, s, h3, hps⟩
    exact ⟨s, (mem_drop_take_iff scores left right s).mpr ⟨k, h1, h2, h3⟩, hps⟩

theorem getD_map_fst (P : List (Int × Int)) (k : Nat) (row : Int × Int)
    (hk : P[k]? = some row) : (P.map Prod.fst).getD k 0 = row.1 := by
  simp [List.getD_eq_getElem?_getD, List.getElem?_map, hk]

theorem sorted_getD_mono (P : List (Int × Int)) (hs : (P.map Prod.fst).Pairwise (· ≤ ·))
    (a b : Nat) (hab : a ≤ b) (hb : b < P.length) :
    (P.map Prod.fst).getD a 0 ≤ (P.map Prod.fst).getD b 0 := by
  rcases Nat.eq_or_lt_of_le hab with e | hlt
  · rw [e]
  · have ha : a < (P.map Prod.fst).length := by simp; omega
    have hb' : b < (P.map Prod.fst).length := by simp; omega
    have := (List.pairwise_iff_getElem.mp hs) a b ha hb' hlt
    simpa [List.getD_eq_getElem?_getD, List.getElem?_eq_getElem ha,
      List.getElem?_eq_getElem hb'] using this

/-- On a lookup whose rows are sorted by time, `resolveWindowScore` answers like a direct
scan of the rows in the window. -/
theorem resolveWindowScore_sorted (P : List (Int × Int))
    (hs : (P.map Prod.fst).Pairwise (· ≤ ·)) (t w : Int) :
    ((resolveWindowScore ⟨P.map Prod.fst, prefixFrom (fun score => score == 2) 0 (P.map Prod.snd),
        prefixFrom (fun score => score != 2 && score == 1) 0 (P.map Prod.snd)⟩ t w).1 = 2 ↔
      windowHolds P t w 2) ∧
    ((resolveWindowScore ⟨P.map Prod.fst, prefixFrom (fun score => score == 2) 0 (P.map Prod.snd),
        prefixFrom (fun score => score != 2 && score == 1) 0 (P.map Prod.snd)⟩ t w).1 = 1 ↔
      ¬ windowHolds P t w 2 ∧ windowHolds P t w 1) ∧
    ((resolveWindowScore ⟨P.map Prod.fst, prefixFrom (fun score => score == 2) 0 (P.map Prod.snd),
        prefixFrom (fun score => score != 2 && score == 1) 0 (P.map Prod.snd)⟩ t w).2.2 = true ↔
      windowHolds P t w 2 ∧ windowHolds P t w 1) ∧
    ((resolveWindowScore ⟨P.map Prod.fst, prefixFrom (fun score => score == 2) 0 (P.map Prod.snd),
        prefixFrom (fun score => score != 2 && score == 1) 0 (P.map Prod.snd)⟩ t w).2.1 = true ↔
      ∃ row ∈ P, inWindow t w row) := by
  unfold resolveWindowScore
  simp only [List.length_map]
  by_cases hn : P.length = 0
  · have : P = [] := List.length_eq_zero.mp hn
    subst this
    simp [windowHolds]
  simp only [hn, if_false]
  have hmonoL : ∀ a b, a ≤ b → b < P.length →
      decide ((P.map Prod.fst).getD a 0 ≥ t - w) = true →
      decide ((P.map Prod.fst).getD b 0 ≥ t - w) = true := by
    intro a b hab hb h
    have := sorted_getD_mono P hs a b hab hb
    simp only [decide_eq_true_eq, ge_iff_le] at h ⊢
    omega
  have hmonoR : ∀ a b, a ≤ b → b < P.length →
      decide ((P.map Prod.fst).getD a 0 > t + w) = true →
      decide ((P.map Prod.fst).getD b 0 > t + w) = true := by
    intro a b hab hb h
    have := sorted_getD_mono P hs a b hab hb
    simp only [decide_eq_true_eq, gt_iff_lt] at h ⊢
    omega
  obtain ⟨hl1, hl2, hl3⟩ := sortSearch_spec _ P.length hmonoL
  obtain ⟨hr1, hr2, hr3⟩ := sortSearch_spec _ P.length hmonoR
  generalize hleft : sortSearch P.length
    (fun i => decide ((P.map Prod.fst).getD i 0 ≥ t - w)) = left at hl1 hl2 hl3 ⊢
  generalize hright : sortSearch P.length
    (fun i => decide ((P.map Prod.fst).getD i 0 > t + w)) = right at hr1 hr2 hr3 ⊢
  have hin : ∀ (k : Nat) (row : Int × Int), P[k]? = some row →
      (inWindow t w row ↔ left ≤ k ∧ k < right) := by
    intro k row hk
    have hkn : k < P.length := (List.getElem?_eq_some.mp hk).1
    have hg := getD_map_fst P k row hk
    unfold inWindow
    constructor
    · rintro ⟨h1, h2⟩
      constructor
      · by_contra hc
        have := hl2 k (by omega)
        simp only [decide_eq_false_iff_not, ge_iff_le, not_le] at this
        omega
      · by_contra hc
        have := hr3 k (by omega) hkn
        simp only [decide_eq_true_eq, gt_iff_lt] at this
        omega
    · rintro ⟨h1, h2⟩
      have a1 := hl3 k h1 hkn
      have a2 := hr2 k h2
      simp only [decide_eq_true_eq, ge_iff_le] at a1
      simp only [decide_eq_false_iff_not, gt_iff_lt, not_lt] at a2
      omega
  have hwin : ∀ (p : Int → Bool) (score : Int), (∀ s, p s = true ↔ s = score) → left ≤ right →
      ((prefixFrom p 0 (P.map Prod.snd)).getD right 0
        - (prefixFrom p 0 (P.map Prod.snd)).getD left 0 > 0 ↔ windowHolds P t w score) := by
    intro p score hp hlr
    rw [prefixFrom_diff_pos p (P.map Prod.snd) left right hlr (by simpa using hr1)]
    unfold windowHolds
    constructor
    · rintro ⟨k, h1, h2, s, hk, hps⟩
      rw [List.getElem?_map] at hk
      cases hrow : P[k]? with
      | none => rw [hrow] at hk; cases hk
      | some row =>
        rw [hrow] at hk
        simp only [Option.map_some', Option.some.injEq] at hk
        refine ⟨row, List.mem_iff_getElem?.mpr ⟨k, hrow⟩, (hin k row hrow).mpr ⟨h1, h2⟩, ?_⟩
        rw [hk]
        exact (hp s).mp hps
    · rintro ⟨row, hmem, hw, hsc⟩
      obtain ⟨k, hk⟩ := List.mem_iff_getElem?.mp hmem
      obtain ⟨h1, h2⟩ := (hin k row hk).mp hw
      refine ⟨k, h1, h2, row.2, ?_, (hp row.2).mpr hsc⟩
      rw [List.getElem?_map, hk]
      rfl
  have hpy : ∀ s : Int, (s == 2) = true ↔ s = 2 := by intro s; simp
  have hpn : ∀ s : Int, (s != 2 && s == 1) = true ↔ s = 1 := by
    intro s
    simp only [Bool.and_eq_true, bne_iff_ne, ne_eq, beq_iff_eq]
    constructor
    · exact fun h => h.2
    · intro h; subst h; exact ⟨by decide, rfl⟩
  by_cases hrl : right ≤ left
  · simp only [hrl, if_true]
    have hnone : ∀ row ∈ P, ¬ inWindow t w row := by
      intro row hmem hw
      obtain ⟨k, hk⟩ := List.mem_iff_getElem?.mp hmem
      have := (hin k row hk).mp hw
      omega
    have hno : ∀ score, ¬ windowHolds P t w score := by
      rintro score ⟨row, hmem, hw, -⟩
      exact hnone row hmem hw
    refine ⟨?_, ?_, ?_, ?_⟩
    · simp [hno 2]
    · simp [hno 1]
    · simp [hno 2]
    · simp only [Bool.false_eq_true, false_iff, not_exists, not_and]
      exact hnone
  · simp only [hrl, if_false]
    have hlr : left ≤ right := by omega
    have hY := hwin _ 2 hpy hlr
    have hN := hwin _ 1 hpn hlr
    have hsome : ∃ row ∈ P, inWindow t w row := by
      have hlt : left < P.length := by omega
      refine ⟨P[left], List.getElem_mem hlt, ?_⟩
      exact (hin left P[left] (List.getElem?_eq_getElem hlt)).mpr ⟨le_refl _, by omega⟩
    by_cases hy : (prefixFrom (fun score => score == 2) 0 (P.map Prod.snd)).getD right 0
        - (prefixFrom (fun score => score == 2) 0 (P.map Prod.snd)).getD left 0 > 0
    · have hy2 := hY.mp hy
      simp only [hy, if_true, true_and, decide_eq_true_eq]
      refine ⟨by simp [hy2], by simp [hy2], ?_, by simp [hsome]⟩
      rw [hN]
      simp [hy2]
    · have hy2 : ¬ windowHolds P t w 2 := fun h => hy (hY.mpr h)
      simp only [hy, if_false, false_and, decide_False]
      by_cases hnn : (prefixFrom (fun score => score != 2 && score == 1) 0
          (P.map Prod.snd)).getD right 0
          - (prefixFrom (fun score => score != 2 && score == 1) 0 (P.map Prod.snd)).getD left 0 > 0
      · have hn2 := hN.mp hnn
        simp only [hnn, if_true]
        refine ⟨by simp [hy2], by simp [hy2, hn2], by simp [hy2], by simp [hsome]⟩
      · have hn2 : ¬ windowHolds P t w 1 := fun h => hnn (hN.mpr h)
        simp only [hnn, if_false]
        refine ⟨by simp [hy2], by simp [hn2], by simp [hy2], by simp [hsome]⟩

theorem map_range_getD {α : Type} (l : List α) (d : α) :
    (List.range l.length).map (fun i => l.getD i d) = l := by
  apply List.ext_getElem?
  intro i
  rw [List.getElem?_map]
  by_cases hi : i < l.length
  · simp [List.getElem?_range, hi, List.getD_eq_getElem?_getD, List.getElem?_eq_getElem hi]
  · have h1 : (List.range l.length)[i]? = none :=
      List.getElem?_eq_none (by simpa using not_lt.mp hi)
    rw [h1, List.getElem?_eq_none (not_lt.mp hi)]
    rfl

/-- The lookup built from secondary rows is the time-sorted arrangement of those rows. -/
theorem buildMobileLookup_eq (rows : List (Int × Int)) :
    ∃ P : List (Int × Int), P.Perm rows ∧ (P.map Prod.fst).Pairwise (· ≤ ·) ∧
      buildMobileLookup (rows.map Prod.fst) (rows.map Prod.snd) =
        ⟨P.map Prod.fst, prefixFrom (fun score => score == 2) 0 (P.map Prod.snd),
          prefixFrom (fun score => score != 2 && score == 1) 0 (P.map Prod.snd)⟩ := by
  have hfst : ∀ i : Nat, (rows.map Prod.fst).getD i 0 = (rows.getD i (0, 0)).1 := by
    intro i
    simp only [List.getD_eq_getElem?_getD, List.getElem?_map]
    cases rows[i]? <;> rfl
  have hsnd : ∀ i : Nat, (rows.map Prod.snd).getD i 0 = (rows.getD i (0, 0)).2 := by
    intro i
    simp only [List.getD_eq_getElem?_getD, List.getElem?_map]
    cases rows[i]? <;> rfl
  have e1 : ∀ l : List Nat, l.map (fun o => (rows.map Prod.fst).getD o 0)
      = (l.map fun i => rows.getD i (0, 0)).map Prod.fst := by
    intro l
    rw [List.map_map]
    exact List.map_congr_left fun i _ => hfst i
  have e2 : ∀ l : List Nat, l.map (fun o => (rows.map Prod.snd).getD o 0)
      = (l.map fun i => rows.getD i (0, 0)).map Prod.snd := by
    intro l
    rw [List.map_map]
    exact List.map_congr_left fun i _ => hsnd i
  refine ⟨(sortSlice
      (fun i j => decide ((rows.map Prod.fst).getD i 0 < (rows.map Prod.fst).getD j 0))
      (List.range (rows.map Prod.fst).length)).map fun i => rows.getD i (0, 0), ?_, ?_, ?_⟩
  · have hperm := sortSlice_perm
      (fun i j => decide ((rows.map Prod.fst).getD i 0 < (rows.map Prod.fst).getD j 0))
      (List.range (rows.map Prod.fst).length)
    have := hperm.map fun i => rows.getD i (0, 0)
    have hlen : (rows.map Prod.fst).length = rows.length := List.length_map _ _
    rw [hlen] at this ⊢
    rw [map_range_getD] at this
    exact this
  · have hp := sortSlice_pairwise
      (fun i j => decide ((rows.map Prod.fst).getD i 0 < (rows.map Prod.fst).getD j 0))
      (fun i => (rows.map Prod.fst).getD i 0) (by intro a b; simp)
      (List.range (rows.map Prod.fst).length)
    rw [List.map_map, List.pairwise_map]
    refine List.Pairwise.imp ?_ hp
    intro a b hab
    rw [hfst, hfst] at hab
    exact hab
  · unfold buildMobileLookup
    simp only [e1, e2]

theorem windowHolds_perm (P rows : List (Int × Int)) (h : P.Perm rows) (t w score : Int) :
    windowHolds P t w score ↔ windowHolds rows t w score := by
  unfold windowHolds
  constructor
  · rintro ⟨row, hm, hw⟩
    exact ⟨row, h.mem_iff.mp hm, hw⟩
  · rintro ⟨row, hm, hw⟩
    exact ⟨row, h.mem_iff.mpr hm, hw⟩

/-- Resolving against the lookup built from `rows` agrees with a direct scan of `rows`. -/
theorem resolveWindowScore_build (rows : List (Int × Int)) (t w : Int) :
    ((resolveWindowScore (buildMobileLookup (rows.map Prod.fst) (rows.map Prod.snd)) t w).1 = 2 ↔
      windowHolds rows t w 2) ∧
    ((resolveWindowScore (buildMobileLookup (rows.map Prod.fst) (rows.map Prod.snd)) t w).1 = 1 ↔
      ¬ windowHolds rows t w 2 ∧ windowHolds rows t w 1) ∧
    ((resolveWindowScore (buildMobileLookup (rows.map Prod.fst) (rows.map Prod.snd)) t w).2.2
        = true ↔ windowHolds rows t w 2 ∧ windowHolds rows t w 1) ∧
    ((resolveWindowScore (buildMobileLookup (rows.map Prod.fst) (rows.map Prod.snd)) t w).2.1
        = true ↔ ∃ row ∈ rows, inWindow t w row) := by
  obtain ⟨P, hperm, hsorted, heq⟩ := buildMobileLookup_eq rows
  rw [heq]
  obtain ⟨h1, h2, h3, h4⟩ := resolveWindowScore_sorted P hsorted t w
  simp only [windowHolds_perm P rows hperm] at h1 h2 h3
  refine ⟨h1, h2, h3, ?_⟩
  rw [h4]
  constructor
  · rintro ⟨row, hm, hw⟩
    exact ⟨row, hperm.mem_iff.mp hm, hw⟩
  · rintro ⟨row, hm, hw⟩
    exact ⟨row, hperm.mem_iff.mpr hm, hw⟩

/-- C8: for every list of secondary rows `(time, signal)`, every primary time `t` and every
window `w`, resolving `t` against the lookup built by `buildMobileLookup` agrees with a
direct scan of the rows with `t - w <= time <= t + w`: the result is positive (2) iff a
positive row lies in the window, negative (1) iff no positive but a negative row lies in
it, the conflict flag is set iff the window holds both (the result then being positive),
and a row is reported as matched iff some row lies in the window; a positive row at
1000 ms with `t` = 1800 ms and `w` = 1000 ms gives a positive result. -/
theorem resolveWindowScore_eq_direct_scan (rows : List (Int × Int)) (t w : Int) :
    ((resolveWindowScore (buildMobileLookup (rows.map Prod.fst) (rows.map Prod.snd)) t w).1 = 2 ↔
      windowHolds rows t w 2) ∧
    ((resolveWindowScore (buildMobileLookup (rows.map Prod.fst) (rows.map Prod.snd)) t w).1 = 1 ↔
      ¬ windowHolds rows t w 2 ∧ windowHolds rows t w 1) ∧
    ((resolveWindowScore (buildMobileLookup (rows.map Prod.fst) (rows.map Prod.snd)) t w).2.2
        = true ↔ windowHolds rows t w 2 ∧ windowHolds rows t w 1) ∧
    ((resolveWindowScore (buildMobileLookup (rows.map Prod.fst) (rows.map Prod.snd)) t w).2.2
        = true →
      (resolveWindowScore (buildMobileLookup (rows.map Prod.fst) (rows.map Prod.snd)) t w).1
        = 2) ∧
    ((resolveWindowScore (buildMobileLookup (rows.map Prod.fst) (rows.map Prod.snd)) t w).2.1
        = true ↔ ∃ row ∈ rows, inWindow t w row) ∧
    resolveWindowScore (buildMobileLookup [1000] [2]) 1800 1000 = (2, true, false) := by
  obtain ⟨h1, h2, h3, h4⟩ := resolveWindowScore_build rows t w
  exact ⟨h1, h2, h3, fun hc => h1.mpr (h3.mp hc).1, h4, by with_unfolding_all decide⟩

/-! ## C9: secondary rows of unknown signal -/

theorem mapFind_map_values {κ β γ : Type} [DecidableEq κ] (m : List (κ × β)) (f : β → γ)
    (k : κ) : mapFind (m.map fun kv => (kv.1, f kv.2)) k = (mapFind m k).map f := by
  induction m with
  | nil => rfl
  | cons kv rest ih =>
    obtain ⟨k0, v0⟩ := kv
    simp only [List.map_cons, mapFind]
    split_ifs
    · rfl
    · exact ih

theorem mapFind_groupFold (rows : List lteRow) (acc : List (String × List lteRow))
    (k : String) :
    mapFind (rows.foldl (fun grouped r =>
        mapSet grouped (operatorMapKey r.mcc r.mnc)
          (mapGet grouped (operatorMapKey r.mcc r.mnc) [] ++ [r])) acc) k
      = match mapFind acc k with
        | none =>
          if rows.filter (fun r => operatorMapKey r.mcc r.mnc = k) = [] then none
          else some (rows.filter fun r => operatorMapKey r.mcc r.mnc = k)
        | some a => some (a ++ rows.filter fun r => operatorMapKey r.mcc r.mnc = k) := by
  induction rows generalizing acc with
  | nil =>
    simp only [List.foldl_nil, List.filter_nil, if_true, List.append_nil]
    cases mapFind acc k <;> rfl
  | cons r rest ih =>
    simp only [List.foldl_cons]
    rw [ih, mapFind_mapSet, mapGet_eq_mapFind]
    by_cases hk : operatorMapKey r.mcc r.mnc = k
    · subst hk
      simp only [if_true, List.filter_cons, decide_True]
      cases mapFind acc (operatorMapKey r.mcc r.mnc) with
      | none => simp
      | some a => simp
    · simp only [hk, if_false, List.filter_cons, decide_False]
      simp

theorem mapFind_groupLTE (lteRows : List lteRow) (k : String) :
    mapFind (groupLTE lteRows) k
      = if lteRows.filter (fun r => operatorMapKey r.mcc r.mnc = k) = [] then none
        else some (lteRows.filter fun r => operatorMapKey r.mcc r.mnc = k) := by
  unfold groupLTE
  rw [mapFind_groupFold]
  rfl

theorem resolveWindowScore_empty (t w : Int) :
    resolveWindowScore (buildMobileLookup [] []) t w = (0, false, false) := by
  rfl

/-- The first loop updates the state exactly for the rows with MCC and MNC whose lookup
reports a match. -/
theorem keyedStep_eq (lteRows : List lteRow) (tolerance : Int) (st : matchState)
    (c : fivegCandidate) :
    keyedStep (lteLookupsOf lteRows) tolerance st c
      = if (c.mcc ≠ "" ∧ c.mnc ≠ "") ∧ (candidateOutcome lteRows tolerance c).2.1 = true then
          applyOutcome st c (candidateOutcome lteRows tolerance c) false
        else st := by
  unfold keyedStep
  by_cases hb : c.mcc = "" ∨ c.mnc = ""
  · have : ¬ (c.mcc ≠ "" ∧ c.mnc ≠ "") := by
      intro h
      rcases hb with hb | hb
      · exact h.1 hb
      · exact h.2 hb
    simp [hb, this]
  · have hk : c.mcc ≠ "" ∧ c.mnc ≠ "" := by
      simp only [not_or] at hb
      exact hb
    rw [if_neg hb, if_congr (and_iff_right hk) rfl rfl]
    have hfind : mapFind (lteLookupsOf lteRows) (operatorMapKey c.mcc c.mnc)
        = (mapFind (groupLTE lteRows) (operatorMapKey c.mcc c.mnc)).map fun g =>
            buildMobileLookup (g.map fun r => r.timeMS) (g.map fun r => r.score) := by
      unfold lteLookupsOf
      exact mapFind_map_values (groupLTE lteRows)
        (fun g : List lteRow =>
          buildMobileLookup (g.map fun r => r.timeMS) (g.map fun r => r.score))
        (operatorMapKey c.mcc c.mnc)
    rw [hfind, mapFind_groupLTE]
    have hrows : secondaryRowsFor lteRows c
        = (lteRows.filter fun r =>
            operatorMapKey r.mcc r.mnc = operatorMapKey c.mcc c.mnc).map
            fun r => (r.timeMS, r.score) := by
      unfold secondaryRowsFor
      simp [hb]
    by_cases hg : lteRows.filter
        (fun r => operatorMapKey r.mcc r.mnc = operatorMapKey c.mcc c.mnc) = []
    · have hout : candidateOutcome lteRows tolerance c = (0, false, false) := by
        unfold candidateOutcome
        rw [hrows, hg]
        rfl
      simp [hg, hout]
    · simp only [hg, if_false, Option.map_some']
      have hout : candidateOutcome lteRows tolerance c
          = resolveWindowScore
              (buildMobileLookup
                ((lteRows.filter fun r =>
                  operatorMapKey r.mcc r.mnc = operatorMapKey c.mcc c.mnc).map fun r => r.timeMS)
                ((lteRows.filter fun r =>
                  operatorMapKey r.mcc r.mnc = operatorMapKey c.mcc c.mnc).map fun r => r.score))
              c.timeMS tolerance := by
        unfold candidateOutcome
        rw [hrows]
        simp only [List.map_map, Function.comp_def]
      rw [← hout]
      rcases hres : candidateOutcome lteRows tolerance c with ⟨score, matched, conflict⟩
      cases matched <;> simp [applyOutcome]

/-- The second loop updates the state exactly for the rows without MCC or MNC whose lookup
reports a match. -/
theorem fallbackStep_eq (lteRows : List lteRow) (tolerance : Int) (st : matchState)
    (c : fivegCandidate) :
    fallbackStep (globalLookupOf lteRows) tolerance st c
      = if ¬ (c.mcc ≠ "" ∧ c.mnc ≠ "") ∧ (candidateOutcome lteRows tolerance c).2.1 = true then
          applyOutcome st c (candidateOutcome lteRows tolerance c) true
        else st := by
  unfold fallbackStep
  by_cases hk : c.mcc ≠ "" ∧ c.mnc ≠ ""
  · simp [hk]
  · rw [if_neg hk, if_congr (and_iff_right hk) rfl rfl]
    have hb : c.mcc = "" ∨ c.mnc = "" := by
      by_contra hb
      simp only [not_or] at hb
      exact hk hb
    have hout : candidateOutcome lteRows tolerance c
        = resolveWindowScore (globalLookupOf lteRows) c.timeMS tolerance := by
      unfold candidateOutcome globalLookupOf secondaryRowsFor
      simp only [hb, if_true, List.map_map, Function.comp_def]
    rw [← hout]
    rcases hres : candidateOutcome lteRows tolerance c with ⟨score, matched, conflict⟩
    cases matched <;> simp [applyOutcome]

theorem foldl_applyOutcome (P : fivegCandidate → Prop) [DecidablePred P]
    (o : fivegCandidate → Int × Bool × Bool) (fb : Bool) (cs : List fivegCandidate)
    (hnd : (cs.map fun c => c.index).Nodup) (st0 : matchState) :
    (cs.foldl (fun st c => if P c then applyOutcome st c (o c) fb else st) st0).matchedRows
        = st0.matchedRows + ((cs.filter fun c => decide (P c)).length : Int) ∧
    (cs.foldl (fun st c => if P c then applyOutcome st c (o c) fb else st) st0).windowScores.length
        = st0.windowScores.length ∧
    (∀ c ∈ cs, c.index < st0.windowScores.length →
      (cs.foldl (fun st c => if P c then applyOutcome st c (o c) fb else st)
          st0).windowScores.getD c.index 0
        = if P c then (o c).1 else st0.windowScores.getD c.index 0) ∧
    (∀ i, (∀ c ∈ cs, c.index ≠ i) →
      (cs.foldl (fun st c => if P c then applyOutcome st c (o c) fb else st)
          st0).windowScores.getD i 0 = st0.windowScores.getD i 0) := by
  induction cs generalizing st0 with
  | nil => simp
  | cons c rest ih =>
    simp only [List.map_cons, List.nodup_cons] at hnd
    simp only [List.foldl_cons]
    obtain ⟨h1, h2, h3, h4⟩ := ih hnd.2 (if P c then applyOutcome st0 c (o c) fb else st0)
    have hlen : (if P c then applyOutcome st0 c (o c) fb else st0).windowScores.length
        = st0.windowScores.length := by
      split_ifs <;> simp [applyOutcome]
    have hm : (if P c then applyOutcome st0 c (o c) fb else st0).matchedRows
        = st0.matchedRows + (if P c then 1 else 0) := by
      split_ifs <;> simp [applyOutcome]
    have hother : ∀ i, i ≠ c.index →
        (if P c then applyOutcome st0 c (o c) fb else st0).windowScores.getD i 0
          = st0.windowScores.getD i 0 := by
      intro i hi
      split_ifs
      · simp only [applyOutcome, List.getD_eq_getElem?_getD]
        rw [List.getElem?_set_ne (fun e => hi e.symm)]
      · rfl
    refine ⟨?_, ?_, ?_, ?_⟩
    · rw [h1, hm, List.filter_cons]
      by_cases hp : P c
      · simp only [hp, if_true, decide_True, List.length_cons]
        push_cast
        ring
      · simp [hp]
    · rw [h2, hlen]
    · intro c' hc' hlt
      rcases List.mem_cons.mp hc' with rfl | hmem
      · have hnot : ∀ c'' ∈ rest, c''.index ≠ c'.index := by
          intro c'' hc'' e
          apply hnd.1
          rw [← e]
          exact List.mem_map_of_mem (fun c => c.index) hc''
        rw [h4 c'.index hnot]
        by_cases hp : P c'
        · simp only [hp, if_true, applyOutcome, List.getD_eq_getElem?_getD]
          rw [List.getElem?_set_self hlt]
          rfl
        · simp [hp]
      · have hne : c'.index ≠ c.index := by
          intro e
          apply hnd.1
          rw [← e]
          exact List.mem_map_of_mem (fun c => c.index) hmem
        rw [h3 c' hmem (by rw [hlen]; exact hlt), hother c'.index hne]
    · intro i hi
      rw [h4 i (fun c' hc' => hi c' (List.mem_cons_of_mem _ hc')),
        hother i (fun e => hi c (List.mem_cons_self _ _) e.symm)]

theorem filter_split_length {α : Type} (a m : α → Prop) [DecidablePred a] [DecidablePred m]
    (l : List α) :
    ((l.filter fun x => decide (a x ∧ m x)).length : Int)
        + ((l.filter fun x => decide (¬ a x ∧ m x)).length : Int)
      = ((l.filter fun x => decide (m x)).length : Int) := by
  induction l with
  | nil => simp
  | cons x rest ih =>
    simp only [List.filter_cons]
    by_cases ha : a x
    · by_cases hm : m x
      · have e1 : decide (a x ∧ m x) = true := by simp [ha, hm]
        have e2 : decide (¬ a x ∧ m x) = false := by simp [ha]
        have e3 : decide (m x) = true := by simp [hm]
        simp only [e1, e2, e3, if_true, Bool.false_eq_true, if_false, List.length_cons]
        push_cast
        omega
      · have e1 : decide (a x ∧ m x) = false := by simp [hm]
        have e2 : decide (¬ a x ∧ m x) = false := by simp [hm]
        have e3 : decide (m x) = false := by simp [hm]
        simp only [e1, e2, e3, Bool.false_eq_true, if_false]
        exact ih
    · by_cases hm : m x
      · have e1 : decide (a x ∧ m x) = false := by simp [ha]
        have e2 : decide (¬ a x ∧ m x) = true := by simp [ha, hm]
        have e3 : decide (m x) = true := by simp [hm]
        simp only [e1, e2, e3, if_true, Bool.false_eq_true, if_false, List.length_cons]
        push_cast
        omega
      · have e1 : decide (a x ∧ m x) = false := by simp [hm]
        have e2 : decide (¬ a x ∧ m x) = false := by simp [hm]
        have e3 : decide (m x) = false := by simp [hm]
        simp only [e1, e2, e3, Bool.false_eq_true, if_false]
        exact ih

theorem filterMap_index_sublist {α : Type} (f : Nat × α → Option fivegCandidate)
    (hf : ∀ x c, f x = some c → c.index = x.1) (l : List (Nat × α)) :
    ((l.filterMap f).map fun c => c.index).Sublist (l.map Prod.fst) := by
  induction l with
  | nil => simp
  | cons x rest ih =>
    simp only [List.filterMap_cons, List.map_cons]
    cases hx : f x with
    | none => exact ih.cons _
    | some c =>
      simp only [List.map_cons]
      rw [hf x c hx]
      exact ih.cons₂ _

theorem fivegCandidatesOf_index (df5g : CSVData) (fivegMCCIdx fivegMNCIdx : Int)
    (fivegTimeMS : timeSeriesNative) :
    ((fivegCandidatesOf df5g fivegMCCIdx fivegMNCIdx fivegTimeMS).map fun c => c.index).Nodup ∧
    ∀ c ∈ fivegCandidatesOf df5g fivegMCCIdx fivegMNCIdx fivegTimeMS,
      c.index < df5g.Rows.length := by
  have hsub := filterMap_index_sublist
    (fun ir : Nat × List String =>
      if fivegTimeMS.Valid.getD ir.1 false = false then none
      else some (⟨ir.1, normalizeKeyStringNative (cellAt ir.2 fivegMCCIdx),
        normalizeKeyStringNative (cellAt ir.2 fivegMNCIdx),
        fivegTimeMS.Values.getD ir.1 0⟩ : fivegCandidate))
    (by
      intro x c h
      simp only at h
      split_ifs at h
      cases h
      rfl)
    df5g.Rows.enum
  rw [List.enum_map_fst] at hsub
  constructor
  · exact hsub.nodup (List.nodup_range _)
  · intro c hc
    have : c.index ∈ List.range df5g.Rows.length :=
      hsub.subset (List.mem_map_of_mem (fun c => c.index) hc)
    exact List.mem_range.mp this

theorem candidateOutcome_matched (lteRows : List lteRow) (tolerance : Int)
    (c : fivegCandidate) :
    (candidateOutcome lteRows tolerance c).2.1 = true ↔
      windowNonEmpty lteRows tolerance c = true := by
  unfold candidateOutcome windowNonEmpty
  rw [(resolveWindowScore_build (secondaryRowsFor lteRows c) c.timeMS tolerance).2.2.2,
    List.any_eq_true]
  simp

/-- State reached by the two matching loops: the match count is the number of rows whose
window holds a secondary row, and the score of such a row is the answer of its lookup. -/
theorem matchCandidates_spec (lteRows : List lteRow) (cs : List fivegCandidate) (n : Nat)
    (tolerance : Int) (hnd : (cs.map fun c => c.index).Nodup)
    (hidx : ∀ c ∈ cs, c.index < n) :
    (matchCandidates lteRows cs n tolerance).matchedRows
      = ((cs.filter fun c => windowNonEmpty lteRows tolerance c).length : Int) ∧
    ∀ c ∈ cs, (matchCandidates lteRows cs n tolerance).windowScores.getD c.index 0
      = if windowNonEmpty lteRows tolerance c = true then
          (candidateOutcome lteRows tolerance c).1
        else 0 := by
  unfold matchCandidates
  have hk : keyedStep (lteLookupsOf lteRows) tolerance = fun st c =>
      if (c.mcc ≠ "" ∧ c.mnc ≠ "") ∧ (candidateOutcome lteRows tolerance c).2.1 = true then
        applyOutcome st c (candidateOutcome lteRows tolerance c) false
      else st := by
    funext st c
    exact keyedStep_eq lteRows tolerance st c
  have hf : fallbackStep (globalLookupOf lteRows) tolerance = fun st c =>
      if ¬ (c.mcc ≠ "" ∧ c.mnc ≠ "") ∧ (candidateOutcome lteRows tolerance c).2.1 = true then
        applyOutcome st c (candidateOutcome lteRows tolerance c) true
      else st := by
    funext st c
    exact fallbackStep_eq lteRows tolerance st c
  rw [hk, hf]
  obtain ⟨a1, a2, a3, a4⟩ := foldl_applyOutcome
    (fun c => (c.mcc ≠ "" ∧ c.mnc ≠ "") ∧ (candidateOutcome lteRows tolerance c).2.1 = true)
    (candidateOutcome lteRows tolerance) false cs hnd ⟨List.replicate n 0, 0, 0, 0⟩
  obtain ⟨b1, b2, b3, b4⟩ := foldl_applyOutcome
    (fun c => ¬ (c.mcc ≠ "" ∧ c.mnc ≠ "") ∧ (candidateOutcome lteRows tolerance c).2.1 = true)
    (candidateOutcome lteRows tolerance) true cs hnd
    (cs.foldl (fun st c =>
      if (c.mcc ≠ "" ∧ c.mnc ≠ "") ∧ (candidateOutcome lteRows tolerance c).2.1 = true then
        applyOutcome st c (candidateOutcome lteRows tolerance c) false
      else st) ⟨List.replicate n 0, 0, 0, 0⟩)
  constructor
  · rw [b1, a1]
    have hsplit := filter_split_length (fun c : fivegCandidate => c.mcc ≠ "" ∧ c.mnc ≠ "")
      (fun c => (candidateOutcome lteRows tolerance c).2.1 = true) cs
    have hfil : (cs.filter fun c => decide ((candidateOutcome lteRows tolerance c).2.1 = true))
        = cs.filter fun c => windowNonEmpty lteRows tolerance c := by
      apply List.filter_congr
      intro c _
      have := candidateOutcome_matched lteRows tolerance c
      cases h1 : (candidateOutcome lteRows tolerance c).2.1 <;>
        cases h2 : windowNonEmpty lteRows tolerance c <;> simp_all
    rw [hfil] at hsplit
    rw [← hsplit]
    simp
  · intro c hc
    have hlt : c.index < (List.replicate n (0 : Int)).length := by
      simpa using hidx c hc
    have hm := candidateOutcome_matched lteRows tolerance c
    rw [b3 c hc (by rw [a2]; exact hlt), a3 c hc hlt]
    have hz : (List.replicate n (0 : Int)).getD c.index 0 = 0 := by
      simp only [List.getD_eq_getElem?_getD, List.getElem?_replicate]
      split_ifs <;> rfl
    simp only [hz]
    by_cases hw : windowNonEmpty lteRows tolerance c = true
    · have hmt := hm.mpr hw
      by_cases hkey : c.mcc ≠ "" ∧ c.mnc ≠ ""
      · simp [hw, hmt, hkey]
      · simp [hw, hmt, hkey]
    · have hmf : ¬ (candidateOutcome lteRows tolerance c).2.1 = true := fun h => hw (hm.mp h)
      simp [hw, hmf]

theorem writeNRCell_getElem (row : List String) (nrIdx : Nat) (val : String) :
    (writeNRCell row nrIdx val)[nrIdx]? = some val := by
  unfold writeNRCell
  apply List.getElem?_set_self
  split_ifs with h
  · simp only [List.length_append, List.length_replicate]
    omega
  · omega

theorem nrValueOfScore_blank (lteRows : List lteRow) (tolerance : Int) (c : fivegCandidate)
    (hyes : ¬ windowHolds (secondaryRowsFor lteRows c) c.timeMS tolerance 2)
    (hno : ¬ windowHolds (secondaryRowsFor lteRows c) c.timeMS tolerance 1) :
    nrValueOfScore (if windowNonEmpty lteRows tolerance c = true then
      (candidateOutcome lteRows tolerance c).1 else 0) = "" := by
  obtain ⟨h1, h2, -, -⟩ := resolveWindowScore_build (secondaryRowsFor lteRows c) c.timeMS tolerance
  have e2 : ¬ (candidateOutcome lteRows tolerance c).1 = 2 := fun h => hyes (h1.mp h)
  have e1 : ¬ (candidateOutcome lteRows tolerance c).1 = 1 := fun h => hno (h2.mp h).2
  unfold nrValueOfScore
  split_ifs <;> simp_all

theorem mem_lteRowsOf (L : GoLib) (dfLTE : CSVData) (lteMCCIdx lteMNCIdx lteNRIdx : Int)
    (lteTimeMS : timeSeriesNative) (r : lteRow) :
    r ∈ lteRowsOf L dfLTE lteMCCIdx lteMNCIdx lteNRIdx lteTimeMS ↔
      ∃ (i : Nat) (row : List String), dfLTE.Rows[i]? = some row ∧
        lteTimeMS.Valid.getD i false = true ∧
        normalizeKeyStringNative (cellAt row lteMCCIdx) ≠ "" ∧
        normalizeKeyStringNative (cellAt row lteMNCIdx) ≠ "" ∧
        r = ⟨normalizeKeyStringNative (cellAt row lteMCCIdx),
          normalizeKeyStringNative (cellAt row lteMNCIdx), lteTimeMS.Values.getD i 0,
          nrScore (normalizeNRValueNative L (cellAt row lteNRIdx))⟩ := by
  unfold lteRowsOf
  rw [List.mem_filterMap]
  constructor
  · rintro ⟨⟨i, row⟩, hmem, h⟩
    have hrow := List.mk_mem_enum_iff_getElem?.mp hmem
    simp only at h
    split_ifs at h with h1 h2
    cases h
    refine ⟨i, row, hrow, ?_, ?_, ?_, rfl⟩
    · cases hv : lteTimeMS.Valid.getD i false
      · exact absurd hv h1
      · rfl
    · exact fun e => h2 (Or.inl e)
    · exact fun e => h2 (Or.inr e)
  · rintro ⟨i, row, hrow, hv, h1, h2, rfl⟩
    refine ⟨(i, row), List.mk_mem_enum_iff_getElem?.mpr hrow, ?_⟩
    simp only [hv, Bool.true_eq_false, if_false, h1, h2, or_self]

/-- C9 (as amended): The secondary rows used for matching are the rows of the secondary
dataset with a usable time and non-blank normalised MCC and MNC, whatever their signal.
Those of unknown signal never make a primary row positive or negative: a primary row
whose window holds no positive and no negative row of its secondary rows (those of the
used rows with its operator key, or all used rows when its MCC or MNC is blank), so only
unknown ones or none, is left blank.  But they do count as matches: `RowsWithMatch` is the
number of primary rows with a usable time whose window holds at least one of its
secondary rows of any signal, unknown included. -/
theorem syncMobileNRCore_unknown_signal (L : GoLib) (df5g dfLTE : CSVData)
    (lteMCCIdx lteMNCIdx lteNRIdx fivegMCCIdx fivegMNCIdx : Int)
    (lteTimeMS fivegTimeMS : timeSeriesNative) (lteStrategy fivegStrategy : String)
    (nrColumnName : String) (timeToleranceMS : Int) (out : CSVData) (stats : mobileSyncStats)
    (hrun : syncMobileNRCore L df5g dfLTE lteMCCIdx lteMNCIdx lteNRIdx fivegMCCIdx fivegMNCIdx
      lteTimeMS fivegTimeMS lteStrategy fivegStrategy nrColumnName timeToleranceMS
      = .ok (out, stats)) :
    stats.RowsWithMatch
      = (((fivegCandidatesOf df5g fivegMCCIdx fivegMNCIdx fivegTimeMS).filter fun c =>
          windowNonEmpty (lteRowsOf L dfLTE lteMCCIdx lteMNCIdx lteNRIdx lteTimeMS)
            (if timeToleranceMS < 0 then 0 else timeToleranceMS) c).length : Int) ∧
    (∀ c ∈ fivegCandidatesOf df5g fivegMCCIdx fivegMNCIdx fivegTimeMS,
      ¬ windowHolds
          (secondaryRowsFor (lteRowsOf L dfLTE lteMCCIdx lteMNCIdx lteNRIdx lteTimeMS) c)
          c.timeMS (if timeToleranceMS < 0 then 0 else timeToleranceMS) 2 →
      ¬ windowHolds
          (secondaryRowsFor (lteRowsOf L dfLTE lteMCCIdx lteMNCIdx lteNRIdx lteTimeMS) c)
          c.timeMS (if timeToleranceMS < 0 then 0 else timeToleranceMS) 1 →
      ∃ row, out.Rows[c.index]? = some row ∧
        row[nrColumnIndex df5g nrColumnName]? = some "") ∧
    (∀ r, r ∈ lteRowsOf L dfLTE lteMCCIdx lteMNCIdx lteNRIdx lteTimeMS ↔
      ∃ (i : Nat) (row : List String), dfLTE.Rows[i]? = some row ∧
        lteTimeMS.Valid.getD i false = true ∧
        normalizeKeyStringNative (cellAt row lteMCCIdx) ≠ "" ∧
        normalizeKeyStringNative (cellAt row lteMNCIdx) ≠ "" ∧
        r = ⟨normalizeKeyStringNative (cellAt row lteMCCIdx),
          normalizeKeyStringNative (cellAt row lteMNCIdx), lteTimeMS.Values.getD i 0,
          nrScore (normalizeNRValueNative L (cellAt row lteNRIdx))⟩) ∧
    (∀ (lteRows : List lteRow) (c : fivegCandidate),
      (c.mcc = "" ∨ c.mnc = "" →
        secondaryRowsFor lteRows c = lteRows.map fun r => (r.timeMS, r.score)) ∧
      (¬ (c.mcc = "" ∨ c.mnc = "") →
        secondaryRowsFor lteRows c = (lteRows.filter fun r =>
          operatorMapKey r.mcc r.mnc = operatorMapKey c.mcc c.mnc).map
            fun r => (r.timeMS, r.score))) := by
  obtain ⟨hnd, hidx⟩ := fivegCandidatesOf_index df5g fivegMCCIdx fivegMNCIdx fivegTimeMS
  obtain ⟨hcount, hscore⟩ := matchCandidates_spec
    (lteRowsOf L dfLTE lteMCCIdx lteMNCIdx lteNRIdx lteTimeMS)
    (fivegCandidatesOf df5g fivegMCCIdx fivegMNCIdx fivegTimeMS) df5g.Rows.length
    (if timeToleranceMS < 0 then 0 else timeToleranceMS) hnd hidx
  unfold syncMobileNRCore at hrun
  simp only at hrun
  generalize htol : (if timeToleranceMS < 0 then (0 : Int) else timeToleranceMS) = tol
    at hrun hcount hscore ⊢
  by_cases h1 : (lteRowsOf L dfLTE lteMCCIdx lteMNCIdx lteNRIdx lteTimeMS).length = 0
  · rw [if_pos h1] at hrun
    cases hrun
  rw [if_neg h1] at hrun
  by_cases h2 : ((lteRowsOf L dfLTE lteMCCIdx lteMNCIdx lteNRIdx lteTimeMS).filter
      fun r => r.score = 2).length = 0
  · rw [if_pos h2] at hrun
    cases hrun
  rw [if_neg h2] at hrun
  by_cases h3 : (fivegCandidatesOf df5g fivegMCCIdx fivegMNCIdx fivegTimeMS).length = 0
  · rw [if_pos h3] at hrun
    cases hrun
  rw [if_neg h3] at hrun
  simp only [Except.ok.injEq, Prod.mk.injEq] at hrun
  obtain ⟨hout, hstats⟩ := hrun
  subst hout hstats
  refine ⟨hcount, ?_, fun r => mem_lteRowsOf L dfLTE _ _ _ _ r, fun lteRows c =>
    ⟨fun hb => by unfold secondaryRowsFor; rw [if_pos hb],
      fun hb => by unfold secondaryRowsFor; rw [if_neg hb]⟩⟩
  intro c hc hyes hno
  have hlt := hidx c hc
  have hblank := nrValueOfScore_blank _ _ c hyes hno
  rw [← hscore c hc] at hblank
  simp only [List.getElem?_map, List.getElem?_enum]
  have hrows : ∃ r, (if df5g.clone.columnIndexByName nrColumnName < 0 then
      df5g.clone.Rows.map fun r => r ++ [""] else df5g.clone.Rows)[c.index]? = some r := by
    rw [CSVData.clone_eq]
    split_ifs
    · have : c.index < (df5g.Rows.map fun r => r ++ [""]).length := by simpa using hlt
      exact ⟨_, List.getElem?_eq_getElem this⟩
    · exact ⟨_, List.getElem?_eq_getElem hlt⟩
  obtain ⟨r, hr⟩ := hrows
  rw [hr]
  simp only [Option.map_some']
  refine ⟨_, rfl, ?_⟩
  rw [hblank]
  exact writeNRCell_getElem _ _ _

/-- C9 (as amended) on the example: the primary row at 50500 ms, whose window holds only
the unknown secondary row, and the row at 90000 ms, whose window is empty, are both left
blank, and `RowsWithMatch` counts the first of them. -/
theorem syncMobileNRCore_unknown_signal_witness :
    syncMobileNRCore goLib example5G exampleLTE 0 1 2 0 1 exampleLTETimes example5GTimes
        "utc_numeric" "utc_numeric" "5G NR" 1000 = .ok (exampleSyncOut, exampleSyncStats) ∧
    (exampleSyncStats.RowsWithMatch
      = (((fivegCandidatesOf example5G 0 1 example5GTimes).filter fun c =>
          windowNonEmpty (lteRowsOf goLib exampleLTE 0 1 2 exampleLTETimes)
            (if (1000 : Int) < 0 then 0 else 1000) c).length : Int) ∧
    ∀ c ∈ fivegCandidatesOf example5G 0 1 example5GTimes,
      ¬ windowHolds (secondaryRowsFor (lteRowsOf goLib exampleLTE 0 1 2 exampleLTETimes) c)
          c.timeMS (if (1000 : Int) < 0 then 0 else 1000) 2 →
      ¬ windowHolds (secondaryRowsFor (lteRowsOf goLib exampleLTE 0 1 2 exampleLTETimes) c)
          c.timeMS (if (1000 : Int) < 0 then 0 else 1000) 1 →
      ∃ row, exampleSyncOut.Rows[c.index]? = some row ∧
        row[nrColumnIndex example5G "5G NR"]? = some "") := by
  have hrun : syncMobileNRCore goLib example5G exampleLTE 0 1 2 0 1 exampleLTETimes
      example5GTimes "utc_numeric" "utc_numeric" "5G NR" 1000 =
      .ok (exampleSyncOut, exampleSyncStats) := by
    with_unfolding_all decide
  have h := syncMobileNRCore_unknown_signal goLib example5G exampleLTE 0 1 2 0 1 exampleLTETimes
    example5GTimes "utc_numeric" "utc_numeric" "5G NR" 1000 exampleSyncOut exampleSyncStats hrun
  exact ⟨hrun, h.1, h.2.1⟩

/-- C9 as stated fails: the window of the primary row at 50500 ms holds exactly one
secondary row, of unknown signal (score 0), and that of the row at 90000 ms holds none;
both are left blank, but the first is counted in `RowsWithMatch`, which is 1 and not 0. -/
theorem syncMobileNRCore_unknown_signal_counterexample :
    syncMobileNRCore goLib example5G exampleLTE 0 1 2 0 1 exampleLTETimes example5GTimes
        "utc_numeric" "utc_numeric" "5G NR" 1000 = .ok (exampleSyncOut, exampleSyncStats) ∧
    exampleSyncStats.RowsWithMatch = 1 ∧
    fivegCandidatesOf example5G 0 1 example5GTimes
      = [⟨0, "310", "410", 50500⟩, ⟨1, "310", "410", 90000⟩] ∧
    (secondaryRowsFor (lteRowsOf goLib exampleLTE 0 1 2 exampleLTETimes)
        ⟨0, "310", "410", 50500⟩).filter (fun row => decide (inWindow 50500 1000 row))
      = [(50000, 0)] ∧
    (secondaryRowsFor (lteRowsOf goLib exampleLTE 0 1 2 exampleLTETimes)
        ⟨1, "310", "410", 90000⟩).filter (fun row => decide (inWindow 90000 1000 row))
      = [] := by
  refine ⟨by with_unfolding_all decide, ?_, ?_, ?_, ?_⟩ <;> decide

/-! ## Header detection -/

theorem hasTabularFollowupLoop_eq (threshold : Int) :
    ∀ (rest : List String) (s t : Nat), s < 25 → t < 2 →
      hasTabularFollowupLoop threshold rest (s : Int) (t : Int) =
        decide (2 ≤ t + ((rest.filter fun line => TrimSpace line ≠ "").take (25 - s)).countP
          fun line => decide (threshold ≤ ((splitSemicolonColumns line).length : Int))) := by
  intro rest
  induction rest with
  | nil => intro s t _ ht; simp [hasTabularFollowupLoop]; omega
  | cons line rest ih =>
    intro s t hs ht
    unfold hasTabularFollowupLoop
    by_cases hb : TrimSpace line = ""
    · rw [if_pos hb, ih s t hs ht]
      simp [List.filter_cons, hb]
    · rw [if_neg hb]
      have h25 : 25 - s = (24 - s) + 1 := by omega
      have hf : (List.filter (fun line => decide (TrimSpace line ≠ "")) (line :: rest)) =
          line :: List.filter (fun line => decide (TrimSpace line ≠ "")) rest := by
        simp [List.filter_cons, hb]
      rw [hf, h25, List.take_succ_cons, List.countP_cons]
      have e1 : ((s : Int) + 1) = ((s + 1 : Nat) : Int) := by push_cast; rfl
      have e2 : ((t : Int) + 1) = ((t + 1 : Nat) : Int) := by push_cast; rfl
      by_cases hc : ((splitSemicolonColumns line).length : Int) ≥ threshold
      · simp only [hc, if_true, decide_True, if_true]
        by_cases ht1 : (t : Int) + 1 ≥ 2
        · simp only [ht1, if_true]
          symm; rw [decide_eq_true_iff]; omega
        · simp only [ht1, if_false]
          by_cases hs1 : (s : Int) + 1 ≥ 25
          · simp only [hs1, if_true]
            have : 24 - s = 0 := by omega
            rw [this]; simp; omega
          · simp only [hs1, if_false]
            rw [e1, e2, ih (s + 1) (t + 1) (by omega) (by omega)]
            have : 25 - (s + 1) = 24 - s := by omega
            rw [this]
            congr 1
            apply propext; constructor <;> intro h <;> omega
      · simp only [hc, if_false, decide_False, Bool.false_eq_true, if_false]
        by_cases hs1 : (s : Int) + 1 ≥ 25
        · simp only [hs1, if_true]
          have : 24 - s = 0 := by omega
          rw [this]; simp; omega
        · simp only [hs1, if_false]
          rw [e1, ih (s + 1) t (by omega) ht]
          have : 25 - (s + 1) = 24 - s := by omega
          rw [this]
          simp

/-- The follow-up test counts, among the first 25 non-blank lines after the start index,
the lines with at least `max(minColumns, expectedColumns - 1)` fields. -/
theorem hasTabularFollowup_eq (lines : List String) (startIndex : Nat)
    (expectedColumns minColumns : Int) :
    hasTabularFollowup lines startIndex expectedColumns minColumns =
      decide (2 ≤ tabularFollowupCount lines startIndex
        (maxInt minColumns (expectedColumns - 1))) := by
  unfold hasTabularFollowup tabularFollowupCount followupWindow
  have h := hasTabularFollowupLoop_eq (maxInt minColumns (expectedColumns - 1))
    (lines.drop (startIndex + 1)) 0 0 (by omega) (by omega)
  simpa using h

theorem findTabularHeaderLoop_eq (lines : List String) (minColumns : Int) :
    ∀ (rest : List String) (i : Nat) (fi : Int) (fl : String), lines.drop i = rest →
      (findTabularHeaderLoop lines minColumns i rest fi fl).1 =
        match (List.range' i rest.length).find?
          fun k => followedByTabularData lines minColumns k with
        | some k => (k : Int)
        | none =>
          if fi ≠ -1 then fi
          else
            match (List.range' i rest.length).find?
              fun k => decide (minColumns ≤ fieldCountAt lines k) with
            | some k => (k : Int)
            | none => -1 := by
  intro rest
  induction rest with
  | nil =>
    intro i fi fl _
    simp only [findTabularHeaderLoop, List.length_nil, List.range'_zero, List.find?_nil]
    split <;> rfl
  | cons line rest ih =>
    intro i fi fl hd
    have hline : lines.getD i "" = line := by
      have := congrArg List.head? hd
      rw [List.head?_drop] at this
      simp only [List.head?_cons] at this
      simp [List.getD, this]
    have hrest : lines.drop (i + 1) = rest := by
      have := congrArg List.tail hd
      simpa [List.tail_drop] using this
    have hfc : fieldCountAt lines i = ((splitSemicolonColumns line).length : Int) := by
      unfold fieldCountAt; rw [hline]
    unfold findTabularHeaderLoop
    simp only [List.length_cons, List.range'_succ, List.find?_cons]
    by_cases hlt : ((splitSemicolonColumns line).length : Int) < minColumns
    · have h1 : followedByTabularData lines minColumns i = false := by
        unfold followedByTabularData
        rw [hfc]
        have : decide (minColumns ≤ ((splitSemicolonColumns line).length : Int)) = false := by
          simp; omega
        rw [this]; rfl
      have h2 : decide (minColumns ≤ fieldCountAt lines i) = false := by
        rw [hfc]; simp; omega
      simp only [hlt, if_true, h1, h2]
      exact ih (i + 1) fi fl hrest
    · have h2 : decide (minColumns ≤ fieldCountAt lines i) = true := by
        rw [hfc]; simp; omega
      simp only [hlt, if_false, h2]
      by_cases hf : hasTabularFollowup lines i ((splitSemicolonColumns line).length : Int)
          minColumns = true
      · have h1 : followedByTabularData lines minColumns i = true := by
          unfold followedByTabularData
          rw [h2, hfc, hf]; rfl
        simp only [hf, if_true, h1]
      · have h1 : followedByTabularData lines minColumns i = false := by
          unfold followedByTabularData
          rw [h2, hfc]
          simpa using hf
        simp only [hf, h1, Bool.false_eq_true, if_false]
        rw [ih (i + 1) _ _ hrest]
        by_cases hfi : fi = -1
        · simp only [hfi, if_true]
          have : ((i : Int) ≠ -1) := by omega
          simp only [ne_eq, this, not_false_eq_true, if_true, not_true_eq_false, if_false]
        · simp only [hfi, if_false, ne_eq, not_false_eq_true, if_true]

/-- The header search of the source returns the header index described in spec words. -/
theorem findTabularHeader_eq_spec (lines : List String) (minColumns : Int) :
    (findTabularHeader lines minColumns).1 = specHeaderIndex lines minColumns := by
  unfold findTabularHeader specHeaderIndex
  rw [findTabularHeaderLoop_eq lines minColumns lines 0 (-1) "" rfl, List.range_eq_range']
  simp

theorem find?_range_of_least (p : Nat → Bool) :
    ∀ (n i : Nat), i < n → p i = true → (∀ j, j < i → p j = false) →
      (List.range n).find? p = some i := by
  intro n
  induction n with
  | zero => intro i hi; omega
  | succ n ih =>
    intro i hi hp hmin
    rw [List.range_succ, List.find?_append]
    by_cases hin : i < n
    · rw [ih i hin hp hmin]; rfl
    · have hi' : i = n := by omega
      subst hi'
      have hnone : (List.range i).find? p = none := by
        rw [List.find?_eq_none]
        intro x hx
        rw [List.mem_range] at hx
        simp [hmin x hx]
      rw [hnone]
      simp [hp]

theorem find?_range_none (p : Nat → Bool) (n : Nat) (h : ∀ j, j < n → p j = false) :
    (List.range n).find? p = none := by
  rw [List.find?_eq_none]
  intro x hx
  rw [List.mem_range] at hx
  simp [h x hx]

/-- What `decodeWithCandidates` returns is consistent: the lines are those of the text, and
the header index and header text are those that `findTabularHeader` finds in the lines. -/
theorem decodeWithCandidatesLoop_header (data : List UInt8) :
    ∀ (ds : List textDecoder) (st se : String) (oh : String) (dec : decodedText),
      decodeWithCandidatesLoop data ds st se (-1) oh = .ok dec →
      dec.lines = splitLinesPreserveEmpty dec.text ∧
        dec.headerLine = (findTabularHeader dec.lines 6).1 ∧
        dec.originalHeader = (findTabularHeader dec.lines 6).2 := by
  intro ds
  induction ds with
  | nil =>
    intro st se oh dec h
    unfold decodeWithCandidatesLoop at h
    split_ifs at h with h1 h2
    · cases h
      exact ⟨rfl, rfl, rfl⟩
    · exact absurd rfl h2
  | cons d ds ih =>
    intro st se oh dec h
    unfold decodeWithCandidatesLoop at h
    split at h
    · exact ih st se oh dec h
    · rename_i text _
      simp only at h
      split_ifs at h with h1 h2
      · cases h
        exact ⟨rfl, rfl, rfl⟩
      · have e : (findTabularHeader (splitLinesPreserveEmpty text) 6).1 = -1 := by
          by_contra hne; exact h1 hne
        rw [e] at h
        exact ih _ _ _ dec h
      · exact ih st se oh dec h

theorem decodeWithCandidates_header (C : TextCodecs) (data : List UInt8) (dec : decodedText)
    (h : decodeWithCandidates C data = .ok dec) :
    dec.lines = splitLinesPreserveEmpty dec.text ∧
      dec.headerLine = (findTabularHeader dec.lines 6).1 ∧
      dec.originalHeader = (findTabularHeader dec.lines 6).2 :=
  decodeWithCandidatesLoop_header data _ _ _ _ dec h

/-- Without a candidate line the header search returns index -1 and the empty text. -/
theorem findTabularHeaderLoop_snd_of_neg_one (lines : List String) (minColumns : Int) :
    ∀ (rest : List String) (i : Nat) (fi : Int) (fl : String), (fi = -1 → fl = "") →
      (findTabularHeaderLoop lines minColumns i rest fi fl).1 = -1 →
      (findTabularHeaderLoop lines minColumns i rest fi fl).2 = "" := by
  intro rest
  induction rest with
  | nil =>
    intro i fi fl hfl h
    unfold findTabularHeaderLoop at h ⊢
    split_ifs at h ⊢ with h1
    · exact absurd h h1
    · rfl
  | cons line rest ih =>
    intro i fi fl hfl h
    unfold findTabularHeaderLoop at h ⊢
    simp only at h ⊢
    by_cases h1 : ((splitSemicolonColumns line).length : Int) < minColumns
    · simp only [h1, if_true] at h ⊢
      exact ih _ _ _ hfl h
    · simp only [h1, if_false] at h ⊢
      by_cases h3 : hasTabularFollowup lines i ((splitSemicolonColumns line).length : Int)
          minColumns = true
      · simp only [h3, if_true] at h
        omega
      · simp only [h3, Bool.false_eq_true, if_false] at h ⊢
        refine ih _ _ _ ?_ h
        by_cases h2 : fi = -1
        · simp only [h2, if_true]
          intro hi; omega
        · simp only [h2, if_false]
          intro hi; exact absurd hi (by simp)

theorem headerColsOf_zero_empty (lines : List String) :
    headerColsOf lines 0 "" = splitSemicolonColumns (lines.getD 0 "") := by
  unfold headerColsOf
  cases lines with
  | nil => simp; decide
  | cons l ls => simp

/-! ## C11: the header index -/

/-- C11: For every list of lines, `findTabularHeader lines 6` returns the smallest
index of a line that has at least six semicolon-separated fields (trailing empty fields
trimmed) and is followed by tabular data; if no line is, the smallest index of a line with
at least six fields; if there is none, -1, and `LoadCSVFile` then takes line 0 as the
header: the header index of the dataset is 0, its columns come from the fields of line 0
and its rows from the non-blank lines after line 0.  With two metadata lines, then a
header of eight fields, then data rows of eight fields, the header index is 2. -/
theorem findTabularHeader_returns_header_index :
    (∀ (lines : List String) (i : Nat), i < lines.length →
      followedByTabularData lines 6 i = true →
      (∀ j, j < i → followedByTabularData lines 6 j = false) →
      (findTabularHeader lines 6).1 = (i : Int)) ∧
    (∀ (lines : List String) (i : Nat), i < lines.length →
      (∀ j, j < lines.length → followedByTabularData lines 6 j = false) →
      6 ≤ fieldCountAt lines i → (∀ j, j < i → fieldCountAt lines j < 6) →
      (findTabularHeader lines 6).1 = (i : Int)) ∧
    (∀ lines : List String, (∀ j, j < lines.length → fieldCountAt lines j < 6) →
      (findTabularHeader lines 6).1 = -1) ∧
    (∀ (C : TextCodecs) (ReadFile : String → Except String (List UInt8)) (path : String)
      (raw : List UInt8) (dec : decodedText),
      ReadFile path = .ok raw → decodeWithCandidates C raw = .ok dec →
      (findTabularHeader dec.lines 6).1 = -1 →
      ∃ d, LoadCSVFile C ReadFile path = .ok d ∧ d.FileInfo.HeaderLine = 0 ∧
        d.FileInfo.OriginalHeader = trimRightCRLF (dec.lines.getD 0 "") ∧
        d.Columns = makeUniqueColumnNames
          (reconcileHeader (splitSemicolonColumns (dec.lines.getD 0 ""))
            (maxFieldsOf (splitSemicolonColumns (dec.lines.getD 0 ""))
              (dataLinesOf dec.lines 0))) ∧
        d.Rows = (dataLinesOf dec.lines 0).map fun line =>
          fitRow (splitSemicolonColumns line)
            (maxFieldsOf (splitSemicolonColumns (dec.lines.getD 0 ""))
              (dataLinesOf dec.lines 0))) ∧
    (findTabularHeader exampleMetadataLines 6).1 = 2 := by
  refine ⟨?_, ?_, ?_, ?_, by decide⟩
  · intro lines i hi hf hmin
    rw [findTabularHeader_eq_spec]
    unfold specHeaderIndex
    rw [find?_range_of_least _ _ i hi hf hmin]
  · intro lines i hi hno hc hmin
    rw [findTabularHeader_eq_spec]
    unfold specHeaderIndex
    rw [find?_range_none _ _ hno,
      find?_range_of_least _ _ i hi (by simpa using hc) (by intro j hj; simpa using hmin j hj)]
  · intro lines hno
    rw [findTabularHeader_eq_spec]
    unfold specHeaderIndex
    have h1 : (List.range lines.length).find?
        (fun i => followedByTabularData lines 6 i) = none := by
      apply find?_range_none
      intro j hj
      unfold followedByTabularData
      have : decide ((6 : Int) ≤ fieldCountAt lines j) = false := by
        simpa using hno j hj
      rw [this]; rfl
    rw [h1, find?_range_none _ _ (by intro j hj; simpa using hno j hj)]
  · intro C ReadFile path raw dec hr hd hneg
    obtain ⟨_, h2, h3⟩ := decodeWithCandidates_header C raw dec hd
    have hoh : dec.originalHeader = "" := by
      rw [h3]
      exact findTabularHeaderLoop_snd_of_neg_one dec.lines 6 dec.lines 0 (-1) ""
        (fun _ => rfl) hneg
    have hhl : dec.headerLine = -1 := by rw [h2, hneg]
    refine ⟨buildCSVData dec, ?_, ?_, ?_, ?_, ?_⟩
    · unfold LoadCSVFile; rw [hr]; simp only; rw [hd]
    · simp [buildCSVData, hhl]
    · simp only [buildCSVData, hhl, hoh, if_true]
      cases hl : dec.lines with
      | nil => simp
      | cons l ls =>
        have : trimRightCRLF "" = "" := by decide
        simp [this]
    · simp only [buildCSVData, hhl, hoh, if_true, headerColsOf_zero_empty]
    · simp only [buildCSVData, hhl, hoh, if_true, headerColsOf_zero_empty]

theorem findTabularHeader_returns_header_index_witness :
    (findTabularHeader exampleMetadataLines 6).1 = 2 ∧
    (findTabularHeader exampleSixFieldLines 6).1 = 0 ∧
    (findTabularHeader ["a;b", "1;2"] 6).1 = -1 ∧
    (∃ d, LoadCSVFile asciiCodecs (oneFile exampleNarrowFile) "narrow.csv" = .ok d ∧
      d.FileInfo.HeaderLine = 0 ∧ d.Columns = ["a", "b"] ∧ d.Rows = [["1", "2"]]) := by
  refine ⟨?_, ?_, ?_, ?_⟩
  · exact findTabularHeader_returns_header_index.1 exampleMetadataLines 2 (by decide)
      (by decide) (by decide)
  · exact findTabularHeader_returns_header_index.2.1 exampleSixFieldLines 0 (by decide)
      (by decide) (by decide) (by decide)
  · exact findTabularHeader_returns_header_index.2.2.1 ["a;b", "1;2"] (by decide)
  · obtain ⟨d, h1, h2, _, h4, h5⟩ := findTabularHeader_returns_header_index.2.2.2.1
      asciiCodecs (oneFile exampleNarrowFile) "narrow.csv" exampleNarrowFile
      ⟨"a;b\n1;2\n", "utf-8", ["a;b", "1;2"], -1, ""⟩ rfl (by decide) (by decide)
    refine ⟨d, h1, h2, ?_, ?_⟩
    · rw [h4]; decide
    · rw [h5]; decide

/-! ## C12: the follow-up test -/

theorem maxInt_eq_max (a b : Int) : maxInt a b = max a b := by
  unfold maxInt
  split_ifs with h
  · exact (max_eq_left (le_of_lt h)).symm
  · exact (max_eq_right (not_lt.mp h)).symm

/-- C12 (as stated, refuted): A candidate of six fields followed by two lines of five
fields: at least two of the following lines have `c - 1 = 5` fields, yet
`hasTabularFollowup` returns false, because the lower bound on the field count is never
below the minimum of six. -/
theorem hasTabularFollowup_six_fields_counterexample :
    fieldCountAt exampleSixFieldLines 0 = 6 ∧
    specHasTabularFollowup exampleSixFieldLines 0 6 = true ∧
    hasTabularFollowup exampleSixFieldLines 0 6 6 = false := by
  decide

/-- C12 (amended): A candidate header line with `c` fields counts as followed by
tabular data iff, among the first 25 non-blank lines after it, at least two have a field
count of at least `max(6, c - 1)`; `hasTabularFollowup` returns true exactly then.  For
`c ≥ 7` the bound is `c - 1`, as in the spec wording; for `c = 6` it is 6. -/
theorem hasTabularFollowup_counts_rows (lines : List String) (startIndex : Nat) (c : Int) :
    (hasTabularFollowup lines startIndex c 6 = true ↔
      2 ≤ tabularFollowupCount lines startIndex (max 6 (c - 1))) ∧
    (7 ≤ c → hasTabularFollowup lines startIndex c 6 =
      specHasTabularFollowup lines startIndex c) ∧
    (c = 6 → (hasTabularFollowup lines startIndex c 6 = true ↔
      2 ≤ tabularFollowupCount lines startIndex 6)) := by
  have h := hasTabularFollowup_eq lines startIndex c 6
  rw [maxInt_eq_max] at h
  refine ⟨?_, ?_, ?_⟩
  · rw [h, decide_eq_true_iff]
  · intro hc
    rw [h]
    unfold specHasTabularFollowup
    rw [max_eq_right (by omega)]
  · intro hc
    rw [h, decide_eq_true_iff, hc]
    norm_num

theorem hasTabularFollowup_counts_rows_witness :
    (hasTabularFollowup exampleMetadataLines 2 8 6 = true ↔
      2 ≤ tabularFollowupCount exampleMetadataLines 2 (max 6 (8 - 1))) ∧
    ((7 : Int) ≤ 8 ∧ hasTabularFollowup exampleMetadataLines 2 8 6 =
      specHasTabularFollowup exampleMetadataLines 2 8) ∧
    ((6 : Int) = 6 ∧ (hasTabularFollowup exampleSixFieldLines 0 6 6 = true ↔
      2 ≤ tabularFollowupCount exampleSixFieldLines 0 6)) :=
  ⟨(hasTabularFollowup_counts_rows exampleMetadataLines 2 8).1,
   ⟨by decide, (hasTabularFollowup_counts_rows exampleMetadataLines 2 8).2.1 (by decide)⟩,
   ⟨rfl, (hasTabularFollowup_counts_rows exampleSixFieldLines 0 6).2.2 rfl⟩⟩

/-! ## Unique column names -/

theorem mapGet_mapSet {κ β : Type} [DecidableEq κ] (m : List (κ × β)) (k k' : κ) (v d : β) :
    mapGet (mapSet m k v) k' d = if k = k' then v else mapGet m k' d := by
  rw [mapGet_eq_mapFind, mapFind_mapSet, mapGet_eq_mapFind]
  split_ifs <;> rfl

theorem columnBasesFrom_length : ∀ (cols : List String) (i : Nat),
    (columnBasesFrom i cols).length = cols.length := by
  intro cols
  induction cols with
  | nil => intro i; rfl
  | cons c cs ih => intro i; simp [columnBasesFrom, ih]

theorem columnBasesFrom_getElem? : ∀ (cols : List String) (i j : Nat), j < cols.length →
    (columnBasesFrom i cols)[j]? = some (columnBase (i + j) (cols.getD j "")) := by
  intro cols
  induction cols with
  | nil => intro i j hj; simp at hj
  | cons c cs ih =>
    intro i j hj
    cases j with
    | zero => simp [columnBasesFrom]
    | succ j =>
      simp only [columnBasesFrom, List.getElem?_cons_succ]
      rw [ih (i + 1) j (by simpa using hj)]
      have : i + 1 + j = i + (j + 1) := by omega
      rw [this]
      simp [List.getD]

/-- The name at position `j` of the loop's output: its base, with the number of the
occurrence as suffix when the base has occurred before. -/
theorem makeUniqueColumnNamesLoop_getElem? :
    ∀ (cols : List String) (i : Nat) (seen : List (String × Int)) (j : Nat),
      j < cols.length →
      (makeUniqueColumnNamesLoop i cols seen)[j]? =
        some (uniqueName (columnBase (i + j) (cols.getD j ""))
          (mapGet seen (columnBase (i + j) (cols.getD j "")) 0 +
            (((columnBasesFrom i cols).take j).count
              (columnBase (i + j) (cols.getD j "")) : Nat) + 1)) := by
  intro cols
  induction cols with
  | nil => intro i seen j hj; simp at hj
  | cons c cs ih =>
    intro i seen j hj
    cases j with
    | zero => simp [makeUniqueColumnNamesLoop, uniqueName, List.getD]
    | succ j =>
      simp only [makeUniqueColumnNamesLoop, List.getElem?_cons_succ]
      rw [ih (i + 1) _ j (by simpa using hj)]
      have e : i + 1 + j = i + (j + 1) := by omega
      have eg : (c :: cs).getD (j + 1) "" = cs.getD j "" := by simp [List.getD]
      rw [e, eg, mapGet_mapSet]
      simp only [columnBasesFrom, List.take_succ_cons, List.count_cons]
      congr 2
      by_cases hb : columnBase i c = columnBase (i + (j + 1)) (cs.getD j "")
      · simp only [hb, if_true, beq_self_eq_true]
        push_cast; ring
      · have hb' : (columnBase i c == columnBase (i + (j + 1)) (cs.getD j "")) = false := by
          simpa using hb
        simp only [hb, if_false, hb']
        push_cast; ring

theorem makeUniqueColumnNamesLoop_length : ∀ (cols : List String) (i : Nat)
    (seen : List (String × Int)), (makeUniqueColumnNamesLoop i cols seen).length = cols.length := by
  intro cols
  induction cols with
  | nil => intro i seen; rfl
  | cons c cs ih => intro i seen; simp [makeUniqueColumnNamesLoop, ih]

theorem makeUniqueColumnNames_length (cols : List String) :
    (makeUniqueColumnNames cols).length = cols.length :=
  makeUniqueColumnNamesLoop_length cols 0 []

theorem makeUniqueColumnNames_getElem? (cols : List String) (j : Nat) (hj : j < cols.length) :
    (makeUniqueColumnNames cols)[j]? =
      some (uniqueName (columnBase j (cols.getD j ""))
        ((((columnBasesFrom 0 cols).take j).count (columnBase j (cols.getD j "")) : Nat) + 1)) := by
  unfold makeUniqueColumnNames
  rw [makeUniqueColumnNamesLoop_getElem? cols 0 [] j hj]
  simp [mapGet]

theorem toDigitsCore_append (b : Nat) : ∀ (fuel n : Nat) (ds : List Char),
    ∃ pre, Nat.toDigitsCore b fuel n ds = pre ++ ds := by
  intro fuel
  induction fuel with
  | zero => intro n ds; exact ⟨[], rfl⟩
  | succ fuel ih =>
    intro n ds
    unfold Nat.toDigitsCore
    simp only
    split_ifs with h
    · exact ⟨[Nat.digitChar (n % b)], rfl⟩
    · obtain ⟨pre, hpre⟩ := ih (n / b) (Nat.digitChar (n % b) :: ds)
      exact ⟨pre ++ [Nat.digitChar (n % b)], by rw [hpre]; simp⟩

theorem toDigits_ten_last (n : Nat) :
    ∃ pre, Nat.toDigits 10 n = pre ++ [Nat.digitChar (n % 10)] := by
  unfold Nat.toDigits Nat.toDigitsCore
  simp only
  split_ifs with h
  · exact ⟨[], rfl⟩
  · exact toDigitsCore_append 10 n (n / 10) [Nat.digitChar (n % 10)]

theorem isSpace_digitChar (n : Nat) : isSpace (Nat.digitChar (n % 10)) = false := by
  have h : n % 10 < 10 := Nat.mod_lt _ (by decide)
  generalize n % 10 = m at h
  interval_cases m <;> decide

/-- A placeholder name is its own base: it has no surrounding white space and is not
empty. -/
theorem columnBase_extraColName (i k : Nat) : columnBase i (extraColName k) = extraColName k := by
  obtain ⟨pre, hpre⟩ := toDigits_ten_last k
  have hd : (extraColName k).data = 'e' :: ("xtra_col_".data ++ pre) ++ [Nat.digitChar (k % 10)] := by
    unfold extraColName Itoa
    simp only [String.data_append, hpre]
    simp [List.append_assoc]
  have ht : TrimSpace (extraColName k) = extraColName k := by
    unfold TrimSpace
    rw [hd]
    have e1 : isSpace 'e' = false := by decide
    simp only [List.cons_append, List.dropWhile_cons, e1, Bool.false_eq_true, if_false,
      List.reverse_append, List.reverse_cons, List.reverse_nil, List.nil_append,
      List.singleton_append, isSpace_digitChar]
    apply String.ext
    rw [hd]
    simp
  unfold columnBase
  rw [ht]
  have hne : extraColName k ≠ "" := by
    intro h
    have := congrArg String.data h
    rw [hd] at this
    simp at this
  rw [if_neg hne]

/-! ## Width of the dataset -/

theorem maxDataFields_cons (line : String) (rest : List String) :
    maxDataFields (line :: rest) =
      max (splitSemicolonColumns line).length (maxDataFields rest) := rfl

theorem foldl_maxInt_eq : ∀ (dataLines : List String) (a : Nat),
    dataLines.foldl (fun m line => maxInt m ((splitSemicolonColumns line).length : Int))
      (a : Int) = ((max a (maxDataFields dataLines) : Nat) : Int) := by
  intro dataLines
  induction dataLines with
  | nil => intro a; simp [maxDataFields]
  | cons line rest ih =>
    intro a
    rw [List.foldl_cons, maxInt_eq_max, ← Nat.cast_max, ih, maxDataFields_cons, max_assoc]

theorem maxFieldsOf_eq (headerCols dataLines : List String) :
    maxFieldsOf headerCols dataLines =
      ((max (max headerCols.length (maxDataFields dataLines)) 1 : Nat) : Int) := by
  unfold maxFieldsOf
  simp only [foldl_maxInt_eq]
  split_ifs with h
  · have h0 : max headerCols.length (maxDataFields dataLines) = 0 := by omega
    have h1 : headerCols.length = 0 := by
      have := le_max_left headerCols.length (maxDataFields dataLines)
      omega
    rw [h0, h1, maxInt_eq_max]
    simp
  · have : 1 ≤ max headerCols.length (maxDataFields dataLines) := by omega
    rw [max_eq_left this]

theorem length_le_maxDataFields : ∀ (dataLines : List String) (line : String),
    line ∈ dataLines → (splitSemicolonColumns line).length ≤ maxDataFields dataLines := by
  intro dataLines
  induction dataLines with
  | nil => intro line h; simp at h
  | cons l rest ih =>
    intro line h
    rw [maxDataFields_cons]
    rcases List.mem_cons.mp h with h | h
    · subst h; exact le_max_left _ _
    · exact le_trans (ih line h) (le_max_right _ _)

theorem reconcileHeader_eq (headerCols : List String) (W : Nat) (h : headerCols.length ≤ W) :
    reconcileHeader headerCols (W : Int) =
      headerCols ++ (List.range (W - headerCols.length)).map fun k => extraColName (k + 1) := by
  unfold reconcileHeader
  have h1 : ¬ ((headerCols.length : Int) > (W : Int)) := by omega
  simp only [h1, if_false, Int.toNat_ofNat]
  have hex : ∀ k : Nat, "extra_col_" ++ Itoa ((k : Int) + 1) = extraColName (k + 1) := by
    intro k; unfold extraColName; push_cast; rfl
  simp only [hex]
  by_cases h2 : (headerCols.length : Int) < (W : Int)
  · simp only [h2, if_true]
    have h3 : ¬ (((headerCols ++ (List.range (W - headerCols.length)).map
        fun k => extraColName (k + 1)).length : Int) ≠ (W : Int)) := by
      simp only [List.length_append, List.length_map, List.length_range]
      push_cast
      omega
    rw [if_neg h3]
  · simp only [h2, if_false]
    have h3 : ¬ ((headerCols.length : Int) ≠ (W : Int)) := by omega
    rw [if_neg h3]
    have : W - headerCols.length = 0 := by omega
    rw [this]
    simp

theorem fitRow_eq (fields : List String) (W : Nat) (h : fields.length ≤ W) :
    fitRow fields (W : Int) = fields ++ List.replicate (W - fields.length) "" := by
  unfold fitRow
  by_cases h1 : (fields.length : Int) < (W : Int)
  · simp only [h1, if_true, Int.toNat_ofNat]
  · have h2 : ¬ ((fields.length : Int) > (W : Int)) := by omega
    simp only [h1, h2, if_false]
    have : W - fields.length = 0 := by omega
    rw [this]
    simp

theorem columnBasesFrom_append : ∀ (a b : List String) (i : Nat),
    columnBasesFrom i (a ++ b) = columnBasesFrom i a ++ columnBasesFrom (i + a.length) b := by
  intro a
  induction a with
  | nil => intro b i; simp [columnBasesFrom]
  | cons x xs ih =>
    intro b i
    have : i + 1 + xs.length = i + (xs.length + 1) := by omega
    show columnBase i x :: columnBasesFrom (i + 1) (xs ++ b) =
      columnBase i x :: columnBasesFrom (i + 1) xs ++ columnBasesFrom (i + (xs.length + 1)) b
    rw [ih, this]
    rfl

theorem columnBasesFrom_extraColNames : ∀ (l : List Nat) (i : Nat),
    columnBasesFrom i (l.map extraColName) = l.map extraColName := by
  intro l
  induction l with
  | nil => intro i; rfl
  | cons k ks ih => intro i; simp [columnBasesFrom, columnBase_extraColName, ih]

/-! ## The token limit of the line scanner -/

theorem utf8Len_cons (c : Char) (cs : List Char) : utf8Len (c :: cs) = c.utf8Size + utf8Len cs := by
  simp [utf8Len]

theorem utf8Len_append (a b : List Char) : utf8Len (a ++ b) = utf8Len a + utf8Len b := by
  simp [utf8Len]

theorem utf8Len_reverse (a : List Char) : utf8Len a.reverse = utf8Len a := by
  unfold utf8Len
  rw [List.map_reverse, List.sum_reverse]

theorem utf8Len_dropCR (p : List Char) : utf8Len p ≤ utf8Len (dropCR p) + 1 := by
  unfold dropCR
  split_ifs with h
  · obtain ⟨q, hq⟩ : ∃ q, p = q ++ ['\r'] := by
      rcases List.eq_nil_or_concat p with h0 | ⟨q, b, hb⟩
      · rw [h0] at h; simp at h
      · subst hb
        simp at h
        exact ⟨q, by rw [h]; simp⟩
    subst hq
    rw [List.dropLast_concat, utf8Len_append]
    have : utf8Len ['\r'] = 1 := by decide
    omega
  · omega

/-- The lines that the scanner delivers are the first lines of the text. -/
theorem scanLinesBoundedLoop_prefix : ∀ (cs cur : List Char),
    scanLinesBoundedLoop cs cur <+: scanLinesLoop cs cur := by
  intro cs
  induction cs with
  | nil =>
    intro cur
    unfold scanLinesBoundedLoop scanLinesLoop
    by_cases h : cur = []
    · simp [h]
    · simp only [h, false_or, if_false]
      split_ifs
      · exact List.nil_prefix
      · exact List.prefix_refl _
  | cons c cs ih =>
    intro cur
    unfold scanLinesBoundedLoop scanLinesLoop
    by_cases hc : c = '\n'
    · simp only [hc, if_true]
      split_ifs
      · exact List.nil_prefix
      · exact (List.prefix_cons_inj _).mpr (ih [])
    · simp only [hc, if_false]
      exact ih (c :: cur)

/-- On a text whose lines are shorter than the limit the scanner delivers every line. -/
theorem scanLinesBoundedLoop_eq : ∀ (cs cur : List Char),
    (∀ line ∈ scanLinesLoop cs cur, utf8Len line.data + 1 < maxScanTokenSize) →
    scanLinesBoundedLoop cs cur = scanLinesLoop cs cur := by
  intro cs
  induction cs with
  | nil =>
    intro cur h
    unfold scanLinesBoundedLoop
    unfold scanLinesLoop at h ⊢
    by_cases hcur : cur = []
    · simp [hcur]
    · simp only [hcur, if_false, List.mem_singleton, forall_eq, false_or] at h ⊢
      have h1 := utf8Len_dropCR cur.reverse
      rw [utf8Len_reverse] at h1
      rw [if_neg (by omega)]
  | cons c cs ih =>
    intro cur h
    unfold scanLinesBoundedLoop
    unfold scanLinesLoop at h ⊢
    by_cases hc : c = '\n'
    · simp only [hc, if_true, List.mem_cons, forall_eq_or_imp] at h ⊢
      have h1 := utf8Len_dropCR cur.reverse
      rw [utf8Len_reverse] at h1
      rw [if_neg (by have := h.1; omega), ih [] h.2]
    · simp only [hc, if_false] at h ⊢
      exact ih (c :: cur) h

theorem decodeWithCandidatesBoundedLoop_lines (data : List UInt8) :
    ∀ (ds : List textDecoder) (st se : String) (hl : Int) (oh : String) (dec : decodedText),
      decodeWithCandidatesBoundedLoop data ds st se hl oh = .ok dec →
      dec.lines = splitLinesBounded dec.text := by
  intro ds
  induction ds with
  | nil =>
    intro st se hl oh dec h
    unfold decodeWithCandidatesBoundedLoop at h
    split_ifs at h with h1 h2
    · cases h
      rfl
    · cases h
      rfl
  | cons d ds ih =>
    intro st se hl oh dec h
    unfold decodeWithCandidatesBoundedLoop at h
    split at h
    · exact ih st se hl oh dec h
    · simp only at h
      split_ifs at h with h1 h2
      · cases h
        rfl
      · exact ih _ _ _ _ dec h
      · exact ih _ _ _ _ dec h

/-- When the scanner delivers every line of every candidate text, decoding with the token
limit is decoding without it. -/
theorem decodeWithCandidatesBoundedLoop_eq (data : List UInt8) :
    ∀ (ds : List textDecoder),
      (∀ d ∈ ds, ∀ t, d.decode data = .ok t → splitLinesBounded t = splitLinesPreserveEmpty t) →
      ∀ (st se : String) (hl : Int) (oh : String),
        (st ≠ "" → splitLinesBounded st = splitLinesPreserveEmpty st) →
        decodeWithCandidatesBoundedLoop data ds st se hl oh =
          decodeWithCandidatesLoop data ds st se hl oh := by
  intro ds
  induction ds with
  | nil =>
    intro _ st se hl oh hst
    unfold decodeWithCandidatesBoundedLoop decodeWithCandidatesLoop
    by_cases h : st = ""
    · simp [h]
    · simp only [h, if_false, hst h]
  | cons d ds ih =>
    intro hall st se hl oh hst
    have hrest : ∀ d' ∈ ds, ∀ t, d'.decode data = .ok t →
        splitLinesBounded t = splitLinesPreserveEmpty t :=
      fun d' hd' => hall d' (List.mem_cons_of_mem _ hd')
    unfold decodeWithCandidatesBoundedLoop decodeWithCandidatesLoop
    cases hdec : d.decode data with
    | error e => exact ih hrest st se hl oh hst
    | ok text =>
      have ht := hall d (List.mem_cons_self _ _) text hdec
      simp only [ht]
      split_ifs
      · rfl
      · exact ih hrest _ _ _ _ (fun _ => ht)
      · exact ih hrest _ _ _ _ hst

/-- For a file whose candidate texts have only lines shorter than the limit, loading with
the token limit is `LoadCSVFile`. -/
theorem LoadCSVFileBounded_eq (C : TextCodecs) (ReadFile : String → Except String (List UInt8))
    (path : String)
    (h : ∀ raw, ReadFile path = .ok raw → ∀ d ∈ defaultTextDecoders C, ∀ t,
      d.decode raw = .ok t →
      ∀ line ∈ splitLinesPreserveEmpty t, utf8Len line.data + 1 < maxScanTokenSize) :
    LoadCSVFileBounded C ReadFile path = LoadCSVFile C ReadFile path := by
  unfold LoadCSVFileBounded LoadCSVFile
  cases hr : ReadFile path with
  | error e => rfl
  | ok raw =>
    have heq : decodeWithCandidatesBounded C raw = decodeWithCandidates C raw := by
      unfold decodeWithCandidatesBounded decodeWithCandidates
      exact decodeWithCandidatesBoundedLoop_eq raw _
        (fun d hd t ht => scanLinesBoundedLoop_eq t.data [] (h raw hr d hd t ht))
        "" "" (-1) "" (fun hne => absurd rfl hne)
    simp only [heq]

/-- A line of `maxScanTokenSize` bytes or more ends the scan: neither it nor a later line is
delivered. -/
theorem scanLinesBoundedLoop_long : ∀ (body rest cur : List Char), '\n' ∉ body →
    maxScanTokenSize ≤ utf8Len cur + utf8Len body →
    scanLinesBoundedLoop (body ++ '\n' :: rest) cur = [] := by
  intro body
  induction body with
  | nil =>
    intro rest cur _ h
    have h0 : utf8Len ([] : List Char) = 0 := rfl
    simp only [List.nil_append]
    rw [scanLinesBoundedLoop, if_pos rfl, if_pos (by rw [h0] at h; omega)]
  | cons c body ih =>
    intro rest cur hno h
    have hc : c ≠ '\n' := fun e => hno (by simp [e])
    have hb : '\n' ∉ body := fun e => hno (List.mem_cons_of_mem _ e)
    simp only [List.cons_append]
    rw [scanLinesBoundedLoop, if_neg hc]
    apply ih rest (c :: cur) hb
    rw [utf8Len_cons] at h ⊢
    omega

/-- A line shorter than the limit is delivered, and the scan goes on after it. -/
theorem scanLinesBoundedLoop_short : ∀ (line rest cur : List Char), '\n' ∉ line →
    utf8Len cur + utf8Len line < maxScanTokenSize →
    scanLinesBoundedLoop (line ++ '\n' :: rest) cur =
      String.mk (dropCR (cur.reverse ++ line)) :: scanLinesBoundedLoop rest [] := by
  intro line
  induction line with
  | nil =>
    intro rest cur _ h
    have h0 : utf8Len ([] : List Char) = 0 := rfl
    simp only [List.nil_append, List.append_nil]
    rw [scanLinesBoundedLoop, if_pos rfl, if_neg (by rw [h0] at h; omega)]
  | cons c line ih =>
    intro rest cur hno h
    have hc : c ≠ '\n' := fun e => hno (by simp [e])
    have hb : '\n' ∉ line := fun e => hno (List.mem_cons_of_mem _ e)
    simp only [List.cons_append]
    rw [scanLinesBoundedLoop, if_neg hc,
      ih rest (c :: cur) hb (by rw [utf8Len_cons] at h ⊢; omega)]
    simp

theorem utf8Len_replicate_x (n : Nat) : utf8Len (List.replicate n 'x') = n := by
  induction n with
  | zero => rfl
  | succ n ih =>
    rw [List.replicate_succ, utf8Len_cons, ih]
    have : 'x'.utf8Size = 1 := by decide
    omega

/-- Of the three lines of `exampleLongLineText` the scanner delivers the first only. -/
theorem splitLinesBounded_exampleLongLineText :
    splitLinesBounded (String.mk exampleLongLineText) = ["a;b;c;d;e;f"] := by
  unfold splitLinesBounded exampleLongLineText
  show scanLinesBoundedLoop (_ ++ '\n' :: (_ ++ '\n' :: _)) [] = _
  rw [scanLinesBoundedLoop_short _ _ _ (by decide) (by decide),
    scanLinesBoundedLoop_long _ _ _ (by simp [List.mem_replicate])
      (by rw [utf8Len_replicate_x]; exact Nat.le_add_left _ _)]
  decide

theorem asciiCodecs_decodeUTF8_ascii (cs : List Char) (hall : ∀ c ∈ cs, c.toNat < 128) :
    decodeUTF8 asciiCodecs (cs.map fun c => UInt8.ofNat c.toNat) = .ok (String.mk cs) := by
  have hbyte : ∀ c : Char, c.toNat < 128 → (UInt8.ofNat c.toNat).toNat = c.toNat := by
    intro c hc
    simp [UInt8.ofNat, UInt8.toNat]
    omega
  have hvalid : asciiCodecs.utf8Valid (cs.map fun c => UInt8.ofNat c.toNat) = true := by
    show ((cs.map fun c => UInt8.ofNat c.toNat).all fun b => decide (b.toNat < 128)) = true
    rw [List.all_eq_true]
    intro b hb
    obtain ⟨c, hc, rfl⟩ := List.mem_map.mp hb
    rw [hbyte c (hall c hc)]
    exact decide_eq_true (hall c hc)
  have htext : asciiCodecs.utf8String (cs.map fun c => UInt8.ofNat c.toNat) = String.mk cs := by
    show String.mk ((cs.map fun c => UInt8.ofNat c.toNat).map fun b => Char.ofNat b.toNat) = _
    apply congrArg String.mk
    rw [List.map_map]
    conv_rhs => rw [← List.map_id cs]
    apply List.map_congr_left
    intro c hc
    show Char.ofNat (UInt8.ofNat c.toNat).toNat = c
    rw [hbyte c (hall c hc)]
    exact Char.ofNat_toNat c
  unfold decodeUTF8
  rw [hvalid, htext]
  rfl

theorem exampleLongLineText_ascii : ∀ c ∈ exampleLongLineText, c.toNat < 128 := by
  intro c hc
  unfold exampleLongLineText at hc
  have h1 : ∀ c ∈ "a;b;c;d;e;f".data, c.toNat < 128 := by decide
  have h2 : ∀ c ∈ "1;2;3;4;5;6;7\n".data, c.toNat < 128 := by decide
  rcases List.mem_append.mp hc with hc | hc
  · exact h1 c hc
  · rcases List.mem_cons.mp hc with hc | hc
    · rw [hc]; decide
    · rcases List.mem_append.mp hc with hc | hc
      · rw [List.eq_of_mem_replicate hc]; decide
      · rcases List.mem_cons.mp hc with hc | hc
        · rw [hc]; decide
        · exact h2 c hc

theorem LoadCSVFileBounded_of_header_only (C : TextCodecs) (raw : List UInt8) (t : String)
    (path : String) (hutf8 : decodeUTF8 C raw = .ok t)
    (hlines : splitLinesBounded t = ["a;b;c;d;e;f"]) :
    LoadCSVFileBounded C (oneFile raw) path =
      .ok ⟨["a", "b", "c", "d", "e", "f"], [], ⟨"utf-8", 0, "a;b;c;d;e;f"⟩⟩ := by
  have hdec : decodeWithCandidatesBounded C raw =
      .ok ⟨t, "utf-8", ["a;b;c;d;e;f"], 0, "a;b;c;d;e;f"⟩ := by
    have hf : findTabularHeader ["a;b;c;d;e;f"] 6 = (0, "a;b;c;d;e;f") := by decide
    unfold decodeWithCandidatesBounded defaultTextDecoders decodeWithCandidatesBoundedLoop
    simp only [hutf8, hlines, hf]
    rw [if_pos (by decide)]
  have hbuild : buildCSVData ⟨t, "utf-8", ["a;b;c;d;e;f"], 0, "a;b;c;d;e;f"⟩ =
      ⟨["a", "b", "c", "d", "e", "f"], [], ⟨"utf-8", 0, "a;b;c;d;e;f"⟩⟩ := by
    have h0 : buildCSVData ⟨"", "utf-8", ["a;b;c;d;e;f"], 0, "a;b;c;d;e;f"⟩ =
        ⟨["a", "b", "c", "d", "e", "f"], [], ⟨"utf-8", 0, "a;b;c;d;e;f"⟩⟩ := by decide
    rw [← h0]
    unfold buildCSVData
    rfl
  unfold LoadCSVFileBounded oneFile
  simp only [hdec, hbuild]

/-- The file `exampleLongLineFile` has a header of six fields, a line of `maxScanTokenSize`
bytes and a line of seven fields: the dataset has the six columns of the header and no row,
and no error is reported. -/
theorem LoadCSVFileBounded_long_line :
    LoadCSVFileBounded asciiCodecs (oneFile exampleLongLineFile) "long.csv" =
      .ok ⟨["a", "b", "c", "d", "e", "f"], [], ⟨"utf-8", 0, "a;b;c;d;e;f"⟩⟩ :=
  LoadCSVFileBounded_of_header_only asciiCodecs exampleLongLineFile
    (String.mk exampleLongLineText) "long.csv"
    (asciiCodecs_decodeUTF8_ascii exampleLongLineText exampleLongLineText_ascii)
    splitLinesBounded_exampleLongLineText

/-! ## C13: width reconciliation -/

/-- C13 (as stated, refuted): The header of the file has six fields, the first of
them named `extra_col_1`, and the data rows have seven fields: the seventh column is named
`extra_col_1_2`, not `extra_col_1`, because the placeholder name is made unique like every
other name. -/
theorem LoadCSVFile_extra_col_counterexample :
    ∃ d, LoadCSVFileBounded asciiCodecs (oneFile exampleExtraColFile) "extra.csv" = .ok d ∧
      d.Columns = ["extra_col_1", "B", "C", "D", "E", "F", "extra_col_1_2"] ∧
      d.Columns[6 + 0]? ≠ some (extraColName 1) :=
  ⟨⟨["extra_col_1", "B", "C", "D", "E", "F", "extra_col_1_2"],
    [["1", "2", "3", "4", "5", "6", "7"], ["1", "2", "3", "4", "5", "6", "7"]],
    ⟨"utf-8", 0, "extra_col_1;B;C;D;E;F"⟩⟩, by decide, rfl, by decide⟩

/-- C13 (amended): The lines of a file are the lines that the line scanner delivers: the
first lines of the decoded text, the scan ending without an error before the first line of
`maxScanTokenSize` bytes or more. For every decodable file `LoadCSVFile` reconciles the
header and these lines to the width `W = max(h, d, 1)`, with `h` the number of header fields
and `d` the largest number of fields of a non-blank delivered line after the header, both
counted after trimming trailing empty fields: the dataset has exactly `W` columns, every
data row has exactly `W` fields (the fields of its line, padded with empty strings), and the
column at position `h + k` is named `extra_col_(k+1)` when no earlier column has that base
name; when `n` earlier columns have it, the name carries the suffix `_(n+1)`. -/
theorem LoadCSVFile_reconciles_width (C : TextCodecs)
    (ReadFile : String → Except String (List UInt8)) (path : String) (raw : List UInt8)
    (dec : decodedText) (hr : ReadFile path = .ok raw)
    (hd : decodeWithCandidatesBounded C raw = .ok dec) :
    let headerLine : Int := if dec.headerLine = -1 then 0 else dec.headerLine
    let headerCols := headerColsOf dec.lines headerLine dec.originalHeader
    let dataLines := dataLinesOf dec.lines headerLine
    let W := max (max headerCols.length (maxDataFields dataLines)) 1
    let earlier := fun k => columnBasesFrom 0 headerCols ++
      (List.range k).map fun j => extraColName (j + 1)
    dec.lines = splitLinesBounded dec.text ∧
    dec.lines <+: splitLinesPreserveEmpty dec.text ∧
    ((∀ line ∈ splitLinesPreserveEmpty dec.text, utf8Len line.data + 1 < maxScanTokenSize) →
      dec.lines = splitLinesPreserveEmpty dec.text) ∧
    ∃ d, LoadCSVFileBounded C ReadFile path = .ok d ∧
      d.Columns.length = W ∧
      d.Rows = dataLines.map (fun line => splitSemicolonColumns line ++
        List.replicate (W - (splitSemicolonColumns line).length) "") ∧
      (∀ row ∈ d.Rows, row.length = W) ∧
      (∀ k, k < W - headerCols.length →
        d.Columns[headerCols.length + k]? =
          some (uniqueName (extraColName (k + 1))
            ((((earlier k).count (extraColName (k + 1)) : Nat) : Int) + 1))) ∧
      (∀ k, k < W - headerCols.length → extraColName (k + 1) ∉ earlier k →
        d.Columns[headerCols.length + k]? = some (extraColName (k + 1))) := by
  intro headerLine headerCols dataLines W earlier
  have hW : headerCols.length ≤ W := le_trans (le_max_left _ _) (le_max_left _ _)
  have hcols : (buildCSVData dec).Columns = makeUniqueColumnNames
      (headerCols ++ (List.range (W - headerCols.length)).map fun k => extraColName (k + 1)) := by
    show makeUniqueColumnNames (reconcileHeader headerCols (maxFieldsOf headerCols dataLines)) = _
    rw [maxFieldsOf_eq, reconcileHeader_eq _ _ hW]
  have hrows : (buildCSVData dec).Rows = dataLines.map (fun line => splitSemicolonColumns line ++
      List.replicate (W - (splitSemicolonColumns line).length) "") := by
    show dataLines.map (fun line => fitRow (splitSemicolonColumns line)
      (maxFieldsOf headerCols dataLines)) = _
    rw [maxFieldsOf_eq]
    apply List.map_congr_left
    intro line hl
    apply fitRow_eq
    exact le_trans (length_le_maxDataFields _ _ hl)
      (le_trans (le_max_right _ _) (le_max_left _ _))
  have hpos : ∀ k, k < W - headerCols.length →
      (buildCSVData dec).Columns[headerCols.length + k]? =
        some (uniqueName (extraColName (k + 1))
          ((((earlier k).count (extraColName (k + 1)) : Nat) : Int) + 1)) := by
    intro k hk
    rw [hcols, makeUniqueColumnNames_getElem? _ _ (by simp; omega)]
    have hg : (headerCols ++ (List.range (W - headerCols.length)).map
        fun k => extraColName (k + 1)).getD (headerCols.length + k) "" = extraColName (k + 1) := by
      rw [List.getD_eq_getElem?_getD, List.getElem?_append_right (by omega)]
      simp [hk]
    rw [hg, columnBase_extraColName, columnBasesFrom_append]
    have hm : (List.range (W - headerCols.length)).map (fun k => extraColName (k + 1)) =
        ((List.range (W - headerCols.length)).map (fun k => k + 1)).map extraColName := by
      simp
    rw [hm, columnBasesFrom_extraColNames, List.take_append_eq_append_take,
      List.take_of_length_le (by rw [columnBasesFrom_length]; omega), columnBasesFrom_length]
    have ht : List.take (headerCols.length + k - headerCols.length)
        (((List.range (W - headerCols.length)).map (fun k => k + 1)).map extraColName) =
        (List.range k).map fun j => extraColName (j + 1) := by
      have : headerCols.length + k - headerCols.length = k := by omega
      rw [this, ← List.map_take, ← List.map_take, List.take_range, min_eq_left (le_of_lt hk)]
      simp
    rw [ht]
  have hlines : dec.lines = splitLinesBounded dec.text :=
    decodeWithCandidatesBoundedLoop_lines raw _ _ _ _ _ dec hd
  refine ⟨hlines, hlines ▸ scanLinesBoundedLoop_prefix dec.text.data [],
    fun hshort => hlines.trans (scanLinesBoundedLoop_eq dec.text.data [] hshort),
    buildCSVData dec, ?_, ?_, hrows, ?_, hpos, ?_⟩
  · unfold LoadCSVFileBounded; rw [hr]; simp only; rw [hd]
  · rw [hcols, makeUniqueColumnNames_length]
    simp; omega
  · intro row hrow
    rw [hrows] at hrow
    obtain ⟨line, hl, rfl⟩ := List.mem_map.mp hrow
    have := le_trans (length_le_maxDataFields _ _ hl)
      (le_trans (le_max_right headerCols.length _) (le_max_left _ 1))
    simp only [List.length_append, List.length_replicate]
    omega
  · intro k hk hnot
    rw [hpos k hk, List.count_eq_zero_of_not_mem hnot]
    rfl

theorem LoadCSVFile_reconciles_width_witness :
    oneFile exampleShortHeaderFile "short.csv" = .ok exampleShortHeaderFile ∧
    decodeWithCandidatesBounded asciiCodecs exampleShortHeaderFile =
      .ok exampleShortHeaderDecoded ∧
    ∃ d, LoadCSVFileBounded asciiCodecs (oneFile exampleShortHeaderFile) "short.csv" = .ok d ∧
      d.Columns.length = 8 ∧
      d.Rows = [["1", "2", "3", "4", "5", "6", "7", "8"], ["1", "2", "3", "", "", "", "", ""]] ∧
      d.Columns[6 + 0]? = some "extra_col_1" ∧ d.Columns[6 + 1]? = some "extra_col_2" := by
  refine ⟨rfl, by decide, ?_⟩
  obtain ⟨_, _, _, d, h1, h2, h3, _, _, h6⟩ := LoadCSVFile_reconciles_width asciiCodecs
    (oneFile exampleShortHeaderFile) "short.csv" exampleShortHeaderFile exampleShortHeaderDecoded
    rfl (by decide)
  exact ⟨d, h1, h2.trans (by decide), h3.trans (by decide),
    (h6 0 (by decide) (by decide)).trans (by decide),
    (h6 1 (by decide) (by decide)).trans (by decide)⟩

/-! ## C14: unique column names -/

theorem makeUniqueColumnNames_eq_map (cols : List String) :
    makeUniqueColumnNames cols = (List.range cols.length).map fun j =>
      uniqueName (columnBase j (cols.getD j ""))
        ((((columnBasesFrom 0 cols).take j).count (columnBase j (cols.getD j "")) : Nat) + 1) := by
  apply List.ext_getElem?
  intro j
  by_cases hj : j < cols.length
  · rw [makeUniqueColumnNames_getElem? cols j hj, List.getElem?_map,
      List.getElem?_range (by simpa using hj)]
    rfl
  · rw [List.getElem?_eq_none (by rw [makeUniqueColumnNames_length]; omega),
      List.getElem?_eq_none (by simp; omega)]

/-- C14 (code slip): `makeUniqueColumnNames` returns a list of the same length, in
which the name at each position is its base (the name without surrounding white space, or
`column_N` for an empty name at position `N`, counted from 1), kept at its first
occurrence and with the suffix `_k` at its `k`-th occurrence.  The names are not always
pairwise distinct: a suffixed name is not recorded as seen, so for the header fields `A`,
`A`, `A_2` the result is `A`, `A_2`, `A_2`, and the dataset that `LoadCSVFile` produces from
a file with this header has two columns of the same name. -/
theorem makeUniqueColumnNames_repeats_name :
    (∀ cols : List String, (makeUniqueColumnNames cols).length = cols.length) ∧
    (∀ cols : List String, makeUniqueColumnNames cols = (List.range cols.length).map fun j =>
      uniqueName (columnBase j (cols.getD j ""))
        ((((columnBasesFrom 0 cols).take j).count (columnBase j (cols.getD j "")) : Nat) + 1)) ∧
    makeUniqueColumnNames ["A", "A", "A_2"] = ["A", "A_2", "A_2"] ∧
    ¬ (makeUniqueColumnNames ["A", "A", "A_2"]).Nodup ∧
    (∃ d, LoadCSVFile asciiCodecs (oneFile exampleDuplicateFile) "dup.csv" = .ok d ∧
      d.Columns = ["A", "A_2", "A_2", "D", "E", "F"] ∧ ¬ d.Columns.Nodup) :=
  ⟨makeUniqueColumnNames_length, makeUniqueColumnNames_eq_map, by decide, by decide,
    ⟨["A", "A_2", "A_2", "D", "E", "F"],
      [["1", "2", "3", "4", "5", "6"], ["1", "2", "3", "4", "5", "6"]],
      ⟨"utf-8", 0, "A;A;A_2;D;E;F"⟩⟩, by decide, rfl, by decide⟩

/-! ## C15: when decoding fails -/

theorem decodeWithCandidatesLoop_fails_iff (data : List UInt8) :
    ∀ (ds : List textDecoder) (st se : String) (hl : Int) (oh : String),
      (∃ e, decodeWithCandidatesLoop data ds st se hl oh = .error e) ↔
        st = "" ∧ ∀ d ∈ ds, (∃ e, d.decode data = .error e) ∨ d.decode data = .ok "" := by
  intro ds
  induction ds with
  | nil =>
    intro st se hl oh
    unfold decodeWithCandidatesLoop
    by_cases h : st = ""
    · simp [h]
    · simp only [h, if_false, false_and, iff_false]
      rintro ⟨e, he⟩
      split_ifs at he
  | cons d ds ih =>
    intro st se hl oh
    unfold decodeWithCandidatesLoop
    cases hdec : d.decode data with
    | error e0 =>
      simp only [ih, List.mem_cons, forall_eq_or_imp, hdec]
      have h1 : (∃ e, (Except.error e0 : Except String String) = Except.error e) ∨
          (Except.error e0 : Except String String) = Except.ok "" := Or.inl ⟨e0, rfl⟩
      simp only [h1, true_and]
    | ok text =>
      simp only [List.mem_cons, forall_eq_or_imp, hdec]
      by_cases hf : (findTabularHeader (splitLinesPreserveEmpty text) 6).1 ≠ -1
      · rw [if_pos hf]
        have htext : text ≠ "" := by
          intro h
          apply hf
          rw [h]
          decide
        simp [htext]
      · rw [if_neg hf]
        by_cases hs : st = ""
        · rw [if_pos hs, ih]
          simp [hs]
        · rw [if_neg hs, ih]
          simp [hs]

/-- C15 (code slip): `decodeWithCandidates` fails exactly when every candidate
decoder either rejects the bytes or decodes them to the empty text; `LoadCSVFile` fails
exactly when the file cannot be read or `decodeWithCandidates` fails.  So a decodable
input whose text is empty is rejected: the empty input is valid UTF-8 and decodes to the
empty text, yet decoding returns the error `unable to decode CSV with supported
encodings`, because the empty text also stands for "no text selected yet". -/
theorem decodeWithCandidates_rejects_empty_text :
    (∀ (C : TextCodecs) (data : List UInt8),
      (∃ e, decodeWithCandidates C data = .error e) ↔
        ∀ d ∈ defaultTextDecoders C,
          (∃ e, d.decode data = .error e) ∨ d.decode data = .ok "") ∧
    (∀ (C : TextCodecs) (ReadFile : String → Except String (List UInt8)) (path : String),
      (∃ e, LoadCSVFile C ReadFile path = .error e) ↔
        (∃ e, ReadFile path = .error e) ∨
          ∃ raw, ReadFile path = .ok raw ∧ ∃ e, decodeWithCandidates C raw = .error e) ∧
    decodeUTF8 asciiCodecs [] = .ok "" ∧
    decodeWithCandidates asciiCodecs [] =
      .error "unable to decode CSV with supported encodings" ∧
    LoadCSVFile asciiCodecs (oneFile []) "empty.csv" =
      .error "unable to decode CSV with supported encodings" := by
  refine ⟨?_, ?_, by decide, by decide, by decide⟩
  · intro C data
    unfold decodeWithCandidates
    rw [decodeWithCandidatesLoop_fails_iff]
    simp
  · intro C ReadFile path
    unfold LoadCSVFile
    cases hr : ReadFile path with
    | error e => simp
    | ok raw =>
      cases hd : decodeWithCandidates C raw with
      | error e => simp [hd]
      | ok dec => simp [hd]

/-! ## Filter rule compiler -/

theorem mem_mapSet {κ β : Type} [DecidableEq κ] (m : List (κ × β)) (k : κ) (v : β)
    (a : κ × β) (h : a ∈ mapSet m k v) : a = (k, v) ∨ a ∈ m := by
  induction m with
  | nil => simp [mapSet] at h; exact Or.inl h
  | cons kv rest ih =>
    obtain ⟨k0, v0⟩ := kv
    unfold mapSet at h
    split_ifs at h with h0
    · rcases List.mem_cons.mp h with h | h
      · exact Or.inl h
      · exact Or.inr (List.mem_cons_of_mem _ h)
    · rcases List.mem_cons.mp h with h | h
      · exact Or.inr (by rw [h]; exact List.mem_cons_self _ _)
      · rcases ih h with h | h
        · exact Or.inl h
        · exact Or.inr (List.mem_cons_of_mem _ h)

theorem mapSet_ne_nil {κ β : Type} [DecidableEq κ] (m : List (κ × β)) (k : κ) (v : β) :
    mapSet m k v ≠ [] := by
  cases m with
  | nil => simp [mapSet]
  | cons kv rest =>
    obtain ⟨k0, v0⟩ := kv
    unfold mapSet
    split_ifs <;> simp

theorem mapGet_mem_or_default {κ β : Type} [DecidableEq κ] (m : List (κ × β)) (k : κ) (d : β) :
    mapGet m k d = d ∨ (k, mapGet m k d) ∈ m := by
  induction m with
  | nil => exact Or.inl rfl
  | cons kv rest ih =>
    obtain ⟨k0, v0⟩ := kv
    unfold mapGet
    split_ifs with h0
    · exact Or.inr (by rw [h0]; exact List.mem_cons_self _ _)
    · rcases ih with h | h
      · exact Or.inl h
      · exact Or.inr (List.mem_cons_of_mem _ h)

/-- Assignment maps that the compiler builds: no field twice, every field with at least
one value and no value twice. -/
theorem parseAssignmentsLoop_inv (L : GoLib) :
    ∀ (toks : List (String × String)) (m r : List (String × List ℚ)),
      ((m.map Prod.fst).Nodup ∧ ∀ a ∈ m, a.2 ≠ [] ∧ a.2.Nodup) →
      parseAssignmentsLoop L toks m = .ok r →
      (r.map Prod.fst).Nodup ∧ ∀ a ∈ r, a.2 ≠ [] ∧ a.2.Nodup := by
  intro toks
  induction toks with
  | nil =>
    intro m r hm h
    simp only [parseAssignmentsLoop, Except.ok.injEq] at h
    rw [← h]; exact hm
  | cons tok rest ih =>
    intro m r hm h
    obtain ⟨field, value⟩ := tok
    unfold parseAssignmentsLoop at h
    simp only at h
    split_ifs at h with h1
    split at h
    · cases h
    · rename_i val _
      split_ifs at h with h2
      · exact ih m r hm h
      · refine ih _ r ⟨?_, ?_⟩ h
        · rw [mapSet_keys]
          split_ifs with hk
          · exact hm.1
          · exact List.Nodup.append hm.1 (List.nodup_singleton _) (by simpa using hk)
        · intro a ha
          rcases mem_mapSet _ _ _ _ ha with ha | ha
          · rw [ha]
            refine ⟨by simp, ?_⟩
            have hex : (mapGet m field ([] : List ℚ)).Nodup := by
              rcases mapGet_mem_or_default m field ([] : List ℚ) with hd | hd
              · rw [hd]; exact List.nodup_nil
              · exact (hm.2 _ hd).2
            exact List.Nodup.append hex (List.nodup_singleton _) (by simpa using h2)
          · exact hm.2 a ha

theorem parseAssignmentsLoop_fails_iff (L : GoLib) :
    ∀ (toks : List (String × String)) (m : List (String × List ℚ)),
      (∃ e, parseAssignmentsLoop L toks m = .error e) ↔
        ∃ tok ∈ toks, isRangeText (TrimSpace tok.2) = true ∨
          parseNumber L (TrimSpace tok.2) = none := by
  intro toks
  induction toks with
  | nil => intro m; simp [parseAssignmentsLoop]
  | cons tok rest ih =>
    intro m
    obtain ⟨field, value⟩ := tok
    unfold parseAssignmentsLoop
    simp only [List.mem_cons, exists_eq_or_imp]
    by_cases h1 : (rangeValueMatch (TrimSpace value).data).isSome = true
    · simp [h1, isRangeText]
    · have h1' : isRangeText (TrimSpace value) = false := by simpa [isRangeText] using h1
      simp only [h1, if_false, h1', Bool.false_eq_true, false_or]
      cases hp : parseNumber L (TrimSpace value) with
      | none => simp
      | some val =>
        simp only [false_or]
        split_ifs
        · rw [ih m]; simp
        · rw [ih]; simp

theorem parseAssignmentsLoop_ne_nil (L : GoLib) :
    ∀ (toks : List (String × String)) (m r : List (String × List ℚ)),
      parseAssignmentsLoop L toks m = .ok r → toks ≠ [] ∨ m ≠ [] → r ≠ [] := by
  intro toks
  induction toks with
  | nil =>
    intro m r h hne
    simp only [parseAssignmentsLoop, Except.ok.injEq] at h
    rw [← h]
    rcases hne with hne | hne
    · exact absurd rfl hne
    · exact hne
  | cons tok rest ih =>
    intro m r h _
    obtain ⟨field, value⟩ := tok
    unfold parseAssignmentsLoop at h
    simp only at h
    split_ifs at h with h1
    split at h
    · cases h
    · rename_i val _
      split_ifs at h with h2
      · refine ih m r h (Or.inr ?_)
        intro hm
        rw [hm] at h2
        simp [mapGet] at h2
      · exact ih _ r h (Or.inr (mapSet_ne_nil _ _ _))

theorem parseConditionGroups_ne_nil_of_mem (L : GoLib) (text : String) :
    ∀ g ∈ parseConditionGroups L text, g ≠ [] := by
  intro g hg
  unfold parseConditionGroups at hg
  simp only at hg
  split_ifs at hg with h1 h2
  · rw [List.mem_singleton] at hg
    rw [hg]
    intro h; rw [h] at h2; simp at h2
  · simp at hg
  · have := (List.mem_filter.mp hg).2
    intro h; rw [h] at this; simp at this

theorem parseConditionGroups_eq_nil_iff (L : GoLib) (text : String) :
    parseConditionGroups L text = [] ↔
      (∀ m ∈ groupFindAll text, parseConditionGroup L m = []) ∧
        parseConditionGroup L text = [] := by
  unfold parseConditionGroups
  simp only
  have hfil : (((groupFindAll text).map fun m => parseConditionGroup L m).filter
      fun group => decide (group.length > 0)) = [] ↔
      ∀ m ∈ groupFindAll text, parseConditionGroup L m = [] := by
    rw [List.filter_eq_nil_iff]
    constructor
    · intro h m hm
      have := h (parseConditionGroup L m) (List.mem_map.mpr ⟨m, hm, rfl⟩)
      simpa using this
    · intro h g hg
      obtain ⟨m, hm, rfl⟩ := List.mem_map.mp hg
      simp [h m hm]
  by_cases h1 : (((groupFindAll text).map fun m => parseConditionGroup L m).filter
      fun group => decide (group.length > 0)).length = 0
  · rw [if_pos h1]
    have h1' := hfil.mp (List.length_eq_zero.mp h1)
    by_cases h2 : (parseConditionGroup L text).length > 0
    · rw [if_pos h2]
      have : parseConditionGroup L text ≠ [] := by
        intro h; rw [h] at h2; simp at h2
      simp [this]
    · rw [if_neg h2]
      have : parseConditionGroup L text = [] := by
        apply List.length_eq_zero.mp; omega
      constructor
      · intro _; exact ⟨h1', this⟩
      · intro _; rfl
  · rw [if_neg h1]
    have h3 : ¬ ∀ m ∈ groupFindAll text, parseConditionGroup L m = [] := by
      intro h
      exact h1 (List.length_eq_zero.mpr (hfil.mpr h))
    have h4 : (((groupFindAll text).map fun m => parseConditionGroup L m).filter
        fun group => decide (group.length > 0)) ≠ [] := by
      intro h; exact h1 (List.length_eq_zero.mpr h)
    simp [h3, h4]

/-! ## C16: when compiling a rule fails -/

/-- C16: Compiling a rule text fails iff the assignment clause contains a token whose
value is a numeric range or is not a number, or the assignment clause yields no assignment
(it has no token), or the conditions clause yields no non-empty condition group (neither
one of its parenthesised groups nor the clause as a whole holds a condition).
Consequently every compiled rule has at least one assignment field, no field twice, each
field with at least one value and no repeated value, and at least one condition group,
each non-empty. -/
theorem compileFilterRule_fails_iff (L : GoLib) (name text : String) :
    ((∃ e, compileFilterRule L name text = .error e) ↔
      (∃ tok ∈ clauseTokens (assignmentClause text),
        isRangeText tok.2 = true ∨ parseNumber L tok.2 = none) ∨
      clauseTokens (assignmentClause text) = [] ∨
      ((∀ g ∈ groupFindAll (conditionsClause text), parseConditionGroup L g = []) ∧
        parseConditionGroup L (conditionsClause text) = [])) ∧
    (∀ rule, compileFilterRule L name text = .ok rule →
      rule.Name = name ∧ rule.Assignments ≠ [] ∧ (rule.Assignments.map Prod.fst).Nodup ∧
      (∀ a ∈ rule.Assignments, a.2 ≠ [] ∧ a.2.Nodup) ∧
      rule.ConditionGroups ≠ [] ∧ ∀ g ∈ rule.ConditionGroups, g ≠ []) := by
  have htok : (∃ tok ∈ clauseTokens (assignmentClause text),
      isRangeText tok.2 = true ∨ parseNumber L tok.2 = none) ↔
      ∃ e, parseAssignments L (assignmentClause text) = .error e := by
    unfold parseAssignments
    rw [parseAssignmentsLoop_fails_iff]
    unfold clauseTokens
    constructor
    · rintro ⟨tok, hm, h⟩
      obtain ⟨m, hm', rfl⟩ := List.mem_map.mp hm
      exact ⟨m, hm', h⟩
    · rintro ⟨m, hm, h⟩
      exact ⟨(m.1, TrimSpace m.2), List.mem_map.mpr ⟨m, hm, rfl⟩, h⟩
  have hnil : clauseTokens (assignmentClause text) = [] ↔
      filterValueFindAll (assignmentClause text) = [] := by
    unfold clauseTokens; simp
  rw [htok, hnil, ← parseConditionGroups_eq_nil_iff]
  unfold compileFilterRule
  simp only
  show (_ ↔ _) ∧ _
  cases hpa : parseAssignments L (splitAssignmentAndConditions (extractQueryContent text)).1 with
  | error e =>
    have hpa' : parseAssignments L (assignmentClause text) = .error e := hpa
    simp [hpa']
  | ok assignments =>
    have hpa' : parseAssignments L (assignmentClause text) = .ok assignments := hpa
    have hinv := parseAssignmentsLoop_inv L _ [] assignments (by simp) hpa'
    have hempty : assignments = [] ↔ filterValueFindAll (assignmentClause text) = [] := by
      constructor
      · intro ha
        by_contra hne
        exact parseAssignmentsLoop_ne_nil L _ [] assignments hpa' (Or.inl hne) ha
      · intro hf
        unfold parseAssignments at hpa'
        rw [hf] at hpa'
        simp only [parseAssignmentsLoop, Except.ok.injEq] at hpa'
        exact hpa'.symm
    constructor
    · simp only [hpa']
      have hc : conditionsClause text =
        (splitAssignmentAndConditions (extractQueryContent text)).2 := rfl
      rw [← hc, ← hempty]
      by_cases hcond : assignments.length = 0 ∨
          (parseConditionGroups L (conditionsClause text)).length = 0
      · rw [if_pos hcond]
        simp only [List.length_eq_zero] at hcond
        simp [hcond]
      · rw [if_neg hcond]
        simp only [List.length_eq_zero] at hcond
        simp
        tauto
    · intro rule hrule
      simp only at hrule
      split_ifs at hrule with hcond
      cases hrule
      simp only [List.length_eq_zero, not_or] at hcond
      exact ⟨rfl, hcond.1, hinv.1, hinv.2, hcond.2,
        parseConditionGroups_ne_nil_of_mem L _⟩

theorem compileFilterRule_fails_iff_witness :
    (∃ e, compileFilterRule goLib "range.txt" exampleRuleTextRange = .error e) ∧
    compileFilterRule goLib "rule.txt" exampleRuleTextRepeated =
      .ok ⟨"rule.txt", [("MNC", [1, 3])], [[⟨"PCI", ConditionRange, 10, 20⟩]]⟩ ∧
    ([("MNC", [(1 : ℚ), 3])] ≠ [] ∧ ∀ a ∈ [("MNC", [(1 : ℚ), 3])], a.2 ≠ [] ∧ a.2.Nodup) := by
  have hrun : compileFilterRule goLib "rule.txt" exampleRuleTextRepeated =
      .ok ⟨"rule.txt", [("MNC", [1, 3])], [[⟨"PCI", ConditionRange, 10, 20⟩]]⟩ := by
    with_unfolding_all decide
  have h := (compileFilterRule_fails_iff goLib "rule.txt" exampleRuleTextRepeated).2 _ hrun
  refine ⟨?_, hrun, h.2.1, h.2.2.2.1⟩
  exact (compileFilterRule_fails_iff goLib "range.txt" exampleRuleTextRange).1.mpr
    (Or.inl ⟨("MNC", "1-3"), by decide, Or.inl (by decide)⟩)

/-! ## C17: values of an assignment token -/

/-- C17 (as stated, refuted): The assignment token of field `MNC` with the value text
`1,3` is one token whose value is the number 1.3: the rule compiles to the assignment set
with the single value 13/10, not to the set of 1 and 3. -/
theorem compileFilterRule_comma_counterexample :
    clauseTokens (assignmentClause exampleRuleTextComma) = [("MNC", "1,3")] ∧
    compileFilterRule goLib "rule.txt" exampleRuleTextComma =
      .ok ⟨"rule.txt", [("MNC", [13 / 10])], [[⟨"PCI", ConditionRange, 10, 20⟩]]⟩ ∧
    compileFilterRule goLib "rule.txt" exampleRuleTextComma ≠
      .ok ⟨"rule.txt", [("MNC", [1, 3])], [[⟨"PCI", ConditionRange, 10, 20⟩]]⟩ := by
  refine ⟨by decide, by with_unfolding_all decide, by with_unfolding_all decide⟩

/-- C17 (amended): An assignment token compiles to the single number that its value
text denotes, a comma being the decimal separator; two tokens of the same field with
different numbers compile to the assignment set of the two numbers, in the order of the
tokens.  So the token of `MNC` with value `1,3` gives the set with the single value 1.3,
while the tokens `MNC = 1` and `MNC = 3` give the set of 1 and 3, and a matching row is
then expanded into one output row per value. -/
theorem parseAssignments_one_value_per_token (L : GoLib) :
    (∀ (text field raw : String) (v : ℚ), filterValueFindAll text = [(field, raw)] →
      isRangeText (TrimSpace raw) = false → parseNumber L (TrimSpace raw) = some v →
      parseAssignments L text = .ok [(field, [v])]) ∧
    (∀ (text field raw1 raw2 : String) (v1 v2 : ℚ),
      filterValueFindAll text = [(field, raw1), (field, raw2)] →
      isRangeText (TrimSpace raw1) = false → parseNumber L (TrimSpace raw1) = some v1 →
      isRangeText (TrimSpace raw2) = false → parseNumber L (TrimSpace raw2) = some v2 →
      v1 ≠ v2 → parseAssignments L text = .ok [(field, [v1, v2])]) ∧
    parseNumber L "1,3" = L.ParseFloat "1.3" ∧
    compileFilterRule goLib "rule.txt" exampleRuleTextRepeated =
      .ok ⟨"rule.txt", [("MNC", [1, 3])], [[⟨"PCI", ConditionRange, 10, 20⟩]]⟩ ∧
    ApplyFiltersCSV goLib (some (exampleCSV "15"))
        [⟨"rule.txt", [("MNC", [1, 3])], [[⟨"PCI", ConditionRange, 10, 20⟩]]⟩] false [] =
      .ok { Columns := ["PCI", "RSRP", "original_excel_row", "MNC"]
            Rows := [["15", "-95", "1", "1"], ["15", "-95", "1", "3"]]
            FileInfo := (exampleCSV "15").FileInfo } := by
  refine ⟨?_, ?_, ?_, by with_unfolding_all decide, by with_unfolding_all decide⟩
  · intro text field raw v ht hr hp
    have hr' : (rangeValueMatch (TrimSpace raw).data).isSome = false := hr
    unfold parseAssignments
    rw [ht]
    simp [parseAssignmentsLoop, hr', hp, mapGet, mapSet]
  · intro text field raw1 raw2 v1 v2 ht hr1 hp1 hr2 hp2 hne
    have hr1' : (rangeValueMatch (TrimSpace raw1).data).isSome = false := hr1
    have hr2' : (rangeValueMatch (TrimSpace raw2).data).isSome = false := hr2
    unfold parseAssignments
    rw [ht]
    simp [parseAssignmentsLoop, hr1', hp1, hr2', hp2, mapGet, mapSet, Ne.symm hne]
  · have h1 : TrimSpace "1,3" = "1,3" := by decide
    have h2 : commaToDot "1,3" = "1.3" := by decide
    have h3 : ("1,3" : String) ≠ "" := by decide
    unfold parseNumber
    simp only [h1, h2, h3, if_false]

theorem parseAssignments_one_value_per_token_witness :
    parseAssignments goLib "\x22MNC\x22=1,3" = .ok [("MNC", [13 / 10])] ∧
    parseAssignments goLib "\x22MNC\x22=1 \x22MNC\x22=3" = .ok [("MNC", [1, 3])] :=
  ⟨(parseAssignments_one_value_per_token goLib).1 "\x22MNC\x22=1,3" "MNC" "1,3" (13 / 10)
      (by decide) (by decide) (by with_unfolding_all decide),
   (parseAssignments_one_value_per_token goLib).2.1 "\x22MNC\x22=1 \x22MNC\x22=3" "MNC" "1 " "3"
      1 3 (by decide) (by decide) (by with_unfolding_all decide) (by decide)
      (by with_unfolding_all decide) (by with_unfolding_all decide)⟩

/-! ## C18: malformed conditions -/

/-- C18 (as stated, refuted): The condition group of the rule text holds two tokens,
one on `PCI` with the range `10-20` and one on `RSRP` with the value text `1-2-3`, which
is neither a number nor a range.  Compilation succeeds, and the compiled group holds the
condition on `PCI` only: the malformed condition is removed without an error. -/
theorem compileFilterRule_malformed_condition_counterexample :
    groupFindAll (conditionsClause exampleRuleTextMalformed) =
      ["\x22PCI\x22=10-20 \x22RSRP\x22=1-2-3"] ∧
    clauseTokens "\x22PCI\x22=10-20 \x22RSRP\x22=1-2-3" =
      [("PCI", "10-20"), ("RSRP", "1-2-3")] ∧
    parseConditionValue goLib "1-2-3" = none ∧
    compileFilterRule goLib "rule.txt" exampleRuleTextMalformed =
      .ok ⟨"rule.txt", [("MNC", [1])], [[⟨"PCI", ConditionRange, 10, 20⟩]]⟩ := by
  refine ⟨by decide, by decide, by with_unfolding_all decide, by with_unfolding_all decide⟩

/-- C18 (amended): The conditions of a group are the tokens of the group whose value
is a number or a range, in the order of the tokens: such a token becomes a condition on
its field, every condition comes from such a token, and a token whose value is neither a
number nor a range is dropped without failure.  A group whose tokens are all malformed is
empty, and compilation fails only if no non-empty group remains (or the assignment clause
is invalid, see C16). -/
theorem parseConditionGroup_drops_malformed (L : GoLib) (text : String) :
    ((parseConditionGroup L text).map (fun c => c.Field) =
      ((filterValueFindAll text).filter fun m => (parseConditionValue L m.2).isSome).map
        Prod.fst) ∧
    (∀ m ∈ filterValueFindAll text, ∀ kind low high,
      parseConditionValue L m.2 = some (kind, low, high) →
      (⟨m.1, kind, low, high⟩ : Condition) ∈ parseConditionGroup L text) ∧
    (∀ c ∈ parseConditionGroup L text, ∃ m ∈ filterValueFindAll text,
      c.Field = m.1 ∧ parseConditionValue L m.2 = some (c.Kind, c.Low, c.High)) ∧
    ((∀ m ∈ filterValueFindAll text, parseConditionValue L m.2 = none) →
      parseConditionGroup L text = []) := by
  refine ⟨?_, ?_, ?_, ?_⟩
  · unfold parseConditionGroup
    induction filterValueFindAll text with
    | nil => rfl
    | cons m ms ih =>
      rw [List.filterMap_cons, List.filter_cons]
      cases hp : parseConditionValue L m.2 with
      | none => simpa using ih
      | some k =>
        obtain ⟨kind, low, high⟩ := k
        simp only [Option.isSome_some, if_true, List.map_cons]
        rw [ih]
  · intro m hm kind low high hp
    unfold parseConditionGroup
    rw [List.mem_filterMap]
    exact ⟨m, hm, by rw [hp]⟩
  · intro c hc
    unfold parseConditionGroup at hc
    rw [List.mem_filterMap] at hc
    obtain ⟨m, hm, hmc⟩ := hc
    refine ⟨m, hm, ?_⟩
    cases hp : parseConditionValue L m.2 with
    | none => rw [hp] at hmc; cases hmc
    | some k =>
      obtain ⟨kind, low, high⟩ := k
      rw [hp] at hmc
      simp only [Option.some.injEq] at hmc
      rw [← hmc]
      exact ⟨rfl, rfl⟩
  · intro hall
    unfold parseConditionGroup
    rw [List.filterMap_eq_nil_iff]
    intro m hm
    rw [hall m hm]

theorem parseConditionGroup_drops_malformed_witness :
    (⟨"PCI", ConditionRange, 10, 20⟩ : Condition) ∈
      parseConditionGroup goLib "\x22PCI\x22=10-20 \x22RSRP\x22=1-2-3" ∧
    parseConditionGroup goLib "\x22RSRP\x22=1-2-3" = [] :=
  ⟨(parseConditionGroup_drops_malformed goLib "\x22PCI\x22=10-20 \x22RSRP\x22=1-2-3").2.1
      ("PCI", "10-20 ") (by decide) ConditionRange 10 20 (by with_unfolding_all decide),
   (parseConditionGroup_drops_malformed goLib "\x22RSRP\x22=1-2-3").2.2.2
      (by
        intro m hm
        have hm' : m = ("RSRP", "1-2-3") := by
          have : filterValueFindAll "\x22RSRP\x22=1-2-3" = [("RSRP", "1-2-3")] := by decide
          rw [this] at hm
          simpa using hm
        rw [hm']
        with_unfolding_all decide)⟩

/-! ## Number texts and ranges -/

theorem takeWhile_eq_self_of_dropWhile_nil {α : Type} (p : α → Bool) (l : List α)
    (h : l.dropWhile p = []) : l.takeWhile p = l := by
  have := List.takeWhile_append_dropWhile p l
  rw [h, List.append_nil] at this
  exact this

theorem takeWhile_append_stop {α : Type} (p : α → Bool) (l rest : List α)
    (hl : ∀ a ∈ l, p a = true) (hr : ∀ c, rest.head? = some c → p c = false) :
    (l ++ rest).takeWhile p = l ∧ (l ++ rest).dropWhile p = rest := by
  induction l with
  | nil =>
    cases rest with
    | nil => exact ⟨rfl, rfl⟩
    | cons c cs =>
      have := hr c rfl
      simp [List.takeWhile_cons, List.dropWhile_cons, this]
  | cons a l ih =>
    have ha := hl a (List.mem_cons_self _ _)
    have ih' := ih (fun b hb => hl b (List.mem_cons_of_mem _ hb))
    simp [List.takeWhile_cons, List.dropWhile_cons, ha, ih'.1, ih'.2]

theorem all_of_dropWhile_nil {α : Type} (p : α → Bool) (l : List α)
    (h : l.dropWhile p = []) : ∀ a ∈ l, p a = true := by
  induction l with
  | nil => intro a ha; simp at ha
  | cons x xs ih =>
    rw [List.dropWhile_cons] at h
    split_ifs at h with hx
    intro a ha
    rcases List.mem_cons.mp ha with ha | ha
    · rw [ha]; exact hx
    · exact ih h a ha

theorem append_takeWhile_dropWhile_stop {α : Type} (p : α → Bool) (l : List α) (c : α)
    (rest : List α) (h : l.dropWhile p = c :: rest) :
    p c = false ∧ l = l.takeWhile p ++ c :: rest := by
  induction l with
  | nil => simp at h
  | cons x xs ih =>
    rw [List.dropWhile_cons] at h
    split_ifs at h with hx
    · have := ih h
      refine ⟨this.1, ?_⟩
      rw [List.takeWhile_cons, if_pos hx, List.cons_append, ← this.2]
    · simp only [List.cons.injEq] at h
      refine ⟨by rw [← h.1]; simpa using hx, ?_⟩
      rw [List.takeWhile_cons, if_neg hx, h.1, h.2]
      rfl

theorem reUnsignedPrefix_append (m rest : List Char) (hm : reUnsignedPrefix m = some (m, []))
    (hr : ∀ c, rest.head? = some c → c.isDigit = false ∧ c ≠ '.' ∧ c ≠ ',') :
    reUnsignedPrefix (m ++ rest) = some (m, rest) := by
  have hrd : ∀ c, rest.head? = some c → c.isDigit = false := fun c hc => (hr c hc).1
  unfold reUnsignedPrefix at hm
  simp only at hm
  split_ifs at hm with hdig
  cases hd : m.dropWhile Char.isDigit with
  | nil =>
    rw [hd] at hm
    simp only [Option.some.injEq, Prod.mk.injEq, and_true] at hm
    have hall := all_of_dropWhile_nil _ m hd
    obtain ⟨ht, hdr⟩ := takeWhile_append_stop Char.isDigit m rest hall hrd
    unfold reUnsignedPrefix
    simp only [ht, hdr]
    rw [hm] at hdig
    rw [if_neg hdig]
    cases rest with
    | nil => rfl
    | cons c r3 =>
      have hc := hr c rfl
      have : ¬ ((c = '.' ∨ c = ',') ∧ r3.takeWhile Char.isDigit ≠ []) := by
        intro h; rcases h.1 with h | h
        · exact hc.2.1 h
        · exact hc.2.2 h
      simp only [this, if_false]
  | cons c r3 =>
    rw [hd] at hm
    obtain ⟨hcd, hmeq⟩ := append_takeWhile_dropWhile_stop _ m c r3 hd
    simp only at hm
    split_ifs at hm with hcond
    · simp only [Option.some.injEq, Prod.mk.injEq] at hm
      have hall3 := all_of_dropWhile_nil _ r3 hm.2
      have ht3 := takeWhile_eq_self_of_dropWhile_nil _ r3 hm.2
      have hdigits : ∀ a ∈ m.takeWhile Char.isDigit, Char.isDigit a = true :=
        fun a ha => List.mem_takeWhile_imp ha
      have hsplit : m ++ rest = m.takeWhile Char.isDigit ++ (c :: (r3 ++ rest)) := by
        conv_lhs => rw [hmeq]
        simp
      obtain ⟨ht, hdr⟩ := takeWhile_append_stop Char.isDigit (m.takeWhile Char.isDigit)
        (c :: (r3 ++ rest)) hdigits (by intro x hx; simp at hx; rw [← hx]; exact hcd)
      obtain ⟨ht', hdr'⟩ := takeWhile_append_stop Char.isDigit r3 rest hall3 hrd
      unfold reUnsignedPrefix
      simp only [hsplit, ht, hdr]
      rw [if_neg hdig]
      simp only [ht', hdr']
      have hcond' : (c = '.' ∨ c = ',') ∧ r3 ≠ [] := ⟨hcond.1, by rw [← ht3]; exact hcond.2⟩
      rw [if_pos hcond']
      rw [ht3] at hm
      rw [hm.1]
    · simp at hm

theorem reNumberPrefix_append (m rest : List Char) (hm : isNumberText m)
    (hr : ∀ c, rest.head? = some c → c.isDigit = false ∧ c ≠ '.' ∧ c ≠ ',') :
    reNumberPrefix (m ++ rest) = some (m, rest) := by
  unfold isNumberText reNumberPrefix at hm
  cases m with
  | nil => simp at hm
  | cons c r =>
    simp only at hm
    unfold reNumberPrefix
    simp only [List.cons_append]
    split_ifs at hm ⊢ with hc
    · cases hu : reUnsignedPrefix r with
      | none => rw [hu] at hm; simp at hm
      | some p =>
        rw [hu] at hm
        simp only [Option.map_some', Option.some.injEq, Prod.mk.injEq, List.cons.injEq,
          true_and] at hm
        have hu' : reUnsignedPrefix r = some (r, []) := by
          rw [hu, ← hm.1.2, ← hm.2]
        rw [reUnsignedPrefix_append r rest hu' hr, hc]
        rfl
    · have := reUnsignedPrefix_append (c :: r) rest hm hr
      simpa using this

theorem reSpace_cases (c : Char) (h : reSpace c = true) :
    c = '\t' ∨ c = '\n' ∨ c = '\x0c' ∨ c = '\r' ∨ c = ' ' := by
  unfold reSpace at h
  simp only [Bool.or_eq_true, decide_eq_true_eq] at h
  tauto

theorem reSpace_not_number_char (c : Char) (h : reSpace c = true) :
    c.isDigit = false ∧ c ≠ '.' ∧ c ≠ ',' ∧ c ≠ '-' := by
  rcases reSpace_cases c h with h | h | h | h | h <;> subst h <;> decide

theorem isDigit_not_reSpace (c : Char) (h : c.isDigit = true) : reSpace c = false := by
  by_contra hs
  have hs' : reSpace c = true := by simpa using hs
  rw [(reSpace_not_number_char c hs').1] at h
  cases h

theorem isNumberText_head (m : List Char) (hm : isNumberText m) :
    ∀ c, m.head? = some c → reSpace c = false := by
  intro c hc
  unfold isNumberText reNumberPrefix at hm
  cases m with
  | nil => simp at hm
  | cons x r =>
    simp only [List.head?_cons, Option.some.injEq] at hc
    subst hc
    simp only at hm
    split_ifs at hm with hx
    · rw [hx]; decide
    · unfold reUnsignedPrefix at hm
      simp only at hm
      split_ifs at hm with hdig
      apply isDigit_not_reSpace
      by_contra hnd
      apply hdig
      rw [List.takeWhile_cons]
      simp [hnd]

theorem rangeValueMatch_of_number_texts (m1 m2 ws1 ws2 : List Char) (h1 : isNumberText m1)
    (h2 : isNumberText m2) (hw1 : ∀ c ∈ ws1, reSpace c = true)
    (hw2 : ∀ c ∈ ws2, reSpace c = true) :
    rangeValueMatch (m1 ++ (ws1 ++ '-' :: (ws2 ++ m2))) = some (m1, m2) := by
  have hhead : ∀ c, (ws1 ++ '-' :: (ws2 ++ m2)).head? = some c →
      c.isDigit = false ∧ c ≠ '.' ∧ c ≠ ',' := by
    intro c hc
    cases ws1 with
    | nil =>
      simp only [List.nil_append, List.head?_cons, Option.some.injEq] at hc
      subst hc; decide
    | cons w ws =>
      simp only [List.cons_append, List.head?_cons, Option.some.injEq] at hc
      subst hc
      have := reSpace_not_number_char w (hw1 w (List.mem_cons_self _ _))
      exact ⟨this.1, this.2.1, this.2.2.1⟩
  have hd1 := (takeWhile_append_stop reSpace ws1 ('-' :: (ws2 ++ m2)) hw1
    (by intro c hc; simp at hc; subst hc; decide)).2
  have hd2 := (takeWhile_append_stop reSpace ws2 m2 hw2 (isNumberText_head m2 h2)).2
  unfold rangeValueMatch
  rw [reNumberPrefix_append m1 _ h1 hhead]
  simp only [hd1]
  have hne : ¬ (('-' : Char) ≠ '-') := by simp
  rw [if_neg hne, hd2, h2]

theorem rangeValueMatch_number_text (m : List Char) (hm : isNumberText m) :
    rangeValueMatch m = none := by
  unfold rangeValueMatch
  rw [hm]
  rfl

/-! ## C19: bounds of a condition -/

/-- C19: Every condition value that `parseConditionValue` produces satisfies
`Low ≤ High`.  A value text `a-b` (two number texts around a minus sign, white space
allowed around the sign) yields a Range condition with `Low = min(a, b)` and
`High = max(a, b)`; a single number text `v`, also one with a leading minus sign such as
`-80`, is not a range and yields an Equality condition with `Low = High = v`. -/
theorem parseConditionValue_low_le_high (L : GoLib) (raw : String) :
    (∀ kind low high, parseConditionValue L raw = some (kind, low, high) →
      low ≤ high ∧ (kind = ConditionRange ∨ (kind = ConditionEq ∧ low = high))) ∧
    (∀ (m1 m2 ws1 ws2 : List Char) (a b : ℚ),
      (TrimSpace raw).data = m1 ++ (ws1 ++ '-' :: (ws2 ++ m2)) →
      isNumberText m1 → isNumberText m2 →
      (∀ c ∈ ws1, reSpace c = true) → (∀ c ∈ ws2, reSpace c = true) →
      parseNumber L (String.mk m1) = some a → parseNumber L (String.mk m2) = some b →
      parseConditionValue L raw = some (ConditionRange, min a b, max a b)) ∧
    (∀ v, isNumberText (TrimSpace raw).data → parseNumber L (TrimSpace raw) = some v →
      parseConditionValue L raw = some (ConditionEq, v, v)) ∧
    (∀ v, TrimSpace raw ≠ "" → rangeValueMatch (TrimSpace raw).data = none →
      parseNumber L (TrimSpace raw) = some v →
      parseConditionValue L raw = some (ConditionEq, v, v)) := by
  have hgen : ∀ v, TrimSpace raw ≠ "" → rangeValueMatch (TrimSpace raw).data = none →
      parseNumber L (TrimSpace raw) = some v →
      parseConditionValue L raw = some (ConditionEq, v, v) := by
    intro v hne hr hp
    unfold parseConditionValue
    simp only [hne, if_false, hr, hp]
  refine ⟨?_, ?_, ?_, hgen⟩
  · intro kind low high h
    unfold parseConditionValue at h
    simp only at h
    split_ifs at h with hne
    split at h
    · split at h
      · split_ifs at h with hle
        · simp only [Option.some.injEq, Prod.mk.injEq] at h
          obtain ⟨hk, hl, hh⟩ := h
          subst hk hl hh
          exact ⟨hle, Or.inl rfl⟩
        · simp only [Option.some.injEq, Prod.mk.injEq] at h
          obtain ⟨hk, hl, hh⟩ := h
          subst hk hl hh
          exact ⟨le_of_lt (not_le.mp hle), Or.inl rfl⟩
      · cases h
    · split at h
      · simp only [Option.some.injEq, Prod.mk.injEq] at h
        obtain ⟨hk, hl, hh⟩ := h
        subst hk hl hh
        exact ⟨le_refl _, Or.inr ⟨rfl, rfl⟩⟩
      · cases h
  · intro m1 m2 ws1 ws2 a b hdata h1 h2 hw1 hw2 ha hb
    have hne : TrimSpace raw ≠ "" := by
      intro h
      have := congrArg String.data h
      rw [hdata] at this
      simp at this
    unfold parseConditionValue
    simp only [hne, if_false, hdata, rangeValueMatch_of_number_texts m1 m2 ws1 ws2 h1 h2 hw1 hw2,
      ha, hb]
    by_cases hle : a ≤ b
    · rw [if_pos hle, min_eq_left hle, max_eq_right hle]
    · rw [if_neg hle, min_eq_right (le_of_lt (not_le.mp hle)),
        max_eq_left (le_of_lt (not_le.mp hle))]
  · intro v hm hp
    have hne : TrimSpace raw ≠ "" := by
      intro h
      rw [h] at hm
      exact absurd hm (by decide)
    exact hgen v hne (rangeValueMatch_number_text _ hm) hp

theorem parseConditionValue_low_le_high_witness :
    parseConditionValue goLib "20 - 10" = some (ConditionRange, min 20 10, max 20 10) ∧
    parseConditionValue goLib " -80" = some (ConditionEq, -80, -80) ∧
    ((10 : ℚ) ≤ 20 ∧ (ConditionRange = ConditionRange ∨
      (ConditionRange = ConditionEq ∧ (10 : ℚ) = 20))) :=
  ⟨(parseConditionValue_low_le_high goLib "20 - 10").2.1 ['2', '0'] ['1', '0'] [' '] [' ']
      20 10 (by decide) (by decide) (by decide) (by decide) (by decide)
      (by with_unfolding_all decide) (by with_unfolding_all decide),
   (parseConditionValue_low_le_high goLib " -80").2.2.1 (-80) (by decide)
      (by with_unfolding_all decide),
   (parseConditionValue_low_le_high goLib "20 - 10").1 ConditionRange 10 20
      (by with_unfolding_all decide)⟩

/-! ## C20: resolving a field to a column -/

theorem findColumnNameNative_single_mem (L : GoLib) (columns : List String) (cand : String)
    (h : findColumnNameNative L columns [cand] ≠ "") :
    findColumnNameNative L columns [cand] ∈ columns ∧
      normalizeHeaderToken L (findColumnNameNative L columns [cand]) =
        normalizeHeaderToken L cand := by
  unfold findColumnNameNative at h ⊢
  cases hf : columns.reverse.find?
      fun c => decide (normalizeHeaderToken L c = normalizeHeaderToken L cand) with
  | none =>
    rw [hf] at h
    exact absurd rfl h
  | some v =>
    simp only
    have hm := List.mem_of_find?_eq_some hf
    have hp := List.find?_some hf
    exact ⟨List.mem_reverse.mp hm, by simpa using hp⟩

theorem rowMatchesGroup_missing_field (L : GoLib) (columns row : List String) :
    ∀ (g : List Condition) (c : Condition), c ∈ g → c.Field ∉ columns →
      rowMatchesGroup L (rowValueMap columns row) g = false := by
  intro g
  induction g with
  | nil => intro c hc; simp at hc
  | cons x rest ih =>
    intro c hc hf
    rw [rowMatchesGroup_cons]
    rcases List.mem_cons.mp hc with h | h
    · subst h
      have : rowMatchesGroup L (rowValueMap columns row) [c] = false := by
        simp only [rowMatchesGroup, mapFind_rowValueMap_none columns row c.Field hf]
      rw [this]
      rfl
    · rw [ih c h hf]
      simp

/-- C20: `resolveColumnName` returns the field itself if some column equals it;
otherwise the first column equal to it ignoring case and surrounding white space;
otherwise, when the field is `frequency` (ignoring case and surrounding white space), the
SSRef column if the dataset has one, which is a column whose header token is that of
`SSRef`; otherwise the column at the index that the column mapping gives for the field's
alias key, when the field has an alias key and the index is in range; otherwise the field
unchanged.  The result is always a column of the dataset or the field itself, and a
condition on a field that resolves to no column is never satisfied. -/
theorem resolveColumnName_cases (L : GoLib) (field : String) (columns : List String)
    (columnMapping : List (String × Int)) :
    (field ∈ columns → resolveColumnName L field columns columnMapping = field) ∧
    (field ∉ columns → ∀ c,
      columns.find? (fun c => L.ToLower (TrimSpace c) = L.ToLower (TrimSpace field)) = some c →
      resolveColumnName L field columns columnMapping = c) ∧
    (field ∉ columns →
      columns.find? (fun c => L.ToLower (TrimSpace c) = L.ToLower (TrimSpace field)) = none →
      L.ToLower (TrimSpace field) = "frequency" →
      findColumnNameNative L columns ["SSRef"] ≠ "" →
      resolveColumnName L field columns columnMapping = findColumnNameNative L columns ["SSRef"] ∧
        findColumnNameNative L columns ["SSRef"] ∈ columns ∧
        normalizeHeaderToken L (findColumnNameNative L columns ["SSRef"]) =
          normalizeHeaderToken L "SSRef") ∧
    (field ∉ columns →
      columns.find? (fun c => L.ToLower (TrimSpace c) = L.ToLower (TrimSpace field)) = none →
      ¬ (L.ToLower (TrimSpace field) = "frequency" ∧
        findColumnNameNative L columns ["SSRef"] ≠ "") →
      ∀ idx, mapGet filterFieldAliases (L.ToLower (TrimSpace field)) "" ≠ "" →
        mapFind columnMapping (mapGet filterFieldAliases (L.ToLower (TrimSpace field)) "")
          = some idx →
        0 ≤ idx → idx < columns.length →
        resolveColumnName L field columns columnMapping = columns.getD idx.toNat "") ∧
    (field ∉ columns →
      columns.find? (fun c => L.ToLower (TrimSpace c) = L.ToLower (TrimSpace field)) = none →
      ¬ (L.ToLower (TrimSpace field) = "frequency" ∧
        findColumnNameNative L columns ["SSRef"] ≠ "") →
      (mapGet filterFieldAliases (L.ToLower (TrimSpace field)) "" = "" ∨
        ∀ idx, mapFind columnMapping
            (mapGet filterFieldAliases (L.ToLower (TrimSpace field)) "") = some idx →
          ¬ (0 ≤ idx ∧ idx < columns.length)) →
      resolveColumnName L field columns columnMapping = field) ∧
    (resolveColumnName L field columns columnMapping ∈ columns ∨
      resolveColumnName L field columns columnMapping = field) ∧
    (resolveColumnName L field columns columnMapping ∉ columns →
      ∀ (row : List String) (g : List Condition) (c : Condition), c ∈ g →
        c.Field = resolveColumnName L field columns columnMapping →
        rowMatchesGroup L (rowValueMap columns row) g = false) := by
  refine ⟨?_, ?_, ?_, ?_, ?_, ?_, ?_⟩
  · intro h
    unfold resolveColumnName
    rw [if_pos h]
  · intro h c hc
    unfold resolveColumnName
    simp only [if_neg h, hc]
  · intro h hc hf hs
    unfold resolveColumnName
    simp only [if_neg h, hc]
    rw [if_pos ⟨hf, hs⟩]
    exact ⟨rfl, findColumnNameNative_single_mem L columns "SSRef" hs⟩
  · intro h hc hfs idx ha hm h0 h1
    unfold resolveColumnName
    simp only [if_neg h, hc]
    rw [if_neg hfs, if_pos ha]
    simp only [hm]
    rw [if_pos ⟨h0, h1⟩]
  · intro h hc hfs hcase
    unfold resolveColumnName
    simp only [if_neg h, hc]
    rw [if_neg hfs]
    rcases hcase with ha | hidx
    · rw [if_neg (by simpa using ha)]
    · split_ifs with ha
      · cases hm : mapFind columnMapping
            (mapGet filterFieldAliases (L.ToLower (TrimSpace field)) "") with
        | none => rfl
        | some idx => simp only [if_neg (hidx idx hm)]
      · rfl
  · unfold resolveColumnName
    by_cases h : field ∈ columns
    · rw [if_pos h]; exact Or.inl h
    · rw [if_neg h]
      simp only
      cases hc : columns.find?
          fun c => decide (L.ToLower (TrimSpace c) = L.ToLower (TrimSpace field)) with
      | some c => exact Or.inl (List.mem_of_find?_eq_some hc)
      | none =>
        simp only
        split_ifs with hfs ha
        · exact Or.inl (findColumnNameNative_single_mem L columns "SSRef" hfs.2).1
        · cases hm : mapFind columnMapping
              (mapGet filterFieldAliases (L.ToLower (TrimSpace field)) "") with
          | none => exact Or.inr rfl
          | some idx =>
            simp only
            split_ifs with hr
            · left
              rw [List.getD_eq_getElem?_getD]
              have hlt : idx.toNat < columns.length := by omega
              rw [List.getElem?_eq_getElem hlt]
              exact List.getElem_mem _
            · exact Or.inr rfl
        · exact Or.inr rfl
  · intro hnot row g c hc hf
    exact rowMatchesGroup_missing_field L columns row g c hc (by rw [hf]; exact hnot)

theorem resolveColumnName_cases_witness :
    resolveColumnName goLib "X" ["Lat", "SSRef", "X"] [("pci", 2)] = "X" ∧
    resolveColumnName goLib " lat " ["Lat", "SSRef", "X"] [("pci", 2)] = "Lat" ∧
    resolveColumnName goLib "Frequency" ["Lat", "SSRef", "X"] [("pci", 2)] = "SSRef" ∧
    resolveColumnName goLib "PCI" ["Lat", "SSRef", "X"] [("pci", 2)] = "X" ∧
    resolveColumnName goLib "Band" ["Lat", "SSRef", "X"] [("pci", 2)] = "Band" ∧
    rowMatchesGroup goLib (rowValueMap ["Lat", "SSRef", "X"] ["48.1", "3500", "7"])
      [⟨"Band", ConditionEq, 7, 7⟩] = false := by
  have h1 := (resolveColumnName_cases goLib "X" ["Lat", "SSRef", "X"] [("pci", 2)]).1
    (by decide)
  have h2 := (resolveColumnName_cases goLib " lat " ["Lat", "SSRef", "X"] [("pci", 2)]).2.1
    (by decide) "Lat" (by decide)
  have h3 := ((resolveColumnName_cases goLib "Frequency" ["Lat", "SSRef", "X"]
    [("pci", 2)]).2.2.1 (by decide) (by decide) (by decide) (by decide)).1
  have h4 := (resolveColumnName_cases goLib "PCI" ["Lat", "SSRef", "X"] [("pci", 2)]).2.2.2.1
    (by decide) (by decide) (by decide) 2 (by decide) (by decide) (by decide) (by decide)
  have h5 := (resolveColumnName_cases goLib "Band" ["Lat", "SSRef", "X"]
    [("pci", 2)]).2.2.2.2.1 (by decide) (by decide) (by decide) (Or.inl (by decide))
  have h6 := (resolveColumnName_cases goLib "Band" ["Lat", "SSRef", "X"]
    [("pci", 2)]).2.2.2.2.2.2 (by rw [h5]; decide) ["48.1", "3500", "7"]
    [⟨"Band", ConditionEq, 7, 7⟩] ⟨"Band", ConditionEq, 7, 7⟩ (by simp) (by rw [h5])
  exact ⟨h1, h2, h3.trans (by decide), h4.trans (by decide), h5, h6⟩

/-! ## C21: output columns and row width -/

theorem foldl_append_columns_spec (fields : List (String × List ℚ)) :
    ∀ cols : List String, ∃ extra, fields.foldl (fun cols fv =>
      if indexOf cols fv.1 = -1 then cols ++ [fv.1] else cols) cols = cols ++ extra ∧
      extra.Nodup ∧ ∀ f, f ∈ extra ↔ f ∈ fields.map Prod.fst ∧ f ∉ cols := by
  induction fields with
  | nil => intro cols; exact ⟨[], by simp, List.nodup_nil, by simp⟩
  | cons fv rest ih =>
    intro cols
    rw [List.foldl_cons]
    by_cases h : indexOf cols fv.1 = -1
    · rw [if_pos h]
      have hnot : fv.1 ∉ cols := (indexOf_eq_neg_one cols fv.1).mp h
      obtain ⟨extra, he, hnd, hmem⟩ := ih (cols ++ [fv.1])
      refine ⟨fv.1 :: extra, by rw [he]; simp, ?_, ?_⟩
      · rw [List.nodup_cons]
        refine ⟨?_, hnd⟩
        intro hin
        have := (hmem fv.1).mp hin
        exact this.2 (by simp)
      · intro f
        have e1 : (f ∈ (fv :: rest).map Prod.fst) ↔ f = fv.1 ∨ f ∈ rest.map Prod.fst := by simp
        have e2 : f ∉ cols ++ [fv.1] ↔ f ∉ cols ∧ f ≠ fv.1 := by simp [not_or]
        rw [List.mem_cons, hmem f, e1, e2]
        constructor
        · rintro (h1 | ⟨h1, h2, _⟩)
          · rw [h1]; exact ⟨Or.inl rfl, hnot⟩
          · exact ⟨Or.inr h1, h2⟩
        · rintro ⟨h1 | h1, h2⟩
          · exact Or.inl h1
          · by_cases hf : f = fv.1
            · exact Or.inl hf
            · exact Or.inr ⟨h1, h2, hf⟩
    · rw [if_neg h]
      have hin : fv.1 ∈ cols := by
        by_contra hc
        exact h ((indexOf_eq_neg_one cols fv.1).mpr hc)
      obtain ⟨extra, he, hnd, hmem⟩ := ih cols
      refine ⟨extra, he, hnd, ?_⟩
      intro f
      have e1 : (f ∈ (fv :: rest).map Prod.fst) ↔ f = fv.1 ∨ f ∈ rest.map Prod.fst := by simp
      rw [hmem f, e1]
      constructor
      · rintro ⟨h1, h2⟩; exact ⟨Or.inr h1, h2⟩
      · rintro ⟨h1 | h1, h2⟩
        · rw [h1] at h2; exact absurd hin h2
        · exact ⟨h1, h2⟩

theorem foldl_rules_columns_spec (R : List FilterRule) :
    ∀ cols : List String, ∃ extra, R.foldl (fun cols rule =>
      rule.Assignments.foldl (fun cols fv =>
        if indexOf cols fv.1 = -1 then cols ++ [fv.1] else cols) cols) cols = cols ++ extra ∧
      extra.Nodup ∧
      ∀ f, f ∈ extra ↔ (∃ rule ∈ R, f ∈ rule.Assignments.map Prod.fst) ∧ f ∉ cols := by
  induction R with
  | nil => intro cols; exact ⟨[], by simp, List.nodup_nil, by simp⟩
  | cons rule rest ih =>
    intro cols
    rw [List.foldl_cons]
    obtain ⟨e1, he1, hnd1, hm1⟩ := foldl_append_columns_spec rule.Assignments cols
    rw [he1]
    obtain ⟨e2, he2, hnd2, hm2⟩ := ih (cols ++ e1)
    refine ⟨e1 ++ e2, by rw [he2, List.append_assoc], ?_, ?_⟩
    · rw [List.nodup_append]
      refine ⟨hnd1, hnd2, ?_⟩
      intro a ha1 ha2
      exact ((hm2 a).mp ha2).2 (List.mem_append_right _ ha1)
    · intro f
      have q1 : (∃ r ∈ rule :: rest, f ∈ r.Assignments.map Prod.fst) ↔
          f ∈ rule.Assignments.map Prod.fst ∨ ∃ r ∈ rest, f ∈ r.Assignments.map Prod.fst := by
        simp
      have q2 : f ∉ cols ++ e1 ↔ f ∉ cols ∧ f ∉ e1 := by simp [not_or]
      rw [List.mem_append, hm1 f, hm2 f, q1, q2]
      constructor
      · rintro (⟨h1, h2⟩ | ⟨⟨r, hr, hf⟩, h2, _⟩)
        · exact ⟨Or.inl h1, h2⟩
        · exact ⟨Or.inr ⟨r, hr, hf⟩, h2⟩
      · rintro ⟨h1 | ⟨r, hr, hf⟩, h2⟩
        · exact Or.inl ⟨h1, h2⟩
        · by_cases hf1 : f ∈ rule.Assignments.map Prod.fst
          · exact Or.inl ⟨hf1, h2⟩
          · refine Or.inr ⟨⟨r, hr, hf⟩, h2, ?_⟩
            intro he
            exact hf1 ((hm1 f).mp he).1

theorem foldl_setAt_length (L : GoLib) (oc : List String) (combo : List (String × ℚ)) :
    ∀ r0 : List String, (combo.foldl (fun out fv =>
      setAt out (indexOf oc fv.1) (normalizeIntLikeString L fv.2)) r0).length = r0.length := by
  induction combo with
  | nil => intro r0; rfl
  | cons fv rest ih =>
    intro r0
    rw [List.foldl_cons, ih, setAt_length]

theorem appendOutputRow_length (L : GoLib) (oc : List String) (rowNumber : Int)
    (base : List (String × String)) (combo : List (String × ℚ)) (b : Bool) :
    (appendOutputRow L oc rowNumber base combo b).length = oc.length := by
  unfold appendOutputRow
  simp only
  rw [foldl_setAt_length]
  split_ifs
  · rw [setAt_length, List.length_map]
  · rw [List.length_map]

theorem emitRows_length (L : GoLib) (baseColumns oc : List String) (R : List FilterRule)
    (keep : Bool) (headerLine : Int) (pos : Nat) (row : List String) :
    ∀ out ∈ emitRows L baseColumns oc R keep headerLine pos row, out.length = oc.length := by
  intro out hout
  unfold emitRows at hout
  simp only at hout
  split at hout
  · rcases List.mem_append.mp hout with h | h
    · split_ifs at h
      · rw [List.mem_singleton] at h
        rw [h, appendOutputRow_length]
      · simp at h
    · obtain ⟨combo, _, rfl⟩ := List.mem_map.mp h
      rw [appendOutputRow_length]
  · rw [List.mem_singleton] at hout
    rw [hout, appendOutputRow_length]

/-- C21: For every dataset and non-empty rule list, the output of `ApplyFiltersCSV` has as
columns the input columns in their original order, then `original_excel_row` if the input
lacks it, then the resolved assignment fields of the rules that are not among these
columns, each exactly once; and every output row has exactly as many fields as there are
output columns. -/
theorem ApplyFiltersCSV_output_columns (L : GoLib) (d : CSVData) (rules : List FilterRule)
    (keepOriginalOnMatch : Bool) (columnMapping : List (String × Int)) (hrules : rules ≠ []) :
    ∃ out extra, ApplyFiltersCSV L (some d) rules keepOriginalOnMatch columnMapping = .ok out ∧
      out.Columns = d.Columns ++
        (if "original_excel_row" ∈ d.Columns then [] else ["original_excel_row"]) ++ extra ∧
      extra.Nodup ∧
      (∀ f, f ∈ extra ↔
        (∃ rule ∈ resolveFilterRules L rules d.Columns columnMapping,
          f ∈ rule.Assignments.map Prod.fst) ∧
        f ∉ d.Columns ∧ f ≠ "original_excel_row") ∧
      ∀ row ∈ out.Rows, row.length = out.Columns.length := by
  obtain ⟨extra, he, hnd, hmem⟩ := foldl_rules_columns_spec
    (resolveFilterRules L rules d.Columns columnMapping)
    (if indexOf d.Columns "original_excel_row" = -1 then d.Columns ++ ["original_excel_row"]
     else d.Columns)
  have hbase : (if indexOf d.Columns "original_excel_row" = -1 then
      d.Columns ++ ["original_excel_row"] else d.Columns) =
      d.Columns ++ (if "original_excel_row" ∈ d.Columns then [] else ["original_excel_row"]) := by
    by_cases h : "original_excel_row" ∈ d.Columns
    · have : indexOf d.Columns "original_excel_row" ≠ -1 := by
        intro hc; exact ((indexOf_eq_neg_one _ _).mp hc) h
      rw [if_neg this, if_pos h, List.append_nil]
    · rw [if_pos ((indexOf_eq_neg_one _ _).mpr h), if_neg h]
  refine ⟨_, extra, ApplyFiltersCSV_eq L d rules keepOriginalOnMatch columnMapping hrules,
    ?_, hnd, ?_, ?_⟩
  · show outputColumnsOf d.Columns _ = _
    unfold outputColumnsOf
    rw [he, hbase]
  · intro f
    rw [hmem f, hbase]
    by_cases h : "original_excel_row" ∈ d.Columns
    · rw [if_pos h, List.append_nil]
      constructor
      · rintro ⟨h1, h2⟩
        exact ⟨h1, h2, fun hf => h2 (hf ▸ h)⟩
      · rintro ⟨h1, h2, _⟩
        exact ⟨h1, h2⟩
    · rw [if_neg h]
      simp only [List.mem_append, List.mem_singleton, not_or]
  · intro row hrow
    simp only [List.mem_flatMap] at hrow
    obtain ⟨pr, _, hpr⟩ := hrow
    exact emitRows_length L _ _ _ _ _ _ _ row hpr

/-- C21 on an example run. -/
theorem ApplyFiltersCSV_output_columns_witness :
    ∃ out extra, ApplyFiltersCSV goLib (some (exampleCSV "15"))
        [exampleRuleTwoFields [("X", [1]), ("RSRP", [2])]] true [] = .ok out ∧
      out.Columns = ["PCI", "RSRP"] ++
        (if "original_excel_row" ∈ ["PCI", "RSRP"] then [] else ["original_excel_row"]) ++ extra ∧
      extra.Nodup ∧ ∀ row ∈ out.Rows, row.length = out.Columns.length := by
  obtain ⟨out, extra, h1, h2, h3, _, h5⟩ := ApplyFiltersCSV_output_columns goLib
    (exampleCSV "15") [exampleRuleTwoFields [("X", [1]), ("RSRP", [2])]] true [] (by simp)
  exact ⟨out, extra, h1, h2, h3, h5⟩

/-! ## C22: the row number written to `original_excel_row` -/

theorem foldl_setAt_getElem_other (L : GoLib) (oc : List String) (combo : List (String × ℚ))
    (j : Nat) (hj : ∀ fv ∈ combo, indexOf oc fv.1 ≠ (j : Int)) :
    ∀ r0 : List String, (combo.foldl (fun out fv =>
      setAt out (indexOf oc fv.1) (normalizeIntLikeString L fv.2)) r0)[j]? = r0[j]? := by
  induction combo with
  | nil => intro r0; rfl
  | cons fv rest ih =>
    intro r0
    rw [List.foldl_cons, ih (fun x hx => hj x (List.mem_cons_of_mem _ hx))]
    unfold setAt
    split_ifs with h0
    · have hne : (indexOf oc fv.1).toNat ≠ j := by
        intro hc
        apply hj fv (List.mem_cons_self _ _)
        omega
      rw [List.getElem?_set_ne hne]
    · rfl

theorem indexOf_ne_of_ne (oc : List String) (f g : String) (hg : g ∈ oc) (hne : f ≠ g) :
    indexOf oc f ≠ ((indexOf oc g).toNat : Int) := by
  intro hc
  have hgi := indexOf_getElem oc g hg
  by_cases hf : f ∈ oc
  · have hfi := indexOf_getElem oc f hf
    have : (indexOf oc f).toNat = (indexOf oc g).toNat := by omega
    rw [this, hgi.2] at hfi
    exact hne (Option.some.inj hfi.2).symm
  · have := (indexOf_eq_neg_one oc f).mpr hf
    omega

theorem appendOutputRow_row_number (L : GoLib) (oc : List String) (rowNumber : Int)
    (base : List (String × String)) (combo : List (String × ℚ))
    (hoer : "original_excel_row" ∈ oc) (hcombo : "original_excel_row" ∉ combo.map Prod.fst) :
    (appendOutputRow L oc rowNumber base combo true)[(indexOf oc "original_excel_row").toNat]?
      = some (Itoa rowNumber) := by
  unfold appendOutputRow
  simp only [if_true]
  rw [foldl_setAt_getElem_other]
  · have hi := indexOf_getElem oc "original_excel_row" hoer
    unfold setAt
    rw [if_pos hi.1]
    have hlt : (indexOf oc "original_excel_row").toNat < oc.length := by
      by_contra hc
      rw [List.getElem?_eq_none (by omega)] at hi
      cases hi.2
    rw [List.getElem?_set_self (by rw [List.length_map]; exact hlt)]
  · intro fv hfv
    apply indexOf_ne_of_ne oc fv.1 "original_excel_row" hoer
    intro hc
    exact hcombo (List.mem_map.mpr ⟨fv, hfv, hc⟩)

theorem buildAssignmentCombinations_keys (assignments : List (String × List ℚ))
    (hnd : (assignments.map Prod.fst).Nodup) (combo : List (String × ℚ))
    (hc : combo ∈ buildAssignmentCombinations assignments) :
    ∀ f ∈ combo.map Prod.fst, f ∈ assignments.map Prod.fst := by
  intro f hf
  rw [buildAssignmentCombinations_eq assignments hnd] at hc
  rw [specCombinations_keys assignments _ combo hc] at hf
  exact (mem_sortSlice _ _ f).mp hf

theorem dataLines_enumFrom_drop (hl : Nat) : ∀ (lines : List String) (s : Nat),
    (∀ k, k < lines.length → hl < s + k → TrimSpace (lines.getD k "") ≠ "") →
    ((lines.enumFrom s).filter fun p =>
        decide (¬ (((p.1 : Nat) : Int) ≤ (hl : Int) ∨ TrimSpace p.2 = ""))).map Prod.snd
      = lines.drop (hl + 1 - s) := by
  intro lines
  induction lines with
  | nil => intro s _; simp
  | cons l ls ih =>
    intro s h
    have hrest := ih (s + 1) (by
      intro k hk hlt
      have := h (k + 1) (by simpa using hk) (by omega)
      simpa [List.getD] using this)
    rw [List.enumFrom_cons, List.filter_cons]
    by_cases hs : s ≤ hl
    · have hd : decide (¬ (((s : Nat) : Int) ≤ (hl : Int) ∨ TrimSpace l = "")) = false := by
        simp; intro hc; omega
      simp only [hd, Bool.false_eq_true, if_false]
      rw [hrest]
      have : hl + 1 - s = (hl + 1 - (s + 1)) + 1 := by omega
      rw [this, List.drop_succ_cons]
    · have hnb : TrimSpace l ≠ "" := by
        have := h 0 (by simp) (by omega)
        simpa [List.getD] using this
      have hd : decide (¬ (((s : Nat) : Int) ≤ (hl : Int) ∨ TrimSpace l = "")) = true := by
        simp; exact ⟨by omega, hnb⟩
      simp only [hd, if_true, List.map_cons]
      rw [hrest]
      have e1 : hl + 1 - (s + 1) = 0 := by omega
      have e2 : hl + 1 - s = 0 := by omega
      rw [e1, e2]
      rfl

/-- C22 (as stated, refuted): The file has the header on its first line and the data row
`15;-95` on its second line.  The row emitted for it carries 1 in `original_excel_row`,
which is not the 1-based number 2 of its line. -/
theorem ApplyFiltersCSV_row_number_counterexample :
    splitLinesPreserveEmpty "PCI;RSRP\n15;-95\n" = ["PCI;RSRP", "15;-95"] ∧
    LoadCSVFile asciiCodecs (oneFile exampleTwoLineFile) "in.csv" = .ok (exampleCSV "15") ∧
    (exampleCSV "15").FileInfo.HeaderLine = 0 ∧
    ApplyFiltersCSV goLib (some (exampleCSV "15")) [exampleRule] false [] =
      .ok { Columns := ["PCI", "RSRP", "original_excel_row"]
            Rows := [["15", "-80", "1"]]
            FileInfo := (exampleCSV "15").FileInfo } := by
  refine ⟨by decide, by decide, rfl, by with_unfolding_all decide⟩

/-- C22 (amended): With at least one rule, none of which assigns to `original_excel_row`,
every row that `ApplyFiltersCSV` emits for the input row at zero-based position `pos`
carries in `original_excel_row` the number `pos + HeaderLine + 1`.  When the header sits
at zero-based line index `HeaderLine` and the data rows follow it with no blank lines in
between, the input row at position `pos` is the line with zero-based index
`HeaderLine + 1 + pos`, so the number written is the zero-based index of the row's line,
one less than its 1-based line number. -/
theorem ApplyFiltersCSV_row_number (L : GoLib) (d : CSVData) (rules : List FilterRule)
    (keepOriginalOnMatch : Bool) (columnMapping : List (String × Int)) (hrules : rules ≠ [])
    (hno : ∀ rule ∈ resolveFilterRules L rules d.Columns columnMapping,
      "original_excel_row" ∉ rule.Assignments.map Prod.fst) :
    (∃ out, ApplyFiltersCSV L (some d) rules keepOriginalOnMatch columnMapping = .ok out ∧
      "original_excel_row" ∈ out.Columns ∧
      out.Rows = d.Rows.enum.flatMap (fun pr =>
        emitRows L d.Columns out.Columns (resolveFilterRules L rules d.Columns columnMapping)
          keepOriginalOnMatch d.FileInfo.HeaderLine pr.1 pr.2) ∧
      ∀ (pos : Nat) (row : List String), ∀ r ∈ emitRows L d.Columns out.Columns
          (resolveFilterRules L rules d.Columns columnMapping) keepOriginalOnMatch
          d.FileInfo.HeaderLine pos row,
        r[(indexOf out.Columns "original_excel_row").toNat]? =
          some (Itoa ((pos : Int) + d.FileInfo.HeaderLine + 1))) ∧
    (∀ (lines : List String) (headerLine pos : Nat),
      (∀ k, k < lines.length → headerLine < k → TrimSpace (lines.getD k "") ≠ "") →
      (dataLinesOf lines (headerLine : Int))[pos]? = lines[headerLine + 1 + pos]?) := by
  constructor
  · have hoer : "original_excel_row" ∈
        outputColumnsOf d.Columns (resolveFilterRules L rules d.Columns columnMapping) := by
      obtain ⟨extra, he⟩ := foldl_rules_columns
        (resolveFilterRules L rules d.Columns columnMapping)
        (if indexOf d.Columns "original_excel_row" = -1 then
          d.Columns ++ ["original_excel_row"] else d.Columns)
      unfold outputColumnsOf
      rw [he]
      apply List.mem_append_left
      split_ifs with h
      · simp
      · by_contra hc
        exact h ((indexOf_eq_neg_one _ _).mpr hc)
    refine ⟨_, ApplyFiltersCSV_eq L d rules keepOriginalOnMatch columnMapping hrules, hoer, rfl,
      ?_⟩
    intro pos row r hr
    unfold emitRows at hr
    simp only at hr
    split at hr
    · rename_i selected hsel
      have hselmem := ((selectRule_spec L _ _
        (fun r hr => resolveFilterRules_groups_ne_nil L rules d.Columns columnMapping r hr)).2
        selected hsel).1
      rcases List.mem_append.mp hr with h | h
      · split_ifs at h
        · rw [List.mem_singleton] at h
          rw [h]
          exact appendOutputRow_row_number L _ _ _ [] hoer (by simp)
        · simp at h
      · obtain ⟨combo, hcombo, rfl⟩ := List.mem_map.mp h
        apply appendOutputRow_row_number L _ _ _ combo hoer
        intro hc
        exact hno selected hselmem (buildAssignmentCombinations_keys selected.Assignments
          (resolveFilterRules_assignments_nodup L rules d.Columns columnMapping selected hselmem)
          combo hcombo _ hc)
    · rw [List.mem_singleton] at hr
      rw [hr]
      exact appendOutputRow_row_number L _ _ _ [] hoer (by simp)
  · intro lines headerLine pos hnb
    unfold dataLinesOf
    have := dataLines_enumFrom_drop headerLine lines 0 (by
      intro k hk hlt
      exact hnb k hk (by omega))
    rw [List.enum, this, List.getElem?_drop]
    rfl

/-- C22 (as amended) on an example run. -/
theorem ApplyFiltersCSV_row_number_witness :
    (∃ out, ApplyFiltersCSV goLib (some (exampleCSV "15")) [exampleRule] true [] = .ok out ∧
      ∀ r ∈ emitRows goLib (exampleCSV "15").Columns out.Columns
          (resolveFilterRules goLib [exampleRule] (exampleCSV "15").Columns []) true
          (exampleCSV "15").FileInfo.HeaderLine 0 ["15", "-95"],
        r[(indexOf out.Columns "original_excel_row").toNat]? =
          some (Itoa ((0 : Nat) + (exampleCSV "15").FileInfo.HeaderLine + 1))) ∧
    (dataLinesOf ["PCI;RSRP", "15;-95"] ((0 : Nat) : Int))[0]? =
      ["PCI;RSRP", "15;-95"][0 + 1 + 0]? := by
  have h := ApplyFiltersCSV_row_number goLib (exampleCSV "15") [exampleRule] true []
    (by simp) (by decide)
  obtain ⟨out, h1, _, _, h4⟩ := h.1
  exact ⟨⟨out, h1, h4 0 ["15", "-95"]⟩, h.2 ["PCI;RSRP", "15;-95"] 0 0 (by decide)⟩

/-! ## Decimal texts of integers -/

theorem digitChar_isDigit (d : Nat) (h : d < 10) : (Nat.digitChar d).isDigit = true := by
  interval_cases d <;> decide

theorem digitVal_digitChar (d : Nat) (h : d < 10) : digitVal (Nat.digitChar d) = d := by
  interval_cases d <;> decide

theorem toDigitsCore_isDigit : ∀ (fuel n : Nat) (ds : List Char),
    (∀ c ∈ ds, c.isDigit = true) → ∀ c ∈ Nat.toDigitsCore 10 fuel n ds, c.isDigit = true := by
  intro fuel
  induction fuel with
  | zero => intro n ds h c hc; exact h c hc
  | succ fuel ih =>
    intro n ds h c hc
    unfold Nat.toDigitsCore at hc
    simp only at hc
    have hd : ∀ x ∈ Nat.digitChar (n % 10) :: ds, x.isDigit = true := by
      intro x hx
      rcases List.mem_cons.mp hx with hx | hx
      · rw [hx]; exact digitChar_isDigit _ (Nat.mod_lt _ (by decide))
      · exact h x hx
    split_ifs at hc
    · exact hd c hc
    · exact ih _ _ hd c hc

theorem toDigits_isDigit (n : Nat) : ∀ c ∈ Nat.toDigits 10 n, c.isDigit = true :=
  toDigitsCore_isDigit _ _ [] (by simp)

theorem foldl_digits_toDigitsCore : ∀ (fuel n : Nat) (ds : List Char), n < fuel →
    (Nat.toDigitsCore 10 fuel n ds).foldl (fun acc c => 10 * acc + digitVal c) 0 =
      ds.foldl (fun acc c => 10 * acc + digitVal c) n := by
  intro fuel
  induction fuel with
  | zero => intro n ds h; omega
  | succ fuel ih =>
    intro n ds h
    unfold Nat.toDigitsCore
    simp only
    split_ifs with h0
    · rw [List.foldl_cons, digitVal_digitChar _ (Nat.mod_lt _ (by decide))]
      have : n % 10 = n := Nat.mod_eq_of_lt (by omega)
      simp [this]
    · rw [ih (n / 10) _ (by omega), List.foldl_cons,
        digitVal_digitChar _ (Nat.mod_lt _ (by decide))]
      have : 10 * (n / 10) + n % 10 = n := Nat.div_add_mod n 10
      rw [this]

theorem digitsVal_toDigits (n : Nat) : digitsVal (Nat.toDigits 10 n) = n := by
  unfold digitsVal Nat.toDigits
  rw [foldl_digits_toDigitsCore _ _ _ (by omega)]
  rfl

theorem toDigits_injective (m n : Nat) (h : Nat.toDigits 10 m = Nat.toDigits 10 n) : m = n := by
  have := congrArg digitsVal h
  rwa [digitsVal_toDigits, digitsVal_toDigits] at this

theorem toDigits_ne_nil (n : Nat) : Nat.toDigits 10 n ≠ [] := by
  obtain ⟨pre, h⟩ := toDigits_ten_last n
  rw [h]; simp

theorem Itoa_injective (a b : Int) (h : Itoa a = Itoa b) : a = b := by
  have hminus : (('-' : Char).isDigit) = false := by decide
  have hd : (Itoa a).data = (Itoa b).data := congrArg String.data h
  cases a with
  | ofNat m =>
    cases b with
    | ofNat n =>
      simp only [Itoa] at hd
      rw [toDigits_injective m n hd]
    | negSucc n =>
      simp only [Itoa] at hd
      exfalso
      have hmem : '-' ∈ Nat.toDigits 10 m := by rw [hd]; exact List.mem_cons_self _ _
      have := toDigits_isDigit m '-' hmem
      rw [hminus] at this; cases this
  | negSucc m =>
    cases b with
    | ofNat n =>
      simp only [Itoa] at hd
      exfalso
      have hmem : '-' ∈ Nat.toDigits 10 n := by rw [← hd]; exact List.mem_cons_self _ _
      have := toDigits_isDigit n '-' hmem
      rw [hminus] at this; cases this
    | negSucc n =>
      simp only [Itoa, List.cons.injEq, true_and] at hd
      have := toDigits_injective _ _ hd
      have : m = n := by omega
      rw [this]

theorem Itoa_chars (a : Int) : ∀ c ∈ (Itoa a).data, c.isDigit = true ∨ c = '-' := by
  intro c hc
  cases a with
  | ofNat m => exact Or.inl (toDigits_isDigit m c hc)
  | negSucc m =>
    simp only [Itoa, List.mem_cons] at hc
    rcases hc with hc | hc
    · exact Or.inr hc
    · exact Or.inl (toDigits_isDigit _ c hc)

theorem append_sep_inj {α : Type} (c : α) : ∀ (l1 l3 l2 l4 : List α), c ∉ l1 → c ∉ l3 →
    l1 ++ c :: l2 = l3 ++ c :: l4 → l1 = l3 ∧ l2 = l4 := by
  intro l1
  induction l1 with
  | nil =>
    intro l3 l2 l4 _ h3 h
    cases l3 with
    | nil => simp at h; exact ⟨rfl, h⟩
    | cons x xs =>
      simp only [List.nil_append, List.cons_append, List.cons.injEq] at h
      exact absurd (by rw [h.1]; exact List.mem_cons_self _ _) h3
  | cons a l1 ih =>
    intro l3 l2 l4 h1 h3 h
    cases l3 with
    | nil =>
      simp only [List.nil_append, List.cons_append, List.cons.injEq] at h
      exact absurd (by rw [← h.1]; exact List.mem_cons_self _ _) h1
    | cons x xs =>
      simp only [List.cons_append, List.cons.injEq] at h
      have := ih xs l2 l4 (fun hc => h1 (List.mem_cons_of_mem _ hc))
        (fun hc => h3 (List.mem_cons_of_mem _ hc)) h.2
      exact ⟨by rw [h.1, this.1], this.2⟩

theorem Itoa_not_mem (a : Int) (c : Char) (hd : c.isDigit = false) (hm : c ≠ '-') :
    c ∉ (Itoa a).data := by
  intro hc
  rcases Itoa_chars a c hc with h | h
  · rw [hd] at h; cases h
  · exact hm h

theorem exampleNumLib_FormatV_chars (v : ℚ) (c : Char) (hd : c.isDigit = false)
    (hm : c ≠ '-') (hs : c ≠ '/') : c ∉ (exampleNumLib.FormatV v).data := by
  show c ∉ (if v.den = 1 then Itoa v.num else Itoa v.num ++ "/" ++ Itoa v.den).data
  split_ifs
  · exact Itoa_not_mem _ c hd hm
  · simp only [String.data_append, List.mem_append, not_or]
    refine ⟨⟨Itoa_not_mem _ c hd hm, ?_⟩, Itoa_not_mem _ c hd hm⟩
    intro hc
    have : c = '/' := by simpa using hc
    exact hs this

theorem exampleNumLib_FormatV_injective : Function.Injective exampleNumLib.FormatV := by
  intro a b h
  have hslash : '/' ∉ (Itoa a.num).data := Itoa_not_mem _ _ (by decide) (by decide)
  have hslash' : '/' ∉ (Itoa b.num).data := Itoa_not_mem _ _ (by decide) (by decide)
  have h' : (if a.den = 1 then Itoa a.num else Itoa a.num ++ "/" ++ Itoa a.den) =
      (if b.den = 1 then Itoa b.num else Itoa b.num ++ "/" ++ Itoa b.den) := h
  have hdata := congrArg String.data h'
  by_cases ha : a.den = 1
  · by_cases hb : b.den = 1
    · rw [if_pos ha, if_pos hb] at h'
      exact Rat.ext (Itoa_injective _ _ h') (by rw [ha, hb])
    · rw [if_pos ha, if_neg hb] at hdata
      exfalso
      apply hslash
      rw [hdata]
      simp [String.data_append]
  · by_cases hb : b.den = 1
    · rw [if_neg ha, if_pos hb] at hdata
      exfalso
      apply hslash'
      rw [← hdata]
      simp [String.data_append]
    · rw [if_neg ha, if_neg hb] at hdata
      simp only [String.data_append] at hdata
      have hsplit := append_sep_inj '/' (Itoa a.num).data (Itoa b.num).data
        (Itoa (a.den : Int)).data (Itoa (b.den : Int)).data hslash hslash'
        (by simpa [List.append_assoc] using hdata)
      have hn := Itoa_injective _ _ (String.ext hsplit.1)
      have hdn := Itoa_injective _ _ (String.ext hsplit.2)
      exact Rat.ext hn (by exact_mod_cast hdn)

/-! ## Row processing: structure of the result -/

theorem segmentLoop_length (M : NumLib) (zoneSize : ℚ) : ∀ (ps : List Point) (c px py : ℚ)
    (sm : List (Int × Point)), (segmentLoop M zoneSize ps c px py sm).1.length = ps.length := by
  intro ps
  induction ps with
  | nil => intro c px py sm; rfl
  | cons p rest ih =>
    intro c px py sm
    simp only [segmentLoop, List.length_cons, ih]

theorem segmentsOf_length (M : NumLib) (zoneMode : String) (zoneSize : ℚ) (xy : List Point) :
    (segmentsOf M zoneMode zoneSize xy).1.length = xy.length := by
  unfold segmentsOf
  cases xy with
  | nil => rfl
  | cons p0 rest =>
    simp only
    split_ifs
    · simp only [List.length_cons, segmentLoop_length]
    · simp

theorem effectiveZoneSize_pos (cfg : ProcessingConfig) : 0 < effectiveZoneSize cfg := by
  unfold effectiveZoneSize
  split_ifs with h
  · norm_num
  · exact not_le.mp h

/-- What a successful run of `ProcessDataNative` returns: the rows that pass the row loop,
projected, each with its segment number. -/
theorem ProcessDataNative_ok (L : GoLib) (M : NumLib) (ctx : Context) (d : CSVData)
    (cfg : ProcessingConfig) (t : PyProjTransformer) (ds : ProcessedDataset)
    (h : ProcessDataNative L M ctx (some d) cfg t = .ok ds) :
    ∃ filtered xy, filteredRowsOf L d cfg = .ok filtered ∧
      t.Forward ctx (filtered.map fun r => ⟨r.lon, r.lat⟩) = .ok xy ∧
      xy.length = filtered.length ∧
      ds.SegmentMeta = (segmentsOf M cfg.ZoneMode (effectiveZoneSize cfg) xy).2 ∧
      ds.Rows = (filtered.zip (xy.zip (segmentsOf M cfg.ZoneMode (effectiveZoneSize cfg) xy).1)).map
        fun t => buildProcessedRow L M cfg.ZoneMode (effectiveZoneSize cfg)
          (mapGet cfg.ColumnMapping "mcc" 0) (mapGet cfg.ColumnMapping "mnc" 0)
          (mapGet cfg.ColumnMapping "pci" 0) (mapGet cfg.ColumnMapping "frequency" 0)
          (d.columnIndexByName (findColumnNameNative L d.Columns (nrCandidatesOf cfg)))
          (segmentsOf M cfg.ZoneMode (effectiveZoneSize cfg) xy).2 (xy.headD ⟨0, 0⟩)
          t.1 t.2.1 t.2.2 := by
  unfold ProcessDataNative at h
  simp only at h
  split at h
  · cases h
  · cases hf : filteredRowsOf L d cfg with
    | error e => rw [hf] at h; cases h
    | ok filtered =>
      rw [hf] at h
      simp only at h
      cases hx : t.Forward ctx (filtered.map fun r => ⟨r.lon, r.lat⟩) with
      | error e => rw [hx] at h; cases h
      | ok xy =>
        rw [hx] at h
        simp only [Except.ok.injEq] at h
        have hlen : xy.length = filtered.length := by
          have := transformLoop_length _ _ _ _ _ hx
          simpa using this
        refine ⟨filtered, xy, rfl, hx, hlen, ?_, ?_⟩
        · rw [← h]
        · rw [← h]

theorem map_zip_zip_mid {α β γ δ : Type} (f : β → δ) (l1 : List α) (l2 : List β) (l3 : List γ)
    (h1 : l2.length = l1.length) (h3 : l3.length = l2.length) :
    (l1.zip (l2.zip l3)).map (fun t => f t.2.1) = l2.map f := by
  induction l1 generalizing l2 l3 with
  | nil =>
    cases l2 with
    | nil => rfl
    | cons b l2 => simp at h1
  | cons a l1 ih =>
    cases l2 with
    | nil => simp at h1
    | cons b l2 =>
      cases l3 with
      | nil => simp at h3
      | cons c l3 =>
        simp only [List.zip_cons_cons, List.map_cons, List.cons.injEq, true_and]
        exact ih l2 l3 (by simpa using h1) (by simpa using h3)

theorem map_zip_zip_fst {α β γ δ : Type} (f : α → δ) (l1 : List α) (l2 : List β) (l3 : List γ)
    (h1 : l2.length = l1.length) (h3 : l3.length = l2.length) :
    (l1.zip (l2.zip l3)).map (fun t => f t.1) = l1.map f := by
  induction l1 generalizing l2 l3 with
  | nil => rfl
  | cons a l1 ih =>
    cases l2 with
    | nil => simp at h1
    | cons b l2 =>
      cases l3 with
      | nil => simp at h3
      | cons c l3 =>
        simp only [List.zip_cons_cons, List.map_cons, List.cons.injEq, true_and]
        exact ih l2 l3 (by simpa using h1) (by simpa using h3)

/-! ## C23: grid zones -/

theorem floor_mul_le (x s : ℚ) (hs : 0 < s) :
    (⌊x / s⌋ : ℚ) * s ≤ x ∧ x < (⌊x / s⌋ : ℚ) * s + s := by
  have h1 : (⌊x / s⌋ : ℚ) ≤ x / s := Int.floor_le _
  have h2 : x / s < (⌊x / s⌋ : ℚ) + 1 := Int.lt_floor_add_one _
  constructor
  · have := mul_le_mul_of_nonneg_right h1 (le_of_lt hs)
    rwa [div_mul_cancel₀ x (ne_of_gt hs)] at this
  · have := mul_lt_mul_of_pos_right h2 hs
    rw [div_mul_cancel₀ x (ne_of_gt hs)] at this
    linarith

/-- C23: In grid mode with zone size `s > 0` (100 when the configured size is not
positive), a row projected to planar `(x, y)` gets `ZonaX = floor(x/s)*s` and
`ZonaY = floor(y/s)*s`, so that `ZonaX ≤ x < ZonaX + s` and `ZonaY ≤ y < ZonaY + s`, and
its zone key is the text of `ZonaX`, an underscore and the text of `ZonaY`.  Rows of
the same grid cell get the same zone key, and, the texts of different numbers being
different and free of underscores, rows with the same zone key lie in the same grid cell.
With `s = 100` the points (150, 250) and (180, 270) both get the key `100_200`. -/
theorem ProcessDataNative_grid_zone (L : GoLib) (M : NumLib) (ctx : Context) (d : CSVData)
    (cfg : ProcessingConfig) (t : PyProjTransformer) (ds : ProcessedDataset)
    (hmode : cfg.ZoneMode ≠ "segments")
    (h : ProcessDataNative L M ctx (some d) cfg t = .ok ds) :
    0 < effectiveZoneSize cfg ∧ (0 < cfg.ZoneSizeM → effectiveZoneSize cfg = cfg.ZoneSizeM) ∧
    (∃ filtered xy, filteredRowsOf L d cfg = .ok filtered ∧
      t.Forward ctx (filtered.map fun r => ⟨r.lon, r.lat⟩) = .ok xy ∧
      ds.Rows.map (fun r => (⟨r.XMeters, r.YMeters⟩ : Point)) = xy) ∧
    (∀ r ∈ ds.Rows,
      r.ZonaX = (⌊r.XMeters / effectiveZoneSize cfg⌋ : ℚ) * effectiveZoneSize cfg ∧
      r.ZonaY = (⌊r.YMeters / effectiveZoneSize cfg⌋ : ℚ) * effectiveZoneSize cfg ∧
      r.ZonaX ≤ r.XMeters ∧ r.XMeters < r.ZonaX + effectiveZoneSize cfg ∧
      r.ZonaY ≤ r.YMeters ∧ r.YMeters < r.ZonaY + effectiveZoneSize cfg ∧
      r.ZonaKey = M.FormatV r.ZonaX ++ "_" ++ M.FormatV r.ZonaY) ∧
    (∀ r1 ∈ ds.Rows, ∀ r2 ∈ ds.Rows,
      ⌊r1.XMeters / effectiveZoneSize cfg⌋ = ⌊r2.XMeters / effectiveZoneSize cfg⌋ →
      ⌊r1.YMeters / effectiveZoneSize cfg⌋ = ⌊r2.YMeters / effectiveZoneSize cfg⌋ →
      r1.ZonaKey = r2.ZonaKey) ∧
    (Function.Injective M.FormatV → (∀ v, '_' ∉ (M.FormatV v).data) →
      ∀ r1 ∈ ds.Rows, ∀ r2 ∈ ds.Rows, r1.ZonaKey = r2.ZonaKey →
        ⌊r1.XMeters / effectiveZoneSize cfg⌋ = ⌊r2.XMeters / effectiveZoneSize cfg⌋ ∧
        ⌊r1.YMeters / effectiveZoneSize cfg⌋ = ⌊r2.YMeters / effectiveZoneSize cfg⌋) ∧
    (ProcessDataNative goLib exampleNumLib liveContext (some exampleGridData)
        exampleGridConfig idTransformer).map
      (fun ds => ds.Rows.map fun r => (r.XMeters, r.YMeters, r.ZonaKey)) =
      .ok [(150, 250, "100_200"), (180, 270, "100_200")] := by
  have hs := effectiveZoneSize_pos cfg
  obtain ⟨filtered, xy, hf, hx, hlen, _, hrows⟩ := ProcessDataNative_ok L M ctx d cfg t ds h
  have hseglen := segmentsOf_length M cfg.ZoneMode (effectiveZoneSize cfg) xy
  have hrow : ∀ r ∈ ds.Rows,
      r.ZonaX = (⌊r.XMeters / effectiveZoneSize cfg⌋ : ℚ) * effectiveZoneSize cfg ∧
      r.ZonaY = (⌊r.YMeters / effectiveZoneSize cfg⌋ : ℚ) * effectiveZoneSize cfg ∧
      r.ZonaKey = M.FormatV r.ZonaX ++ "_" ++ M.FormatV r.ZonaY := by
    intro r hr
    rw [hrows] at hr
    obtain ⟨tt, _, rfl⟩ := List.mem_map.mp hr
    simp only [buildProcessedRow, if_neg hmode]
    exact ⟨trivial, trivial, trivial⟩
  refine ⟨hs, ?_, ⟨filtered, xy, hf, hx, ?_⟩, ?_, ?_, ?_, by with_unfolding_all decide⟩
  · intro hpos
    unfold effectiveZoneSize
    rw [if_neg (not_le.mpr hpos)]
  · rw [hrows, List.map_map]
    have := map_zip_zip_mid (fun p : Point => (⟨p.A, p.B⟩ : Point)) filtered xy
      (segmentsOf M cfg.ZoneMode (effectiveZoneSize cfg) xy).1 hlen hseglen
    simp only [Function.comp_def, buildProcessedRow] at this ⊢
    rw [this]
    simp
  · intro r hr
    obtain ⟨h1, h2, h3⟩ := hrow r hr
    have fx := floor_mul_le r.XMeters _ hs
    have fy := floor_mul_le r.YMeters _ hs
    refine ⟨h1, h2, ?_, ?_, ?_, ?_, h3⟩
    · rw [h1]; exact fx.1
    · rw [h1]; exact fx.2
    · rw [h2]; exact fy.1
    · rw [h2]; exact fy.2
  · intro r1 hr1 r2 hr2 hx12 hy12
    obtain ⟨a1, a2, a3⟩ := hrow r1 hr1
    obtain ⟨b1, b2, b3⟩ := hrow r2 hr2
    rw [a3, b3, a1, a2, b1, b2, hx12, hy12]
  · intro hinj hus r1 hr1 r2 hr2 hkey
    obtain ⟨a1, a2, a3⟩ := hrow r1 hr1
    obtain ⟨b1, b2, b3⟩ := hrow r2 hr2
    rw [a3, b3] at hkey
    have hdata := congrArg String.data hkey
    simp only [String.data_append] at hdata
    have hsplit := append_sep_inj '_' _ _ _ _ (hus r1.ZonaX) (hus r2.ZonaX)
      (by simpa [List.append_assoc] using hdata)
    have hzx := hinj (String.ext hsplit.1)
    have hzy := hinj (String.ext hsplit.2)
    rw [a1, b1] at hzx
    rw [a2, b2] at hzy
    have hne : effectiveZoneSize cfg ≠ 0 := ne_of_gt hs
    constructor
    · exact_mod_cast mul_right_cancel₀ hne hzx
    · exact_mod_cast mul_right_cancel₀ hne hzy

/-- C23 on the two example measurements of one grid cell. -/
theorem ProcessDataNative_grid_zone_witness :
    ProcessDataNative goLib exampleNumLib liveContext (some exampleGridData) exampleGridConfig
      idTransformer = .ok exampleGridProcessed ∧
    (∀ r ∈ exampleGridProcessed.Rows,
      r.ZonaX ≤ r.XMeters ∧ r.XMeters < r.ZonaX + effectiveZoneSize exampleGridConfig) ∧
    (∀ r1 ∈ exampleGridProcessed.Rows, ∀ r2 ∈ exampleGridProcessed.Rows,
      r1.ZonaKey = r2.ZonaKey →
        ⌊r1.XMeters / effectiveZoneSize exampleGridConfig⌋ =
          ⌊r2.XMeters / effectiveZoneSize exampleGridConfig⌋ ∧
        ⌊r1.YMeters / effectiveZoneSize exampleGridConfig⌋ =
          ⌊r2.YMeters / effectiveZoneSize exampleGridConfig⌋) := by
  have hrun : ProcessDataNative goLib exampleNumLib liveContext (some exampleGridData)
      exampleGridConfig idTransformer = .ok exampleGridProcessed := by
    with_unfolding_all decide
  have h := ProcessDataNative_grid_zone goLib exampleNumLib liveContext exampleGridData
    exampleGridConfig idTransformer exampleGridProcessed (by decide) hrun
  refine ⟨hrun, ?_, ?_⟩
  · intro r hr
    have := h.2.2.2.1 r hr
    exact ⟨this.2.2.1, this.2.2.2.1⟩
  · exact h.2.2.2.2.2.1 exampleNumLib_FormatV_injective
      (fun v => exampleNumLib_FormatV_chars v '_' (by decide) (by decide) (by decide))

/-! ## C24: segment numbers -/

theorem stepDistances_cons_cons (M : NumLib) (p q : Point) (rest : List Point) :
    stepDistances M (p :: q :: rest) =
      M.Hypot (q.A - p.A) (q.B - p.B) :: stepDistances M (q :: rest) := rfl

theorem stepDistances_nonneg (M : NumLib) (hH : ∀ a b, 0 ≤ M.Hypot a b) :
    ∀ xy : List Point, ∀ x ∈ stepDistances M xy, 0 ≤ x := by
  intro xy
  induction xy with
  | nil => intro x hx; simp [stepDistances] at hx
  | cons p rest ih =>
    cases rest with
    | nil => intro x hx; simp [stepDistances] at hx
    | cons q rest =>
      intro x hx
      rw [stepDistances_cons_cons] at hx
      rcases List.mem_cons.mp hx with hx | hx
      · rw [hx]; exact hH _ _
      · exact ih x hx

theorem segmentLoop_ids (M : NumLib) (zoneSize : ℚ) (hH : ∀ a b, 0 ≤ M.Hypot a b) :
    ∀ (rest : List Point) (c px py : ℚ) (sm : List (Int × Point)),
      (segmentLoop M zoneSize rest c px py sm).1 =
        (List.range rest.length).map fun k =>
          segmentOf zoneSize (c + ((stepDistances M (⟨px, py⟩ :: rest)).take (k + 1)).sum) := by
  intro rest
  induction rest with
  | nil => intro c px py sm; rfl
  | cons p rest ih =>
    intro c px py sm
    have hstep : (if M.Hypot (p.A - px) (p.B - py) > 0 then c + M.Hypot (p.A - px) (p.B - py)
        else c) = c + M.Hypot (p.A - px) (p.B - py) := by
      split_ifs with h
      · rfl
      · have : M.Hypot (p.A - px) (p.B - py) = 0 := le_antisymm (not_lt.mp h) (hH _ _)
        rw [this, add_zero]
    simp only [segmentLoop, hstep, List.length_cons]
    rw [ih, List.range_succ_eq_map, List.map_cons, List.map_map]
    have e : stepDistances M (⟨px, py⟩ :: p :: rest) =
        M.Hypot (p.A - px) (p.B - py) :: stepDistances M (p :: rest) := rfl
    rw [e]
    congr 1
    · simp
    · apply List.map_congr_left
      intro k _
      simp only [Function.comp, List.take_succ_cons, List.sum_cons]
      rw [add_assoc]

theorem take_sum_mono (l : List ℚ) (hl : ∀ x ∈ l, 0 ≤ x) : ∀ (i j : Nat), i ≤ j →
    (l.take i).sum ≤ (l.take j).sum := by
  induction l with
  | nil => intro i j _; simp
  | cons x xs ih =>
    intro i j hij
    cases i with
    | zero =>
      simp only [List.take_zero, List.sum_nil]
      apply List.sum_nonneg
      intro y hy
      exact hl y (List.mem_of_mem_take hy)
    | succ i =>
      cases j with
      | zero => omega
      | succ j =>
        simp only [List.take_succ_cons, List.sum_cons]
        have := ih (fun y hy => hl y (List.mem_cons_of_mem _ hy)) i j (by omega)
        linarith

theorem segmentsOf_ids (M : NumLib) (zoneSize : ℚ) (hH : ∀ a b, 0 ≤ M.Hypot a b)
    (xy : List Point) :
    (segmentsOf M "segments" zoneSize xy).1 =
      (List.range xy.length).map fun i => segmentIdAt M zoneSize xy i := by
  cases xy with
  | nil => rfl
  | cons p0 rest =>
    simp only [segmentsOf, if_true, List.length_cons]
    rw [segmentLoop_ids M zoneSize hH, List.range_succ_eq_map, List.map_cons, List.map_map]
    congr 1
    apply List.map_congr_left
    intro k _
    simp only [Function.comp, segmentIdAt, segmentOf, cumulativeDistanceAt, zero_add]
    rw [if_neg (by omega)]

theorem map_zip_zip_last {α β γ δ : Type} (f : γ → δ) (l1 : List α) (l2 : List β) (l3 : List γ)
    (h1 : l2.length = l1.length) (h3 : l3.length = l2.length) :
    (l1.zip (l2.zip l3)).map (fun t => f t.2.2) = l3.map f := by
  induction l1 generalizing l2 l3 with
  | nil =>
    cases l2 with
    | nil =>
      cases l3 with
      | nil => rfl
      | cons c l3 => simp at h3
    | cons b l2 => simp at h1
  | cons a l1 ih =>
    cases l2 with
    | nil => simp at h1
    | cons b l2 =>
      cases l3 with
      | nil => simp at h3
      | cons c l3 =>
        simp only [List.zip_cons_cons, List.map_cons, List.cons.injEq, true_and]
        exact ih l2 l3 (by simpa using h1) (by simpa using h3)

/-- C24 (as stated, refuted): Two retained points on one line, 99.9999999995 m apart, with
zone size 100: the cumulative distance of the second row is below 100, so the floor of
cumulative distance over zone size is 0, yet the row gets segment 1, because the source
adds `epsilon` to the cumulative distance before dividing. -/
theorem ProcessDataNative_segment_ids_counterexample :
    (ProcessDataNative goLib exampleNumLib liveContext (some exampleNearBoundaryData)
      exampleSegmentConfig idTransformer).map (fun ds =>
        (ds.Rows.map (fun r => r.ZonaKey),
          specSegmentIdAt exampleNumLib (effectiveZoneSize exampleSegmentConfig)
            (ds.Rows.map fun r => ⟨r.XMeters, r.YMeters⟩) 1))
      = .ok (["segment_0", "segment_1"], 0) := by
  with_unfolding_all decide

/-- C24 (amended): In segment mode, every retained row's segment id (the number in its
zone key `segment_<id>`) is 0 for the first row and, for a later row,
`floor((cumulativeDistance + epsilon) / zoneSize)` with `epsilon = 1e-9`, where
`cumulativeDistance` is the sum of the straight-line distances between consecutive
retained points from the first row up to that row; ids never decrease along the row
order. -/
theorem ProcessDataNative_segment_ids (L : GoLib) (M : NumLib) (ctx : Context) (d : CSVData)
    (cfg : ProcessingConfig) (t : PyProjTransformer) (ds : ProcessedDataset)
    (hmode : cfg.ZoneMode = "segments") (hH : ∀ a b, 0 ≤ M.Hypot a b)
    (h : ProcessDataNative L M ctx (some d) cfg t = .ok ds) :
    ds.Rows.map (fun r => r.ZonaKey) =
      (List.range ds.Rows.length).map (fun i => "segment_" ++
        Itoa (segmentIdAt M (effectiveZoneSize cfg)
          (ds.Rows.map fun r => ⟨r.XMeters, r.YMeters⟩) i)) ∧
    segmentIdAt M (effectiveZoneSize cfg) (ds.Rows.map fun r => ⟨r.XMeters, r.YMeters⟩) 0 = 0 ∧
    (∀ i, 0 < i →
      segmentIdAt M (effectiveZoneSize cfg) (ds.Rows.map fun r => ⟨r.XMeters, r.YMeters⟩) i =
        ⌊(cumulativeDistanceAt M (ds.Rows.map fun r => ⟨r.XMeters, r.YMeters⟩) i + epsilon) /
          effectiveZoneSize cfg⌋) ∧
    (∀ i j, i ≤ j →
      segmentIdAt M (effectiveZoneSize cfg) (ds.Rows.map fun r => ⟨r.XMeters, r.YMeters⟩) i ≤
        segmentIdAt M (effectiveZoneSize cfg) (ds.Rows.map fun r => ⟨r.XMeters, r.YMeters⟩) j) := by
  have hs := effectiveZoneSize_pos cfg
  obtain ⟨filtered, xy, hf, hx, hlen, _, hrows⟩ := ProcessDataNative_ok L M ctx d cfg t ds h
  have hseglen := segmentsOf_length M cfg.ZoneMode (effectiveZoneSize cfg) xy
  have hxy : ds.Rows.map (fun r => (⟨r.XMeters, r.YMeters⟩ : Point)) = xy := by
    rw [hrows, List.map_map]
    have := map_zip_zip_mid (fun p : Point => (⟨p.A, p.B⟩ : Point)) filtered xy
      (segmentsOf M cfg.ZoneMode (effectiveZoneSize cfg) xy).1 hlen hseglen
    simp only [Function.comp_def, buildProcessedRow] at this ⊢
    rw [this]
    simp
  have hn : ds.Rows.length = xy.length := by
    rw [← hxy, List.length_map]
  have heps : (0 : ℚ) < epsilon := by unfold epsilon; norm_num
  have hcum0 : ∀ i, 0 ≤ cumulativeDistanceAt M xy i := by
    intro i
    apply List.sum_nonneg
    intro x hx
    exact stepDistances_nonneg M hH xy x (List.mem_of_mem_take hx)
  have hnonneg : ∀ i, 0 ≤ segmentIdAt M (effectiveZoneSize cfg) xy i := by
    intro i
    unfold segmentIdAt
    split_ifs
    · exact le_refl _
    · apply Int.floor_nonneg.mpr
      exact div_nonneg (add_nonneg (hcum0 i) (le_of_lt heps)) (le_of_lt hs)
  rw [hxy, hn]
  refine ⟨?_, rfl, ?_, ?_⟩
  · rw [hrows, List.map_map]
    have := map_zip_zip_last (fun id : Int => "segment_" ++ Itoa id) filtered xy
      (segmentsOf M cfg.ZoneMode (effectiveZoneSize cfg) xy).1 hlen hseglen
    simp only [Function.comp_def, buildProcessedRow, if_pos hmode] at this ⊢
    rw [this, hmode, segmentsOf_ids M _ hH, List.map_map]
    rfl
  · intro i hi
    unfold segmentIdAt
    rw [if_neg (by omega)]
  · intro i j hij
    by_cases hi : i = 0
    · rw [hi]
      exact hnonneg j
    · have hj : j ≠ 0 := by omega
      unfold segmentIdAt
      rw [if_neg hi, if_neg hj]
      apply Int.floor_mono
      apply div_le_div_of_nonneg_right _ (le_of_lt hs)
      have := take_sum_mono (stepDistances M xy) (stepDistances_nonneg M hH xy) i j hij
      unfold cumulativeDistanceAt
      linarith

theorem exampleNumLib_Hypot_nonneg (a b : ℚ) : 0 ≤ exampleNumLib.Hypot a b := by
  show 0 ≤ (if b = 0 then |a| else if a = 0 then |b| else |a| + |b|)
  split_ifs
  · exact abs_nonneg a
  · exact abs_nonneg b
  · exact add_nonneg (abs_nonneg a) (abs_nonneg b)

/-- C24 (as amended) on three measurements on one line. -/
theorem ProcessDataNative_segment_ids_witness :
    ProcessDataNative goLib exampleNumLib liveContext (some exampleLineData)
      exampleSegmentConfig idTransformer = .ok exampleLineProcessed ∧
    exampleLineProcessed.Rows.map (fun r => r.ZonaKey) =
      (List.range exampleLineProcessed.Rows.length).map (fun i => "segment_" ++
        Itoa (segmentIdAt exampleNumLib (effectiveZoneSize exampleSegmentConfig)
          (exampleLineProcessed.Rows.map fun r => ⟨r.XMeters, r.YMeters⟩) i)) := by
  have hrun : ProcessDataNative goLib exampleNumLib liveContext (some exampleLineData)
      exampleSegmentConfig idTransformer = .ok exampleLineProcessed := by
    with_unfolding_all decide
  exact ⟨hrun, (ProcessDataNative_segment_ids goLib exampleNumLib liveContext exampleLineData
    exampleSegmentConfig idTransformer exampleLineProcessed (by decide)
    exampleNumLib_Hypot_nonneg hrun).1⟩

/-! ## C25: dropped rows and invalid coordinates -/

theorem parseRowsLoop_error (L : GoLib) (headerLine origExcelIdx rsrpIdx latIdx lonIdx
    sinrIdx : Int) (hasSINRCol : Bool) :
    ∀ (rows : List (List String)) (i : Nat),
      (∃ row ∈ rows, (parseNumberString L (cellAt row rsrpIdx)).isSome = true ∧
        ((parseNumberString L (cellAt row latIdx)).isSome = false ∨
          (parseNumberString L (cellAt row lonIdx)).isSome = false)) →
      ∃ e, parseRowsLoop L headerLine origExcelIdx rsrpIdx latIdx lonIdx sinrIdx hasSINRCol
        i rows = .error e := by
  intro rows
  induction rows with
  | nil => intro i h; obtain ⟨row, hr, _⟩ := h; simp at hr
  | cons row rest ih =>
    intro i h
    unfold parseRowsLoop
    have hrest : (∃ r ∈ rest, (parseNumberString L (cellAt r rsrpIdx)).isSome = true ∧
        ((parseNumberString L (cellAt r latIdx)).isSome = false ∨
          (parseNumberString L (cellAt r lonIdx)).isSome = false)) →
        ∃ e, parseRowsLoop L headerLine origExcelIdx rsrpIdx latIdx lonIdx sinrIdx hasSINRCol
          (i + 1) rest = .error e := ih (i + 1)
    cases hrs : parseNumberString L (cellAt row rsrpIdx) with
    | none =>
      simp only
      apply hrest
      obtain ⟨r, hr, h1, h2⟩ := h
      rcases List.mem_cons.mp hr with hr | hr
      · rw [hr, hrs] at h1; cases h1
      · exact ⟨r, hr, h1, h2⟩
    | some rsrp =>
      simp only
      cases hlat : parseNumberString L (cellAt row latIdx) with
      | none => exact ⟨_, rfl⟩
      | some lat =>
        simp only
        cases hlon : parseNumberString L (cellAt row lonIdx) with
        | none => exact ⟨_, rfl⟩
        | some lon =>
          simp only
          have : ∃ e, parseRowsLoop L headerLine origExcelIdx rsrpIdx latIdx lonIdx sinrIdx
              hasSINRCol (i + 1) rest = .error e := by
            apply hrest
            obtain ⟨r, hr, h1, h2⟩ := h
            rcases List.mem_cons.mp hr with hr | hr
            · rw [hr, hlat, hlon] at h2
              rcases h2 with h2 | h2 <;> cases h2
            · exact ⟨r, hr, h1, h2⟩
          obtain ⟨e, he⟩ := this
          rw [he]
          exact ⟨e, rfl⟩

theorem parseRowsLoop_ok (L : GoLib) (headerLine origExcelIdx rsrpIdx latIdx lonIdx
    sinrIdx : Int) (hasSINRCol : Bool) :
    ∀ (rows : List (List String)) (i : Nat),
      (∀ row ∈ rows, (parseNumberString L (cellAt row rsrpIdx)).isSome = true →
        (parseNumberString L (cellAt row latIdx)).isSome = true ∧
          (parseNumberString L (cellAt row lonIdx)).isSome = true) →
      ∃ out, parseRowsLoop L headerLine origExcelIdx rsrpIdx latIdx lonIdx sinrIdx hasSINRCol
          i rows = .ok out ∧
        out.map (fun r => r.row) =
          rows.filter fun row => (parseNumberString L (cellAt row rsrpIdx)).isSome := by
  intro rows
  induction rows with
  | nil => intro i _; exact ⟨[], rfl, rfl⟩
  | cons row rest ih =>
    intro i h
    obtain ⟨out, hout, hmap⟩ := ih (i + 1) (fun r hr => h r (List.mem_cons_of_mem _ hr))
    unfold parseRowsLoop
    cases hrs : parseNumberString L (cellAt row rsrpIdx) with
    | none =>
      simp only
      refine ⟨out, hout, ?_⟩
      rw [hmap, List.filter_cons, hrs]
      rfl
    | some rsrp =>
      have hll := h row (List.mem_cons_self _ _) (by rw [hrs]; rfl)
      cases hlat : parseNumberString L (cellAt row latIdx) with
      | none => rw [hlat] at hll; cases hll.1
      | some lat =>
        cases hlon : parseNumberString L (cellAt row lonIdx) with
        | none => rw [hlon] at hll; cases hll.2
        | some lon =>
          simp only [hout]
          refine ⟨_, rfl, ?_⟩
          rw [List.map_cons, hmap, List.filter_cons, hrs]
          rfl

/-- C25 (as stated, refuted): The only row of the dataset has a latitude that is not a
number, and no RSRP.  `ProcessDataNative` drops the row and returns a dataset without
rows, not an error. -/
theorem ProcessDataNative_dropped_row_counterexample :
    parseNumberString goLib (cellAt ["abc", "150", "800", "7", "231", "01", ""]
      (mapGet exampleGridConfig.ColumnMapping "latitude" 0)) = none ∧
    ProcessDataNative goLib exampleNumLib liveContext (some exampleBadLatitudeData)
      exampleGridConfig idTransformer =
      .ok ⟨[], exampleBadLatitudeData.Columns, exampleBadLatitudeData.FileInfo, []⟩ := by
  refine ⟨by with_unfolding_all decide, by with_unfolding_all decide⟩

/-- C25 (amended): With all required mappings present, `ProcessDataNative` returns an error
whenever a row whose RSRP is a number has a latitude or longitude that is not a number.
Otherwise the row loop keeps exactly the input rows whose RSRP is a number, in input order;
if the projection of their points succeeds, the result has exactly one derived row for
each of them, in that order, and if the projection fails (also by cancellation) its
error is returned.  Rows with missing or non-numeric RSRP are dropped before their
coordinates are read and never cause an error. -/
theorem ProcessDataNative_row_errors (L : GoLib) (M : NumLib) (ctx : Context) (d : CSVData)
    (cfg : ProcessingConfig) (t : PyProjTransformer)
    (hkeys : ∀ key ∈ requiredKeys, (mapFind cfg.ColumnMapping key).isSome = true) :
    ((∃ row ∈ d.Rows, hasNumericRSRP L cfg row = true ∧ hasNumericLatLon L cfg row = false) →
      ∃ e, ProcessDataNative L M ctx (some d) cfg t = .error e) ∧
    ((∀ row ∈ d.Rows, hasNumericRSRP L cfg row = true → hasNumericLatLon L cfg row = true) →
      ∃ filtered, filteredRowsOf L d cfg = .ok filtered ∧
        filtered.map (fun r => r.row) = d.Rows.filter (fun row => hasNumericRSRP L cfg row) ∧
        (∀ xy, t.Forward ctx (filtered.map fun r => ⟨r.lon, r.lat⟩) = .ok xy →
          ∃ ds, ProcessDataNative L M ctx (some d) cfg t = .ok ds ∧
            ds.Rows.map (fun r => r.Raw) =
              d.Rows.filter (fun row => hasNumericRSRP L cfg row)) ∧
        (∀ e, t.Forward ctx (filtered.map fun r => ⟨r.lon, r.lat⟩) = .error e →
          ProcessDataNative L M ctx (some d) cfg t = .error e)) := by
  have hfind : requiredKeys.find? (fun key => (mapFind cfg.ColumnMapping key).isNone) = none := by
    rw [List.find?_eq_none]
    intro key hk
    have := hkeys key hk
    cases hm : mapFind cfg.ColumnMapping key with
    | none => rw [hm] at this; cases this
    | some v => simp
  constructor
  · rintro ⟨row, hr, h1, h2⟩
    have herr := parseRowsLoop_error L d.FileInfo.HeaderLine
      (indexOf d.Columns "original_excel_row") (mapGet cfg.ColumnMapping "rsrp" 0)
      (mapGet cfg.ColumnMapping "latitude" 0) (mapGet cfg.ColumnMapping "longitude" 0)
      (mapGet cfg.ColumnMapping "sinr" 0) (mapFind cfg.ColumnMapping "sinr").isSome d.Rows 0
      ⟨row, hr, h1, by
        unfold hasNumericLatLon at h2
        rw [Bool.and_eq_false_iff] at h2
        exact h2⟩
    obtain ⟨e, he⟩ := herr
    refine ⟨e, ?_⟩
    unfold ProcessDataNative
    simp only [hfind]
    have he' : filteredRowsOf L d cfg = .error e := he
    rw [he']
  · intro hall
    obtain ⟨filtered, hf, hmap⟩ := parseRowsLoop_ok L d.FileInfo.HeaderLine
      (indexOf d.Columns "original_excel_row") (mapGet cfg.ColumnMapping "rsrp" 0)
      (mapGet cfg.ColumnMapping "latitude" 0) (mapGet cfg.ColumnMapping "longitude" 0)
      (mapGet cfg.ColumnMapping "sinr" 0) (mapFind cfg.ColumnMapping "sinr").isSome d.Rows 0
      (by
        intro row hr h1
        have := hall row hr h1
        unfold hasNumericLatLon at this
        rw [Bool.and_eq_true] at this
        exact this)
    have hf' : filteredRowsOf L d cfg = .ok filtered := hf
    refine ⟨filtered, hf', hmap, ?_, ?_⟩
    · intro xy hx
      have hlen : xy.length = filtered.length := by
        have := transformLoop_length _ _ _ _ _ hx
        simpa using this
      have hseglen := segmentsOf_length M cfg.ZoneMode (effectiveZoneSize cfg) xy
      have hrun : ∃ ds, ProcessDataNative L M ctx (some d) cfg t = .ok ds := by
        unfold ProcessDataNative
        simp only [hfind, hf', hx]
        exact ⟨_, rfl⟩
      obtain ⟨ds, hds⟩ := hrun
      obtain ⟨filtered2, xy2, g1, g2, g3, _, g5⟩ := ProcessDataNative_ok L M ctx d cfg t ds hds
      rw [hf'] at g1
      cases g1
      rw [hx] at g2
      cases g2
      refine ⟨ds, hds, ?_⟩
      rw [g5]
      simp only [List.map_map]
      have := map_zip_zip_fst (fun r : rawParsed => r.row) filtered xy
        (segmentsOf M cfg.ZoneMode (effectiveZoneSize cfg) xy).1 hlen hseglen
      simp only [Function.comp_def, buildProcessedRow] at this ⊢
      rw [this, hmap]
      rfl
    · intro e hx
      unfold ProcessDataNative
      simp only [hfind, hf', hx]

/-- C25 (as amended): a row with numeric RSRP and latitude `abc` gives an error, and the
rows of `exampleGridData` all pass the row loop. -/
theorem ProcessDataNative_row_errors_witness :
    (∃ e, ProcessDataNative goLib exampleNumLib liveContext
      (some (exampleMeasurements [["abc", "150", "800", "7", "231", "01", "-90"]]))
      exampleGridConfig idTransformer = .error e) ∧
    (∃ filtered, filteredRowsOf goLib exampleGridData exampleGridConfig = .ok filtered ∧
      filtered.map (fun r => r.row) =
        exampleGridData.Rows.filter (fun row => hasNumericRSRP goLib exampleGridConfig row)) := by
  constructor
  · exact (ProcessDataNative_row_errors goLib exampleNumLib liveContext
      (exampleMeasurements [["abc", "150", "800", "7", "231", "01", "-90"]]) exampleGridConfig
      idTransformer (by decide)).1
      ⟨["abc", "150", "800", "7", "231", "01", "-90"], by simp [exampleMeasurements],
        by with_unfolding_all decide, by with_unfolding_all decide⟩
  · obtain ⟨filtered, h1, h2, _⟩ := (ProcessDataNative_row_errors goLib exampleNumLib
      liveContext exampleGridData exampleGridConfig idTransformer (by decide)).2
      (by with_unfolding_all decide)
    exact ⟨filtered, h1, h2⟩

/-! ## The grouping map: the entry of a key is the fold over the rows of the key -/

theorem mapFind_aggInsert (agg : List (aggKey × aggVal)) (key : aggKey) (r : ProcessedRow)
    (k : aggKey) :
    mapFind (aggInsert agg key r) k =
      if k = key then some (((mapFind agg key).getD aggVal.zero).addRow r)
      else mapFind agg k := by
  induction agg with
  | nil =>
    unfold aggInsert
    by_cases hk : k = key
    · simp [mapFind, hk]
    · have hk2 : ¬ key = k := fun e => hk e.symm
      simp [mapFind, hk, hk2]
  | cons kv rest ih =>
    obtain ⟨k1, v1⟩ := kv
    unfold aggInsert
    by_cases h1 : k1 = key
    · subst h1
      by_cases hk : k = k1
      · subst hk
        simp [mapFind]
      · have hk2 : ¬ k1 = k := fun e => hk e.symm
        simp [mapFind, hk, hk2]
    · simp only [h1, if_false]
      by_cases hk : k = key
      · subst hk
        simp only [mapFind, h1, if_false, ih, if_true]
      · by_cases h2 : k1 = k
        · simp [mapFind, h2, hk]
        · simp only [mapFind, h2, if_false, ih, hk]

theorem mapFind_foldl_aggregate (rows : List ProcessedRow) (agg : List (aggKey × aggVal))
    (k : aggKey) :
    mapFind (rows.foldl (fun agg r => if hasBlankKey r then agg else aggInsert agg (aggKeyOf r) r)
      agg) k =
      if groupRows rows k = [] then mapFind agg k
      else some ((groupRows rows k).foldl aggVal.addRow ((mapFind agg k).getD aggVal.zero)) := by
  induction rows generalizing agg with
  | nil => simp [groupRows]
  | cons r rest ih =>
    simp only [List.foldl_cons]
    rw [ih]
    by_cases hb : hasBlankKey r = true
    · have hg : groupRows (r :: rest) k = groupRows rest k := by
        simp [groupRows, List.filter_cons, hb]
      simp only [hb, if_true, hg]
    · have hb' : hasBlankKey r = false := by simpa using hb
      have hstep : (if hasBlankKey r = true then agg else aggInsert agg (aggKeyOf r) r) =
          aggInsert agg (aggKeyOf r) r := by rw [hb']; rfl
      rw [hstep, mapFind_aggInsert]
      by_cases hk : aggKeyOf r = k
      · have hg : groupRows (r :: rest) k = r :: groupRows rest k := by
          simp [groupRows, List.filter_cons, hb', hk]
        subst hk
        rw [hg, if_pos rfl, if_neg (List.cons_ne_nil _ _)]
        simp only [Option.getD_some, List.foldl_cons]
        split_ifs <;> simp_all
      · have hg : groupRows (r :: rest) k = groupRows rest k := by
          simp [groupRows, List.filter_cons, hb', hk]
        have hk' : ¬ k = aggKeyOf r := fun e => hk e.symm
        rw [hg, if_neg hk']

theorem mapFind_aggregate (rows : List ProcessedRow) (k : aggKey) :
    mapFind (aggregate rows) k =
      if groupRows rows k = [] then none
      else some ((groupRows rows k).foldl aggVal.addRow aggVal.zero) := by
  unfold aggregate
  rw [mapFind_foldl_aggregate]
  simp [mapFind]

theorem mapFind_of_mem_nodup {κ β : Type} [DecidableEq κ] (m : List (κ × β))
    (hnd : (m.map Prod.fst).Nodup) (k : κ) (v : β) (h : (k, v) ∈ m) :
    mapFind m k = some v := by
  induction m with
  | nil => simp at h
  | cons kv rest ih =>
    obtain ⟨k1, v1⟩ := kv
    simp only [List.map_cons, List.nodup_cons] at hnd
    rcases List.mem_cons.mp h with e | h'
    · cases e
      simp [mapFind]
    · have hne : ¬ k1 = k := by
        intro e
        subst e
        exact hnd.1 (List.mem_map.mpr ⟨(k1, v), h', rfl⟩)
      simp only [mapFind, hne, if_false]
      exact ih hnd.2 h'

theorem mem_of_mapFind {κ β : Type} [DecidableEq κ] (m : List (κ × β)) (k : κ) (v : β)
    (h : mapFind m k = some v) : (k, v) ∈ m := by
  induction m with
  | nil => simp [mapFind] at h
  | cons kv rest ih =>
    obtain ⟨k1, v1⟩ := kv
    unfold mapFind at h
    split_ifs at h with h1
    · cases h
      subst h1
      exact List.mem_cons_self _ _
    · exact List.mem_cons_of_mem _ (ih h)

/-- The entry of a key in the grouping map is the fold of the loop body over the rows of
the key, which are not empty. -/
theorem aggregate_entry (rows : List ProcessedRow) (k : aggKey) (v : aggVal)
    (h : (k, v) ∈ aggregate rows) :
    groupRows rows k ≠ [] ∧ v = (groupRows rows k).foldl aggVal.addRow aggVal.zero := by
  have h1 := mapFind_of_mem_nodup _ (aggregate_nodup rows) k v h
  rw [mapFind_aggregate] at h1
  split_ifs at h1 with hg
  · exact ⟨hg, (Option.some.inj h1).symm⟩

/-- Every row with non-blank key fields has an entry in the grouping map. -/
theorem aggregate_mem_of_row (rows : List ProcessedRow) (r : ProcessedRow) (hr : r ∈ rows)
    (hb : hasBlankKey r = false) : ∃ v, (aggKeyOf r, v) ∈ aggregate rows := by
  have hg : groupRows rows (aggKeyOf r) ≠ [] := by
    intro e
    have : r ∈ groupRows rows (aggKeyOf r) := by
      unfold groupRows
      rw [List.mem_filter]
      exact ⟨hr, by simp [hb]⟩
    rw [e] at this
    cases this
  refine ⟨(groupRows rows (aggKeyOf r)).foldl aggVal.addRow aggVal.zero,
    mem_of_mapFind _ _ _ ?_⟩
  rw [mapFind_aggregate, if_neg hg]

theorem foldl_addRow (g : List ProcessedRow) (v : aggVal) :
    (g.foldl aggVal.addRow v).RSRPSum = v.RSRPSum + (g.map fun r => r.RSRP).sum ∧
    (g.foldl aggVal.addRow v).Count = v.Count + (g.length : Int) ∧
    (g.foldl aggVal.addRow v).OriginalRows = v.OriginalRows ++ g.map (fun r => r.OriginalExcelRow) ∧
    (g.foldl aggVal.addRow v).SINRSum =
      v.SINRSum + ((g.filter fun r => r.HasSINR).map fun r => r.SINR).sum ∧
    (g.foldl aggVal.addRow v).SINRCount =
      v.SINRCount + ((g.filter fun r => r.HasSINR).length : Int) := by
  induction g generalizing v with
  | nil => simp
  | cons r rest ih =>
    simp only [List.foldl_cons]
    obtain ⟨h1, h2, h3, h4, h5⟩ := ih (v.addRow r)
    rw [h1, h2, h3, h4, h5]
    refine ⟨?_, ?_, ?_, ?_, ?_⟩
    · simp [aggVal.addRow]; ring
    · simp [aggVal.addRow]; ring
    · simp [aggVal.addRow]
    · by_cases hs : r.HasSINR = true
      · simp [aggVal.addRow, hs, List.filter_cons]; ring
      · simp [aggVal.addRow, hs, List.filter_cons]
    · by_cases hs : r.HasSINR = true
      · simp [aggVal.addRow, hs, List.filter_cons]; ring
      · simp [aggVal.addRow, hs, List.filter_cons]

/-! ## C26: one statistic per key of the map `chosen` -/

theorem chooseLoop_keys_nodup (zs : List zoneFreqStat) (seen : List chosenKey) :
    ((chooseLoop zs seen).map chosenKeyOf).Nodup := by
  induction zs generalizing seen with
  | nil => simp [chooseLoop]
  | cons x rest ih =>
    unfold chooseLoop
    split_ifs with hx
    · exact ih seen
    · rw [List.map_cons, List.nodup_cons]
      refine ⟨?_, ih _⟩
      intro hmem
      obtain ⟨z, hz, hzk⟩ := List.mem_map.mp hmem
      have := chooseLoop_key_not_seen rest _ z hz
      exact this (by rw [hzk]; exact List.mem_cons_self _ _)

/-- A successful run returns the statistics of the chosen groups, sorted. -/
theorem CalculateZoneStatsNative_ok (L : GoLib) (ctx : Context) (ds : ProcessedDataset)
    (cfg : ProcessingConfig) (t : PyProjTransformer) (stats : List ZoneStat)
    (hrun : CalculateZoneStatsNative L ctx (some ds) cfg t = .ok stats) :
    ∃ lonLat : List Point, lonLat.length = (chosenGroups L ds.Rows).length ∧
      stats = sortSlice (zoneStatLess L)
        (((chosenGroups L ds.Rows).zip lonLat).map fun zp => mkZoneStat cfg zp.1 zp.2) := by
  unfold CalculateZoneStatsNative at hrun
  simp only at hrun
  split at hrun
  · cases hrun
  rename_i lonLat hinv
  cases hrun
  refine ⟨lonLat, ?_, rfl⟩
  have := transformLoop_length _ _ _ _ _ hinv
  simpa using this

/-- Every returned statistic is built from a chosen group. -/
theorem CalculateZoneStatsNative_mem (L : GoLib) (ctx : Context) (ds : ProcessedDataset)
    (cfg : ProcessingConfig) (t : PyProjTransformer) (stats : List ZoneStat)
    (hrun : CalculateZoneStatsNative L ctx (some ds) cfg t = .ok stats) (s : ZoneStat)
    (hs : s ∈ stats) : ∃ z ∈ chosenGroups L ds.Rows, ∃ p, s = mkZoneStat cfg z p := by
  obtain ⟨lonLat, _, rfl⟩ := CalculateZoneStatsNative_ok L ctx ds cfg t stats hrun
  rw [mem_sortSlice] at hs
  obtain ⟨⟨z, p⟩, hzp, rfl⟩ := List.mem_map.mp hs
  exact ⟨z, (List.of_mem_zip hzp).1, p, rfl⟩

theorem CalculateZoneStatsNative_keys_perm (L : GoLib) (ctx : Context) (ds : ProcessedDataset)
    (cfg : ProcessingConfig) (t : PyProjTransformer) (stats : List ZoneStat)
    (hrun : CalculateZoneStatsNative L ctx (some ds) cfg t = .ok stats) :
    (stats.map chosenKeyOfStat).Perm ((chosenGroups L ds.Rows).map chosenKeyOf) := by
  obtain ⟨lonLat, hlen, rfl⟩ := CalculateZoneStatsNative_ok L ctx ds cfg t stats hrun
  refine ((sortSlice_perm _ _).map chosenKeyOfStat).trans ?_
  rw [List.map_map]
  have h1 : (chosenKeyOfStat ∘ fun zp : zoneFreqStat × Point => mkZoneStat cfg zp.1 zp.2) =
      chosenKeyOf ∘ Prod.fst := by
    funext zp
    rfl
  rw [h1, ← List.map_map, List.map_fst_zip _ _ (le_of_eq hlen.symm)]

/-- The keys of the chosen groups are the keys of the rows with non-blank key fields. -/
theorem chosenGroups_keys (L : GoLib) (rows : List ProcessedRow) (k : chosenKey) :
    k ∈ (chosenGroups L rows).map chosenKeyOf ↔
      ∃ r ∈ rows, hasBlankKey r = false ∧ chosenKeyOfRow r = k := by
  constructor
  · intro hk
    obtain ⟨z, hz, rfl⟩ := List.mem_map.mp hk
    have hz' := chosenGroups_mem L rows z hz
    unfold zoneFreqStats at hz'
    obtain ⟨⟨k0, v⟩, hkv, rfl⟩ := List.mem_map.mp hz'
    obtain ⟨hne, _⟩ := aggregate_entry rows k0 v hkv
    obtain ⟨r, hr⟩ := List.exists_mem_of_ne_nil _ hne
    unfold groupRows at hr
    rw [List.mem_filter] at hr
    obtain ⟨hr1, hr2⟩ := hr
    simp only [Bool.and_eq_true, Bool.not_eq_true', decide_eq_true_eq] at hr2
    refine ⟨r, hr1, hr2.1, ?_⟩
    rw [← hr2.2]
    rfl
  · rintro ⟨r, hr, hb, rfl⟩
    obtain ⟨v, hv⟩ := aggregate_mem_of_row rows r hr hb
    have hg : toZoneFreqStat (aggKeyOf r, v) ∈ sortedZoneFreqStats L rows := by
      unfold sortedZoneFreqStats
      rw [mem_sortSlice]
      exact List.mem_map.mpr ⟨_, hv, rfl⟩
    obtain ⟨z, hz, hzk⟩ := chooseLoop_covers _ [] _ hg (by simp)
    exact List.mem_map.mpr ⟨z, hz, hzk⟩

theorem string_append_left_cancel (a b c : String) (h : a ++ b = a ++ c) : b = c := by
  have hd := congrArg String.data h
  simp only [String.data_append] at hd
  exact String.ext (List.append_cancel_left hd)

theorem string_sep_inj (a b c d : String) (ha : '_' ∉ a.data) (hc : '_' ∉ c.data)
    (h : a ++ "_" ++ b = c ++ "_" ++ d) : a = c ∧ b = d := by
  have hd := congrArg String.data h
  simp only [String.data_append, List.append_assoc] at hd
  have hd' : a.data ++ '_' :: b.data = c.data ++ '_' :: d.data := hd
  obtain ⟨h1, h2⟩ := append_sep_inj '_' _ _ _ _ ha hc hd'
  exact ⟨String.ext h1, String.ext h2⟩

/-- For two rows built by `ProcessDataNative` whose MCC holds no underscore, the zone key
and the operator key determine zone X/Y, MCC and MNC; in grid mode this needs number
texts that are different for different numbers and free of underscores. -/
theorem buildProcessedRow_pair_key (L : GoLib) (M : NumLib) (zoneMode : String) (zoneSize : ℚ)
    (mccIdx mncIdx pciIdx freqIdx nrIdx : Int) (segmentMeta : List (Int × Point))
    (first : Point) (src1 src2 : rawParsed) (p1 p2 : Point) (id1 id2 : Int)
    (hfmt : zoneMode ≠ "segments" →
      Function.Injective M.FormatV ∧ ∀ v, '_' ∉ (M.FormatV v).data)
    (h1 : '_' ∉ (buildProcessedRow L M zoneMode zoneSize mccIdx mncIdx pciIdx freqIdx nrIdx
      segmentMeta first src1 p1 id1).MCC.data)
    (h2 : '_' ∉ (buildProcessedRow L M zoneMode zoneSize mccIdx mncIdx pciIdx freqIdx nrIdx
      segmentMeta first src2 p2 id2).MCC.data)
    (hp : pairOfRow (buildProcessedRow L M zoneMode zoneSize mccIdx mncIdx pciIdx freqIdx nrIdx
        segmentMeta first src1 p1 id1) =
      pairOfRow (buildProcessedRow L M zoneMode zoneSize mccIdx mncIdx pciIdx freqIdx nrIdx
        segmentMeta first src2 p2 id2)) :
    chosenKeyOfRow (buildProcessedRow L M zoneMode zoneSize mccIdx mncIdx pciIdx freqIdx nrIdx
        segmentMeta first src1 p1 id1) =
      chosenKeyOfRow (buildProcessedRow L M zoneMode zoneSize mccIdx mncIdx pciIdx freqIdx nrIdx
        segmentMeta first src2 p2 id2) := by
  simp only [pairOfRow, buildProcessedRow, Prod.mk.injEq] at hp h1 h2
  obtain ⟨hz, ho⟩ := hp
  obtain ⟨hmcc, hmnc⟩ := string_sep_inj _ _ _ _ h1 h2 ho
  simp only [chosenKeyOfRow, buildProcessedRow, chosenKey.mk.injEq]
  refine ⟨hz, ho, ?_, ?_, hmcc, hmnc⟩
  · by_cases hm : zoneMode = "segments"
    · simp only [hm, if_true] at hz ⊢
      have := Itoa_injective _ _ (string_append_left_cancel _ _ _ hz)
      rw [this]
    · simp only [hm, if_false] at hz ⊢
      obtain ⟨hinj, hus⟩ := hfmt hm
      exact hinj (string_sep_inj _ _ _ _ (hus _) (hus _) hz).1
  · by_cases hm : zoneMode = "segments"
    · simp only [hm, if_true] at hz ⊢
      have := Itoa_injective _ _ (string_append_left_cancel _ _ _ hz)
      rw [this]
    · simp only [hm, if_false] at hz ⊢
      obtain ⟨hinj, hus⟩ := hfmt hm
      exact hinj (string_sep_inj _ _ _ _ (hus _) (hus _) hz).2

theorem ProcessDataNative_pair_key (L : GoLib) (M : NumLib) (ctx : Context) (d : CSVData)
    (cfg : ProcessingConfig) (t : PyProjTransformer) (ds : ProcessedDataset)
    (hproc : ProcessDataNative L M ctx (some d) cfg t = .ok ds)
    (hfmt : cfg.ZoneMode ≠ "segments" →
      Function.Injective M.FormatV ∧ ∀ v, '_' ∉ (M.FormatV v).data)
    (r1 r2 : ProcessedRow) (hr1 : r1 ∈ ds.Rows) (hr2 : r2 ∈ ds.Rows)
    (h1 : '_' ∉ r1.MCC.data) (h2 : '_' ∉ r2.MCC.data) (hp : pairOfRow r1 = pairOfRow r2) :
    chosenKeyOfRow r1 = chosenKeyOfRow r2 := by
  obtain ⟨filtered, xy, _, _, _, _, hrows⟩ := ProcessDataNative_ok L M ctx d cfg t ds hproc
  rw [hrows] at hr1 hr2
  obtain ⟨t1, _, rfl⟩ := List.mem_map.mp hr1
  obtain ⟨t2, _, rfl⟩ := List.mem_map.mp hr2
  exact buildProcessedRow_pair_key L M _ _ _ _ _ _ _ _ _ _ _ _ _ _ _ hfmt h1 h2 hp

/-- C26 (as stated, refuted): Two measurements of one grid cell, one with MCC `1_2` and MNC
`3`, the other with MCC `1` and MNC `2_3`, have the same zone key `100_200` and the same
operator key `1_2_3`; the result holds two statistics for this pair. -/
theorem CalculateZoneStatsNative_pair_counterexample :
    ((ProcessDataNative goLib exampleNumLib liveContext (some exampleUnderscoreData)
        exampleGridConfig idTransformer).bind fun ds =>
      CalculateZoneStatsNative goLib liveContext (some ds) exampleGridConfig idTransformer).map
      (fun stats => stats.map fun s => (s.ZonaKey, s.OperatorKey, s.MCC, s.MNC)) =
      .ok [("100_200", "1_2_3", "1", "2_3"), ("100_200", "1_2_3", "1_2", "3")] := by
  with_unfolding_all decide

/-- C26 (amended): For a dataset processed by `ProcessDataNative` and aggregated by
`CalculateZoneStatsNative`, the result holds exactly one `ZoneStat` for each combination
of zone key, operator key, zone X/Y, MCC and MNC (the key of the map `chosen`) that occurs
among the rows with non-blank MCC, MNC, PCI and frequency, and every `ZoneStat` has the
combination, and so the (zone key, operator key) pair, of such a row.  When no MCC holds
an underscore and, in grid mode, the texts of different numbers are different and free of
underscores, the pair determines the combination, and the result holds exactly one
`ZoneStat` for each pair that occurs among these rows. -/
theorem CalculateZoneStatsNative_one_stat_per_key (L : GoLib) (M : NumLib)
    (ctx ctx2 : Context) (d : CSVData) (cfg : ProcessingConfig) (t t2 : PyProjTransformer)
    (ds : ProcessedDataset) (stats : List ZoneStat)
    (hproc : ProcessDataNative L M ctx (some d) cfg t = .ok ds)
    (hrun : CalculateZoneStatsNative L ctx2 (some ds) cfg t2 = .ok stats) :
    (∀ r ∈ ds.Rows, hasBlankKey r = false →
      (stats.map chosenKeyOfStat).count (chosenKeyOfRow r) = 1) ∧
    (∀ s ∈ stats, ∃ r ∈ ds.Rows, hasBlankKey r = false ∧
      chosenKeyOfRow r = chosenKeyOfStat s ∧ pairOfRow r = pairOfStat s) ∧
    ((∀ r ∈ ds.Rows, '_' ∉ r.MCC.data) →
      (cfg.ZoneMode ≠ "segments" →
        Function.Injective M.FormatV ∧ ∀ v, '_' ∉ (M.FormatV v).data) →
      ∀ r ∈ ds.Rows, hasBlankKey r = false →
        (stats.map pairOfStat).count (pairOfRow r) = 1) := by
  have hperm := CalculateZoneStatsNative_keys_perm L ctx2 ds cfg t2 stats hrun
  have hone : ∀ r ∈ ds.Rows, hasBlankKey r = false →
      (stats.map chosenKeyOfStat).count (chosenKeyOfRow r) = 1 := by
    intro r hr hb
    rw [hperm.count_eq]
    exact List.count_eq_one_of_mem (chooseLoop_keys_nodup _ _)
      ((chosenGroups_keys L ds.Rows _).mpr ⟨r, hr, hb, rfl⟩)
  have hsrc : ∀ s ∈ stats, ∃ r ∈ ds.Rows, hasBlankKey r = false ∧
      chosenKeyOfRow r = chosenKeyOfStat s ∧ pairOfRow r = pairOfStat s := by
    intro s hs
    have h1 : chosenKeyOfStat s ∈ (chosenGroups L ds.Rows).map chosenKeyOf :=
      hperm.mem_iff.mp (List.mem_map.mpr ⟨s, hs, rfl⟩)
    obtain ⟨r, hr, hb, hk⟩ := (chosenGroups_keys L ds.Rows _).mp h1
    refine ⟨r, hr, hb, hk, ?_⟩
    simp only [chosenKeyOfRow, chosenKeyOfStat, chosenKey.mk.injEq] at hk
    simp only [pairOfRow, pairOfStat, hk.1, hk.2.1]
  refine ⟨hone, hsrc, ?_⟩
  intro hmcc hfmt r hr hb
  rw [← hone r hr hb]
  simp only [List.count, List.countP_map]
  apply List.countP_congr
  intro s hs
  simp only [Function.comp_apply, beq_iff_eq]
  obtain ⟨r2, hr2, _, hk2, hp2⟩ := hsrc s hs
  constructor
  · intro hp
    rw [← hk2]
    exact ProcessDataNative_pair_key L M ctx d cfg t ds hproc hfmt r2 r hr2 hr
      (hmcc r2 hr2) (hmcc r hr) (hp2.trans hp)
  · intro hk
    simp only [chosenKeyOfRow, chosenKeyOfStat, chosenKey.mk.injEq] at hk
    simp only [pairOfRow, pairOfStat, hk.1, hk.2.1]

/-- C26 (as amended) on `exampleGridData`: one statistic for the pair of zone `100_200` and
operator `231_01`. -/
theorem CalculateZoneStatsNative_one_stat_per_key_witness :
    ProcessDataNative goLib exampleNumLib liveContext (some exampleGridData) exampleGridConfig
      idTransformer = .ok exampleGridProcessed ∧
    CalculateZoneStatsNative goLib liveContext (some exampleGridProcessed) exampleGridConfig
      idTransformer = .ok [exampleGridStat] ∧
    ∀ r ∈ exampleGridProcessed.Rows, hasBlankKey r = false →
      ([exampleGridStat].map pairOfStat).count (pairOfRow r) = 1 :=
  ⟨by with_unfolding_all decide, by with_unfolding_all decide,
   (CalculateZoneStatsNative_one_stat_per_key goLib exampleNumLib liveContext liveContext
      exampleGridData exampleGridConfig idTransformer idTransformer exampleGridProcessed
      [exampleGridStat] (by with_unfolding_all decide) (by with_unfolding_all decide)).2.2
      (by decide)
      (fun _ => ⟨exampleNumLib_FormatV_injective,
        fun v => exampleNumLib_FormatV_chars v '_' (by decide) (by decide) (by decide)⟩)⟩

/-! ## C27: a statistic describes the rows of its group -/

theorem hasBlankKey_of_aggKeyOf_eq (r1 r2 : ProcessedRow) (h : aggKeyOf r1 = aggKeyOf r2) :
    hasBlankKey r1 = hasBlankKey r2 := by
  simp only [aggKeyOf, aggKey.mk.injEq] at h
  obtain ⟨_, _, _, _, h5, h6, h7, h8⟩ := h
  simp only [hasBlankKey, h5, h6, h7, h8]

/-- The group of a statistic built from an entry of the grouping map is the list of rows
of that entry. -/
theorem groupOfStat_eq_groupRows (rows : List ProcessedRow) (cfg : ProcessingConfig)
    (k : aggKey) (v : aggVal) (p : Point) (hne : groupRows rows k ≠ []) :
    groupOfStat rows (mkZoneStat cfg (toZoneFreqStat (k, v)) p) = groupRows rows k := by
  obtain ⟨r0, hr0⟩ := List.exists_mem_of_ne_nil _ hne
  unfold groupRows at hr0
  rw [List.mem_filter] at hr0
  simp only [Bool.and_eq_true, Bool.not_eq_true', decide_eq_true_eq] at hr0
  obtain ⟨_, hb0, hk0⟩ := hr0
  unfold groupOfStat groupRows
  apply List.filter_congr
  intro r _
  have hiff : (r.ZonaKey = k.ZonaKey ∧ r.OperatorKey = k.OperatorKey ∧ r.ZonaX = k.ZonaX ∧
      r.ZonaY = k.ZonaY ∧ r.MCC = k.MCC ∧ r.MNC = k.MNC ∧ r.PCI = k.PCI ∧
      r.Frequency = k.Freq) ↔ aggKeyOf r = k := by
    cases k
    simp [aggKeyOf]
  by_cases hk : aggKeyOf r = k
  · have hb : hasBlankKey r = false := by
      rw [hasBlankKey_of_aggKeyOf_eq r r0 (hk.trans hk0.symm)]
      exact hb0
    have h1 := hiff.mpr hk
    simp only [mkZoneStat, toZoneFreqStat, hb, hk, h1, and_self, decide_True, Bool.not_false,
      Bool.and_self]
  · have h1 := fun h => hk (hiff.mp h)
    have h2 : ¬ (r.ZonaKey = k.ZonaKey ∧ r.OperatorKey = k.OperatorKey ∧ r.ZonaX = k.ZonaX ∧
        r.ZonaY = k.ZonaY ∧ r.MCC = k.MCC ∧ r.MNC = k.MNC ∧ r.PCI = k.PCI ∧
        r.Frequency = k.Freq) := h1
    simp only [mkZoneStat, toZoneFreqStat, hk, decide_False, Bool.and_false]
    exact decide_eq_false h2

/-- C27: Every `ZoneStat` returned by `CalculateZoneStatsNative` describes the rows of its
group, the rows with the same zone key, operator key, zone X/Y, MCC, MNC, PCI and
frequency: the group is not empty and holds no row with a blank key field, `RSRPAvg` is
the arithmetic mean of the RSRP of its rows, `PocetMerani` is their number and equals the
length of `OriginalExcelRows`, which lists their source row numbers in input order;
`HasSINRAvg` holds iff a row of the group has a SINR, and `SINRAvg` then is the mean SINR of
the rows that have one. -/
theorem CalculateZoneStatsNative_group_values (L : GoLib) (ctx : Context)
    (ds : ProcessedDataset) (cfg : ProcessingConfig) (t : PyProjTransformer)
    (stats : List ZoneStat)
    (hrun : CalculateZoneStatsNative L ctx (some ds) cfg t = .ok stats) :
    ∀ s ∈ stats,
      groupOfStat ds.Rows s ≠ [] ∧
      (∀ r ∈ groupOfStat ds.Rows s, hasBlankKey r = false) ∧
      s.RSRPAvg = ((groupOfStat ds.Rows s).map fun r => r.RSRP).sum /
        ((groupOfStat ds.Rows s).length : ℚ) ∧
      s.PocetMerani = ((groupOfStat ds.Rows s).length : Int) ∧
      (s.OriginalExcelRows.length : Int) = s.PocetMerani ∧
      s.OriginalExcelRows = (groupOfStat ds.Rows s).map (fun r => r.OriginalExcelRow) ∧
      (s.HasSINRAvg = true ↔ ∃ r ∈ groupOfStat ds.Rows s, r.HasSINR = true) ∧
      (s.HasSINRAvg = true → s.SINRAvg =
        (((groupOfStat ds.Rows s).filter fun r => r.HasSINR).map fun r => r.SINR).sum /
          (((groupOfStat ds.Rows s).filter fun r => r.HasSINR).length : ℚ)) := by
  intro s hs
  obtain ⟨z, hz, p, rfl⟩ := CalculateZoneStatsNative_mem L ctx ds cfg t stats hrun s hs
  have hz' := chosenGroups_mem L ds.Rows z hz
  unfold zoneFreqStats at hz'
  obtain ⟨⟨k, v⟩, hkv, rfl⟩ := List.mem_map.mp hz'
  obtain ⟨hne, hv⟩ := aggregate_entry ds.Rows k v hkv
  rw [groupOfStat_eq_groupRows ds.Rows cfg k v p hne]
  obtain ⟨f1, f2, f3, f4, f5⟩ := foldl_addRow (groupRows ds.Rows k) aggVal.zero
  rw [← hv] at f1 f2 f3 f4 f5
  simp only [aggVal.zero, zero_add, List.nil_append] at f1 f2 f3 f4 f5
  have hpos : (v.SINRCount > 0) ↔ ∃ r ∈ groupRows ds.Rows k, r.HasSINR = true := by
    rw [f5]
    constructor
    · intro h
      have h2 : 0 < ((groupRows ds.Rows k).filter fun r => r.HasSINR).length := by
        exact_mod_cast h
      obtain ⟨r, hr⟩ := List.exists_mem_of_length_pos h2
      rw [List.mem_filter] at hr
      exact ⟨r, hr.1, hr.2⟩
    · rintro ⟨r, hr, hsr⟩
      have h2 : 0 < ((groupRows ds.Rows k).filter fun r => r.HasSINR).length :=
        List.length_pos_of_mem (List.mem_filter.mpr ⟨hr, hsr⟩)
      exact_mod_cast h2
  refine ⟨hne, ?_, ?_, ?_, ?_, ?_, ?_, ?_⟩
  · intro r hr
    unfold groupRows at hr
    rw [List.mem_filter] at hr
    have h2 := hr.2
    simp only [Bool.and_eq_true, Bool.not_eq_true', decide_eq_true_eq] at h2
    exact h2.1
  · simp only [mkZoneStat, toZoneFreqStat, f1, f2]
    norm_cast
  · simp only [mkZoneStat, toZoneFreqStat, f2]
  · simp only [mkZoneStat, toZoneFreqStat, f2, f3, List.length_map]
  · simp only [mkZoneStat, toZoneFreqStat, f3]
  · simp only [mkZoneStat, toZoneFreqStat, decide_eq_true_eq]
    exact hpos
  · intro hh
    simp only [mkZoneStat, toZoneFreqStat, decide_eq_true_eq] at hh
    have hh2 := hh
    rw [f5] at hh2
    have hh3 : 0 < ((groupRows ds.Rows k).filter fun r => r.HasSINR).length := by
      exact_mod_cast hh2
    simp only [mkZoneStat, toZoneFreqStat, decide_eq_true_eq, hh, if_true, f4, f5]
    norm_cast
    simp only [hh3, if_true]

/-- C27 on three measurements of one group, two of them with SINR. -/
theorem CalculateZoneStatsNative_group_values_witness :
    CalculateZoneStatsNative goLib liveContext (some exampleSignalDataset) exampleConfig
      idTransformer = .ok [exampleSignalStat] ∧
    ∀ s ∈ [exampleSignalStat],
      groupOfStat exampleSignalDataset.Rows s ≠ [] ∧
      (∀ r ∈ groupOfStat exampleSignalDataset.Rows s, hasBlankKey r = false) ∧
      s.RSRPAvg = ((groupOfStat exampleSignalDataset.Rows s).map fun r => r.RSRP).sum /
        ((groupOfStat exampleSignalDataset.Rows s).length : ℚ) ∧
      s.PocetMerani = ((groupOfStat exampleSignalDataset.Rows s).length : Int) ∧
      (s.OriginalExcelRows.length : Int) = s.PocetMerani ∧
      s.OriginalExcelRows =
        (groupOfStat exampleSignalDataset.Rows s).map (fun r => r.OriginalExcelRow) ∧
      (s.HasSINRAvg = true ↔ ∃ r ∈ groupOfStat exampleSignalDataset.Rows s, r.HasSINR = true) ∧
      (s.HasSINRAvg = true → s.SINRAvg =
        (((groupOfStat exampleSignalDataset.Rows s).filter fun r => r.HasSINR).map
          fun r => r.SINR).sum /
          (((groupOfStat exampleSignalDataset.Rows s).filter fun r => r.HasSINR).length : ℚ)) :=
  ⟨by with_unfolding_all decide,
   CalculateZoneStatsNative_group_values goLib liveContext exampleSignalDataset exampleConfig
     idTransformer [exampleSignalStat] (by with_unfolding_all decide)⟩

/-! ## C28: the order of the returned list -/

theorem zoneStatLess_iff (L : GoLib) (a b : ZoneStat) :
    zoneStatLess L a b = true ↔ zsKey L a < zsKey L b := by
  unfold zoneStatLess zsKey
  simp only [Prod.Lex.lt_iff, ne_eq, compareNumericStringAsc_ne_zero,
    compareNumericStringAsc_neg, ite_not]
  split_ifs <;> simp_all [ne_comm]

theorem specSmaller_step (L : GoLib) (x y : String) (R : Prop) :
    (specSmaller L x y ∨ (x = y ∧ R)) ↔
      (numKey L x < numKey L y ∨ (numKey L x = numKey L y ∧ (x < y ∨ (x = y ∧ R)))) := by
  rw [specSmaller_iff]
  constructor
  · rintro ((h | ⟨h1, h2⟩) | ⟨h1, h2⟩)
    · exact Or.inl h
    · exact Or.inr ⟨h1, Or.inl h2⟩
    · exact Or.inr ⟨by rw [h1], Or.inr ⟨h1, h2⟩⟩
  · rintro (h | ⟨h1, h2 | ⟨h2, h3⟩⟩)
    · exact Or.inl (Or.inl h)
    · exact Or.inl (Or.inr ⟨h1, h2⟩)
    · exact Or.inr ⟨h2, h3⟩

theorem specStatBefore_iff (L : GoLib) (a b : ZoneStat) :
    specStatBefore L a b ↔ zsKey L a < zsKey L b := by
  unfold specStatBefore zsKey
  simp only [specSmaller_step]
  simp only [Prod.Lex.lt_iff, specSmaller_iff]

/-- C28: The list returned by `CalculateZoneStatsNative` is sorted: of two adjacent
statistics, and of any two statistics of the list, the later one does not come before the
earlier one under the order zone key (text), then operator key (text), then zone X, then
zone Y, then MCC, MNC and PCI, each compared as numbers when both parse, a number before
a non-number, and as text where that does not decide (neither parses, or both are texts
of the same number). -/
theorem CalculateZoneStatsNative_sorted (L : GoLib) (ctx : Context) (ds : ProcessedDataset)
    (cfg : ProcessingConfig) (t : PyProjTransformer) (stats : List ZoneStat)
    (hrun : CalculateZoneStatsNative L ctx (some ds) cfg t = .ok stats) :
    stats.Chain' (fun a b => ¬ specStatBefore L b a) ∧
    stats.Pairwise (fun a b => ¬ specStatBefore L b a) ∧
    (∀ a b : ZoneStat, zoneStatLess L a b = true ↔ specStatBefore L a b) := by
  obtain ⟨lonLat, _, rfl⟩ := CalculateZoneStatsNative_ok L ctx ds cfg t stats hrun
  have hp : (sortSlice (zoneStatLess L)
      (((chosenGroups L ds.Rows).zip lonLat).map fun zp => mkZoneStat cfg zp.1 zp.2)).Pairwise
      (fun a b => ¬ specStatBefore L b a) := by
    refine List.Pairwise.imp ?_ (sortSlice_pairwise (zoneStatLess L) (zsKey L)
      (zoneStatLess_iff L) _)
    intro a b hab
    rw [specStatBefore_iff]
    exact not_lt.mpr hab
  refine ⟨hp.chain', hp, ?_⟩
  intro a b
  rw [zoneStatLess_iff, specStatBefore_iff]

/-- C28 on two statistics that differ in MCC only: MCC 9 comes before MCC 10. -/
theorem CalculateZoneStatsNative_sorted_witness :
    CalculateZoneStatsNative goLib liveContext
      (some (exampleProcessed [exampleMccRow "10", exampleMccRow "9"])) exampleConfig
      idTransformer = .ok [exampleMccStat "9", exampleMccStat "10"] ∧
    [exampleMccStat "9", exampleMccStat "10"].Chain'
      (fun a b => ¬ specStatBefore goLib b a) :=
  ⟨by with_unfolding_all decide,
   (CalculateZoneStatsNative_sorted goLib liveContext
      (exampleProcessed [exampleMccRow "10", exampleMccRow "9"]) exampleConfig idTransformer
      [exampleMccStat "9", exampleMccStat "10"] (by with_unfolding_all decide)).1⟩

/-! ## C29 and C30: the coverage category -/

/-- C29: With mobile-sync inactive, every `ZoneStat` returned by `CalculateZoneStatsNative`
has the category `RSRP_GOOD` iff its mean RSRP is at least the RSRP threshold and, when it
has a mean SINR, that mean SINR is at least the SINR threshold; otherwise its category is
`RSRP_BAD`; and `isZoneStatGoodForStats` holds for it iff its category is `RSRP_GOOD`. -/
theorem CalculateZoneStatsNative_category (L : GoLib) (ctx : Context) (ds : ProcessedDataset)
    (cfg : ProcessingConfig) (t : PyProjTransformer) (stats : List ZoneStat)
    (hmobile : cfg.MobileModeEnabled = false)
    (hrun : CalculateZoneStatsNative L ctx (some ds) cfg t = .ok stats) :
    ∀ s ∈ stats,
      (s.RSRPKategoria = "RSRP_GOOD" ↔
        s.RSRPAvg ≥ cfg.RSRPThreshold ∧
          (s.HasSINRAvg = true → s.SINRAvg ≥ cfg.SINRThreshold)) ∧
      (s.RSRPKategoria ≠ "RSRP_GOOD" → s.RSRPKategoria = "RSRP_BAD") ∧
      (isZoneStatGoodForStats L s cfg = true ↔ s.RSRPKategoria = "RSRP_GOOD") := by
  intro s hs
  obtain ⟨z, _, p, rfl⟩ := CalculateZoneStatsNative_mem L ctx ds cfg t stats hrun s hs
  have hne : ("RSRP_BAD" : String) ≠ "RSRP_GOOD" := by decide
  simp only [mkZoneStat, rsrpKategoria, isZoneStatGoodForStats, hmobile]
  by_cases hS : z.HasSINR = true
  · by_cases h1 : z.RSRPAvg ≥ cfg.RSRPThreshold
    · by_cases h2 : z.SINRAvg ≥ cfg.SINRThreshold
      · simp [hS, h1, h2]
      · simp [hS, h1, h2, hne]
    · simp [hS, h1, hne]
  · by_cases h1 : z.RSRPAvg ≥ cfg.RSRPThreshold
    · simp [hS, h1]
    · simp [hS, h1, hne]

/-- C29 on three measurements of one group with mean RSRP -95 and mean SINR 15. -/
theorem CalculateZoneStatsNative_category_witness :
    CalculateZoneStatsNative goLib liveContext (some exampleSignalDataset) exampleConfig
      idTransformer = .ok [exampleSignalStat] ∧
    ∀ s ∈ [exampleSignalStat],
      (s.RSRPKategoria = "RSRP_GOOD" ↔
        s.RSRPAvg ≥ exampleConfig.RSRPThreshold ∧
          (s.HasSINRAvg = true → s.SINRAvg ≥ exampleConfig.SINRThreshold)) ∧
      (s.RSRPKategoria ≠ "RSRP_GOOD" → s.RSRPKategoria = "RSRP_BAD") ∧
      (isZoneStatGoodForStats goLib s exampleConfig = true ↔ s.RSRPKategoria = "RSRP_GOOD") :=
  ⟨by with_unfolding_all decide,
   CalculateZoneStatsNative_category goLib liveContext exampleSignalDataset exampleConfig
     idTransformer [exampleSignalStat] (by decide) (by with_unfolding_all decide)⟩

/-- C30 (code slip): With mobile-sync active, a measurement with RSRP -90 and secondary
signal `no` yields a `ZoneStat` with category `RSRP_GOOD` and `NRValue = "no"`, which
`isZoneStatGoodForStats` classifies as not good; the category that
`CalculateZoneStatsNative` assigns depends neither on `MobileModeEnabled` nor on
`NRValue`. -/
theorem CalculateZoneStatsNative_category_ignores_signal :
    (CalculateZoneStatsNative goLib liveContext (some exampleNoSignalDataset)
        exampleMobileConfig idTransformer).map
      (fun stats => stats.map fun s =>
        (s.RSRPKategoria, s.NRValue, isZoneStatGoodForStats goLib s exampleMobileConfig)) =
      .ok [("RSRP_GOOD", "no", false)] ∧
    (∀ (cfg : ProcessingConfig) (z : zoneFreqStat) (p : Point) (b : Bool) (nr : String),
      (mkZoneStat { cfg with MobileModeEnabled := b } { z with NRValue := nr } p).RSRPKategoria =
        (mkZoneStat cfg z p).RSRPKategoria) := by
  refine ⟨by with_unfolding_all decide, ?_⟩
  intro cfg z p b nr
  rfl

/-! ## C33: loading a batch of rule files is all-or-nothing -/

/-- C33: `LoadFilterRulesFromPaths` is all-or-nothing.  If some path fails to load or
compile, the call returns an error and no rules: the error text is the first failing path,
a colon and a blank, and the error of that path.  If every path loads and compiles, the
call returns exactly one rule per path, in path order, each being the rule of its path.
The call succeeds iff every path loads and compiles. -/
theorem LoadFilterRulesFromPaths_all_or_nothing (L : GoLib)
    (ReadFile : String → Except String String) (Base : String → String)
    (paths : List String) :
    ((∃ p ∈ paths, ∃ e, LoadFilterRuleFromFile L ReadFile Base p = .error e) →
      ∃ pre p e post, paths = pre ++ p :: post ∧
        (∀ q ∈ pre, ∃ r, LoadFilterRuleFromFile L ReadFile Base q = .ok r) ∧
        LoadFilterRuleFromFile L ReadFile Base p = .error e ∧
        LoadFilterRulesFromPaths L ReadFile Base paths = .error (p ++ ": " ++ e) ∧
        p.data <+: (p ++ ": " ++ e).data) ∧
    ((∀ p ∈ paths, ∃ r, LoadFilterRuleFromFile L ReadFile Base p = .ok r) →
      ∃ rules, LoadFilterRulesFromPaths L ReadFile Base paths = .ok rules ∧
        rules.length = paths.length ∧
        paths.map (LoadFilterRuleFromFile L ReadFile Base) = rules.map Except.ok) ∧
    ((∃ rules, LoadFilterRulesFromPaths L ReadFile Base paths = .ok rules) ↔
      ∀ p ∈ paths, ∃ r, LoadFilterRuleFromFile L ReadFile Base p = .ok r) := by
  induction paths with
  | nil =>
    refine ⟨?_, ?_, ?_⟩
    · rintro ⟨p, hp, _⟩
      cases hp
    · intro _
      exact ⟨[], rfl, rfl, rfl⟩
    · simp [LoadFilterRulesFromPaths]
  | cons path rest ih =>
    obtain ⟨ih1, ih2, ih3⟩ := ih
    cases hload : LoadFilterRuleFromFile L ReadFile Base path with
    | error e =>
      have hrun : LoadFilterRulesFromPaths L ReadFile Base (path :: rest) =
          .error (path ++ ": " ++ e) := by
        simp only [LoadFilterRulesFromPaths, hload]
      refine ⟨?_, ?_, ?_⟩
      · intro _
        refine ⟨[], path, e, rest, rfl, ?_, hload, hrun, ?_⟩
        · intro q hq
          cases hq
        · simp only [String.data_append, List.append_assoc]
          exact List.prefix_append _ _
      · intro hall
        obtain ⟨r, hr⟩ := hall path (List.mem_cons_self _ _)
        rw [hload] at hr
        cases hr
      · rw [hrun]
        constructor
        · rintro ⟨rules, h⟩
          cases h
        · intro hall
          obtain ⟨r, hr⟩ := hall path (List.mem_cons_self _ _)
          rw [hload] at hr
          cases hr
    | ok rule =>
      refine ⟨?_, ?_, ?_⟩
      · rintro ⟨p, hp, e, he⟩
        have hrest : ∃ p ∈ rest, ∃ e, LoadFilterRuleFromFile L ReadFile Base p = .error e := by
          rcases List.mem_cons.mp hp with rfl | hp
          · rw [hload] at he
            cases he
          · exact ⟨p, hp, e, he⟩
        obtain ⟨pre, p', e', post, hsplit, hpre, hp', hrun, hpfx⟩ := ih1 hrest
        refine ⟨path :: pre, p', e', post, by rw [hsplit]; rfl, ?_, hp', ?_, hpfx⟩
        · intro q hq
          rcases List.mem_cons.mp hq with rfl | hq
          · exact ⟨rule, hload⟩
          · exact hpre q hq
        · simp only [LoadFilterRulesFromPaths, hload, hrun]
      · intro hall
        obtain ⟨rules, hrun, hlen, hmap⟩ := ih2 (fun p hp => hall p (List.mem_cons_of_mem _ hp))
        refine ⟨rule :: rules, ?_, ?_, ?_⟩
        · simp only [LoadFilterRulesFromPaths, hload, hrun]
        · simp [hlen]
        · simp only [List.map_cons, hload, hmap]
      · constructor
        · rintro ⟨rules, h⟩
          simp only [LoadFilterRulesFromPaths, hload] at h
          cases hrest : LoadFilterRulesFromPaths L ReadFile Base rest with
          | error e =>
            rw [hrest] at h
            cases h
          | ok rs =>
            have := ih3.mp ⟨rs, hrest⟩
            intro p hp
            rcases List.mem_cons.mp hp with rfl | hp
            · exact ⟨rule, hload⟩
            · exact this p hp
        · intro hall
          obtain ⟨rs, hrs⟩ := ih3.mpr (fun p hp => hall p (List.mem_cons_of_mem _ hp))
          exact ⟨rule :: rs, by simp only [LoadFilterRulesFromPaths, hload, hrs]⟩

/-- C33 on two examples: the batch `a.txt`, `b.txt`, `c.txt`, whose second file does not
compile, gives the error that starts with `b.txt` and no rules; the batch `a.txt`, `c.txt`
gives two rules. -/
theorem LoadFilterRulesFromPaths_all_or_nothing_examples :
    LoadFilterRulesFromPaths goLib exampleRuleFiles id ["a.txt", "b.txt", "c.txt"] =
      .error "b.txt: assignment hodnoty nemozu byt rozsah: 1-3" ∧
    (LoadFilterRulesFromPaths goLib exampleRuleFiles id ["a.txt", "c.txt"]).map
      (fun rules => rules.map fun r => r.Name) = .ok ["a.txt", "c.txt"] := by
  constructor <;> decide

/-! ## C34: batches are converted completely or not at all -/

theorem transformLoop_nil (one : ℚ → ℚ → Except String (ℚ × ℚ)) (ctx : Context) (i : Nat) :
    transformLoop one ctx i [] = .ok [] := rfl

theorem transformLoop_cons (one : ℚ → ℚ → Except String (ℚ × ℚ)) (ctx : Context) (i : Nat)
    (p : Point) (ps : List Point) :
    transformLoop one ctx i (p :: ps) =
      match ctx i with
      | some e => .error e
      | none =>
        match kernelPoint one p with
        | .error e => .error e
        | .ok q =>
          match transformLoop one ctx (i + 1) ps with
          | .error e => .error e
          | .ok out => .ok (q :: out) := by
  rw [transformLoop]
  cases ctx i with
  | some e => rfl
  | none =>
    simp only [kernelPoint]
    cases one p.A p.B with
    | error e => rfl
    | ok xy =>
      obtain ⟨x, y⟩ := xy
      rfl

/-- The batch loop from poll `i` on: the first event among "poll `i + k` reports
cancellation" and "point `k` does not convert" decides the error; without such an event
the result is the list of the converted points. -/
theorem transformLoop_spec (one : ℚ → ℚ → Except String (ℚ × ℚ)) (ctx : Context) :
    ∀ (ps : List Point) (i : Nat),
      (∀ k e, k < ps.length → (∀ j, j < k → ctx (i + j) = none) →
        (∀ j, j < k → ∃ q, (ps[j]?).map (kernelPoint one) = some (.ok q)) →
        ctx (i + k) = some e → transformLoop one ctx i ps = .error e) ∧
      (∀ k e, k < ps.length → (∀ j, j ≤ k → ctx (i + j) = none) →
        (∀ j, j < k → ∃ q, (ps[j]?).map (kernelPoint one) = some (.ok q)) →
        (ps[k]?).map (kernelPoint one) = some (.error e) →
        transformLoop one ctx i ps = .error e) ∧
      ((∀ j, j < ps.length → ctx (i + j) = none) →
        ∀ out, ps.map (kernelPoint one) = out.map Except.ok →
          transformLoop one ctx i ps = .ok out) ∧
      (∀ out, transformLoop one ctx i ps = .ok out →
        (∀ j, j < ps.length → ctx (i + j) = none) ∧
          ps.map (kernelPoint one) = out.map Except.ok) := by
  intro ps
  induction ps with
  | nil =>
    intro i
    refine ⟨?_, ?_, ?_, ?_⟩
    · intro k e hk
      simp at hk
    · intro k e hk
      simp at hk
    · intro _ out hout
      cases out with
      | nil => rfl
      | cons a b => simp at hout
    · intro out h
      rw [transformLoop_nil] at h
      cases h
      simp
  | cons p ps ih =>
    intro i
    obtain ⟨ih1, ih2, ih3, ih4⟩ := ih (i + 1)
    refine ⟨?_, ?_, ?_, ?_⟩
    · intro k e hk hlive hconv hcancel
      rw [transformLoop_cons]
      cases k with
      | zero =>
        have h0 : ctx i = some e := by simpa using hcancel
        rw [h0]
      | succ k =>
        have h0 : ctx i = none := by simpa using hlive 0 (Nat.succ_pos _)
        obtain ⟨q, hq⟩ := hconv 0 (Nat.succ_pos _)
        simp only [List.getElem?_cons_zero, Option.map_some', Option.some.injEq] at hq
        rw [h0, hq]
        have := ih1 k e (by simpa using hk)
          (fun j hj => by
            have := hlive (j + 1) (Nat.succ_lt_succ hj)
            rwa [show i + (j + 1) = i + 1 + j by omega] at this)
          (fun j hj => by
            have := hconv (j + 1) (Nat.succ_lt_succ hj)
            simpa using this)
          (by rwa [show i + (k + 1) = i + 1 + k by omega] at hcancel)
        simp only [this]
    · intro k e hk hlive hconv hfail
      rw [transformLoop_cons]
      have h0 : ctx i = none := by simpa using hlive 0 (Nat.zero_le _)
      rw [h0]
      cases k with
      | zero =>
        simp only [List.getElem?_cons_zero, Option.map_some', Option.some.injEq] at hfail
        rw [hfail]
      | succ k =>
        obtain ⟨q, hq⟩ := hconv 0 (Nat.succ_pos _)
        simp only [List.getElem?_cons_zero, Option.map_some', Option.some.injEq] at hq
        rw [hq]
        have := ih2 k e (by simpa using hk)
          (fun j hj => by
            have := hlive (j + 1) (Nat.succ_le_succ hj)
            rwa [show i + (j + 1) = i + 1 + j by omega] at this)
          (fun j hj => by
            have := hconv (j + 1) (Nat.succ_lt_succ hj)
            simpa using this)
          (by simpa using hfail)
        simp only [this]
    · intro hlive out hout
      rw [transformLoop_cons]
      have h0 : ctx i = none := by simpa using hlive 0 (Nat.succ_pos _)
      rw [h0]
      cases out with
      | nil => simp at hout
      | cons q out =>
        simp only [List.map_cons, List.cons.injEq] at hout
        rw [hout.1]
        have := ih3 (fun j hj => by
          have := hlive (j + 1) (by simpa using hj)
          rwa [show i + (j + 1) = i + 1 + j by omega] at this) out hout.2
        simp only [this]
    · intro out h
      rw [transformLoop_cons] at h
      cases h0 : ctx i with
      | some e =>
        rw [h0] at h
        cases h
      | none =>
        rw [h0] at h
        simp only at h
        cases hq : kernelPoint one p with
        | error e =>
          rw [hq] at h
          cases h
        | ok q =>
          rw [hq] at h
          simp only at h
          cases hrest : transformLoop one ctx (i + 1) ps with
          | error e =>
            rw [hrest] at h
            cases h
          | ok out' =>
            rw [hrest] at h
            cases h
            obtain ⟨hl, hm⟩ := ih4 out' hrest
            refine ⟨?_, ?_⟩
            · intro j hj
              cases j with
              | zero => simpa using h0
              | succ j =>
                have := hl j (by simpa using hj)
                rwa [show i + (j + 1) = i + 1 + j by omega]
            · simp only [List.map_cons, hq, hm]

theorem transformLoop_congr (one : ℚ → ℚ → Except String (ℚ × ℚ)) (ctx ctx2 : Context) :
    ∀ (ps : List Point) (i : Nat), (∀ j, j < ps.length → ctx (i + j) = ctx2 (i + j)) →
      transformLoop one ctx i ps = transformLoop one ctx2 i ps := by
  intro ps
  induction ps with
  | nil => intro i _; rfl
  | cons p ps ih =>
    intro i h
    rw [transformLoop_cons, transformLoop_cons]
    have h0 : ctx i = ctx2 i := by simpa using h 0 (Nat.succ_pos _)
    rw [h0, ih (i + 1) (fun j hj => by
      have := h (j + 1) (by simpa using hj)
      rwa [show i + (j + 1) = i + 1 + j by omega] at this)]

theorem map_ok_of_forall (one : ℚ → ℚ → Except String (ℚ × ℚ)) (ps : List Point)
    (h : ∀ p ∈ ps, ∃ q, kernelPoint one p = .ok q) :
    ∃ out : List Point, ps.map (kernelPoint one) = out.map Except.ok := by
  induction ps with
  | nil => exact ⟨[], rfl⟩
  | cons p ps ih =>
    obtain ⟨q, hq⟩ := h p (List.mem_cons_self _ _)
    obtain ⟨out, hout⟩ := ih (fun p' hp' => h p' (List.mem_cons_of_mem _ hp'))
    exact ⟨q :: out, by simp only [List.map_cons, hq, hout]⟩

theorem transformLoop_batch (one : ℚ → ℚ → Except String (ℚ × ℚ)) :
    IsAllOrNothingBatch (fun ctx ps => transformLoop one ctx 0 ps) one := by
  refine ⟨?_, ?_, ?_, ?_, ?_⟩
  · intro ctx ps k e hk hlive hconv hcancel
    exact (transformLoop_spec one ctx ps 0).1 k e hk (by simpa using hlive) hconv
      (by simpa using hcancel)
  · intro ctx ps hlive hall
    obtain ⟨out, hout⟩ := map_ok_of_forall one ps hall
    refine ⟨out, (transformLoop_spec one ctx ps 0).2.2.1 (by simpa using hlive) out hout, ?_, ?_⟩
    · have := congrArg List.length hout
      simpa using this.symm
    · intro i
      have := congrArg (fun l => l[i]?) hout
      simp only [List.getElem?_map] at this
      exact this.symm
  · intro ctx ps out h
    obtain ⟨hl, hm⟩ := (transformLoop_spec one ctx ps 0).2.2.2 out h
    refine ⟨?_, by simpa using hl, ?_⟩
    · have := congrArg List.length hm
      simpa using this.symm
    · intro i
      have := congrArg (fun l => l[i]?) hm
      simp only [List.getElem?_map] at this
      exact this.symm
  · intro ctx
    rfl
  · intro ctx ctx2 ps h
    exact transformLoop_congr one ctx ctx2 ps 0 (by simpa using h)

/-- C34: `Forward` and `Inverse` poll the cancellation context once before each point and
never return a partial batch.  If the poll before some point reports cancellation (the
earlier polls being live and the earlier points converting), the call returns the
cancellation error and no points.  Otherwise, when every point converts, the output has
the length of the input and its `i`-th point is the kernel's answer for the `i`-th input
point alone.  Every successful call has such an output.  An empty batch returns an empty
result without error, also under a cancelled context. -/
theorem PyProjTransformer_batch_all_or_nothing (t : PyProjTransformer) :
    IsAllOrNothingBatch t.Forward t.forwardOne ∧ IsAllOrNothingBatch t.Inverse t.inverseOne :=
  ⟨transformLoop_batch t.forwardOne, transformLoop_batch t.inverseOne⟩

/-- C34 on examples: with three points and a context cancelled from the third poll on the
call returns the cancellation error; with a live context it returns the three points; an
empty batch under a cancelled context returns the empty list. -/
theorem PyProjTransformer_batch_examples :
    idTransformer.Forward (cancelledFrom 2) [⟨1, 2⟩, ⟨3, 4⟩, ⟨5, 6⟩] = .error "context canceled" ∧
    idTransformer.Inverse liveContext [⟨1, 2⟩, ⟨3, 4⟩, ⟨5, 6⟩] = .ok [⟨1, 2⟩, ⟨3, 4⟩, ⟨5, 6⟩] ∧
    idTransformer.Forward (cancelledFrom 0) [] = .ok [] := by
  refine ⟨?_, ?_, ?_⟩ <;> with_unfolding_all decide

/-! ## C36: the inverse datum shift -/

theorem helmertDet_eq {K : Type} [Field K] (pi : K) :
    helmertDet pi = 1 + (helmertRotations pi).1 ^ 2 + (helmertRotations pi).2.1 ^ 2 +
      (helmertRotations pi).2.2 ^ 2 := by
  unfold helmertDet
  ring

theorem helmertDet_pos {K : Type} [LinearOrderedField K] (pi : K) : 0 < helmertDet pi := by
  rw [helmertDet_eq]
  positivity

/-- C36: In exact arithmetic (over every ordered field, in particular over the real
numbers with `pi` the number π) the inverse Helmert transform is the exact inverse of the
Helmert transform: `applyHelmertSJTSKtoWGS84_4` with `inverse = true` applied to the result
of `inverse = false` returns the input, and the other way round.  The determinant of the
matrix of the transform is `1 + rxr² + ryr² + rzr²`, which is positive, so the branch
`det == 0` that returns the input unchanged is never taken. -/
theorem applyHelmertSJTSKtoWGS84_4_inverse_exact {K : Type} [LinearOrderedField K]
    [DecidableEq K] (pi x y z : K) :
    applyHelmertSJTSKtoWGS84_4 pi (applyHelmertSJTSKtoWGS84_4 pi x y z false).1
      (applyHelmertSJTSKtoWGS84_4 pi x y z false).2.1
      (applyHelmertSJTSKtoWGS84_4 pi x y z false).2.2 true = (x, y, z) ∧
    applyHelmertSJTSKtoWGS84_4 pi (applyHelmertSJTSKtoWGS84_4 pi x y z true).1
      (applyHelmertSJTSKtoWGS84_4 pi x y z true).2.1
      (applyHelmertSJTSKtoWGS84_4 pi x y z true).2.2 false = (x, y, z) ∧
    helmertDet pi = 1 + (helmertRotations pi).1 ^ 2 + (helmertRotations pi).2.1 ^ 2 +
      (helmertRotations pi).2.2 ^ 2 ∧
    helmertDet pi ≠ 0 := by
  have hpos := helmertDet_pos pi
  have hne : helmertDet pi ≠ 0 := ne_of_gt hpos
  have hdet := helmertDet_eq pi
  refine ⟨?_, ?_, hdet, hne⟩
  · simp only [applyHelmertSJTSKtoWGS84_4, Bool.false_eq_true, not_false_eq_true, if_true,
      not_true_eq_false, if_false, if_neg hne]
    generalize (helmertRotations pi).1 = a at *
    generalize (helmertRotations pi).2.1 = b at *
    generalize (helmertRotations pi).2.2 = c at *
    rw [hdet] at hne ⊢
    refine Prod.ext ?_ (Prod.ext ?_ ?_) <;> simp only <;> field_simp <;> ring
  · simp only [applyHelmertSJTSKtoWGS84_4, Bool.false_eq_true, not_false_eq_true, if_true,
      not_true_eq_false, if_false, if_neg hne, div_eq_mul_inv]
    have hd : helmertDet pi * (helmertDet pi)⁻¹ = 1 := mul_inv_cancel₀ hne
    generalize (helmertDet pi)⁻¹ = d at *
    rw [hdet] at hd
    generalize (helmertRotations pi).1 = a at *
    generalize (helmertRotations pi).2.1 = b at *
    generalize (helmertRotations pi).2.2 = c at *
    refine Prod.ext ?_ (Prod.ext ?_ ?_)
    · simp only
      linear_combination (x - 485) * hd
    · simp only
      linear_combination (y - 1695 * (10 : K)⁻¹) * hd
    · simp only
      linear_combination (z - 4838 * (10 : K)⁻¹) * hd

/-! ## C37: refinement of the inverse projection -/

/-- An error of the refinement loop is an error of the forward transform. -/
theorem inverseOneLoop_error (M : NumLib) (forwardOne : ℚ → ℚ → Except String (ℚ × ℚ))
    (x y : ℚ) : ∀ (n : Nat) (lon lat : ℚ) (e : String),
      inverseOneLoop M forwardOne x y n lon lat = .error e →
      ∃ a b, forwardOne a b = .error e := by
  intro n
  induction n with
  | zero =>
    intro lon lat e h
    simp [inverseOneLoop] at h
  | succ n ih =>
    intro lon lat e h
    unfold inverseOneLoop at h
    cases h0 : forwardOne lon lat with
    | error e0 =>
      rw [h0] at h
      cases h
      exact ⟨_, _, h0⟩
    | ok f =>
      rw [h0] at h
      simp only at h
      split_ifs at h with hres
      cases h1 : forwardOne (lon + stepDeg) lat with
      | error e1 =>
        rw [h1] at h
        cases h
        exact ⟨_, _, h1⟩
      | ok fLon =>
        rw [h1] at h
        simp only at h
        cases h2 : forwardOne lon (lat + stepDeg) with
        | error e2 =>
          rw [h2] at h
          cases h
          exact ⟨_, _, h2⟩
        | ok fLat =>
          rw [h2] at h
          simp only at h
          split_ifs at h with hdet hstep
          exact ih _ _ e h

/-- With a forward transform that never fails the loop is a bounded Newton-Raphson
iteration: it returns the estimate after `k` steps for some `k` of at most `n`; before
each of these steps the residual was not below 1e-6 and the determinant not below 1e-12
in absolute value, and no step but the last was shorter than 1e-12; and either all `n`
passes were used, or the residual of the returned estimate is below 1e-6, or the
determinant there is below 1e-12, or the last step was shorter than 1e-12. -/
theorem inverseOneLoop_newton (M : NumLib) (fwd : ℚ → ℚ → ℚ × ℚ) (x y : ℚ) :
    ∀ (n : Nat) (p : ℚ × ℚ), ∃ k, k ≤ n ∧
      inverseOneLoop M (fun a b => .ok (fwd a b)) x y n p.1 p.2 =
        .ok ((newtonStep fwd x y)^[k] p) ∧
      (∀ j, j < k →
        ¬ planarResidual M fwd x y ((newtonStep fwd x y)^[j] p) < 1 / 1000000 ∧
        ¬ |jacobianDet fwd ((newtonStep fwd x y)^[j] p)| < 1 / 1000000000000) ∧
      (∀ j, j + 1 < k →
        ¬ |(newtonDelta fwd x y ((newtonStep fwd x y)^[j] p)).1| +
          |(newtonDelta fwd x y ((newtonStep fwd x y)^[j] p)).2| < 1 / 1000000000000) ∧
      (k = n ∨ planarResidual M fwd x y ((newtonStep fwd x y)^[k] p) < 1 / 1000000 ∨
        |jacobianDet fwd ((newtonStep fwd x y)^[k] p)| < 1 / 1000000000000 ∨
        (0 < k ∧ |(newtonDelta fwd x y ((newtonStep fwd x y)^[k - 1] p)).1| +
          |(newtonDelta fwd x y ((newtonStep fwd x y)^[k - 1] p)).2| < 1 / 1000000000000)) := by
  intro n
  induction n with
  | zero =>
    intro p
    refine ⟨0, le_refl _, rfl, ?_, ?_, Or.inl rfl⟩
    · intro j hj
      omega
    · intro j hj
      omega
  | succ n ih =>
    intro p
    by_cases hres : planarResidual M fwd x y p < 1 / 1000000
    · refine ⟨0, Nat.zero_le _, ?_, ?_, ?_, Or.inr (Or.inl hres)⟩
      · unfold inverseOneLoop
        simp only
        unfold planarResidual at hres
        rw [if_pos hres]
        rfl
      · intro j hj
        omega
      · intro j hj
        omega
    by_cases hdet : |jacobianDet fwd p| < 1 / 1000000000000
    · refine ⟨0, Nat.zero_le _, ?_, ?_, ?_, Or.inr (Or.inr (Or.inl hdet))⟩
      · unfold inverseOneLoop
        simp only
        unfold planarResidual at hres
        unfold jacobianDet at hdet
        rw [if_neg hres, if_pos hdet]
        rfl
      · intro j hj
        omega
      · intro j hj
        omega
    by_cases hstep : |(newtonDelta fwd x y p).1| + |(newtonDelta fwd x y p).2| <
        1 / 1000000000000
    · refine ⟨1, by omega, ?_, ?_, ?_, Or.inr (Or.inr (Or.inr ⟨Nat.one_pos, hstep⟩))⟩
      · unfold inverseOneLoop
        simp only
        unfold planarResidual at hres
        unfold jacobianDet at hdet
        unfold newtonDelta jacobianDet at hstep
        rw [if_neg hres, if_neg hdet, if_pos hstep]
        rfl
      · intro j hj
        have : j = 0 := by omega
        subst this
        exact ⟨hres, hdet⟩
      · intro j hj
        omega
    · obtain ⟨k, hk, hrun, hbefore, hsteps, hstop⟩ := ih (newtonStep fwd x y p)
      refine ⟨k + 1, by omega, ?_, ?_, ?_, ?_⟩
      · rw [Function.iterate_succ_apply, ← hrun]
        conv_lhs => unfold inverseOneLoop
        simp only
        unfold planarResidual at hres
        unfold jacobianDet at hdet
        unfold newtonDelta jacobianDet at hstep
        rw [if_neg hres, if_neg hdet, if_neg hstep]
        rfl
      · intro j hj
        cases j with
        | zero => exact ⟨hres, hdet⟩
        | succ j =>
          rw [Function.iterate_succ_apply]
          exact hbefore j (by omega)
      · intro j hj
        cases j with
        | zero => exact hstep
        | succ j =>
          rw [Function.iterate_succ_apply]
          exact hsteps j (by omega)
      · rcases hstop with h | h | h | ⟨h1, h2⟩
        · exact Or.inl (by omega)
        · exact Or.inr (Or.inl (by rw [Function.iterate_succ_apply]; exact h))
        · exact Or.inr (Or.inr (Or.inl (by rw [Function.iterate_succ_apply]; exact h)))
        · refine Or.inr (Or.inr (Or.inr ⟨Nat.succ_pos _, ?_⟩))
          have e : k + 1 - 1 = (k - 1) + 1 := by omega
          rw [e, Function.iterate_succ_apply]
          exact h2

/-- C37 (as stated, refuted): With the piecewise linear forward transform of the examples,
the target `(120, 0)` and the first estimate `(0, 0)`, `inverseOne` returns `(60, 0)`, the
estimate after three Newton-Raphson steps.  The estimate after two steps is `(50, 0)`,
which a loop of at most two steps would return; its residual is 10 and the determinant
there is 1, so neither stopping condition holds after two steps. -/
theorem inverseOneRefined_three_steps_counterexample :
    inverseOneRefined exampleNumLib (fun a b => .ok (exampleKinkForward a b))
      exampleApproxInverse 120 0 = .ok (60, 0) ∧
    (newtonStep exampleKinkForward 120 0)^[2] (0, 0) = (50, 0) ∧
    (newtonStep exampleKinkForward 120 0)^[3] (0, 0) = (60, 0) ∧
    inverseOneLoop exampleNumLib (fun a b => .ok (exampleKinkForward a b)) 120 0 2 0 0 =
      .ok (50, 0) ∧
    planarResidual exampleNumLib exampleKinkForward 120 0 (50, 0) = 10 ∧
    jacobianDet exampleKinkForward (50, 0) = 1 := by
  refine ⟨?_, ?_, ?_, ?_, ?_, ?_⟩ <;> with_unfolding_all decide

/-- C37 (amended): After the approximate inverse, `inverseOne` refines against the forward
transform with at most 8 Newton-Raphson steps.  With a forward transform that does not
fail it returns the estimate after `k ≤ 8` steps: before each step the planar residual was
not below 1e-6 and the determinant of the finite-difference Jacobian not below 1e-12 in
absolute value, no step but the last was shorter than 1e-12 (sum of the absolute
corrections), and the loop ended because 8 steps were made, or the residual of the
returned estimate is below 1e-6, or the determinant there is below 1e-12 in absolute
value, or the last step was shorter than 1e-12.  The call never fails for lack of
convergence: an error it returns is the error of the approximate inverse or of a call of
the forward transform, and when neither fails it returns an estimate. -/
theorem inverseOneRefined_newton (M : NumLib)
    (forwardOne inverseApproxOne : ℚ → ℚ → Except String (ℚ × ℚ)) (x y : ℚ) :
    (∀ e, inverseOneRefined M forwardOne inverseApproxOne x y = .error e →
      inverseApproxOne x y = .error e ∨ ∃ a b, forwardOne a b = .error e) ∧
    ((∀ a b, ∃ f, forwardOne a b = .ok f) → (∃ p, inverseApproxOne x y = .ok p) →
      ∃ r, inverseOneRefined M forwardOne inverseApproxOne x y = .ok r) ∧
    (∀ (fwd : ℚ → ℚ → ℚ × ℚ) (p : ℚ × ℚ), inverseApproxOne x y = .ok p →
      ∃ k, k ≤ 8 ∧
        inverseOneRefined M (fun a b => .ok (fwd a b)) inverseApproxOne x y =
          .ok ((newtonStep fwd x y)^[k] p) ∧
        (∀ j, j < k →
          ¬ planarResidual M fwd x y ((newtonStep fwd x y)^[j] p) < 1 / 1000000 ∧
          ¬ |jacobianDet fwd ((newtonStep fwd x y)^[j] p)| < 1 / 1000000000000) ∧
        (∀ j, j + 1 < k →
          ¬ |(newtonDelta fwd x y ((newtonStep fwd x y)^[j] p)).1| +
            |(newtonDelta fwd x y ((newtonStep fwd x y)^[j] p)).2| < 1 / 1000000000000) ∧
        (k = 8 ∨ planarResidual M fwd x y ((newtonStep fwd x y)^[k] p) < 1 / 1000000 ∨
          |jacobianDet fwd ((newtonStep fwd x y)^[k] p)| < 1 / 1000000000000 ∨
          (0 < k ∧ |(newtonDelta fwd x y ((newtonStep fwd x y)^[k - 1] p)).1| +
            |(newtonDelta fwd x y ((newtonStep fwd x y)^[k - 1] p)).2| <
              1 / 1000000000000))) := by
  have herr : ∀ e, inverseOneRefined M forwardOne inverseApproxOne x y = .error e →
      inverseApproxOne x y = .error e ∨ ∃ a b, forwardOne a b = .error e := by
    intro e h
    unfold inverseOneRefined at h
    cases ha : inverseApproxOne x y with
    | error e0 =>
      rw [ha] at h
      cases h
      exact Or.inl rfl
    | ok p =>
      rw [ha] at h
      exact Or.inr (inverseOneLoop_error M forwardOne x y 8 p.1 p.2 e h)
  refine ⟨herr, ?_, ?_⟩
  · intro hfwd ⟨p, hp⟩
    cases hr : inverseOneRefined M forwardOne inverseApproxOne x y with
    | ok r => exact ⟨r, rfl⟩
    | error e =>
      rcases herr e hr with h | ⟨a, b, h⟩
      · rw [hp] at h
        cases h
      · obtain ⟨f, hf⟩ := hfwd a b
        rw [hf] at h
        cases h
  · intro fwd p hp
    obtain ⟨k, hk, hrun, h1, h2, h3⟩ := inverseOneLoop_newton M fwd x y 8 p
    refine ⟨k, hk, ?_, h1, h2, h3⟩
    unfold inverseOneRefined
    rw [hp]
    exact hrun

/-- C37 (as amended) on the example: the call returns the estimate after three steps, and
three is at most 8. -/
theorem inverseOneRefined_newton_witness :
    ∃ k, k ≤ 8 ∧
      inverseOneRefined exampleNumLib (fun a b => .ok (exampleKinkForward a b))
        exampleApproxInverse 120 0 = .ok ((newtonStep exampleKinkForward 120 0)^[k] (0, 0)) := by
  obtain ⟨k, hk, hrun, _⟩ := (inverseOneRefined_newton exampleNumLib
    (fun a b => .ok (exampleKinkForward a b)) exampleApproxInverse 120 0).2.2
    exampleKinkForward (0, 0) rfl
  exact ⟨k, hk, hrun⟩

/-! ## Independence of the enumeration order of the grouping map, for means that are numbers -/

theorem CalculateZoneStatsNative_eq_enum (L : GoLib) (ctx : Context) (ds : ProcessedDataset)
    (cfg : ProcessingConfig) (t : PyProjTransformer) :
    CalculateZoneStatsNative L ctx (some ds) cfg t =
      CalculateZoneStatsNativeEnum L ctx (aggregate ds.Rows) cfg t := rfl

/-- Groups built from a map without repeated key: within one key of the map `chosen`, the
sort key of the first sort determines the group. -/
theorem groups_class_inj (L : GoLib) (enum : List (aggKey × aggVal))
    (hnd : (enum.map Prod.fst).Nodup) (g h : zoneFreqStat)
    (hg : g ∈ enum.map toZoneFreqStat) (hh : h ∈ enum.map toZoneFreqStat)
    (hk : chosenKeyOf g = chosenKeyOf h) (hz : zfKey L g = zfKey L h) : g = h := by
  obtain ⟨kg, hkg, rfl⟩ := List.mem_map.mp hg
  obtain ⟨kh, hkh, rfl⟩ := List.mem_map.mp hh
  have hf : (toZoneFreqStat kg).Key.Freq = (toZoneFreqStat kh).Key.Freq := by
    have := congrArg (fun k => (ofLex (ofLex (ofLex (ofLex k).2).2).2).1) hz
    exact this
  have hpci : (toZoneFreqStat kg).Key.PCI = (toZoneFreqStat kh).Key.PCI := by
    have := congrArg (fun k => (ofLex (ofLex (ofLex (ofLex (ofLex k).2).2).2).2).2) hz
    exact this
  have hkey : kg.1 = kh.1 := by
    unfold chosenKeyOf at hk
    simp only [chosenKey.mk.injEq, toZoneFreqStat] at hk hf hpci
    obtain ⟨k1, k2, k3, k4, k5, k6⟩ := hk
    cases hK : kg.1
    cases hZ : kh.1
    simp_all
  have : kg = kh := List.inj_on_of_nodup_map hnd hkg hkh hkey
  rw [this]

/-- Members of the selection from a sorted list: the groups that are not after any group
of their key. -/
theorem chooseLoop_mem_iff (L : GoLib) (zs : List zoneFreqStat)
    (hs : zs.Pairwise (fun a b => zfKey L a ≤ zfKey L b))
    (hinj : ∀ g ∈ zs, ∀ h ∈ zs, chosenKeyOf g = chosenKeyOf h → zfKey L g = zfKey L h → g = h)
    (z : zoneFreqStat) :
    z ∈ chooseLoop zs [] ↔
      z ∈ zs ∧ ∀ h ∈ zs, chosenKeyOf h = chosenKeyOf z → zfKey L z ≤ zfKey L h := by
  constructor
  · intro hz
    refine ⟨(chooseLoop_sublist zs []).subset hz, ?_⟩
    intro h hh hk
    rcases chooseLoop_first zs [] hs z hz h hh hk with e | e
    · rw [e]
    · exact e
  · rintro ⟨hz, hmin⟩
    obtain ⟨z', hz', hk'⟩ := chooseLoop_covers zs [] z hz (by simp)
    have hz'mem := (chooseLoop_sublist zs []).subset hz'
    have h1 : zfKey L z ≤ zfKey L z' := hmin z' hz'mem hk'
    have h2 : zfKey L z' ≤ zfKey L z := by
      rcases chooseLoop_first zs [] hs z' hz' z hz hk'.symm with e | e
      · rw [e]
      · exact e
    have : z' = z := hinj z' hz'mem z hz hk' (le_antisymm h2 h1)
    rw [← this]
    exact hz'

theorem chooseLoop_nodup (zs : List zoneFreqStat) (seen : List chosenKey) :
    (chooseLoop zs seen).Nodup :=
  List.Nodup.of_map _ (chooseLoop_keys_nodup zs seen)

/-- The selection does not depend on the enumeration order of the map. -/
theorem chooseLoop_perm (L : GoLib) (e1 e2 : List (aggKey × aggVal)) (hperm : e1.Perm e2)
    (hnd : (e2.map Prod.fst).Nodup) :
    (chooseLoop (sortSlice (zoneFreqLess L) (e1.map toZoneFreqStat)) []).Perm
      (chooseLoop (sortSlice (zoneFreqLess L) (e2.map toZoneFreqStat)) []) := by
  have hnd1 : (e1.map Prod.fst).Nodup := (hperm.map Prod.fst).nodup_iff.mpr hnd
  have hs1 := sortSlice_pairwise (zoneFreqLess L) (zfKey L) (zoneFreqLess_iff L)
    (e1.map toZoneFreqStat)
  have hs2 := sortSlice_pairwise (zoneFreqLess L) (zfKey L) (zoneFreqLess_iff L)
    (e2.map toZoneFreqStat)
  have hmem : ∀ z, z ∈ sortSlice (zoneFreqLess L) (e1.map toZoneFreqStat) ↔
      z ∈ sortSlice (zoneFreqLess L) (e2.map toZoneFreqStat) := by
    intro z
    rw [mem_sortSlice, mem_sortSlice]
    exact (hperm.map toZoneFreqStat).mem_iff
  have hinj1 : ∀ g ∈ sortSlice (zoneFreqLess L) (e1.map toZoneFreqStat),
      ∀ h ∈ sortSlice (zoneFreqLess L) (e1.map toZoneFreqStat),
      chosenKeyOf g = chosenKeyOf h → zfKey L g = zfKey L h → g = h := by
    intro g hg h hh
    rw [mem_sortSlice] at hg hh
    exact groups_class_inj L e1 hnd1 g h hg hh
  have hinj2 : ∀ g ∈ sortSlice (zoneFreqLess L) (e2.map toZoneFreqStat),
      ∀ h ∈ sortSlice (zoneFreqLess L) (e2.map toZoneFreqStat),
      chosenKeyOf g = chosenKeyOf h → zfKey L g = zfKey L h → g = h := by
    intro g hg h hh
    rw [mem_sortSlice] at hg hh
    exact groups_class_inj L e2 hnd g h hg hh
  rw [List.perm_ext_iff_of_nodup (chooseLoop_nodup _ _) (chooseLoop_nodup _ _)]
  intro z
  rw [chooseLoop_mem_iff L _ hs1 hinj1, chooseLoop_mem_iff L _ hs2 hinj2, hmem z]
  constructor
  · rintro ⟨h1, h2⟩
    exact ⟨h1, fun h hh => h2 h ((hmem h).mpr hh)⟩
  · rintro ⟨h1, h2⟩
    exact ⟨h1, fun h hh => h2 h ((hmem h).mp hh)⟩

theorem zip_map_self {α β γ : Type} (f : α → β) (m : α → β → γ) (l : List α) :
    (l.zip (l.map f)).map (fun zp => m zp.1 zp.2) = l.map fun a => m a (f a) := by
  induction l with
  | nil => rfl
  | cons a l ih => simp [ih]

/-- A successful back-projection of the centres of `chosen` returns `centerLonLat` of each
group. -/
theorem Inverse_ok_iff (cfg : ProcessingConfig) (t : PyProjTransformer) (ctx : Context)
    (chosen : List zoneFreqStat) (lonLat : List Point) :
    t.Inverse ctx (chosen.map (zoneCenter cfg)) = .ok lonLat ↔
      (∀ j, j < chosen.length → ctx j = none) ∧
      (∀ z ∈ chosen, ∃ p, kernelPoint t.inverseOne (zoneCenter cfg z) = .ok p) ∧
      lonLat = chosen.map (centerLonLat cfg t) := by
  have hkey : (∀ z ∈ chosen, ∃ p, kernelPoint t.inverseOne (zoneCenter cfg z) = .ok p) →
      (chosen.map (zoneCenter cfg)).map (kernelPoint t.inverseOne) =
        (chosen.map (centerLonLat cfg t)).map Except.ok := by
    intro hall
    rw [List.map_map, List.map_map]
    apply List.map_congr_left
    intro z hz
    obtain ⟨p, hp⟩ := hall z hz
    simp only [Function.comp_apply, centerLonLat, hp]
  constructor
  · intro h
    obtain ⟨hl, hm⟩ := (transformLoop_spec t.inverseOne ctx _ 0).2.2.2 lonLat h
    have hall : ∀ z ∈ chosen, ∃ p, kernelPoint t.inverseOne (zoneCenter cfg z) = .ok p := by
      intro z hz
      have hmem : kernelPoint t.inverseOne (zoneCenter cfg z) ∈
          (chosen.map (zoneCenter cfg)).map (kernelPoint t.inverseOne) :=
        List.mem_map_of_mem _ (List.mem_map_of_mem _ hz)
      rw [hm] at hmem
      obtain ⟨p, _, hp⟩ := List.mem_map.mp hmem
      exact ⟨p, hp.symm⟩
    refine ⟨by simpa using hl, hall, ?_⟩
    have := (hkey hall).symm.trans hm
    exact (List.map_injective_iff.mpr (fun a b hab => Except.ok.inj hab) this).symm
  · rintro ⟨hl, hall, rfl⟩
    exact (transformLoop_spec t.inverseOne ctx _ 0).2.2.1 (by simpa using hl) _ (hkey hall)

/-- The run with an explicit enumeration order, in closed form. -/
theorem CalculateZoneStatsNativeEnum_ok_iff (L : GoLib) (ctx : Context)
    (enum : List (aggKey × aggVal)) (cfg : ProcessingConfig) (t : PyProjTransformer)
    (stats : List ZoneStat) :
    CalculateZoneStatsNativeEnum L ctx enum cfg t = .ok stats ↔
      (∀ j, j < (chooseLoop (sortSlice (zoneFreqLess L) (enum.map toZoneFreqStat)) []).length →
        ctx j = none) ∧
      (∀ z ∈ chooseLoop (sortSlice (zoneFreqLess L) (enum.map toZoneFreqStat)) [],
        ∃ p, kernelPoint t.inverseOne (zoneCenter cfg z) = .ok p) ∧
      stats = sortSlice (zoneStatLess L)
        ((chooseLoop (sortSlice (zoneFreqLess L) (enum.map toZoneFreqStat)) []).map fun z =>
          mkZoneStat cfg z (centerLonLat cfg t z)) := by
  unfold CalculateZoneStatsNativeEnum
  simp only
  constructor
  · intro h
    split at h
    · cases h
    · rename_i lonLat hinv
      obtain ⟨h1, h2, h3⟩ := (Inverse_ok_iff cfg t ctx _ lonLat).mp hinv
      refine ⟨h1, h2, ?_⟩
      cases h
      rw [h3, zip_map_self]
  · rintro ⟨h1, h2, h3⟩
    have hinv := (Inverse_ok_iff cfg t ctx _ _).mpr ⟨h1, h2, rfl⟩
    rw [hinv]
    simp only
    rw [zip_map_self, h3]

/-- Two sorted arrangements of the statistics of chosen groups are equal. -/
theorem sorted_stats_unique (L : GoLib) (cfg : ProcessingConfig) (g : zoneFreqStat → Point)
    (c1 c2 : List zoneFreqStat) (hperm : c1.Perm c2)
    (hnd : (c2.map chosenKeyOf).Nodup) :
    sortSlice (zoneStatLess L) (c1.map fun z => mkZoneStat cfg z (g z)) =
      sortSlice (zoneStatLess L) (c2.map fun z => mkZoneStat cfg z (g z)) := by
  have hinj : ∀ a ∈ c2.map (fun z => mkZoneStat cfg z (g z)),
      ∀ b ∈ c2.map (fun z => mkZoneStat cfg z (g z)), zsKey L a = zsKey L b → a = b := by
    intro a ha b hb hab
    obtain ⟨za, hza, rfl⟩ := List.mem_map.mp ha
    obtain ⟨zb, hzb, rfl⟩ := List.mem_map.mp hb
    have hk : chosenKeyOf za = chosenKeyOf zb := by
      have e1 := congrArg (fun k => (ofLex k).1) hab
      have e2 := congrArg (fun k => (ofLex (ofLex k).2).1) hab
      have e3 := congrArg (fun k => (ofLex (ofLex (ofLex k).2).2).1) hab
      have e4 := congrArg (fun k => (ofLex (ofLex (ofLex (ofLex k).2).2).2).1) hab
      have e5 := congrArg
        (fun k => (ofLex (ofLex (ofLex (ofLex (ofLex (ofLex k).2).2).2).2).2).1) hab
      have e6 := congrArg (fun k => (ofLex (ofLex (ofLex (ofLex (ofLex (ofLex (ofLex
        (ofLex k).2).2).2).2).2).2).2).1) hab
      simp only [zsKey, mkZoneStat] at e1 e2 e3 e4 e5 e6
      simp only [chosenKeyOf, chosenKey.mk.injEq]
      exact ⟨e1, e2, e3, e4, e5, e6⟩
    have : za = zb := List.inj_on_of_nodup_map hnd hza hzb hk
    rw [this]
  have hp : (sortSlice (zoneStatLess L) (c1.map fun z => mkZoneStat cfg z (g z))).Perm
      (sortSlice (zoneStatLess L) (c2.map fun z => mkZoneStat cfg z (g z))) :=
    ((sortSlice_perm _ _).trans (hperm.map _)).trans (sortSlice_perm _ _).symm
  have hmem2 : ∀ a, a ∈ sortSlice (zoneStatLess L) (c2.map fun z => mkZoneStat cfg z (g z)) →
      a ∈ c2.map (fun z => mkZoneStat cfg z (g z)) := fun a h => (mem_sortSlice _ _ _).mp h
  haveI : IsAntisymm ZoneStat (fun a b => zsKey L a < zsKey L b ∨ a = b) :=
    ⟨fun a b hab hba => by
      rcases hab with h1 | h1
      · rcases hba with h2 | h2
        · exact absurd (lt_trans h1 h2) (lt_irrefl _)
        · exact h2.symm
      · exact h1⟩
  have hs2 : (sortSlice (zoneStatLess L) (c2.map fun z => mkZoneStat cfg z (g z))).Sorted
      (fun a b => zsKey L a < zsKey L b ∨ a = b) := by
    refine List.Pairwise.imp_of_mem ?_
      (sortSlice_pairwise (zoneStatLess L) (zsKey L) (zoneStatLess_iff L) _)
    intro a b ha hb hab
    rcases lt_or_eq_of_le hab with h | h
    · exact Or.inl h
    · exact Or.inr (hinj a (hmem2 a ha) b (hmem2 b hb) h)
  have hs1 : (sortSlice (zoneStatLess L) (c1.map fun z => mkZoneStat cfg z (g z))).Sorted
      (fun a b => zsKey L a < zsKey L b ∨ a = b) := by
    refine List.Pairwise.imp_of_mem ?_
      (sortSlice_pairwise (zoneStatLess L) (zsKey L) (zoneStatLess_iff L) _)
    intro a b ha hb hab
    rcases lt_or_eq_of_le hab with h | h
    · exact Or.inl h
    · exact Or.inr (hinj a (hmem2 a (hp.mem_iff.mp ha)) b (hmem2 b (hp.mem_iff.mp hb)) h)
  exact List.eq_of_perm_of_sorted hp hs1 hs2

/-- Two enumeration orders of a map without repeated key give the same list. -/
theorem CalculateZoneStatsNativeEnum_perm (L : GoLib) (ctx : Context)
    (e1 e2 : List (aggKey × aggVal)) (hperm : e1.Perm e2) (hnd : (e2.map Prod.fst).Nodup)
    (cfg : ProcessingConfig) (t : PyProjTransformer) (stats : List ZoneStat)
    (h : CalculateZoneStatsNativeEnum L ctx e1 cfg t = .ok stats) :
    CalculateZoneStatsNativeEnum L ctx e2 cfg t = .ok stats := by
  have hc := chooseLoop_perm L e1 e2 hperm hnd
  rw [CalculateZoneStatsNativeEnum_ok_iff] at h ⊢
  obtain ⟨h1, h2, h3⟩ := h
  refine ⟨?_, ?_, ?_⟩
  · intro j hj
    exact h1 j (by rw [hc.length_eq]; exact hj)
  · intro z hz
    exact h2 z (hc.mem_iff.mpr hz)
  · rw [h3]
    exact sorted_stats_unique L cfg (centerLonLat cfg t) _ _ hc (chooseLoop_keys_nodup _ _)

/-- Two sorted arrangements of the same groups give the same selection. -/
theorem chooseLoop_perm_sorted (L : GoLib) (zs1 zs2 : List zoneFreqStat) (hperm : zs1.Perm zs2)
    (hs1 : zs1.Pairwise (fun a b => zfKey L a ≤ zfKey L b))
    (hs2 : zs2.Pairwise (fun a b => zfKey L a ≤ zfKey L b))
    (hinj : ∀ g ∈ zs2, ∀ h ∈ zs2, chosenKeyOf g = chosenKeyOf h → zfKey L g = zfKey L h →
      g = h) :
    (chooseLoop zs1 []).Perm (chooseLoop zs2 []) := by
  have hinj1 : ∀ g ∈ zs1, ∀ h ∈ zs1, chosenKeyOf g = chosenKeyOf h → zfKey L g = zfKey L h →
      g = h := fun g hg h hh => hinj g (hperm.mem_iff.mp hg) h (hperm.mem_iff.mp hh)
  rw [List.perm_ext_iff_of_nodup (chooseLoop_nodup _ _) (chooseLoop_nodup _ _)]
  intro z
  rw [chooseLoop_mem_iff L _ hs1 hinj1, chooseLoop_mem_iff L _ hs2 hinj, hperm.mem_iff]
  constructor
  · rintro ⟨h1, h2⟩
    exact ⟨h1, fun h hh => h2 h (hperm.mem_iff.mpr hh)⟩
  · rintro ⟨h1, h2⟩
    exact ⟨h1, fun h hh => h2 h (hperm.mem_iff.mp hh)⟩

theorem less_false_iff_le {α κ : Type} [LinearOrder κ] (less : α → α → Bool) (key : α → κ)
    (hless : ∀ a b, less a b = true ↔ key a < key b) (a b : α) :
    less b a = false ↔ key a ≤ key b := by
  rw [← not_lt, ← hless b a]
  simp

/-- With exact means and RSRP values that are numbers (the model over the rationals has no
NaN and no rounding), the result of `CalculateZoneStatsNative` does not depend on the
enumeration order of its grouping map: for every enumeration order `enum` of the entries of the map
(every permutation of them), the run that ranges over the map in this order returns the
list `stats` iff `CalculateZoneStatsNative` returns it, so all orders yield the same list
with the same content in the same order.  The tie-break order is total on the groups of
one key of the map `chosen`, and the final sort order is total on the returned
statistics, which are pairwise different.  Hence the result does not depend on how the
two sorts arrange elements that their comparators do not order: every sorted arrangement
of the groups gives the same selection, and every sorted arrangement of the returned
statistics is the returned list. -/
theorem CalculateZoneStatsNative_enumeration_independent (L : GoLib) (ctx : Context)
    (ds : ProcessedDataset) (cfg : ProcessingConfig) (t : PyProjTransformer)
    (enum : List (aggKey × aggVal)) (hperm : enum.Perm (aggregate ds.Rows)) :
    (∀ stats, CalculateZoneStatsNativeEnum L ctx enum cfg t = .ok stats ↔
      CalculateZoneStatsNative L ctx (some ds) cfg t = .ok stats) ∧
    (∀ g ∈ zoneFreqStats ds.Rows, ∀ h ∈ zoneFreqStats ds.Rows,
      chosenKeyOf g = chosenKeyOf h → g ≠ h → specBefore L g h ∨ specBefore L h g) ∧
    (∀ stats, CalculateZoneStatsNative L ctx (some ds) cfg t = .ok stats →
      stats.Nodup ∧
      (∀ a ∈ stats, ∀ b ∈ stats, a ≠ b → specStatBefore L a b ∨ specStatBefore L b a) ∧
      ∀ l : List ZoneStat, l.Perm stats →
        l.Pairwise (fun a b => zoneStatLess L b a = false) → l = stats) ∧
    (∀ sorted : List zoneFreqStat, sorted.Perm (zoneFreqStats ds.Rows) →
      sorted.Pairwise (fun a b => zoneFreqLess L b a = false) →
      (chooseLoop sorted []).Perm (chosenGroups L ds.Rows)) := by
  have hnd := aggregate_nodup ds.Rows
  have hnd' : (enum.map Prod.fst).Nodup := (hperm.map Prod.fst).nodup_iff.mpr hnd
  refine ⟨?_, ?_, ?_, ?_⟩
  · intro stats
    rw [CalculateZoneStatsNative_eq_enum]
    exact ⟨CalculateZoneStatsNativeEnum_perm L ctx _ _ hperm hnd cfg t stats,
      CalculateZoneStatsNativeEnum_perm L ctx _ _ hperm.symm hnd' cfg t stats⟩
  · intro g hg h hh hk hne
    rw [specBefore_iff, specBefore_iff]
    have hz : zfKey L g ≠ zfKey L h := fun e =>
      hne (groups_class_inj L (aggregate ds.Rows) hnd g h hg hh hk e)
    exact lt_or_gt_of_ne hz
  · intro stats hrun
    rw [CalculateZoneStatsNative_eq_enum, CalculateZoneStatsNativeEnum_ok_iff] at hrun
    obtain ⟨_, _, hstats⟩ := hrun
    have hkeys := chooseLoop_keys_nodup
      (sortSlice (zoneFreqLess L) ((aggregate ds.Rows).map toZoneFreqStat)) []
    have hinj : ∀ a ∈ stats, ∀ b ∈ stats, zsKey L a = zsKey L b → a = b := by
      intro a ha b hb hab
      rw [hstats, mem_sortSlice] at ha hb
      obtain ⟨za, hza, rfl⟩ := List.mem_map.mp ha
      obtain ⟨zb, hzb, rfl⟩ := List.mem_map.mp hb
      have hk : chosenKeyOf za = chosenKeyOf zb := by
        have e1 := congrArg (fun k => (ofLex k).1) hab
        have e2 := congrArg (fun k => (ofLex (ofLex k).2).1) hab
        have e3 := congrArg (fun k => (ofLex (ofLex (ofLex k).2).2).1) hab
        have e4 := congrArg (fun k => (ofLex (ofLex (ofLex (ofLex k).2).2).2).1) hab
        have e5 := congrArg
          (fun k => (ofLex (ofLex (ofLex (ofLex (ofLex (ofLex k).2).2).2).2).2).1) hab
        have e6 := congrArg (fun k => (ofLex (ofLex (ofLex (ofLex (ofLex (ofLex (ofLex
          (ofLex k).2).2).2).2).2).2).2).1) hab
        simp only [zsKey, mkZoneStat] at e1 e2 e3 e4 e5 e6
        simp only [chosenKeyOf, chosenKey.mk.injEq]
        exact ⟨e1, e2, e3, e4, e5, e6⟩
      have : za = zb := List.inj_on_of_nodup_map hkeys hza hzb hk
      rw [this]
    refine ⟨?_, ?_, ?_⟩
    · rw [hstats]
      refine (sortSlice_perm _ _).nodup_iff.mpr ?_
      refine List.Nodup.map_on ?_ (chooseLoop_nodup _ _)
      intro za hza zb hzb hab
      have hk : chosenKeyOf za = chosenKeyOf zb := by
        have := congrArg chosenKeyOfStat hab
        simpa [chosenKeyOfStat, mkZoneStat, chosenKeyOf] using this
      exact List.inj_on_of_nodup_map hkeys hza hzb hk
    · intro a ha b hb hne
      rw [specStatBefore_iff, specStatBefore_iff]
      exact lt_or_gt_of_ne (fun e => hne (hinj a ha b hb e))
    · intro l hl hsorted
      haveI : IsAntisymm ZoneStat (fun a b => zsKey L a < zsKey L b ∨ a = b) :=
        ⟨fun a b hab hba => by
          rcases hab with h1 | h1
          · rcases hba with h2 | h2
            · exact absurd (lt_trans h1 h2) (lt_irrefl _)
            · exact h2.symm
          · exact h1⟩
      have hs1 : l.Sorted (fun a b => zsKey L a < zsKey L b ∨ a = b) := by
        refine List.Pairwise.imp_of_mem ?_ hsorted
        intro a b ha hb hab
        have hle := (less_false_iff_le (zoneStatLess L) (zsKey L) (zoneStatLess_iff L) a b).mp hab
        rcases lt_or_eq_of_le hle with h | h
        · exact Or.inl h
        · exact Or.inr (hinj a (hl.mem_iff.mp ha) b (hl.mem_iff.mp hb) h)
      have hs2 : stats.Sorted (fun a b => zsKey L a < zsKey L b ∨ a = b) := by
        have hp := sortSlice_pairwise (zoneStatLess L) (zsKey L) (zoneStatLess_iff L)
          ((chooseLoop (sortSlice (zoneFreqLess L) ((aggregate ds.Rows).map toZoneFreqStat))
            []).map fun z => mkZoneStat cfg z (centerLonLat cfg t z))
        rw [← hstats] at hp
        refine List.Pairwise.imp_of_mem ?_ hp
        intro a b ha hb hab
        rcases lt_or_eq_of_le hab with h | h
        · exact Or.inl h
        · exact Or.inr (hinj a ha b hb h)
      exact List.eq_of_perm_of_sorted hl hs1 hs2
  · intro sorted hp hsorted
    have hs1 : sorted.Pairwise (fun a b => zfKey L a ≤ zfKey L b) :=
      List.Pairwise.imp (fun {a b} h =>
        (less_false_iff_le (zoneFreqLess L) (zfKey L) (zoneFreqLess_iff L) a b).mp h) hsorted
    have hs2 := sortSlice_pairwise (zoneFreqLess L) (zfKey L) (zoneFreqLess_iff L)
      (zoneFreqStats ds.Rows)
    refine chooseLoop_perm_sorted L sorted _ (hp.trans (sortSlice_perm _ _).symm) hs1 hs2 ?_
    intro g hg h hh
    have hg2 : g ∈ (aggregate ds.Rows).map toZoneFreqStat := (mem_sortSlice _ _ _).mp hg
    have hh2 : h ∈ (aggregate ds.Rows).map toZoneFreqStat := (mem_sortSlice _ _ _).mp hh
    exact groups_class_inj L (aggregate ds.Rows) hnd g h hg2 hh2

/-- Enumeration orders on an example: two groups of different operators with equal mean RSRP, count,
frequency and PCI tie in the first sort; both enumeration orders of the map give the
same list, operator 231 before operator 232. -/
theorem CalculateZoneStatsNative_enumeration_independent_witness :
    CalculateZoneStatsNative goLib liveContext (some exampleTwoOperators) exampleConfig
      idTransformer = .ok [exampleMccStat "231", exampleMccStat "232"] ∧
    CalculateZoneStatsNativeEnum goLib liveContext (aggregate exampleTwoOperators.Rows).reverse
      exampleConfig idTransformer = .ok [exampleMccStat "231", exampleMccStat "232"] :=
  ⟨by with_unfolding_all decide,
   ((CalculateZoneStatsNative_enumeration_independent goLib liveContext exampleTwoOperators
      exampleConfig idTransformer (aggregate exampleTwoOperators.Rows).reverse
      (List.reverse_perm _)).1 _).mpr (by with_unfolding_all decide)⟩

/-! ## C39: the table of segment representatives -/

theorem idsUpTo_succ (m : Int) (hm : 0 ≤ m) : idsUpTo (m + 1) = idsUpTo m ++ [m + 1] := by
  unfold idsUpTo
  have e : (m + 1).toNat = m.toNat + 1 := by omega
  rw [e, List.range_succ, List.map_append, List.map_singleton]
  congr 2
  omega

theorem mem_idsUpTo (m : Int) (hm : 0 ≤ m) (k : Int) : k ∈ idsUpTo m ↔ 0 ≤ k ∧ k ≤ m := by
  unfold idsUpTo
  simp only [List.mem_map, List.mem_range]
  constructor
  · rintro ⟨a, ha, rfl⟩
    omega
  · rintro ⟨h1, h2⟩
    exact ⟨k.toNat, by omega, by omega⟩

/-- Writing the entries `S + 1, ..., S + n` into a map with the keys `0, ..., S`. -/
theorem foldl_mapSet_ids (pt : Int → Point) (S : Int) (hS : 0 ≤ S) :
    ∀ (n : Nat) (sm : List (Int × Point)), sm.map Prod.fst = idsUpTo S →
      ((List.range n).foldl (fun sm (k : Nat) =>
          mapSet sm (S + 1 + (k : Int)) (pt (S + 1 + (k : Int)))) sm).map Prod.fst =
        idsUpTo (S + n) ∧
      (∀ k, k ≤ S → mapFind ((List.range n).foldl (fun sm (k : Nat) =>
          mapSet sm (S + 1 + (k : Int)) (pt (S + 1 + (k : Int)))) sm) k = mapFind sm k) ∧
      (∀ k, S < k → k ≤ S + n → mapFind ((List.range n).foldl (fun sm (k : Nat) =>
          mapSet sm (S + 1 + (k : Int)) (pt (S + 1 + (k : Int)))) sm) k = some (pt k)) := by
  intro n
  induction n with
  | zero =>
    intro sm hsm
    refine ⟨by simpa using hsm, fun k _ => rfl, ?_⟩
    intro k h1 h2
    simp at h2
    omega
  | succ n ih =>
    intro sm hsm
    obtain ⟨h1, h2, h3⟩ := ih sm hsm
    rw [List.range_succ, List.foldl_append]
    simp only [List.foldl_cons, List.foldl_nil]
    have hnot : S + 1 + (n : Int) ∉ ((List.range n).foldl (fun sm (k : Nat) =>
        mapSet sm (S + 1 + (k : Int)) (pt (S + 1 + (k : Int)))) sm).map Prod.fst := by
      rw [h1, mem_idsUpTo _ (by omega)]
      omega
    refine ⟨?_, ?_, ?_⟩
    · rw [mapSet_of_not_mem _ _ _ hnot, List.map_append, h1]
      have := idsUpTo_succ (S + n) (by omega)
      simp only [List.map_cons, List.map_nil]
      rw [show S + ((n + 1 : Nat) : Int) = S + n + 1 by push_cast; ring, this]
      congr 2
      ring
    · intro k hk
      rw [mapFind_mapSet, if_neg (by omega)]
      exact h2 k hk
    · intro k hk1 hk2
      rw [mapFind_mapSet]
      by_cases e : S + 1 + (n : Int) = k
      · rw [if_pos e, e]
      · rw [if_neg e]
        exact h3 k hk1 (by push_cast at hk2; omega)

theorem segmentBoundaries_spec (zoneSize c step px py x y : ℚ) (S N : Int) (hS : 0 ≤ S)
    (hN : S ≤ N) (sm : List (Int × Point)) (hsm : sm.map Prod.fst = idsUpTo S) :
    (segmentBoundaries zoneSize c step px py x y S N sm).map Prod.fst = idsUpTo N ∧
    (∀ k, k ≤ S → mapFind (segmentBoundaries zoneSize c step px py x y S N sm) k =
      mapFind sm k) ∧
    (∀ k, S < k → k ≤ N → mapFind (segmentBoundaries zoneSize c step px py x y S N sm) k =
      some (boundaryPoint zoneSize c step px py x y k)) := by
  have h := foldl_mapSet_ids (boundaryPoint zoneSize c step px py x y) S hS (N - S).toNat sm hsm
  have e : S + ((N - S).toNat : Int) = N := by omega
  rw [e] at h
  exact h

theorem clampFraction_bounds (f : ℚ) : 0 ≤ clampFraction f ∧ clampFraction f ≤ 1 := by
  unfold clampFraction
  split_ifs with h1 h2
  · exact ⟨le_refl _, zero_le_one⟩
  · exact ⟨zero_le_one, le_refl _⟩
  · exact ⟨not_lt.mp h1, not_lt.mp h2⟩

theorem segmentOf_mono (zoneSize : ℚ) (hzs : 0 < zoneSize) (a b : ℚ) (hab : a ≤ b) :
    segmentOf zoneSize a ≤ segmentOf zoneSize b := by
  unfold segmentOf
  apply Int.floor_mono
  apply div_le_div_of_nonneg_right _ (le_of_lt hzs)
  linarith

/-- The map after the segment loop: its keys are the ids from 0 to the segment of the
final cumulative distance, the entries present before the loop are kept, and each new
entry lies on the step on which its boundary was crossed. -/
theorem segmentLoop_meta (M : NumLib) (zoneSize : ℚ) (hzs : 0 < zoneSize)
    (hH : ∀ a b, 0 ≤ M.Hypot a b) :
    ∀ (rest : List Point) (c px py : ℚ) (sm : List (Int × Point)),
      0 ≤ segmentOf zoneSize c → sm.map Prod.fst = idsUpTo (segmentOf zoneSize c) →
      (segmentLoop M zoneSize rest c px py sm).2.map Prod.fst =
        idsUpTo (segmentOf zoneSize (c + (stepDistances M (⟨px, py⟩ :: rest)).sum)) ∧
      (∀ k, k ≤ segmentOf zoneSize c →
        mapFind (segmentLoop M zoneSize rest c px py sm).2 k = mapFind sm k) ∧
      (∀ k, segmentOf zoneSize c < k →
        k ≤ segmentOf zoneSize (c + (stepDistances M (⟨px, py⟩ :: rest)).sum) →
        ∃ j, j < rest.length ∧
          segmentOf zoneSize (c + ((stepDistances M (⟨px, py⟩ :: rest)).take j).sum) < k ∧
          k ≤ segmentOf zoneSize
            (c + ((stepDistances M (⟨px, py⟩ :: rest)).take (j + 1)).sum) ∧
          ∃ f : ℚ, 0 ≤ f ∧ f ≤ 1 ∧
            mapFind (segmentLoop M zoneSize rest c px py sm).2 k =
              some ⟨((⟨px, py⟩ :: rest).getD j ⟨0, 0⟩).A +
                  (((⟨px, py⟩ :: rest).getD (j + 1) ⟨0, 0⟩).A -
                    ((⟨px, py⟩ :: rest).getD j ⟨0, 0⟩).A) * f,
                ((⟨px, py⟩ :: rest).getD j ⟨0, 0⟩).B +
                  (((⟨px, py⟩ :: rest).getD (j + 1) ⟨0, 0⟩).B -
                    ((⟨px, py⟩ :: rest).getD j ⟨0, 0⟩).B) * f⟩) := by
  intro rest
  induction rest with
  | nil =>
    intro c px py sm hS hsm
    refine ⟨?_, fun k _ => rfl, ?_⟩
    · simpa [segmentLoop, stepDistances] using hsm
    · intro k h1 h2
      simp only [stepDistances, List.sum_nil, add_zero] at h2
      omega
  | cons p rest ih =>
    intro c px py sm hS hsm
    have hstep0 : 0 ≤ M.Hypot (p.A - px) (p.B - py) := hH _ _
    have hstep : (if M.Hypot (p.A - px) (p.B - py) > 0 then c + M.Hypot (p.A - px) (p.B - py)
        else c) = c + M.Hypot (p.A - px) (p.B - py) := by
      split_ifs with h
      · rfl
      · have : M.Hypot (p.A - px) (p.B - py) = 0 := le_antisymm (not_lt.mp h) hstep0
        rw [this, add_zero]
    have hmono : segmentOf zoneSize c ≤ segmentOf zoneSize (c + M.Hypot (p.A - px) (p.B - py)) :=
      segmentOf_mono zoneSize hzs _ _ (by linarith)
    have hsd : stepDistances M (⟨px, py⟩ :: p :: rest) =
        M.Hypot (p.A - px) (p.B - py) :: stepDistances M (p :: rest) := rfl
    -- the map after the boundaries of this step
    have hmeta : ∃ newMeta : List (Int × Point),
        (segmentLoop M zoneSize (p :: rest) c px py sm).2 =
          (segmentLoop M zoneSize rest (c + M.Hypot (p.A - px) (p.B - py)) p.A p.B newMeta).2 ∧
        newMeta.map Prod.fst =
          idsUpTo (segmentOf zoneSize (c + M.Hypot (p.A - px) (p.B - py))) ∧
        (∀ k, k ≤ segmentOf zoneSize c → mapFind newMeta k = mapFind sm k) ∧
        (∀ k, segmentOf zoneSize c < k →
          k ≤ segmentOf zoneSize (c + M.Hypot (p.A - px) (p.B - py)) →
          mapFind newMeta k = some (boundaryPoint zoneSize c (M.Hypot (p.A - px) (p.B - py))
            px py p.A p.B k)) := by
      by_cases hcross : M.Hypot (p.A - px) (p.B - py) > 0 ∧
          segmentOf zoneSize (c + M.Hypot (p.A - px) (p.B - py)) > segmentOf zoneSize c
      · obtain ⟨b1, b2, b3⟩ := segmentBoundaries_spec zoneSize c
          (M.Hypot (p.A - px) (p.B - py)) px py p.A p.B (segmentOf zoneSize c)
          (segmentOf zoneSize (c + M.Hypot (p.A - px) (p.B - py))) hS hmono sm hsm
        refine ⟨_, ?_, b1, b2, b3⟩
        simp only [segmentLoop, hstep, if_pos hcross]
      · have heq : segmentOf zoneSize (c + M.Hypot (p.A - px) (p.B - py)) =
            segmentOf zoneSize c := by
          by_cases hpos : M.Hypot (p.A - px) (p.B - py) > 0
          · have : ¬ segmentOf zoneSize (c + M.Hypot (p.A - px) (p.B - py)) >
                segmentOf zoneSize c := fun h => hcross ⟨hpos, h⟩
            omega
          · have : M.Hypot (p.A - px) (p.B - py) = 0 := le_antisymm (not_lt.mp hpos) hstep0
            rw [this, add_zero]
        refine ⟨sm, ?_, by rw [heq]; exact hsm, fun k _ => rfl, ?_⟩
        · simp only [segmentLoop, hstep, if_neg hcross]
        · intro k h1 h2
          omega
    obtain ⟨newMeta, hrun, hk1, hk2, hk3⟩ := hmeta
    obtain ⟨i1, i2, i3⟩ := ih (c + M.Hypot (p.A - px) (p.B - py)) p.A p.B newMeta
      (le_trans hS hmono) hk1
    have htotal : c + (stepDistances M (⟨px, py⟩ :: p :: rest)).sum =
        c + M.Hypot (p.A - px) (p.B - py) + (stepDistances M (p :: rest)).sum := by
      rw [hsd, List.sum_cons, add_assoc]
    rw [hrun, htotal]
    refine ⟨i1, ?_, ?_⟩
    · intro k hk
      rw [i2 k (le_trans hk hmono)]
      exact hk2 k hk
    · intro k h1 h2
      by_cases hkN : k ≤ segmentOf zoneSize (c + M.Hypot (p.A - px) (p.B - py))
      · refine ⟨0, by simp, ?_, ?_, ?_⟩
        · simpa using h1
        · rw [hsd]
          simpa using hkN
        · refine ⟨clampFraction (((k : ℚ) * zoneSize - c) / M.Hypot (p.A - px) (p.B - py)),
            (clampFraction_bounds _).1, (clampFraction_bounds _).2, ?_⟩
          rw [i2 k hkN, hk3 k h1 hkN]
          rfl
      · obtain ⟨j, hj, j1, j2, f, f0, f1, hf⟩ := i3 k (by omega) h2
        refine ⟨j + 1, by simpa using hj, ?_, ?_, f, f0, f1, ?_⟩
        · rw [hsd, List.take_succ_cons, List.sum_cons, ← add_assoc]
          exact j1
        · rw [hsd, List.take_succ_cons, List.sum_cons, ← add_assoc]
          exact j2
        · rw [hf]
          rfl

theorem segmentOf_zero (zoneSize : ℚ) (hzs : epsilon < zoneSize) : segmentOf zoneSize 0 = 0 := by
  have heps : (0 : ℚ) < epsilon := by unfold epsilon; norm_num
  unfold segmentOf
  rw [Int.floor_eq_zero_iff]
  constructor
  · exact div_nonneg (by linarith) (by linarith)
  · rw [div_lt_one (by linarith)]
    linarith

theorem segmentIdAt_eq_segmentOf (M : NumLib) (zoneSize : ℚ) (hzs : epsilon < zoneSize)
    (xy : List Point) (i : Nat) :
    segmentIdAt M zoneSize xy i = segmentOf zoneSize (cumulativeDistanceAt M xy i) := by
  unfold segmentIdAt
  split_ifs with h
  · subst h
    have : cumulativeDistanceAt M xy 0 = 0 := by simp [cumulativeDistanceAt]
    rw [this, segmentOf_zero zoneSize hzs]
  · rfl

theorem stepDistances_length (M : NumLib) : ∀ xy : List Point,
    (stepDistances M xy).length = xy.length - 1 := by
  intro xy
  induction xy with
  | nil => rfl
  | cons p rest ih =>
    cases rest with
    | nil => rfl
    | cons q rest =>
      rw [stepDistances_cons_cons, List.length_cons, ih]
      simp

theorem segmentOf_lt_iff (zoneSize : ℚ) (hzs : 0 < zoneSize) (c : ℚ) (k : Int) :
    segmentOf zoneSize c < k ↔ c + epsilon < (k : ℚ) * zoneSize := by
  unfold segmentOf
  rw [Int.floor_lt, div_lt_iff₀ hzs]

theorem le_segmentOf_iff (zoneSize : ℚ) (hzs : 0 < zoneSize) (c : ℚ) (k : Int) :
    k ≤ segmentOf zoneSize c ↔ (k : ℚ) * zoneSize ≤ c + epsilon := by
  unfold segmentOf
  rw [Int.le_floor, le_div_iff₀ hzs]

/-- The table of segment starts that `segmentsOf` returns in segment mode. -/
theorem segmentsOf_meta (M : NumLib) (zoneSize : ℚ) (hzs : epsilon < zoneSize)
    (hH : ∀ a b, 0 ≤ M.Hypot a b) (xy : List Point) (hne : xy ≠ []) :
    (segmentsOf M "segments" zoneSize xy).2.map Prod.fst =
      idsUpTo (segmentIdAt M zoneSize xy (xy.length - 1)) ∧
    mapFind (segmentsOf M "segments" zoneSize xy).2 0 = xy.head? ∧
    (∀ k : Int, 1 ≤ k → k ≤ segmentIdAt M zoneSize xy (xy.length - 1) →
      ∃ i, i + 1 < xy.length ∧
        cumulativeDistanceAt M xy i + epsilon < (k : ℚ) * zoneSize ∧
        (k : ℚ) * zoneSize ≤ cumulativeDistanceAt M xy (i + 1) + epsilon ∧
        ∃ f : ℚ, 0 ≤ f ∧ f ≤ 1 ∧
          mapFind (segmentsOf M "segments" zoneSize xy).2 k =
            some ⟨(xy.getD i ⟨0, 0⟩).A +
                ((xy.getD (i + 1) ⟨0, 0⟩).A - (xy.getD i ⟨0, 0⟩).A) * f,
              (xy.getD i ⟨0, 0⟩).B +
                ((xy.getD (i + 1) ⟨0, 0⟩).B - (xy.getD i ⟨0, 0⟩).B) * f⟩) := by
  have heps : (0 : ℚ) < epsilon := by unfold epsilon; norm_num
  have hz0 : (0 : ℚ) < zoneSize := by linarith
  cases xy with
  | nil => exact absurd rfl hne
  | cons p0 rest =>
    have h0 := segmentOf_zero zoneSize hzs
    obtain ⟨m1, m2, m3⟩ := segmentLoop_meta M zoneSize hz0 hH rest 0 p0.A p0.B
      [(0, ⟨p0.A, p0.B⟩)] (by rw [h0]) (by rw [h0]; rfl)
    have hlast : segmentIdAt M zoneSize (p0 :: rest) ((p0 :: rest).length - 1) =
        segmentOf zoneSize (0 + (stepDistances M (p0 :: rest)).sum) := by
      rw [segmentIdAt_eq_segmentOf M zoneSize hzs, zero_add]
      unfold cumulativeDistanceAt
      rw [← stepDistances_length M (p0 :: rest), List.take_length]
    have hrun : (segmentsOf M "segments" zoneSize (p0 :: rest)).2 =
        (segmentLoop M zoneSize rest 0 p0.A p0.B [(0, ⟨p0.A, p0.B⟩)]).2 := by
      simp [segmentsOf]
    rw [hrun, hlast]
    refine ⟨m1, ?_, ?_⟩
    · rw [m2 0 (by rw [h0])]
      simp [mapFind]
    · intro k hk1 hk2
      obtain ⟨j, hj, j1, j2, f, f0, f1, hf⟩ := m3 k (by rw [h0]; omega) hk2
      refine ⟨j, by simpa using hj, ?_, ?_, f, f0, f1, hf⟩
      · have := (segmentOf_lt_iff zoneSize hz0 _ k).mp j1
        simpa [cumulativeDistanceAt] using this
      · have := (le_segmentOf_iff zoneSize hz0 _ k).mp j2
        simpa [cumulativeDistanceAt] using this
theorem mem_zip_zip_last {α β γ : Type} (l1 : List α) (l2 : List β) (l3 : List γ)
    (t : α × β × γ) (h : t ∈ l1.zip (l2.zip l3)) : t.2.2 ∈ l3 := by
  obtain ⟨a, b, c⟩ := t
  exact (List.of_mem_zip (List.of_mem_zip h).2).2

/-- C39 (as stated, refuted): With zone size 1e-9 and two measurements at the same place,
the second row has the segment id 1, the largest id of any row, but the table of segment
representatives holds the id 0 only, so the second row takes the first point as
fallback. -/
theorem ProcessDataNative_segment_meta_counterexample :
    (ProcessDataNative goLib exampleNumLib liveContext (some exampleSamePlaceData)
      exampleTinyZoneConfig idTransformer).map (fun ds =>
        (ds.Rows.map (fun r => r.ZonaKey), ds.SegmentMeta.map Prod.fst,
          mapFind ds.SegmentMeta 1))
      = .ok (["segment_0", "segment_1"], [0], none) := by
  with_unfolding_all decide

/-- C39 (amended): In segment mode with at least one retained row and a zone size above
`epsilon = 1e-9`, after `ProcessDataNative` the table `SegmentMeta` has an entry for
exactly the ids `0, 1, ..., M`, where `M` is the segment id of the last row and the
largest segment id of any row; entry 0 is the first projected point; each entry `k ≥ 1`
lies on the straight step between two consecutive points `i` and `i + 1` with
`cumulativeDistance(i) + epsilon < k * zoneSize ≤ cumulativeDistance(i + 1) + epsilon`;
and every row's segment id has an entry, from which the row takes its zone X/Y, so the
fallback to the first point is never taken. -/
theorem ProcessDataNative_segment_meta (L : GoLib) (M : NumLib) (ctx : Context) (d : CSVData)
    (cfg : ProcessingConfig) (t : PyProjTransformer) (ds : ProcessedDataset)
    (hmode : cfg.ZoneMode = "segments") (hH : ∀ a b, 0 ≤ M.Hypot a b)
    (hzs : epsilon < effectiveZoneSize cfg)
    (h : ProcessDataNative L M ctx (some d) cfg t = .ok ds) (hne : ds.Rows ≠ []) :
    ds.SegmentMeta.map Prod.fst =
      idsUpTo (segmentIdAt M (effectiveZoneSize cfg)
        (ds.Rows.map fun r => ⟨r.XMeters, r.YMeters⟩) (ds.Rows.length - 1)) ∧
    (∀ i, i < ds.Rows.length →
      0 ≤ segmentIdAt M (effectiveZoneSize cfg) (ds.Rows.map fun r => ⟨r.XMeters, r.YMeters⟩) i ∧
      segmentIdAt M (effectiveZoneSize cfg) (ds.Rows.map fun r => ⟨r.XMeters, r.YMeters⟩) i ≤
        segmentIdAt M (effectiveZoneSize cfg) (ds.Rows.map fun r => ⟨r.XMeters, r.YMeters⟩)
          (ds.Rows.length - 1)) ∧
    mapFind ds.SegmentMeta 0 = (ds.Rows.map fun r => (⟨r.XMeters, r.YMeters⟩ : Point)).head? ∧
    (∀ k : Int, 1 ≤ k →
      k ≤ segmentIdAt M (effectiveZoneSize cfg) (ds.Rows.map fun r => ⟨r.XMeters, r.YMeters⟩)
        (ds.Rows.length - 1) →
      ∃ i, i + 1 < ds.Rows.length ∧
        cumulativeDistanceAt M (ds.Rows.map fun r => ⟨r.XMeters, r.YMeters⟩) i + epsilon <
          (k : ℚ) * effectiveZoneSize cfg ∧
        (k : ℚ) * effectiveZoneSize cfg ≤
          cumulativeDistanceAt M (ds.Rows.map fun r => ⟨r.XMeters, r.YMeters⟩) (i + 1) + epsilon ∧
        ∃ f : ℚ, 0 ≤ f ∧ f ≤ 1 ∧
          mapFind ds.SegmentMeta k =
            some ⟨((ds.Rows.map fun r => (⟨r.XMeters, r.YMeters⟩ : Point)).getD i ⟨0, 0⟩).A +
                (((ds.Rows.map fun r => (⟨r.XMeters, r.YMeters⟩ : Point)).getD (i + 1) ⟨0, 0⟩).A -
                  ((ds.Rows.map fun r => (⟨r.XMeters, r.YMeters⟩ : Point)).getD i ⟨0, 0⟩).A) * f,
              ((ds.Rows.map fun r => (⟨r.XMeters, r.YMeters⟩ : Point)).getD i ⟨0, 0⟩).B +
                (((ds.Rows.map fun r => (⟨r.XMeters, r.YMeters⟩ : Point)).getD (i + 1) ⟨0, 0⟩).B -
                  ((ds.Rows.map fun r => (⟨r.XMeters, r.YMeters⟩ : Point)).getD i ⟨0, 0⟩).B) *
                  f⟩) ∧
    (∀ r ∈ ds.Rows, ∃ (id : Int) (pt : Point), r.ZonaKey = "segment_" ++ Itoa id ∧
      mapFind ds.SegmentMeta id = some pt ∧ r.ZonaX = pt.A ∧ r.ZonaY = pt.B) := by
  have heps : (0 : ℚ) < epsilon := by unfold epsilon; norm_num
  have hs : (0 : ℚ) < effectiveZoneSize cfg := by linarith
  obtain ⟨filtered, xy, hf, hx, hlen, hmeta, hrows⟩ := ProcessDataNative_ok L M ctx d cfg t ds h
  have hseglen := segmentsOf_length M cfg.ZoneMode (effectiveZoneSize cfg) xy
  have hxy : ds.Rows.map (fun r => (⟨r.XMeters, r.YMeters⟩ : Point)) = xy := by
    rw [hrows, List.map_map]
    have := map_zip_zip_mid (fun p : Point => (⟨p.A, p.B⟩ : Point)) filtered xy
      (segmentsOf M cfg.ZoneMode (effectiveZoneSize cfg) xy).1 hlen hseglen
    simp only [Function.comp_def, buildProcessedRow] at this ⊢
    rw [this]
    simp
  have hn : ds.Rows.length = xy.length := by
    rw [← hxy, List.length_map]
  have hxyne : xy ≠ [] := by
    intro e
    apply hne
    apply List.eq_nil_of_length_eq_zero
    rw [hn, e]
    rfl
  rw [hmode] at hmeta hrows hseglen
  obtain ⟨s1, s2, s3⟩ := segmentsOf_meta M (effectiveZoneSize cfg) hzs hH xy hxyne
  have hmonoid : ∀ i j, i ≤ j → segmentIdAt M (effectiveZoneSize cfg) xy i ≤
      segmentIdAt M (effectiveZoneSize cfg) xy j := by
    intro i j hij
    rw [segmentIdAt_eq_segmentOf M _ hzs, segmentIdAt_eq_segmentOf M _ hzs]
    apply segmentOf_mono _ hs
    exact take_sum_mono (stepDistances M xy) (stepDistances_nonneg M hH xy) i j hij
  have hid0 : segmentIdAt M (effectiveZoneSize cfg) xy 0 = 0 := rfl
  have hbounds : ∀ i, i < xy.length →
      0 ≤ segmentIdAt M (effectiveZoneSize cfg) xy i ∧
      segmentIdAt M (effectiveZoneSize cfg) xy i ≤
        segmentIdAt M (effectiveZoneSize cfg) xy (xy.length - 1) := by
    intro i hi
    refine ⟨?_, hmonoid i _ (by omega)⟩
    have := hmonoid 0 i (Nat.zero_le _)
    rwa [hid0] at this
  rw [hxy, hn, hmeta]
  refine ⟨s1, hbounds, s2, s3, ?_⟩
  intro r hr
  rw [hrows] at hr
  obtain ⟨tt, htt, rfl⟩ := List.mem_map.mp hr
  have hidmem : tt.2.2 ∈ (segmentsOf M "segments" (effectiveZoneSize cfg) xy).1 :=
    mem_zip_zip_last _ _ _ tt htt
  rw [segmentsOf_ids M _ hH] at hidmem
  obtain ⟨i, hi, hie⟩ := List.mem_map.mp hidmem
  rw [List.mem_range] at hi
  obtain ⟨b1, b2⟩ := hbounds i hi
  rw [hie] at b1 b2
  have hkey : tt.2.2 ∈ (segmentsOf M "segments" (effectiveZoneSize cfg) xy).2.map Prod.fst := by
    rw [s1, mem_idsUpTo _ (le_trans b1 b2)]
    exact ⟨b1, b2⟩
  cases hfind : mapFind (segmentsOf M "segments" (effectiveZoneSize cfg) xy).2 tt.2.2 with
  | none => exact absurd hkey ((mapFind_eq_none _ _).mp hfind)
  | some pt =>
    refine ⟨tt.2.2, pt, ?_, hfind, ?_, ?_⟩
    · simp only [buildProcessedRow, if_true]
    · simp only [buildProcessedRow, if_true, hfind, Option.getD_some]
    · simp only [buildProcessedRow, if_true, hfind, Option.getD_some]

/-- C39 (as amended) on three measurements on one line, at 0 m, 60 m and 250 m, with zone
size 100: the table has the ids 0, 1 and 2. -/
theorem ProcessDataNative_segment_meta_witness :
    ProcessDataNative goLib exampleNumLib liveContext (some exampleLineData)
      exampleSegmentConfig idTransformer = .ok exampleLineProcessed ∧
    exampleLineProcessed.SegmentMeta.map Prod.fst = [0, 1, 2] ∧
    exampleLineProcessed.SegmentMeta.map Prod.fst =
      idsUpTo (segmentIdAt exampleNumLib (effectiveZoneSize exampleSegmentConfig)
        (exampleLineProcessed.Rows.map fun r => ⟨r.XMeters, r.YMeters⟩)
        (exampleLineProcessed.Rows.length - 1)) :=
  ⟨by with_unfolding_all decide, by decide,
   (ProcessDataNative_segment_meta goLib exampleNumLib liveContext exampleLineData
      exampleSegmentConfig idTransformer exampleLineProcessed (by decide)
      exampleNumLib_Hypot_nonneg (by with_unfolding_all decide)
      (by with_unfolding_all decide) (by decide)).1⟩

/-! ## C38: the per-operator statistics file -/

theorem firstOccurrences_foldl {α : Type} [DecidableEq α] (l : List α) (seen : List α)
    (hnd : seen.Nodup) :
    (l.foldl (fun seen a => if a ∈ seen then seen else seen ++ [a]) seen).Nodup ∧
    (∀ a, a ∈ l.foldl (fun seen a => if a ∈ seen then seen else seen ++ [a]) seen ↔
      a ∈ seen ∨ a ∈ l) := by
  induction l generalizing seen with
  | nil => simp [hnd]
  | cons x l ih =>
    simp only [List.foldl_cons]
    by_cases hx : x ∈ seen
    · rw [if_pos hx]
      obtain ⟨h1, h2⟩ := ih seen hnd
      refine ⟨h1, ?_⟩
      intro a
      rw [h2, List.mem_cons]
      constructor
      · rintro (h | h)
        · exact Or.inl h
        · exact Or.inr (Or.inr h)
      · rintro (h | h | h)
        · exact Or.inl h
        · exact Or.inl (h ▸ hx)
        · exact Or.inr h
    · rw [if_neg hx]
      obtain ⟨h1, h2⟩ := ih (seen ++ [x])
        (List.Nodup.append hnd (List.nodup_singleton _) (by simpa using hx))
      refine ⟨h1, ?_⟩
      intro a
      rw [h2, List.mem_append, List.mem_singleton, List.mem_cons]
      tauto

theorem firstOccurrences_spec {α : Type} [DecidableEq α] (l : List α) :
    (firstOccurrences l).Nodup ∧ ∀ a, a ∈ firstOccurrences l ↔ a ∈ l := by
  obtain ⟨h1, h2⟩ := firstOccurrences_foldl l [] List.nodup_nil
  exact ⟨h1, fun a => by rw [firstOccurrences, h2]; simp⟩

theorem mapFind_statsGroupStep (L : GoLib) (cfg : ProcessingConfig)
    (st : List ((String × String) × statsBucket) × List (String × String)) (z : ZoneStat)
    (k : String × String) :
    mapFind (statsGroupStep L cfg st z).1 k =
      if (z.MCC, z.MNC) = k then
        some (((mapFind st.1 k).getD (⟨0, 0, []⟩ : statsBucket)).add L cfg z)
      else mapFind st.1 k := by
  unfold statsGroupStep
  cases hf : mapFind st.1 (z.MCC, z.MNC) with
  | none =>
    simp only [mapFind_mapSet]
    split_ifs with h
    · rw [← h, hf]
      rfl
    · rfl
  | some b =>
    simp only [mapFind_mapSet]
    split_ifs with h
    · rw [← h, hf]
      rfl
    · rfl

theorem statsGroupStep_order (L : GoLib) (cfg : ProcessingConfig)
    (st : List ((String × String) × statsBucket) × List (String × String)) (z : ZoneStat)
    (hst : st.2 = st.1.map Prod.fst) :
    (statsGroupStep L cfg st z).2 = (statsGroupStep L cfg st z).1.map Prod.fst ∧
    (statsGroupStep L cfg st z).2 =
      if (z.MCC, z.MNC) ∈ st.2 then st.2 else st.2 ++ [(z.MCC, z.MNC)] := by
  unfold statsGroupStep
  cases hf : mapFind st.1 (z.MCC, z.MNC) with
  | none =>
    have hnot : (z.MCC, z.MNC) ∉ st.1.map Prod.fst := (mapFind_eq_none _ _).mp hf
    simp only [mapSet_keys, if_neg hnot]
    rw [hst]
    exact ⟨rfl, by rw [if_neg hnot]⟩
  | some b =>
    have hmem : (z.MCC, z.MNC) ∈ st.1.map Prod.fst := by
      by_contra hnot
      rw [(mapFind_eq_none _ _).mpr hnot] at hf
      cases hf
    simp only [mapSet_keys, if_pos hmem]
    rw [hst]
    exact ⟨rfl, by rw [if_pos hmem]⟩

theorem statsGroups_foldl (L : GoLib) (cfg : ProcessingConfig) (zs : List ZoneStat) :
    ∀ (st : List ((String × String) × statsBucket) × List (String × String)),
      st.2 = st.1.map Prod.fst →
      (zs.foldl (statsGroupStep L cfg) st).2 =
        (zs.map fun z => (z.MCC, z.MNC)).foldl
          (fun seen a => if a ∈ seen then seen else seen ++ [a]) st.2 ∧
      (∀ k, mapFind (zs.foldl (statsGroupStep L cfg) st).1 k =
        if statsOfOperator zs k = [] then mapFind st.1 k
        else some ((statsOfOperator zs k).foldl (statsBucket.add L cfg)
          ((mapFind st.1 k).getD ⟨0, 0, []⟩))) := by
  induction zs with
  | nil =>
    intro st _
    exact ⟨rfl, fun k => by simp [statsOfOperator]⟩
  | cons z zs ih =>
    intro st hst
    obtain ⟨o1, o2⟩ := statsGroupStep_order L cfg st z hst
    obtain ⟨i1, i2⟩ := ih (statsGroupStep L cfg st z) o1
    simp only [List.foldl_cons, List.map_cons]
    refine ⟨by rw [i1, o2], ?_⟩
    intro k
    rw [i2 k, mapFind_statsGroupStep]
    by_cases hk : (z.MCC, z.MNC) = k
    · have hg : statsOfOperator (z :: zs) k = z :: statsOfOperator zs k := by
        simp [statsOfOperator, List.filter_cons, hk]
      rw [hg, if_pos hk, if_neg (List.cons_ne_nil _ _)]
      simp only [Option.getD_some, List.foldl_cons]
      split_ifs with h1
      · rw [h1]
        rfl
      · rfl
    · have hg : statsOfOperator (z :: zs) k = statsOfOperator zs k := by
        simp [statsOfOperator, List.filter_cons, hk]
      rw [hg, if_neg hk]

theorem foldl_statsBucket_add (L : GoLib) (cfg : ProcessingConfig) (g : List ZoneStat)
    (b : statsBucket) :
    (g.foldl (statsBucket.add L cfg) b).good =
      b.good + ((g.filter fun z => isZoneStatGoodForStats L z cfg).length : Int) ∧
    (g.foldl (statsBucket.add L cfg) b).bad =
      b.bad + ((g.filter fun z => !isZoneStatGoodForStats L z cfg).length : Int) ∧
    (g.foldl (statsBucket.add L cfg) b).existingZones =
      (g.map fun z => z.ZonaKey).foldl
        (fun seen a => if a ∈ seen then seen else seen ++ [a]) b.existingZones := by
  induction g generalizing b with
  | nil => simp
  | cons z g ih =>
    simp only [List.foldl_cons, List.map_cons]
    obtain ⟨h1, h2, h3⟩ := ih (b.add L cfg z)
    rw [h1, h2, h3]
    refine ⟨?_, ?_, rfl⟩
    · by_cases hgood : isZoneStatGoodForStats L z cfg = true
      · simp [statsBucket.add, hgood, List.filter_cons]
        ring
      · simp [statsBucket.add, hgood, List.filter_cons]
    · by_cases hgood : isZoneStatGoodForStats L z cfg = true
      · simp [statsBucket.add, hgood, List.filter_cons]
      · simp [statsBucket.add, hgood, List.filter_cons]
        ring

theorem totalUniqueZonesOf_eq (zoneStats : List ZoneStat) (allZones : List String) :
    totalUniqueZonesOf zoneStats allZones = knownZones zoneStats allZones := by
  unfold totalUniqueZonesOf knownZones firstOccurrences
  rw [List.foldl_map]

theorem statsRows_eq (L : GoLib) (zoneStats : List ZoneStat) (cfg : ProcessingConfig)
    (allZones : List String) :
    statsRows L zoneStats cfg allZones =
      (firstOccurrences (zoneStats.map fun z => (z.MCC, z.MNC))).map
        (specStatsRow L zoneStats cfg allZones) := by
  obtain ⟨h1, h2⟩ := statsGroups_foldl L cfg zoneStats ([], []) rfl
  unfold statsRows
  have horder : (statsGroups L cfg zoneStats).2 =
      firstOccurrences (zoneStats.map fun z => (z.MCC, z.MNC)) := by
    unfold firstOccurrences
    convert h1
  rw [horder]
  apply List.map_congr_left
  intro k hk
  have hmem : k ∈ zoneStats.map fun z => (z.MCC, z.MNC) :=
    ((firstOccurrences_spec _).2 k).mp hk
  have hne : statsOfOperator zoneStats k ≠ [] := by
    obtain ⟨z, hz, hzk⟩ := List.mem_map.mp hmem
    intro e
    have : z ∈ statsOfOperator zoneStats k := by
      unfold statsOfOperator
      rw [List.mem_filter]
      exact ⟨hz, by simp [hzk]⟩
    rw [e] at this
    cases this
  have hfind : mapFind (statsGroups L cfg zoneStats).1 k =
      some ((statsOfOperator zoneStats k).foldl (statsBucket.add L cfg) ⟨0, 0, []⟩) := by
    have := h2 k
    rw [if_neg hne] at this
    exact this
  rw [hfind, Option.getD_some]
  obtain ⟨f1, f2, f3⟩ := foldl_statsBucket_add L cfg (statsOfOperator zoneStats k) ⟨0, 0, []⟩
  unfold statsRowOf specStatsRow
  simp only [f1, f2, f3, zero_add, totalUniqueZonesOf_eq]
  refine Prod.ext rfl (Prod.ext rfl (Prod.ext rfl ?_))
  simp only
  unfold missingZonesOf
  have hfo : ((statsOfOperator zoneStats k).map fun z => z.ZonaKey).foldl
      (fun seen a => if a ∈ seen then seen else seen ++ [a]) [] =
      firstOccurrences ((statsOfOperator zoneStats k).map fun z => z.ZonaKey) := rfl
  rw [hfo]
  by_cases hinc : cfg.IncludeEmptyZones = true
  · simp only [hinc, true_and, if_true]
    by_cases htot : knownZones zoneStats allZones > 0
    · rw [if_pos htot]
      split_ifs with hm
      · rw [max_eq_right (le_of_lt hm)]
      · rw [max_eq_left (not_lt.mp hm), add_zero]
    · rw [if_neg htot]
      have : knownZones zoneStats allZones -
          ((firstOccurrences ((statsOfOperator zoneStats k).map fun z => z.ZonaKey)).length : Int)
            ≤ 0 := by
        have := Int.natCast_nonneg
          (firstOccurrences ((statsOfOperator zoneStats k).map fun z => z.ZonaKey)).length
        linarith
      rw [max_eq_left this, add_zero]
  · simp [hinc]

/-- C38: With no `ZoneStat`, `SaveStatsNative` writes a single empty line.  Otherwise it
writes the header line followed by exactly one line per distinct (MCC, MNC) among the
`ZoneStat`s, in the order of first appearance: the texts of MNC and MCC, then `good`, the
number of the operator's `ZoneStat`s for which `isZoneStatGoodForStats` holds, then `bad`,
the number of its other `ZoneStat`s increased, when empty-zone synthesis is enabled, by
the number of known zones in which the operator has no `ZoneStat`, that is
`max(0, total zones - zones where it has one)`, the four separated by semicolons and
followed by a line feed.  So `good + bad` is the number of the operator's `ZoneStat`s
plus that number.  The total of zones is the length of the zone list passed in, or the
number of distinct zone keys of the `ZoneStat`s when that list is empty. -/
theorem SaveStatsNative_lines (L : GoLib) (WriteFile : String → String → Except String Unit)
    (zoneStats : List ZoneStat) (cfg : ProcessingConfig) (statsFile : String)
    (allZones : List String) :
    (zoneStats = [] →
      SaveStatsNative L WriteFile zoneStats cfg statsFile allZones = WriteFile statsFile "\n") ∧
    (zoneStats ≠ [] →
      SaveStatsNative L WriteFile zoneStats cfg statsFile allZones =
        WriteFile statsFile
          ("MNC;MCC;" ++ goodColumnOf L zoneStats cfg ++ ";" ++ badColumnOf L zoneStats cfg ++
            "\n" ++
            String.join ((firstOccurrences (zoneStats.map fun z => (z.MCC, z.MNC))).map fun k =>
              formatIntLikeString L k.2 ++ ";" ++ formatIntLikeString L k.1 ++ ";" ++
                Itoa (((statsOfOperator zoneStats k).filter fun z =>
                  isZoneStatGoodForStats L z cfg).length : Int) ++ ";" ++
                Itoa ((((statsOfOperator zoneStats k).filter fun z =>
                  !isZoneStatGoodForStats L z cfg).length : Int) +
                    missingZonesOf zoneStats cfg allZones k) ++ "\n"))) ∧
    ((firstOccurrences (zoneStats.map fun z => (z.MCC, z.MNC))).Nodup ∧
      ∀ k, k ∈ firstOccurrences (zoneStats.map fun z => (z.MCC, z.MNC)) ↔
        ∃ z ∈ zoneStats, (z.MCC, z.MNC) = k) ∧
    (∀ k, (((statsOfOperator zoneStats k).filter fun z =>
          isZoneStatGoodForStats L z cfg).length : Int) +
        ((((statsOfOperator zoneStats k).filter fun z =>
          !isZoneStatGoodForStats L z cfg).length : Int) +
            missingZonesOf zoneStats cfg allZones k) =
      ((statsOfOperator zoneStats k).length : Int) + missingZonesOf zoneStats cfg allZones k) ∧
    (∀ k, statsOfOperator zoneStats k = zoneStats.filter fun z => decide ((z.MCC, z.MNC) = k)) ∧
    (∀ k, missingZonesOf zoneStats cfg allZones k =
      if cfg.IncludeEmptyZones then
        max 0 ((if allZones.length = 0 then
            ((firstOccurrences (zoneStats.map fun z => z.ZonaKey)).length : Int)
          else (allZones.length : Int)) -
          ((firstOccurrences ((statsOfOperator zoneStats k).map fun z => z.ZonaKey)).length : Int))
      else 0) := by
  refine ⟨?_, ?_, ?_, ?_, fun k => rfl, fun k => rfl⟩
  · intro h
    rw [h]
    rfl
  · intro h
    have hlen : ¬ zoneStats.length = 0 := fun e => h (List.eq_nil_of_length_eq_zero e)
    unfold SaveStatsNative statsFileText
    rw [if_neg hlen, statsRows_eq, List.map_map]
    rfl
  · obtain ⟨h1, h2⟩ := firstOccurrences_spec (zoneStats.map fun z => (z.MCC, z.MNC))
    refine ⟨h1, ?_⟩
    intro k
    rw [h2 k, List.mem_map]
  · intro k
    have hsplit : ((statsOfOperator zoneStats k).filter
          fun z => isZoneStatGoodForStats L z cfg).length +
        ((statsOfOperator zoneStats k).filter
          fun z => !isZoneStatGoodForStats L z cfg).length =
        (statsOfOperator zoneStats k).length := by
      generalize statsOfOperator zoneStats k = g
      induction g with
      | nil => rfl
      | cons z g ih =>
        by_cases hz : isZoneStatGoodForStats L z cfg = true
        · simp only [List.filter_cons, hz, if_true, Bool.not_true, Bool.false_eq_true,
            if_false, List.length_cons]
          omega
        · have hz2 : isZoneStatGoodForStats L z cfg = false := by simpa using hz
          simp only [List.filter_cons, hz2, Bool.false_eq_true, if_false, Bool.not_false,
            if_true, List.length_cons]
          omega
    have hcast := congrArg (fun n : Nat => (n : Int)) hsplit
    simp only [Nat.cast_add] at hcast
    linarith

/-- C38 on an example: three statistics of the operators 231/01 (two zones, one good and
one bad statistic) and 231/02 (one zone), with empty-zone synthesis enabled and no list
of zones: two lines, and operator 231/02 gets one more bad zone. -/
theorem SaveStatsNative_lines_example :
    statsFileText goLib exampleStatsInput { exampleConfig with IncludeEmptyZones := true } [] =
      "MNC;MCC;RSRP >= -110;RSRP < -110\n1;231;1;1\n2;231;1;1\n" ∧
    statsFileText goLib [] exampleConfig [] = "\n" := by
  constructor <;> with_unfolding_all decide

/-! ## C40: which candidate decoder is reported -/

theorem splitOnSemicolon_ne_nil : ∀ p : List Char, splitOnSemicolon p ≠ []
  | [] => by simp [splitOnSemicolon]
  | c :: cs => by
    unfold splitOnSemicolon
    split_ifs
    · simp
    · split <;> simp

theorem splitOnSemicolon_snoc_semi : ∀ p : List Char,
    splitOnSemicolon (p ++ [';']) = splitOnSemicolon p ++ [[]]
  | [] => by decide
  | a :: p => by
    have ih := splitOnSemicolon_snoc_semi p
    rw [List.cons_append]
    unfold splitOnSemicolon
    by_cases ha : a = ';'
    · simp only [ha, if_true, ih, List.cons_append]
    · simp only [ha, if_false, ih]
      cases h : splitOnSemicolon p with
      | nil => exact absurd h (splitOnSemicolon_ne_nil p)
      | cons f fs => simp

theorem splitOnSemicolon_snoc_other (c : Char) (hc : c ≠ ';') : ∀ p : List Char,
    ∃ init last, splitOnSemicolon p = init ++ [last] ∧
      splitOnSemicolon (p ++ [c]) = init ++ [last ++ [c]]
  | [] => ⟨[], [], by simp [splitOnSemicolon], by simp [splitOnSemicolon, hc]⟩
  | a :: p => by
    obtain ⟨init, last, h1, h2⟩ := splitOnSemicolon_snoc_other c hc p
    rw [List.cons_append]
    unfold splitOnSemicolon
    by_cases ha : a = ';'
    · simp only [ha, if_true]
      exact ⟨[] :: init, last, by rw [h1]; rfl, by rw [h2]; rfl⟩
    · simp only [ha, if_false, h1, h2]
      cases init with
      | nil => exact ⟨[], a :: last, by simp, by simp⟩
      | cons f fs => exact ⟨(a :: f) :: fs, last, by simp, by simp⟩

theorem splitOnSemicolon_length : ∀ p : List Char,
    (splitOnSemicolon p).length = p.count ';' + 1
  | [] => by simp [splitOnSemicolon]
  | a :: p => by
    have ih := splitOnSemicolon_length p
    unfold splitOnSemicolon
    by_cases ha : a = ';'
    · simp only [ha, if_true, List.length_cons, ih, List.count_cons_self]
    · simp only [ha, if_false]
      have hne : (a == ';') = false := by simpa using ha
      rw [List.count_cons, hne]
      cases h : splitOnSemicolon p with
      | nil => exact absurd h (splitOnSemicolon_ne_nil p)
      | cons f fs =>
        rw [h] at ih
        simpa using ih

theorem keptFields_snoc_nil (fs : List (List Char)) : keptFields (fs ++ [[]]) = keptFields fs := by
  unfold keptFields
  simp [List.dropWhile_cons]

theorem keptFields_snoc_cons (fs : List (List Char)) (l : List Char) (c : Char) :
    keptFields (fs ++ [l ++ [c]]) = fs.length + 1 := by
  unfold keptFields
  have h : String.mk (l ++ [c]) ≠ "" := by
    intro e
    have := congrArg String.data e
    simp at this
  simp [List.dropWhile_cons, h]

theorem splitSemicolonColumns_length (line : String) :
    (splitSemicolonColumns line).length =
      keptFields (splitOnSemicolon (trimRightCRLF line).data) := rfl

theorem trimRightCRLF_snoc_cr (p : List Char) :
    trimRightCRLF (String.mk (p ++ ['\r'])) = trimRightCRLF (String.mk p) := by
  unfold trimRightCRLF
  simp [List.dropWhile_cons]

theorem trimRightCRLF_snoc_other (p : List Char) (c : Char) (h1 : c ≠ '\r') (h2 : c ≠ '\n') :
    trimRightCRLF (String.mk (p ++ [c])) = String.mk (p ++ [c]) := by
  unfold trimRightCRLF
  simp [List.dropWhile_cons, h1, h2]

theorem wideLine_snoc_cr (p : List Char) :
    wideLine (String.mk (p ++ ['\r'])) = wideLine (String.mk p) := by
  unfold wideLine
  rw [splitSemicolonColumns_length, splitSemicolonColumns_length, trimRightCRLF_snoc_cr]

theorem wideLine_snoc_semi (p : List Char) :
    wideLine (String.mk (p ++ [';'])) = decide (6 ≤ keptFields (splitOnSemicolon p)) := by
  unfold wideLine
  rw [splitSemicolonColumns_length, trimRightCRLF_snoc_other p ';' (by decide) (by decide)]
  simp only [splitOnSemicolon_snoc_semi, keptFields_snoc_nil]

theorem keptFields_snoc_other (p : List Char) (c : Char) (hc : c ≠ ';') :
    keptFields (splitOnSemicolon (p ++ [c])) = p.count ';' + 1 := by
  obtain ⟨init, last, h1, h2⟩ := splitOnSemicolon_snoc_other c hc p
  rw [h2, keptFields_snoc_cons]
  have := splitOnSemicolon_length p
  rw [h1] at this
  simpa using this

theorem wideLine_snoc_other (p : List Char) (c : Char) (h0 : c ≠ ';') (h1 : c ≠ '\r')
    (h2 : c ≠ '\n') :
    wideLine (String.mk (p ++ [c])) = decide (5 ≤ p.count ';') := by
  unfold wideLine
  rw [splitSemicolonColumns_length, trimRightCRLF_snoc_other p c h1 h2]
  simp only [keptFields_snoc_other p c h0]
  congr 1
  apply propext
  omega

theorem wideLine_dropCR (p : List Char) : wideLine (String.mk (dropCR p)) = wideLine (String.mk p) := by
  unfold dropCR
  split_ifs with h
  · obtain ⟨q, hq⟩ : ∃ q, p = q ++ ['\r'] := by
      rcases List.eq_nil_or_concat p with h0 | ⟨q, b, hb⟩
      · rw [h0] at h; simp at h
      · subst hb
        simp at h
        exact ⟨q, by rw [h]; simp⟩
    subst hq
    rw [List.dropLast_concat, wideLine_snoc_cr]
  · rfl

/-- After the characters `p` of a line the scan holds the number of semicolons of `p` and
knows whether `p` as a line has six fields. -/
theorem headerScan_line (f : Bool) (p : List Char) (hp : '\n' ∉ p) :
    p.foldl headerScan.step ⟨f, false, false, 0⟩ =
      ⟨f, wideLine (String.mk p), decide (6 ≤ keptFields (splitOnSemicolon p)), p.count ';'⟩ := by
  induction p using List.reverseRecOn with
  | nil => cases f <;> decide
  | append_singleton p c ih =>
    have hp1 : '\n' ∉ p := fun h => hp (List.mem_append_left _ h)
    have hc : c ≠ '\n' := fun h => hp (by simp [h])
    rw [List.foldl_append, ih hp1]
    simp only [List.foldl_cons, List.foldl_nil, headerScan.step, hc, if_false]
    by_cases h1 : c = ';'
    · subst h1
      simp only [if_true, wideLine_snoc_semi, splitOnSemicolon_snoc_semi, keptFields_snoc_nil,
        List.count_append, List.count_singleton_self]
    · simp only [h1, if_false]
      have hcnt : (p ++ [c]).count ';' = p.count ';' := by
        rw [List.count_append]
        have : (c == ';') = false := by simpa using h1
        simp [List.count_cons, this]
      have hraw : decide (6 ≤ keptFields (splitOnSemicolon (p ++ [c]))) =
          decide (5 ≤ p.count ';') := by
        rw [keptFields_snoc_other p c h1]
        congr 1
        apply propext
        omega
      by_cases h2 : c = '\r'
      · subst h2
        simp only [if_true, wideLine_snoc_cr, hraw, hcnt]
      · simp only [h2, if_false, wideLine_snoc_other p c h1 h2 hc, hraw, hcnt]

theorem headerScan_accept_found (cs : List Char) : ∀ (f w u : Bool) (n : Nat),
    (cs.foldl headerScan.step ⟨f, w, u, n⟩).accept =
      (f || (cs.foldl headerScan.step ⟨false, w, u, n⟩).accept) := by
  induction cs with
  | nil => intro f w u n; simp [headerScan.accept]
  | cons c cs ih =>
    intro f w u n
    simp only [List.foldl_cons, headerScan.step]
    split_ifs
    · rw [ih (f || w), ih (false || w)]
      simp [Bool.or_assoc]
    · exact ih _ _ _ _
    · exact ih _ _ _ _
    · exact ih _ _ _ _

/-- The scan of a text finds what the lines of the text show. -/
theorem scanLinesLoop_any_wide : ∀ (cs cur : List Char), '\n' ∉ cur →
    (scanLinesLoop cs cur).any wideLine =
      (cs.foldl headerScan.step (cur.reverse.foldl headerScan.step ⟨false, false, false, 0⟩)).accept := by
  intro cs
  induction cs with
  | nil =>
    intro cur hcur
    have hr : '\n' ∉ cur.reverse := by simpa using hcur
    rw [headerScan_line false cur.reverse hr]
    unfold scanLinesLoop
    split_ifs with h
    · subst h
      decide
    · simp [headerScan.accept, wideLine_dropCR]
  | cons c cs ih =>
    intro cur hcur
    have hr : '\n' ∉ cur.reverse := by simpa using hcur
    unfold scanLinesLoop
    by_cases hc : c = '\n'
    · subst hc
      simp only [if_true, List.any_cons, wideLine_dropCR, List.foldl_cons]
      rw [headerScan_line false cur.reverse hr]
      simp only [headerScan.step, if_true, Bool.false_or]
      rw [headerScan_accept_found, ih [] (by simp)]
      rfl
    · simp only [hc, if_false]
      rw [ih (c :: cur) (by simp [hcur, Ne.symm hc])]
      simp [List.foldl_append]

theorem findTabularHeaderLoop_neg_one_iff (lines : List String) :
    ∀ (rest : List String) (i : Nat) (fi : Int) (fl : String),
      (findTabularHeaderLoop lines 6 i rest fi fl).1 = -1 ↔
        fi = -1 ∧ rest.any wideLine = false := by
  intro rest
  induction rest with
  | nil =>
    intro i fi fl
    unfold findTabularHeaderLoop
    split_ifs with h
    · simp [h]
    · simp at h
      simp [h]
  | cons line rest ih =>
    intro i fi fl
    unfold findTabularHeaderLoop
    simp only [List.any_cons]
    by_cases h1 : ((splitSemicolonColumns line).length : Int) < 6
    · have hw : wideLine line = false := by
        unfold wideLine
        simp
        omega
      simp only [h1, if_true, hw, Bool.false_or]
      exact ih _ _ _
    · have hw : wideLine line = true := by
        unfold wideLine
        simp
        omega
      simp only [h1, if_false, hw, Bool.true_or]
      split_ifs with h2 h3
      · simp
      · rw [ih]
        simp
      · rw [ih]
        simp
        intro h
        exact absurd h h3

/-- The header test succeeds exactly when some line of the text has six fields, and that
is what the scan of the characters finds. -/
theorem headerFound_eq_scan (text : String) :
    headerFound text =
      (text.data.foldl headerScan.step ⟨false, false, false, 0⟩).accept := by
  have h := scanLinesLoop_any_wide text.data [] (by simp)
  simp only [List.reverse_nil, List.foldl_nil] at h
  rw [← h]
  unfold headerFound findTabularHeader splitLinesPreserveEmpty
  have h2 := findTabularHeaderLoop_neg_one_iff (scanLinesLoop text.data [])
    (scanLinesLoop text.data []) 0 (-1) ""
  cases hb : (scanLinesLoop text.data []).any wideLine with
  | false =>
    rw [hb] at h2
    simp only [true_and] at h2
    simp [h2.mpr trivial]
  | true =>
    rw [hb] at h2
    have : (findTabularHeaderLoop (scanLinesLoop text.data []) 6 0 (scanLinesLoop text.data [])
        (-1) "").1 ≠ -1 := fun e => by simpa using h2.mp e
    simp [this]

theorem headerScan_step_class (s : headerScan) (c : Char) :
    s.step c = s.stepClass (charClass c) := by
  unfold headerScan.stepClass charClass
  split_ifs with h
  · rfl
  · have h1 : c ≠ '\n' := by rintro rfl; exact h (by decide)
    have h2 : c ≠ ';' := by rintro rfl; exact h (by decide)
    have h3 : c ≠ '\r' := by rintro rfl; exact h (by decide)
    simp [headerScan.step, h1, h2, h3]

theorem headerScan_foldl_class (cs : List Char) : ∀ s : headerScan,
    cs.foldl headerScan.step s = (cs.map charClass).foldl headerScan.stepClass s := by
  induction cs with
  | nil => intro s; rfl
  | cons c cs ih =>
    intro s
    simp only [List.foldl_cons, List.map_cons]
    rw [headerScan_step_class, ih]

theorem headerScan_foldl_squeeze : ∀ (l : List (Option Char)) (s : headerScan),
    (squeezeClasses l).foldl headerScan.stepClass s = l.foldl headerScan.stepClass s := by
  intro l
  induction l with
  | nil => intro s; rfl
  | cons a r ih =>
    intro s
    unfold squeezeClasses
    split_ifs with h
    · obtain ⟨ha, hr⟩ := h
      subst ha
      rw [ih]
      cases r with
      | nil => simp at hr
      | cons b r =>
        simp at hr
        subst hr
        simp only [List.foldl_cons]
        congr 1
    · simp only [List.foldl_cons]
      exact ih _

/-- The header test depends on the shape of the text only. -/
theorem headerFound_eq_shape (text : String) :
    headerFound text =
      ((charShape text.data).foldl headerScan.stepClass ⟨false, false, false, 0⟩).accept := by
  rw [headerFound_eq_scan, headerScan_foldl_class]
  unfold charShape
  rw [headerScan_foldl_squeeze]

theorem squeezeClasses_eq_nil : ∀ l : List (Option Char), squeezeClasses l = [] → l = []
  | [] => fun _ => rfl
  | a :: r => by
    intro h
    unfold squeezeClasses at h
    split_ifs at h with h1
    · have := squeezeClasses_eq_nil r h
      rw [this] at h1
      simp at h1

theorem decodeWithCandidatesLoop_selected (data : List UInt8) :
    ∀ (ds : List textDecoder) (st se : String) (hl : Int) (oh : String), st ≠ "" →
      (∀ d ∈ ds, ∀ t, d.decode data = .ok t → headerFound t = false) →
      ∃ dec, decodeWithCandidatesLoop data ds st se hl oh = .ok dec ∧ dec.encoding = se ∧
        dec.text = st := by
  intro ds
  induction ds with
  | nil =>
    intro st se hl oh hst _
    unfold decodeWithCandidatesLoop
    rw [if_neg hst]
    split_ifs
    · exact ⟨_, rfl, rfl, rfl⟩
    · exact ⟨_, rfl, rfl, rfl⟩
  | cons d ds ih =>
    intro st se hl oh hst hno
    unfold decodeWithCandidatesLoop
    have hrest : ∀ d' ∈ ds, ∀ t, d'.decode data = .ok t → headerFound t = false :=
      fun d' hd' => hno d' (List.mem_cons_of_mem _ hd')
    cases hdec : d.decode data with
    | error e => exact ih st se hl oh hst hrest
    | ok text =>
      have hf := hno d (List.mem_cons_self _ _) text hdec
      unfold headerFound at hf
      have hf2 : ¬ (findTabularHeader (splitLinesPreserveEmpty text) 6).1 ≠ -1 := by
        simpa using hf
      simp only [hf2, if_false, hst]
      exact ih st se hl oh hst hrest

theorem text_ne_empty_of_shape (data : List UInt8) (text : String) (hdata : data ≠ [])
    (h : charShape text.data = byteShape data) : text ≠ "" := by
  intro e
  subst e
  have h2 : byteShape data = [] := by rw [← h]; rfl
  have h3 := squeezeClasses_eq_nil _ h2
  exact hdata (List.map_eq_nil_iff.mp h3)

theorem headerFound_of_shape (data : List UInt8) (text : String)
    (h : charShape text.data = byteShape data) :
    headerFound text =
      ((byteShape data).foldl headerScan.stepClass ⟨false, false, false, 0⟩).accept := by
  rw [headerFound_eq_shape, h]

/-- C40: Let the decoder of `charmap.ISO8859_1` accept every byte sequence, and let the
candidate decoders be transparent for ASCII, as the library decoders are.  Then for every
non-empty input `decodeWithCandidates` succeeds and reports the encoding `utf-8` when the
bytes are valid UTF-8 and `latin1` otherwise, with the text of that decoder, whether or
not the text has a header line: the header test gives the same answer for the text of
every candidate that decodes the input, so no later candidate is selected. -/
theorem decodeWithCandidates_reports_utf8_or_latin1 (C : TextCodecs)
    (hlatin1 : ∀ data, ∃ text, C.ISO8859_1 data = .ok text)
    (hascii : ∀ d ∈ defaultTextDecoders C, IsAsciiTransparent d.decode)
    (data : List UInt8) (hdata : data ≠ []) :
    ∃ dec, decodeWithCandidates C data = .ok dec ∧
      dec.encoding = (if C.utf8Valid data then "utf-8" else "latin1") ∧
      (if C.utf8Valid data then decodeUTF8 C data else C.ISO8859_1 data) = .ok dec.text ∧
      ∀ d ∈ defaultTextDecoders C, ∀ t, d.decode data = .ok t →
        headerFound t = headerFound dec.text := by
  obtain ⟨t1, ht1⟩ := hlatin1 data
  have hsame : ∀ d ∈ defaultTextDecoders C, ∀ t, d.decode data = .ok t →
      headerFound t =
        ((byteShape data).foldl headerScan.stepClass ⟨false, false, false, 0⟩).accept :=
    fun d hd t ht => headerFound_of_shape data t (hascii d hd data t ht)
  have hne : ∀ d ∈ defaultTextDecoders C, ∀ t, d.decode data = .ok t → t ≠ "" :=
    fun d hd t ht => text_ne_empty_of_shape data t hdata (hascii d hd data t ht)
  have hlat_mem : (⟨"latin1", C.ISO8859_1⟩ : textDecoder) ∈ defaultTextDecoders C := by
    simp [defaultTextDecoders]
  have hutf_mem : (⟨"utf-8", decodeUTF8 C⟩ : textDecoder) ∈ defaultTextDecoders C := by
    simp [defaultTextDecoders]
  by_cases hv : C.utf8Valid data = true
  · have hu : decodeUTF8 C data = .ok (C.utf8String data) := by
      unfold decodeUTF8
      simp [hv]
    simp only [hv, if_true]
    have hall : ∀ d ∈ defaultTextDecoders C, ∀ t, d.decode data = .ok t →
        headerFound t = headerFound (C.utf8String data) := fun d hd t ht => by
      rw [hsame d hd t ht, hsame _ hutf_mem _ hu]
    have hrun : decodeWithCandidates C data =
        if (findTabularHeader (splitLinesPreserveEmpty (C.utf8String data)) 6).1 ≠ -1 then
          .ok ⟨C.utf8String data, "utf-8", splitLinesPreserveEmpty (C.utf8String data),
            (findTabularHeader (splitLinesPreserveEmpty (C.utf8String data)) 6).1,
            (findTabularHeader (splitLinesPreserveEmpty (C.utf8String data)) 6).2⟩
        else decodeWithCandidatesLoop data (defaultTextDecoders C).tail (C.utf8String data)
          "utf-8" (findTabularHeader (splitLinesPreserveEmpty (C.utf8String data)) 6).1
          (findTabularHeader (splitLinesPreserveEmpty (C.utf8String data)) 6).2 := by
      unfold decodeWithCandidates
      rw [show defaultTextDecoders C = ⟨"utf-8", decodeUTF8 C⟩ ::
        (defaultTextDecoders C).tail from rfl]
      unfold decodeWithCandidatesLoop
      simp only [hu, if_true]
      rfl
    rw [hrun]
    by_cases hf : headerFound (C.utf8String data) = true
    · have hf2 : (findTabularHeader (splitLinesPreserveEmpty (C.utf8String data)) 6).1 ≠ -1 := by
        simpa [headerFound] using hf
      rw [if_pos hf2]
      exact ⟨_, rfl, rfl, hu, hall⟩
    · have hf2 : ¬ (findTabularHeader (splitLinesPreserveEmpty (C.utf8String data)) 6).1 ≠ -1 := by
        simpa [headerFound] using hf
      rw [if_neg hf2]
      obtain ⟨dec, h1, h2, h3⟩ := decodeWithCandidatesLoop_selected data
        (defaultTextDecoders C).tail (C.utf8String data) "utf-8"
        (findTabularHeader (splitLinesPreserveEmpty (C.utf8String data)) 6).1
        (findTabularHeader (splitLinesPreserveEmpty (C.utf8String data)) 6).2
        (hne _ hutf_mem _ hu)
        (fun d hd t ht => by
          rw [hall d (List.mem_of_mem_tail hd) t ht]
          simpa using hf)
      refine ⟨dec, h1, h2, by rw [h3]; exact hu, ?_⟩
      rw [h3]
      exact hall
  · have hu : decodeUTF8 C data = .error "invalid utf-8" := by
      unfold decodeUTF8
      simp [hv]
    simp only [hv, if_false, Bool.false_eq_true]
    have hall : ∀ d ∈ defaultTextDecoders C, ∀ t, d.decode data = .ok t →
        headerFound t = headerFound t1 := fun d hd t ht => by
      rw [hsame d hd t ht, hsame _ hlat_mem _ ht1]
    have hrun : decodeWithCandidates C data =
        if (findTabularHeader (splitLinesPreserveEmpty t1) 6).1 ≠ -1 then
          .ok ⟨t1, "latin1", splitLinesPreserveEmpty t1,
            (findTabularHeader (splitLinesPreserveEmpty t1) 6).1,
            (findTabularHeader (splitLinesPreserveEmpty t1) 6).2⟩
        else decodeWithCandidatesLoop data (defaultTextDecoders C).tail.tail t1
          "latin1" (findTabularHeader (splitLinesPreserveEmpty t1) 6).1
          (findTabularHeader (splitLinesPreserveEmpty t1) 6).2 := by
      unfold decodeWithCandidates
      rw [show defaultTextDecoders C = ⟨"utf-8", decodeUTF8 C⟩ :: ⟨"latin1", C.ISO8859_1⟩ ::
        (defaultTextDecoders C).tail.tail from rfl]
      unfold decodeWithCandidatesLoop
      simp only [hu]
      unfold decodeWithCandidatesLoop
      simp only [ht1, if_true]
      rfl
    rw [hrun]
    by_cases hf : headerFound t1 = true
    · have hf2 : (findTabularHeader (splitLinesPreserveEmpty t1) 6).1 ≠ -1 := by
        simpa [headerFound] using hf
      rw [if_pos hf2]
      exact ⟨_, rfl, rfl, ht1, hall⟩
    · have hf2 : ¬ (findTabularHeader (splitLinesPreserveEmpty t1) 6).1 ≠ -1 := by
        simpa [headerFound] using hf
      rw [if_neg hf2]
      obtain ⟨dec, h1, h2, h3⟩ := decodeWithCandidatesLoop_selected data
        (defaultTextDecoders C).tail.tail t1 "latin1"
        (findTabularHeader (splitLinesPreserveEmpty t1) 6).1
        (findTabularHeader (splitLinesPreserveEmpty t1) 6).2
        (hne _ hlat_mem _ ht1)
        (fun d hd t ht => by
          rw [hall d (List.mem_of_mem_tail (List.mem_of_mem_tail hd)) t ht]
          simpa using hf)
      refine ⟨dec, h1, h2, by rw [h3]; exact ht1, ?_⟩
      rw [h3]
      exact hall

theorem charClass_ofNat_byte (b : UInt8) : charClass (Char.ofNat b.toNat) = byteClass b := by
  have hb : b.toNat < 256 := b.val.isLt
  have hv : (Char.ofNat b.toNat).toNat = b.toNat := by
    have hvalid : b.toNat.isValidChar := Or.inl (by omega)
    unfold Char.ofNat
    rw [dif_pos hvalid]
    unfold Char.ofNatAux Char.toNat
    simp [UInt32.toNat]
  unfold charClass byteClass
  rw [hv]

theorem asciiCodecs_latin1_shape (data : List UInt8) :
    charShape (String.mk (data.map fun b => Char.ofNat b.toNat)).data = byteShape data := by
  unfold charShape byteShape
  congr 1
  rw [List.map_map]
  exact List.map_congr_left fun b _ => charClass_ofNat_byte b

/-- The example codecs are transparent for ASCII. -/
theorem asciiCodecs_transparent :
    ∀ d ∈ defaultTextDecoders asciiCodecs, IsAsciiTransparent d.decode := by
  intro d hd data text h
  have hcases : d.decode = decodeUTF8 asciiCodecs ∨
      d.decode = fun data => .ok (String.mk (data.map fun b => Char.ofNat b.toNat)) := by
    simp only [defaultTextDecoders, List.mem_cons, List.mem_singleton, List.not_mem_nil,
      or_false] at hd
    rcases hd with h | h | h | h | h | h <;> subst h
    · exact Or.inl rfl
    all_goals exact Or.inr rfl
  rcases hcases with hc | hc
  · rw [hc] at h
    unfold decodeUTF8 at h
    split_ifs at h
    cases h
    exact asciiCodecs_latin1_shape data
  · rw [hc] at h
    cases h
    exact asciiCodecs_latin1_shape data

/-- C40 on examples: a file of ASCII bytes without a line of six fields is reported as
`utf-8`, the bytes 0x41 0xE9, which are not valid UTF-8, as `latin1`. -/
theorem decodeWithCandidates_reports_utf8_or_latin1_witness :
    (∃ dec, decodeWithCandidates asciiCodecs exampleLatin1File = .ok dec ∧
      dec.encoding = "latin1" ∧ dec.text = String.mk ['A', Char.ofNat 233] ∧
      dec.headerLine = -1) ∧
    exampleLatin1File ≠ [] ∧ asciiCodecs.utf8Valid exampleLatin1File = false := by
  obtain ⟨dec, h1, h2, h3, _⟩ := decodeWithCandidates_reports_utf8_or_latin1 asciiCodecs
    (fun data => ⟨_, rfl⟩) asciiCodecs_transparent exampleLatin1File (by decide)
  have hv : asciiCodecs.utf8Valid exampleLatin1File = false := by decide
  rw [hv] at h2 h3
  simp only [Bool.false_eq_true, if_false] at h2 h3
  have ht : dec.text = String.mk ['A', Char.ofNat 233] := by
    have : (Except.ok (String.mk ['A', Char.ofNat 233]) : Except String String) =
        .ok dec.text := h3
    exact (Except.ok.inj this).symm
  refine ⟨⟨dec, h1, h2, ht, ?_⟩, by decide, hv⟩
  have hh := (decodeWithCandidates_header asciiCodecs exampleLatin1File dec h1).2.1
  rw [hh, (decodeWithCandidates_header asciiCodecs exampleLatin1File dec h1).1, ht]
  decide

/-- C40 on an ASCII file without a line of six fields: reported as `utf-8`. -/
theorem decodeWithCandidates_reports_utf8_example :
    ∃ dec, decodeWithCandidates asciiCodecs exampleNarrowFile = .ok dec ∧
      dec.encoding = "utf-8" ∧ dec.headerLine = -1 := by
  refine ⟨⟨"a;b\n1;2\n", "utf-8", ["a;b", "1;2"], -1, ""⟩, ?_, rfl, rfl⟩
  decide

/-! ## C31 and C32: the output of the time-series sync -/

/-- A successful run of the sync is a successful run of its matching part. -/
theorem syncMobileNRFromLTECSVNative_ok (L : GoLib) (T : TimeLib) (C : TextCodecs)
    (ReadFile : String → Except String (List UInt8)) (df5g : Option CSVData)
    (columnMapping : Option (List (String × Int))) (lteFilePath nrColumnName : String)
    (timeToleranceMS : Int) (filterRules : List FilterRule) (keepOriginalRows : Bool)
    (out : CSVData) (stats : mobileSyncStats)
    (hrun : syncMobileNRFromLTECSVNative L T C ReadFile df5g columnMapping lteFilePath
      nrColumnName timeToleranceMS filterRules keepOriginalRows = .ok (out, stats)) :
    ∃ (d dfLTE : CSVData) (i1 i2 i3 i4 i5 : Int) (lt ft : timeSeriesNative) (ls fs : String),
      df5g = some d ∧
      syncMobileNRCore L d dfLTE i1 i2 i3 i4 i5 lt ft ls fs nrColumnName timeToleranceMS =
        .ok (out, stats) := by
  unfold syncMobileNRFromLTECSVNative at hrun
  cases df5g with
  | none => cases hrun
  | some d =>
    simp only at hrun
    split at hrun
    · cases hrun
    · split at hrun
      · cases hrun
      · rename_i dfLTE _
        split_ifs at hrun with h1
        split at hrun
        · cases hrun
        · split at hrun
          · split_ifs at hrun with h2
            exact ⟨d, dfLTE, _, _, _, _, _, _, _, _, _, rfl, hrun⟩
          · cases hrun

/-- The output and the summary of the matching part in terms of the window scores. -/
theorem syncMobileNRCore_ok (L : GoLib) (df5g dfLTE : CSVData)
    (lteMCCIdx lteMNCIdx lteNRIdx fivegMCCIdx fivegMNCIdx : Int)
    (lteTimeMS fivegTimeMS : timeSeriesNative) (lteStrategy fivegStrategy : String)
    (nrColumnName : String) (timeToleranceMS : Int) (out : CSVData) (stats : mobileSyncStats)
    (hrun : syncMobileNRCore L df5g dfLTE lteMCCIdx lteMNCIdx lteNRIdx fivegMCCIdx fivegMNCIdx
      lteTimeMS fivegTimeMS lteStrategy fivegStrategy nrColumnName timeToleranceMS
      = .ok (out, stats)) :
    ∃ st : matchState,
      st = matchCandidates (lteRowsOf L dfLTE lteMCCIdx lteMNCIdx lteNRIdx lteTimeMS)
        (fivegCandidatesOf df5g fivegMCCIdx fivegMNCIdx fivegTimeMS) df5g.Rows.length
        (if timeToleranceMS < 0 then 0 else timeToleranceMS) ∧
      out.Columns = (if df5g.columnIndexByName nrColumnName < 0 then
        df5g.Columns ++ [nrColumnName] else df5g.Columns) ∧
      out.Rows = (if df5g.columnIndexByName nrColumnName < 0 then
          df5g.Rows.map fun r => r ++ [""] else df5g.Rows).enum.map (fun ir =>
        writeNRCell ir.2 (nrColumnIndex df5g nrColumnName)
          (nrValueOfScore (st.windowScores.getD ir.1 0))) ∧
      out.FileInfo = df5g.FileInfo ∧
      stats.RowsTotal = (df5g.Rows.length : Int) ∧
      stats.RowsYes = ((((List.range df5g.Rows.length).map fun i =>
        st.windowScores.getD i 0).filter fun s => s = 2).length : Int) ∧
      stats.RowsNo = ((((List.range df5g.Rows.length).map fun i =>
        st.windowScores.getD i 0).filter fun s => s = 1).length : Int) ∧
      stats.RowsBlank = ((((List.range df5g.Rows.length).map fun i =>
        st.windowScores.getD i 0).filter fun s => s ≠ 2 ∧ s ≠ 1).length : Int) ∧
      stats.RowsWithMatch = st.matchedRows ∧
      stats.FallbackTimeOnlyRows = st.fallbackTimeOnlyRows := by
  unfold syncMobileNRCore at hrun
  simp only at hrun
  by_cases h1 : (lteRowsOf L dfLTE lteMCCIdx lteMNCIdx lteNRIdx lteTimeMS).length = 0
  · rw [if_pos h1] at hrun
    cases hrun
  rw [if_neg h1] at hrun
  by_cases h2 : ((lteRowsOf L dfLTE lteMCCIdx lteMNCIdx lteNRIdx lteTimeMS).filter
      fun r => r.score = 2).length = 0
  · rw [if_pos h2] at hrun
    cases hrun
  rw [if_neg h2] at hrun
  by_cases h3 : (fivegCandidatesOf df5g fivegMCCIdx fivegMNCIdx fivegTimeMS).length = 0
  · rw [if_pos h3] at hrun
    cases hrun
  rw [if_neg h3] at hrun
  simp only [Except.ok.injEq, Prod.mk.injEq] at hrun
  obtain ⟨hout, hstats⟩ := hrun
  subst hout hstats
  have hlen : (if df5g.clone.columnIndexByName nrColumnName < 0 then
      df5g.clone.Rows.map fun r => r ++ [""] else df5g.clone.Rows).length =
      df5g.Rows.length := by
    rw [CSVData.clone_eq]
    split_ifs <;> simp
  have hscores : ∀ ws : List Int, ((if df5g.clone.columnIndexByName nrColumnName < 0 then
      df5g.clone.Rows.map fun r => r ++ [""] else df5g.clone.Rows).enum.map
        fun ir => ws.getD ir.1 0) =
      (List.range df5g.Rows.length).map fun i => ws.getD i 0 := by
    intro ws
    rw [← hlen]
    generalize (if df5g.clone.columnIndexByName nrColumnName < 0 then
      df5g.clone.Rows.map fun r => r ++ [""] else df5g.clone.Rows) = rows
    have : (rows.enum.map fun ir => ws.getD ir.1 0) =
        (rows.enum.map Prod.fst).map fun i => ws.getD i 0 := by
      rw [List.map_map]
      rfl
    rw [this, List.enum_map_fst]
  refine ⟨_, rfl, ?_, ?_, ?_, ?_, ?_, ?_, ?_, rfl, rfl⟩
  · simp only [CSVData.clone_eq]
  · simp only [CSVData.clone_eq]
  · simp only [CSVData.clone_eq]
  · simp only [hlen]
  · simp only [hscores]
  · simp only [hscores]
  · simp only [hscores]

theorem cellAt_eq_getD (row : List String) (j : Int) :
    cellAt row j = if 0 ≤ j then row.getD j.toNat "" else "" := by
  unfold cellAt
  by_cases h0 : 0 ≤ j
  · by_cases h1 : j < row.length
    · simp [h0, h1]
    · have : row.length ≤ j.toNat := by omega
      simp only [h0, h1, and_false, if_false, if_true, List.getD_eq_getElem?_getD]
      rw [List.getElem?_eq_none this]
      rfl
  · simp [h0]

theorem cellAt_append_blank (row : List String) (k : Nat) (j : Int) :
    cellAt (row ++ List.replicate k "") j = cellAt row j := by
  rw [cellAt_eq_getD, cellAt_eq_getD]
  split_ifs with h0
  · simp only [List.getD_eq_getElem?_getD]
    by_cases h1 : j.toNat < row.length
    · rw [List.getElem?_append_left h1]
    · have h2 : row.length ≤ j.toNat := by omega
      rw [List.getElem?_append_right h2, List.getElem?_eq_none h2, List.getElem?_replicate]
      split_ifs <;> rfl
  · rfl

theorem cellAt_writeNRCell_self (row : List String) (nrIdx : Nat) (val : String) :
    cellAt (writeNRCell row nrIdx val) (nrIdx : Int) = val := by
  rw [cellAt_eq_getD]
  simp only [Int.natCast_nonneg, if_true, Int.toNat_ofNat, List.getD_eq_getElem?_getD,
    writeNRCell_getElem]
  rfl

theorem cellAt_writeNRCell_ne (row : List String) (nrIdx : Nat) (val : String) (j : Int)
    (hj : j ≠ (nrIdx : Int)) : cellAt (writeNRCell row nrIdx val) j = cellAt row j := by
  have hset : ∀ l : List String, cellAt (l.set nrIdx val) j = cellAt l j := by
    intro l
    rw [cellAt_eq_getD, cellAt_eq_getD]
    split_ifs with h0
    · simp only [List.getD_eq_getElem?_getD]
      rw [List.getElem?_set_ne (by omega)]
    · rfl
  unfold writeNRCell
  rw [hset]
  split_ifs
  · exact cellAt_append_blank row _ j
  · rfl

theorem writeNRCell_length (row : List String) (nrIdx : Nat) (val : String) :
    row.length ≤ (writeNRCell row nrIdx val).length := by
  unfold writeNRCell
  split_ifs <;> simp

theorem nrValueOfScore_cases (s : Int) :
    (nrValueOfScore s = "yes" ↔ s = 2) ∧ (nrValueOfScore s = "no" ↔ s = 1) ∧
      (nrValueOfScore s = "" ↔ s ≠ 2 ∧ s ≠ 1) := by
  unfold nrValueOfScore
  by_cases h2 : s = 2
  · subst h2
    decide
  · by_cases h1 : s = 1
    · subst h1
      decide
    · rw [if_neg h2, if_neg h1]
      exact ⟨⟨fun h => absurd h (by decide), fun h => absurd h h2⟩,
        ⟨fun h => absurd h (by decide), fun h => absurd h h1⟩,
        ⟨fun _ => ⟨h2, h1⟩, fun _ => rfl⟩⟩

theorem score_partition (l : List Int) :
    ((l.filter fun s => s = 2).length : Int) + ((l.filter fun s => s = 1).length : Int) +
      ((l.filter fun s => s ≠ 2 ∧ s ≠ 1).length : Int) = (l.length : Int) := by
  induction l with
  | nil => rfl
  | cons s l ih =>
    by_cases h2 : s = 2
    · have a1 : decide (s = 2) = true := by simp [h2]
      have a2 : decide (s = 1) = false := by simp; omega
      have a3 : decide (s ≠ 2 ∧ s ≠ 1) = false := by simp [h2]
      simp only [List.filter_cons, a1, a2, a3, if_true, Bool.false_eq_true, if_false,
        List.length_cons]
      push_cast
      omega
    · by_cases h1 : s = 1
      · have a1 : decide (s = 2) = false := by simp [h2]
        have a2 : decide (s = 1) = true := by simp [h1]
        have a3 : decide (s ≠ 2 ∧ s ≠ 1) = false := by simp [h1]
        simp only [List.filter_cons, a1, a2, a3, if_true, Bool.false_eq_true, if_false,
          List.length_cons]
        push_cast
        omega
      · have a1 : decide (s = 2) = false := by simp [h2]
        have a2 : decide (s = 1) = false := by simp [h1]
        have a3 : decide (s ≠ 2 ∧ s ≠ 1) = true := by simp [h2, h1]
        simp only [List.filter_cons, a1, a2, a3, if_true, Bool.false_eq_true, if_false,
          List.length_cons]
        push_cast
        omega

theorem enum_map_scores (rows : List (List String)) (ws : List Int) :
    (rows.enum.map fun ir => ws.getD ir.1 0) =
      (List.range rows.length).map fun i => ws.getD i 0 := by
  have : (rows.enum.map fun ir => ws.getD ir.1 0) =
      (rows.enum.map Prod.fst).map fun i => ws.getD i 0 := by
    rw [List.map_map]
    rfl
  rw [this, List.enum_map_fst]

theorem count_signal_cells (rows : List (List String)) (ws : List Int) (nrIdx : Nat)
    (v : String) (p : Int → Bool) (hp : ∀ s, nrValueOfScore s = v ↔ p s = true) :
    ((rows.enum.map fun ir =>
        writeNRCell ir.2 nrIdx (nrValueOfScore (ws.getD ir.1 0))).filter
      fun r => cellAt r (nrIdx : Int) = v).length =
    (((List.range rows.length).map fun i => ws.getD i 0).filter p).length := by
  rw [← enum_map_scores, List.filter_map, List.filter_map, List.length_map, List.length_map]
  congr 1
  apply List.filter_congr
  intro ir _
  simp only [Function.comp, cellAt_writeNRCell_self]
  have := hp (ws.getD ir.1 0)
  cases hps : p (ws.getD ir.1 0)
  · rw [hps] at this
    simpa using this
  · rw [hps] at this
    simpa using this

/-- C31: On success the sync returns the rows of the primary dataset in the same number
and order; a row of the output is at least as long as the row it comes from and has the
same cell at every position other than that of the signal column; the signal column is
the first column of the given name when there is one, otherwise a new last column, and it
holds "yes", "no" or "" in every row; the source info is kept; in the summary
`RowsYes + RowsNo + RowsBlank = RowsTotal`, `RowsTotal` is the number of primary rows, and
`RowsYes`, `RowsNo` and `RowsBlank` are the numbers of output rows whose signal cell is
"yes", "no" and "". -/
theorem syncMobileNRFromLTECSVNative_output (L : GoLib) (T : TimeLib) (C : TextCodecs)
    (ReadFile : String → Except String (List UInt8)) (df5g : CSVData)
    (columnMapping : Option (List (String × Int))) (lteFilePath nrColumnName : String)
    (timeToleranceMS : Int) (filterRules : List FilterRule) (keepOriginalRows : Bool)
    (out : CSVData) (stats : mobileSyncStats)
    (hrun : syncMobileNRFromLTECSVNative L T C ReadFile (some df5g) columnMapping lteFilePath
      nrColumnName timeToleranceMS filterRules keepOriginalRows = .ok (out, stats)) :
    out.Rows.length = df5g.Rows.length ∧
    out.Columns = (if df5g.columnIndexByName nrColumnName < 0 then
      df5g.Columns ++ [nrColumnName] else df5g.Columns) ∧
    out.Columns[nrColumnIndex df5g nrColumnName]? = some nrColumnName ∧
    (df5g.columnIndexByName nrColumnName < 0 →
      nrColumnIndex df5g nrColumnName + 1 = out.Columns.length) ∧
    (0 ≤ df5g.columnIndexByName nrColumnName →
      (nrColumnIndex df5g nrColumnName : Int) = df5g.columnIndexByName nrColumnName) ∧
    out.FileInfo = df5g.FileInfo ∧
    (∀ (i : Nat) (row : List String), df5g.Rows[i]? = some row →
      ∃ orow, out.Rows[i]? = some orow ∧ row.length ≤ orow.length ∧
        (∀ j : Int, j ≠ (nrColumnIndex df5g nrColumnName : Int) → cellAt orow j = cellAt row j) ∧
        (cellAt orow (nrColumnIndex df5g nrColumnName : Int) = "yes" ∨
          cellAt orow (nrColumnIndex df5g nrColumnName : Int) = "no" ∨
          cellAt orow (nrColumnIndex df5g nrColumnName : Int) = "")) ∧
    stats.RowsYes + stats.RowsNo + stats.RowsBlank = stats.RowsTotal ∧
    stats.RowsTotal = (df5g.Rows.length : Int) ∧
    stats.RowsYes = ((out.Rows.filter fun r =>
      cellAt r (nrColumnIndex df5g nrColumnName : Int) = "yes").length : Int) ∧
    stats.RowsNo = ((out.Rows.filter fun r =>
      cellAt r (nrColumnIndex df5g nrColumnName : Int) = "no").length : Int) ∧
    stats.RowsBlank = ((out.Rows.filter fun r =>
      cellAt r (nrColumnIndex df5g nrColumnName : Int) = "").length : Int) := by
  obtain ⟨d, dfLTE, i1, i2, i3, i4, i5, lt, ft, ls, fs, hd, hcore⟩ :=
    syncMobileNRFromLTECSVNative_ok L T C ReadFile (some df5g) columnMapping lteFilePath
      nrColumnName timeToleranceMS filterRules keepOriginalRows out stats hrun
  cases hd
  obtain ⟨st, -, hcols, hrows, hinfo, htot, hyes, hno, hblank, -, -⟩ :=
    syncMobileNRCore_ok L df5g dfLTE i1 i2 i3 i4 i5 lt ft ls fs nrColumnName timeToleranceMS
      out stats hcore
  have hlen : (if df5g.columnIndexByName nrColumnName < 0 then
      df5g.Rows.map fun r => r ++ [""] else df5g.Rows).length = df5g.Rows.length := by
    split_ifs <;> simp
  have hge := indexOf_ge df5g.Columns nrColumnName
  have hidx : nrColumnIndex df5g nrColumnName =
      if df5g.columnIndexByName nrColumnName < 0 then df5g.Columns.length
      else (df5g.columnIndexByName nrColumnName).toNat := by
    unfold nrColumnIndex
    rw [CSVData.clone_eq]
  refine ⟨?_, hcols, ?_, ?_, ?_, hinfo, ?_, ?_, htot, ?_, ?_, ?_⟩
  · rw [hrows, List.length_map, List.enum_length, hlen]
  · rw [hcols, hidx]
    by_cases hneg : df5g.columnIndexByName nrColumnName < 0
    · simp [hneg]
    · simp only [hneg, if_false]
      have hmem : nrColumnName ∈ df5g.Columns := by
        by_contra hnot
        have := (indexOf_eq_neg_one df5g.Columns nrColumnName).mpr hnot
        unfold CSVData.columnIndexByName at hneg
        omega
      exact (indexOf_getElem df5g.Columns nrColumnName hmem).2
  · intro hneg
    rw [hcols, hidx]
    simp [hneg]
  · intro hpos
    rw [hidx]
    have hneg : ¬ df5g.columnIndexByName nrColumnName < 0 := by omega
    simp only [hneg, if_false]
    omega
  · intro i row hrow
    have hi : i < df5g.Rows.length := (List.getElem?_eq_some.mp hrow).1
    have hr : ∃ r', (if df5g.columnIndexByName nrColumnName < 0 then
        df5g.Rows.map fun r => r ++ [""] else df5g.Rows)[i]? = some r' ∧
        row.length ≤ r'.length ∧ ∀ j : Int, cellAt r' j = cellAt row j := by
      split_ifs
      · refine ⟨row ++ [""], by simp [hrow], by simp, fun j => ?_⟩
        exact cellAt_append_blank row 1 j
      · exact ⟨row, hrow, le_refl _, fun j => rfl⟩
    obtain ⟨r', hr1, hr2, hr3⟩ := hr
    refine ⟨writeNRCell r' (nrColumnIndex df5g nrColumnName)
      (nrValueOfScore (st.windowScores.getD i 0)), ?_, ?_, ?_, ?_⟩
    · rw [hrows]
      simp only [List.getElem?_map, List.getElem?_enum, hr1, Option.map_some']
    · exact le_trans hr2 (writeNRCell_length _ _ _)
    · intro j hj
      rw [cellAt_writeNRCell_ne _ _ _ j hj, hr3]
    · rw [cellAt_writeNRCell_self]
      unfold nrValueOfScore
      split_ifs
      · exact Or.inl rfl
      · exact Or.inr (Or.inl rfl)
      · exact Or.inr (Or.inr rfl)
  · rw [hyes, hno, hblank, htot]
    have := score_partition ((List.range df5g.Rows.length).map fun i =>
      st.windowScores.getD i 0)
    simpa using this
  · rw [hyes, hrows, count_signal_cells _ _ _ "yes" (fun s => decide (s = 2))
      (fun s => by simpa using (nrValueOfScore_cases s).1), hlen]
  · rw [hno, hrows, count_signal_cells _ _ _ "no" (fun s => decide (s = 1))
      (fun s => by simpa using (nrValueOfScore_cases s).2.1), hlen]
  · rw [hblank, hrows, count_signal_cells _ _ _ "" (fun s => decide (s ≠ 2 ∧ s ≠ 1))
      (fun s => by simpa using (nrValueOfScore_cases s).2.2), hlen]

theorem foldl_applyOutcome_fallback (P : fivegCandidate → Prop) [DecidablePred P]
    (o : fivegCandidate → Int × Bool × Bool) (fb : Bool) (cs : List fivegCandidate)
    (st0 : matchState) :
    (cs.foldl (fun st c => if P c then applyOutcome st c (o c) fb else st)
        st0).fallbackTimeOnlyRows
      = st0.fallbackTimeOnlyRows +
        (if fb then ((cs.filter fun c => decide (P c)).length : Int) else 0) := by
  induction cs generalizing st0 with
  | nil => cases fb <;> simp
  | cons c rest ih =>
    simp only [List.foldl_cons]
    rw [ih, List.filter_cons]
    by_cases hp : P c
    · cases fb
      · simp [hp, applyOutcome]
      · simp only [hp, if_true, decide_True, List.length_cons, applyOutcome]
        push_cast
        ring
    · simp [hp]

/-- The fallback counter after the two matching loops: the number of rows without MCC or
MNC whose window holds a secondary row. -/
theorem matchCandidates_fallback (lteRows : List lteRow) (cs : List fivegCandidate) (n : Nat)
    (tolerance : Int) :
    (matchCandidates lteRows cs n tolerance).fallbackTimeOnlyRows
      = ((cs.filter fun c =>
          decide ((c.mcc = "" ∨ c.mnc = "") ∧ windowNonEmpty lteRows tolerance c = true)).length :
          Int) := by
  unfold matchCandidates
  have hk : keyedStep (lteLookupsOf lteRows) tolerance = fun st c =>
      if (c.mcc ≠ "" ∧ c.mnc ≠ "") ∧ (candidateOutcome lteRows tolerance c).2.1 = true then
        applyOutcome st c (candidateOutcome lteRows tolerance c) false
      else st := by
    funext st c
    exact keyedStep_eq lteRows tolerance st c
  have hf : fallbackStep (globalLookupOf lteRows) tolerance = fun st c =>
      if ¬ (c.mcc ≠ "" ∧ c.mnc ≠ "") ∧ (candidateOutcome lteRows tolerance c).2.1 = true then
        applyOutcome st c (candidateOutcome lteRows tolerance c) true
      else st := by
    funext st c
    exact fallbackStep_eq lteRows tolerance st c
  rw [hk, hf, foldl_applyOutcome_fallback, foldl_applyOutcome_fallback]
  simp only [if_true, Bool.false_eq_true, if_false, add_zero, zero_add]
  congr 2
  apply List.filter_congr
  intro c _
  have hm := candidateOutcome_matched lteRows tolerance c
  have hb : ¬ (c.mcc ≠ "" ∧ c.mnc ≠ "") ↔ (c.mcc = "" ∨ c.mnc = "") := by
    constructor
    · intro h
      by_contra hn
      simp only [not_or] at hn
      exact h hn
    · rintro (h | h) ⟨h1, h2⟩
      · exact h1 h
      · exact h2 h
  simp only [hb, hm]

theorem mem_fivegCandidatesOf (df5g : CSVData) (fivegMCCIdx fivegMNCIdx : Int)
    (fivegTimeMS : timeSeriesNative) (c : fivegCandidate) :
    c ∈ fivegCandidatesOf df5g fivegMCCIdx fivegMNCIdx fivegTimeMS ↔
      ∃ row : List String, df5g.Rows[c.index]? = some row ∧
        fivegTimeMS.Valid.getD c.index false = true ∧
        c.mcc = normalizeKeyStringNative (cellAt row fivegMCCIdx) ∧
        c.mnc = normalizeKeyStringNative (cellAt row fivegMNCIdx) ∧
        c.timeMS = fivegTimeMS.Values.getD c.index 0 := by
  unfold fivegCandidatesOf
  rw [List.mem_filterMap]
  constructor
  · rintro ⟨⟨i, row⟩, hmem, h⟩
    have hrow := List.mk_mem_enum_iff_getElem?.mp hmem
    simp only at h
    split_ifs at h with h1
    cases h
    refine ⟨row, hrow, ?_, rfl, rfl, rfl⟩
    cases hv : fivegTimeMS.Valid.getD i false
    · exact absurd hv h1
    · rfl
  · rintro ⟨row, hrow, hv, h1, h2, h3⟩
    refine ⟨(c.index, row), List.mk_mem_enum_iff_getElem?.mpr hrow, ?_⟩
    simp only [hv, Bool.true_eq_false, if_false, ← h1, ← h2, ← h3]

theorem operatorMapKey_inj (a b c d : String) (ha : '\x1f' ∉ a.data) (hc : '\x1f' ∉ c.data)
    (h : operatorMapKey a b = operatorMapKey c d) : a = c ∧ b = d := by
  unfold operatorMapKey at h
  have hd := congrArg String.data h
  simp only [String.data_append, List.append_assoc] at hd
  have hd' : a.data ++ '\x1f' :: b.data = c.data ++ '\x1f' :: d.data := hd
  obtain ⟨h1, h2⟩ := append_sep_inj '\x1f' _ _ _ _ ha hc hd'
  exact ⟨String.ext h1, String.ext h2⟩

theorem signal_of_outcome (lteRows : List lteRow) (tolerance : Int) (c : fivegCandidate) :
    IsSignalOfWindow (secondaryRowsFor lteRows c) c.timeMS tolerance
      (nrValueOfScore (if windowNonEmpty lteRows tolerance c = true then
        (candidateOutcome lteRows tolerance c).1 else 0)) := by
  obtain ⟨h1, h2, -, -⟩ :=
    resolveWindowScore_build (secondaryRowsFor lteRows c) c.timeMS tolerance
  have hne : ∀ s, windowHolds (secondaryRowsFor lteRows c) c.timeMS tolerance s →
      windowNonEmpty lteRows tolerance c = true := by
    rintro s ⟨row, hm, hw, -⟩
    unfold windowNonEmpty
    rw [List.any_eq_true]
    exact ⟨row, hm, by simpa using hw⟩
  refine ⟨?_, ?_, ?_⟩
  · intro hy
    rw [if_pos (hne 2 hy)]
    have : (candidateOutcome lteRows tolerance c).1 = 2 := h1.mpr hy
    rw [this]
    rfl
  · intro hy hn
    rw [if_pos (hne 1 hn)]
    have : (candidateOutcome lteRows tolerance c).1 = 1 := h2.mpr ⟨hy, hn⟩
    rw [this]
    rfl
  · intro hy hn
    exact nrValueOfScore_blank lteRows tolerance c hy hn

/-- C32 (as amended): The secondary rows used for matching are the rows of the secondary
dataset with a usable time and non-blank normalised MCC and MNC.  A primary row with a
usable time and a blank MCC or MNC is matched against all of these, whatever their
operator key, and `FallbackTimeOnlyRows` is the number of such primary rows whose window
holds at least one of them.  A primary row with a usable time and non-blank MCC and MNC is
matched against those of them with the same map key (MCC, separator, MNC) only, and is
left blank when none of them has that key.  In both cases the signal cell of the row is
"yes" when a positive row of its secondary rows lies in its window, else "no" when a
negative one does, else "".  Two map keys whose MCC hold no separator are equal exactly
when MCC and MNC are. -/
theorem syncMobileNRCore_lookup_choice (L : GoLib) (df5g dfLTE : CSVData)
    (lteMCCIdx lteMNCIdx lteNRIdx fivegMCCIdx fivegMNCIdx : Int)
    (lteTimeMS fivegTimeMS : timeSeriesNative) (lteStrategy fivegStrategy : String)
    (nrColumnName : String) (timeToleranceMS : Int) (out : CSVData) (stats : mobileSyncStats)
    (hrun : syncMobileNRCore L df5g dfLTE lteMCCIdx lteMNCIdx lteNRIdx fivegMCCIdx fivegMNCIdx
      lteTimeMS fivegTimeMS lteStrategy fivegStrategy nrColumnName timeToleranceMS
      = .ok (out, stats)) :
    (∀ r, r ∈ lteRowsOf L dfLTE lteMCCIdx lteMNCIdx lteNRIdx lteTimeMS ↔
      ∃ (i : Nat) (row : List String), dfLTE.Rows[i]? = some row ∧
        lteTimeMS.Valid.getD i false = true ∧
        normalizeKeyStringNative (cellAt row lteMCCIdx) ≠ "" ∧
        normalizeKeyStringNative (cellAt row lteMNCIdx) ≠ "" ∧
        r = ⟨normalizeKeyStringNative (cellAt row lteMCCIdx),
          normalizeKeyStringNative (cellAt row lteMNCIdx), lteTimeMS.Values.getD i 0,
          nrScore (normalizeNRValueNative L (cellAt row lteNRIdx))⟩) ∧
    (∀ c, c ∈ fivegCandidatesOf df5g fivegMCCIdx fivegMNCIdx fivegTimeMS ↔
      ∃ row : List String, df5g.Rows[c.index]? = some row ∧
        fivegTimeMS.Valid.getD c.index false = true ∧
        c.mcc = normalizeKeyStringNative (cellAt row fivegMCCIdx) ∧
        c.mnc = normalizeKeyStringNative (cellAt row fivegMNCIdx) ∧
        c.timeMS = fivegTimeMS.Values.getD c.index 0) ∧
    stats.FallbackTimeOnlyRows =
      (((fivegCandidatesOf df5g fivegMCCIdx fivegMNCIdx fivegTimeMS).filter fun c =>
        decide ((c.mcc = "" ∨ c.mnc = "") ∧
          (lteRowsOf L dfLTE lteMCCIdx lteMNCIdx lteNRIdx lteTimeMS).any (fun r =>
            decide (inWindow c.timeMS (if timeToleranceMS < 0 then 0 else timeToleranceMS)
              (r.timeMS, r.score))) = true)).length : Int) ∧
    (∀ c ∈ fivegCandidatesOf df5g fivegMCCIdx fivegMNCIdx fivegTimeMS,
      ∃ row, out.Rows[c.index]? = some row ∧
        (c.mcc = "" ∨ c.mnc = "" →
          IsSignalOfWindow
            ((lteRowsOf L dfLTE lteMCCIdx lteMNCIdx lteNRIdx lteTimeMS).map fun r =>
              (r.timeMS, r.score))
            c.timeMS (if timeToleranceMS < 0 then 0 else timeToleranceMS)
            (cellAt row (nrColumnIndex df5g nrColumnName : Int))) ∧
        (c.mcc ≠ "" → c.mnc ≠ "" →
          IsSignalOfWindow
            (((lteRowsOf L dfLTE lteMCCIdx lteMNCIdx lteNRIdx lteTimeMS).filter fun r =>
              operatorMapKey r.mcc r.mnc = operatorMapKey c.mcc c.mnc).map fun r =>
                (r.timeMS, r.score))
            c.timeMS (if timeToleranceMS < 0 then 0 else timeToleranceMS)
            (cellAt row (nrColumnIndex df5g nrColumnName : Int)) ∧
          ((∀ r ∈ lteRowsOf L dfLTE lteMCCIdx lteMNCIdx lteNRIdx lteTimeMS,
              operatorMapKey r.mcc r.mnc ≠ operatorMapKey c.mcc c.mnc) →
            cellAt row (nrColumnIndex df5g nrColumnName : Int) = ""))) ∧
    (∀ a b c d : String, '\x1f' ∉ a.data → '\x1f' ∉ c.data →
      (operatorMapKey a b = operatorMapKey c d ↔ a = c ∧ b = d)) := by
  obtain ⟨hnd, hidx⟩ := fivegCandidatesOf_index df5g fivegMCCIdx fivegMNCIdx fivegTimeMS
  obtain ⟨-, hscore⟩ := matchCandidates_spec
    (lteRowsOf L dfLTE lteMCCIdx lteMNCIdx lteNRIdx lteTimeMS)
    (fivegCandidatesOf df5g fivegMCCIdx fivegMNCIdx fivegTimeMS) df5g.Rows.length
    (if timeToleranceMS < 0 then 0 else timeToleranceMS) hnd hidx
  have hfb := matchCandidates_fallback
    (lteRowsOf L dfLTE lteMCCIdx lteMNCIdx lteNRIdx lteTimeMS)
    (fivegCandidatesOf df5g fivegMCCIdx fivegMNCIdx fivegTimeMS) df5g.Rows.length
    (if timeToleranceMS < 0 then 0 else timeToleranceMS)
  obtain ⟨st, hst, -, hrows, -, -, -, -, -, -, hfall⟩ :=
    syncMobileNRCore_ok L df5g dfLTE lteMCCIdx lteMNCIdx lteNRIdx fivegMCCIdx fivegMNCIdx
      lteTimeMS fivegTimeMS lteStrategy fivegStrategy nrColumnName timeToleranceMS
      out stats hrun
  generalize htol : (if timeToleranceMS < 0 then (0 : Int) else timeToleranceMS) = tol
    at hscore hfb hst ⊢
  generalize hl : lteRowsOf L dfLTE lteMCCIdx lteMNCIdx lteNRIdx lteTimeMS = lteRows
    at hscore hfb hst ⊢
  refine ⟨fun r => by rw [← hl]; exact mem_lteRowsOf L dfLTE _ _ _ _ r,
    fun c => mem_fivegCandidatesOf df5g _ _ _ c, ?_, ?_, ?_⟩
  · rw [hfall, hst, hfb]
    congr 2
    apply List.filter_congr
    intro c _
    by_cases hb : c.mcc = "" ∨ c.mnc = ""
    · have : windowNonEmpty lteRows tol c =
          lteRows.any fun r => decide (inWindow c.timeMS tol (r.timeMS, r.score)) := by
        unfold windowNonEmpty secondaryRowsFor
        rw [if_pos hb]
        generalize lteRows = l
        induction l with
        | nil => rfl
        | cons r l ih => simp only [List.map_cons, List.any_cons, ih]
      rw [this]
    · simp [hb]
  · intro c hc
    have hlt := hidx c hc
    have hsig := signal_of_outcome lteRows tol c
    rw [← hscore c hc, ← hst] at hsig
    have hr : ∃ r', (if df5g.columnIndexByName nrColumnName < 0 then
        df5g.Rows.map fun r => r ++ [""] else df5g.Rows)[c.index]? = some r' := by
      split_ifs
      · have : c.index < (df5g.Rows.map fun r => r ++ [""]).length := by simpa using hlt
        exact ⟨_, List.getElem?_eq_getElem this⟩
      · exact ⟨_, List.getElem?_eq_getElem hlt⟩
    obtain ⟨r', hr'⟩ := hr
    refine ⟨writeNRCell r' (nrColumnIndex df5g nrColumnName)
      (nrValueOfScore (st.windowScores.getD c.index 0)), ?_, ?_, ?_⟩
    · rw [hrows]
      simp only [List.getElem?_map, List.getElem?_enum, hr', Option.map_some']
    · intro hb
      rw [cellAt_writeNRCell_self]
      have hs : secondaryRowsFor lteRows c = lteRows.map fun r => (r.timeMS, r.score) := by
        unfold secondaryRowsFor
        rw [if_pos hb]
      rw [hs] at hsig
      exact hsig
    · intro h1 h2
      rw [cellAt_writeNRCell_self]
      have hb : ¬ (c.mcc = "" ∨ c.mnc = "") := by
        rintro (h | h)
        · exact h1 h
        · exact h2 h
      have hs : secondaryRowsFor lteRows c = (lteRows.filter fun r =>
          operatorMapKey r.mcc r.mnc = operatorMapKey c.mcc c.mnc).map
            fun r => (r.timeMS, r.score) := by
        unfold secondaryRowsFor
        rw [if_neg hb]
      rw [hs] at hsig
      refine ⟨hsig, ?_⟩
      intro hkey
      have hempty : (lteRows.filter fun r =>
          operatorMapKey r.mcc r.mnc = operatorMapKey c.mcc c.mnc) = [] := by
        rw [List.filter_eq_nil_iff]
        intro r hr
        simpa using hkey r hr
      rw [hempty] at hsig
      exact hsig.2.2 (by rintro ⟨row, hm, -⟩; simp at hm) (by rintro ⟨row, hm, -⟩; simp at hm)
  · intro a b c d ha hc
    constructor
    · exact operatorMapKey_inj a b c d ha hc
    · rintro ⟨rfl, rfl⟩
      rfl

/-- C31 on an example with a column of the signal name: seven primary rows, of which two
get "yes", one "no" and four "". -/
theorem syncMobileNRFromLTECSVNative_output_witness :
    syncMobileNRFromLTECSVNative goLib exampleTimeLib asciiCodecs
      (oneFile exampleOperatorLTEFile) (some exampleOperator5G) (some exampleSyncMapping)
      "lte.csv" "5G NR" 1000 [] false = .ok (exampleOperatorOut, exampleOperatorStats) ∧
    exampleOperatorOut.Rows.length = exampleOperator5G.Rows.length ∧
    exampleOperatorOut.Columns = exampleOperator5G.Columns ∧
    nrColumnIndex exampleOperator5G "5G NR" = 2 ∧
    exampleOperatorStats.RowsYes + exampleOperatorStats.RowsNo +
      exampleOperatorStats.RowsBlank = exampleOperatorStats.RowsTotal ∧
    exampleOperatorStats.RowsTotal = 7 := by
  have hrun : syncMobileNRFromLTECSVNative goLib exampleTimeLib asciiCodecs
      (oneFile exampleOperatorLTEFile) (some exampleOperator5G) (some exampleSyncMapping)
      "lte.csv" "5G NR" 1000 [] false = .ok (exampleOperatorOut, exampleOperatorStats) := by
    with_unfolding_all decide
  have h := syncMobileNRFromLTECSVNative_output goLib exampleTimeLib asciiCodecs
    (oneFile exampleOperatorLTEFile) exampleOperator5G (some exampleSyncMapping)
    "lte.csv" "5G NR" 1000 [] false exampleOperatorOut exampleOperatorStats hrun
  exact ⟨hrun, h.1, by decide, by decide, h.2.2.2.2.2.2.2.1, h.2.2.2.2.2.2.2.2.1⟩

/-- C31 on an example without a column of the signal name: the column is appended. -/
theorem syncMobileNRFromLTECSVNative_output_appended :
    syncMobileNRFromLTECSVNative goLib exampleTimeLib asciiCodecs (oneFile exampleLTEFile)
      (some example5G) (some exampleSyncMapping) "lte.csv" "5G NR" 1000 [] false =
      .ok (exampleSyncOut, exampleSyncStats) ∧
    exampleSyncOut.Columns = example5G.Columns ++ ["5G NR"] ∧
    nrColumnIndex example5G "5G NR" = 3 := by
  refine ⟨by with_unfolding_all decide, by decide, by decide⟩

/-- C32 as stated fails: the secondary file holds a positive row at 50000 ms without MCC
and MNC; the primary row 3 has a usable time of 50000 ms and no MCC and MNC, so that its
window of 1000 ms holds that secondary row; the secondary rows used for matching are the
two rows of operator 310/410 only, the primary row is left blank and is not counted:
`FallbackTimeOnlyRows` is 1, for the primary row 4 alone. -/
theorem syncMobileNRCore_lookup_choice_counterexample :
    syncMobileNRFromLTECSVNative goLib exampleTimeLib asciiCodecs
      (oneFile exampleOperatorLTEFile) (some exampleOperator5G) (some exampleSyncMapping)
      "lte.csv" "5G NR" 1000 [] false = .ok (exampleOperatorOut, exampleOperatorStats) ∧
    LoadCSVFile asciiCodecs (oneFile exampleOperatorLTEFile) "lte.csv" = .ok exampleOperatorLTE ∧
    (buildTimeMillisSeriesNative goLib exampleTimeLib exampleOperatorLTE 3 (-1) (-1)).1.Values =
      exampleOperatorLTETimes.Values ∧
    (buildTimeMillisSeriesNative goLib exampleTimeLib exampleOperatorLTE 3 (-1) (-1)).1.Valid =
      exampleOperatorLTETimes.Valid ∧
    (buildTimeMillisSeriesNative goLib exampleTimeLib exampleOperator5G 3 (-1) (-1)).1.Values =
      exampleOperator5GTimes.Values ∧
    (buildTimeMillisSeriesNative goLib exampleTimeLib exampleOperator5G 3 (-1) (-1)).1.Valid =
      exampleOperator5GTimes.Valid ∧
    exampleOperatorLTE.Rows[2]? = some ["", "", "yes", "50"] ∧
    exampleOperatorLTETimes.Values[2]? = some 50000 ∧
    exampleOperatorLTETimes.Valid[2]? = some true ∧
    exampleOperator5G.Rows[3]? = some ["", "", "old", "50"] ∧
    exampleOperator5GTimes.Values[3]? = some 50000 ∧
    exampleOperator5GTimes.Valid[3]? = some true ∧
    inWindow 50000 1000 (50000, 2) ∧
    lteRowsOf goLib exampleOperatorLTE 0 1 2 exampleOperatorLTETimes =
      [⟨"310", "410", 1000, 2⟩, ⟨"310", "410", 5000, 1⟩] ∧
    exampleOperatorOut.Rows[3]? = some ["", "", "", "50"] ∧
    exampleOperatorOut.Rows[4]? = some ["", "410", "yes", "1.5"] ∧
    exampleOperatorStats.FallbackTimeOnlyRows = 1 := by
  refine ⟨by with_unfolding_all decide, by decide, by with_unfolding_all decide,
    by with_unfolding_all decide, by with_unfolding_all decide, by with_unfolding_all decide,
    by decide, by decide, by decide, by decide, by decide,
    by decide, by decide, by decide, by decide, by decide, by decide⟩

/-- C32 (as amended) on the example: the row without MCC at 1500 ms is matched against
the kept secondary rows of operator 310/410 and counted in `FallbackTimeOnlyRows`; the
row of operator 999/99 at 1000 ms is left blank, although the positive secondary row of
operator 310/410 at 1000 ms lies in its window. -/
theorem syncMobileNRCore_lookup_choice_witness :
    syncMobileNRCore goLib exampleOperator5G exampleOperatorLTE 0 1 2 0 1
      exampleOperatorLTETimes exampleOperator5GTimes "utc_numeric" "utc_numeric" "5G NR" 1000 =
      .ok (exampleOperatorOut, exampleOperatorStats) ∧
    exampleOperatorStats.FallbackTimeOnlyRows =
      (((fivegCandidatesOf exampleOperator5G 0 1 exampleOperator5GTimes).filter fun c =>
        decide ((c.mcc = "" ∨ c.mnc = "") ∧
          (lteRowsOf goLib exampleOperatorLTE 0 1 2 exampleOperatorLTETimes).any (fun r =>
            decide (inWindow c.timeMS (if (1000 : Int) < 0 then 0 else 1000)
              (r.timeMS, r.score))) = true)).length : Int) ∧
    (⟨5, "999", "99", 1000⟩ : fivegCandidate) ∈
      fivegCandidatesOf exampleOperator5G 0 1 exampleOperator5GTimes ∧
    exampleOperatorOut.Rows[5]? = some ["999", "99", "", "1"] := by
  have hrun : syncMobileNRCore goLib exampleOperator5G exampleOperatorLTE 0 1 2 0 1
      exampleOperatorLTETimes exampleOperator5GTimes "utc_numeric" "utc_numeric" "5G NR" 1000 =
      .ok (exampleOperatorOut, exampleOperatorStats) := by
    with_unfolding_all decide
  have h := syncMobileNRCore_lookup_choice goLib exampleOperator5G exampleOperatorLTE 0 1 2 0 1
    exampleOperatorLTETimes exampleOperator5GTimes "utc_numeric" "utc_numeric" "5G NR" 1000
    exampleOperatorOut exampleOperatorStats hrun
  exact ⟨hrun, h.2.2.1, by decide, by decide⟩

/-! ## The library decoders are transparent for ASCII

Two facts behind the hypothesis of C40: a decoder that inverts the UTF-8 encoding, and a
decoder that maps byte by byte with a table that keeps ASCII and sends the other bytes
outside ASCII, are transparent for ASCII. -/

theorem squeezeClasses_head? : ∀ l : List (Option Char), (squeezeClasses l).head? = l.head?
  | [] => rfl
  | a :: r => by
    unfold squeezeClasses
    split_ifs with h
    · rw [squeezeClasses_head? r, h.2, h.1]
      rfl
    · rfl

theorem squeezeClasses_cons (a : Option Char) (r : List (Option Char)) :
    squeezeClasses (a :: r) =
      if a = none ∧ (squeezeClasses r).head? = some none then squeezeClasses r
      else a :: squeezeClasses r := by
  rw [squeezeClasses_head?]
  rfl

theorem squeezeClasses_cons_congr (a : Option Char) (r r' : List (Option Char))
    (h : squeezeClasses r = squeezeClasses r') :
    squeezeClasses (a :: r) = squeezeClasses (a :: r') := by
  rw [squeezeClasses_cons, squeezeClasses_cons, h]

theorem squeezeClasses_none_none (r : List (Option Char)) :
    squeezeClasses (none :: none :: r) = squeezeClasses (none :: r) := by
  conv_lhs => unfold squeezeClasses
  simp

theorem squeezeClasses_run (bs : List (Option Char)) (hne : bs ≠ [])
    (hb : ∀ b ∈ bs, b = none) (r : List (Option Char)) :
    squeezeClasses (bs ++ r) = squeezeClasses (none :: r) := by
  induction bs with
  | nil => exact absurd rfl hne
  | cons b bs ih =>
    have hb0 : b = none := hb b (List.mem_cons_self _ _)
    subst hb0
    cases bs with
    | nil => rfl
    | cons b' bs' =>
      have hb1 : b' = none := hb b' (by simp)
      subst hb1
      rw [List.cons_append, List.cons_append, squeezeClasses_none_none, ← List.cons_append]
      exact ih (by simp) (fun x hx => hb x (List.mem_cons_of_mem _ hx))

theorem uint8_or_high (x : Fin 256) :
    128 ≤ (UInt8.ofNat x.val ||| 0x80).toNat ∧ 128 ≤ (UInt8.ofNat x.val ||| 0xc0).toNat ∧
      128 ≤ (UInt8.ofNat x.val ||| 0xe0).toNat ∧ 128 ≤ (UInt8.ofNat x.val ||| 0xf0).toNat := by
  revert x
  decide

theorem byteClass_or_high (x : UInt8) :
    byteClass (x ||| 0x80) = none ∧ byteClass (x ||| 0xc0) = none ∧
      byteClass (x ||| 0xe0) = none ∧ byteClass (x ||| 0xf0) = none := by
  obtain ⟨h1, h2, h3, h4⟩ := uint8_or_high ⟨x.toNat, x.toBitVec.isLt⟩
  unfold byteClass
  have e : UInt8.ofNat x.toNat = x := by
    apply UInt8.eq_of_val_eq
    simp [UInt8.ofNat, UInt8.toNat]
  simp only [e] at h1 h2 h3 h4
  refine ⟨?_, ?_, ?_, ?_⟩
  · rw [if_neg (by omega)]
  · rw [if_neg (by omega)]
  · rw [if_neg (by omega)]
  · rw [if_neg (by omega)]

theorem utf8EncodeChar_class (c : Char) :
    (c.toNat < 128 → (String.utf8EncodeChar c).map byteClass = [some c]) ∧
    (¬ c.toNat < 128 → String.utf8EncodeChar c ≠ [] ∧
      ∀ b ∈ (String.utf8EncodeChar c).map byteClass, b = none) := by
  have hle : c.val ≤ 0x7f ↔ c.toNat < 128 := by
    rw [UInt32.le_def]
    show c.val.toNat ≤ 127 ↔ c.val.toNat < 128
    omega
  constructor
  · intro h
    have h1 : c.val ≤ 0x7f := hle.mpr h
    unfold String.utf8EncodeChar
    simp only [h1, if_true, List.map_cons, List.map_nil]
    have hb : c.val.toUInt8.toNat = c.toNat := by
      show c.val.toNat % 256 = c.val.toNat
      have : c.val.toNat < 128 := h
      omega
    unfold byteClass
    rw [hb, if_pos h, Char.ofNat_toNat]
  · intro h
    have h1 : ¬ c.val ≤ 0x7f := fun e => h (hle.mp e)
    unfold String.utf8EncodeChar
    simp only [h1, if_false]
    split_ifs
    · refine ⟨by simp, ?_⟩
      intro b hb
      simp only [List.map_cons, List.map_nil, List.mem_cons, List.mem_singleton,
        List.not_mem_nil, or_false] at hb
      rcases hb with rfl | rfl
      · exact (byteClass_or_high _).2.1
      · exact (byteClass_or_high _).1
    · refine ⟨by simp, ?_⟩
      intro b hb
      simp only [List.map_cons, List.map_nil, List.mem_cons, List.mem_singleton,
        List.not_mem_nil, or_false] at hb
      rcases hb with rfl | rfl | rfl
      · exact (byteClass_or_high _).2.2.1
      · exact (byteClass_or_high _).1
      · exact (byteClass_or_high _).1
    · refine ⟨by simp, ?_⟩
      intro b hb
      simp only [List.map_cons, List.map_nil, List.mem_cons, List.mem_singleton,
        List.not_mem_nil, or_false] at hb
      rcases hb with rfl | rfl | rfl | rfl
      · exact (byteClass_or_high _).2.2.2
      · exact (byteClass_or_high _).1
      · exact (byteClass_or_high _).1
      · exact (byteClass_or_high _).1

/-- The UTF-8 encoding of a text has the shape of the text. -/
theorem byteShape_utf8 : ∀ cs : List Char,
    byteShape (cs.flatMap String.utf8EncodeChar) = charShape cs
  | [] => rfl
  | c :: cs => by
    have ih := byteShape_utf8 cs
    unfold byteShape charShape at ih ⊢
    rw [List.flatMap_cons, List.map_append, List.map_cons]
    obtain ⟨h1, h2⟩ := utf8EncodeChar_class c
    by_cases hc : c.toNat < 128
    · rw [h1 hc]
      have : charClass c = some c := by
        unfold charClass
        rw [if_pos hc]
      rw [this]
      exact squeezeClasses_cons_congr _ _ _ ih
    · obtain ⟨hne, hall⟩ := h2 hc
      have : charClass c = none := by
        unfold charClass
        rw [if_neg hc]
      rw [this, squeezeClasses_run _ (by simpa using hne) hall]
      exact squeezeClasses_cons_congr _ _ _ ih

/-- A decoder that returns only texts whose UTF-8 encoding is the input, as the decoder of
valid UTF-8 does, is transparent for ASCII. -/
theorem IsAsciiTransparent_of_utf8 (decode : List UInt8 → Except String String)
    (h : ∀ data text, decode data = .ok text →
      text.data.flatMap String.utf8EncodeChar = data) :
    IsAsciiTransparent decode := by
  intro data text hd
  rw [← h data text hd, byteShape_utf8]

/-- A decoder that maps byte by byte with a table that sends every ASCII byte to its
character and every other byte outside ASCII, as the decoders of package `charmap` used
here do, is transparent for ASCII. -/
theorem IsAsciiTransparent_of_table (table : UInt8 → Char)
    (hlow : ∀ b : UInt8, b.toNat < 128 → table b = Char.ofNat b.toNat)
    (hhigh : ∀ b : UInt8, ¬ b.toNat < 128 → ¬ (table b).toNat < 128) :
    IsAsciiTransparent fun data => .ok (String.mk (data.map table)) := by
  intro data text hd
  cases hd
  unfold charShape byteShape
  congr 1
  rw [List.map_map]
  apply List.map_congr_left
  intro b _
  simp only [Function.comp]
  by_cases hb : b.toNat < 128
  · rw [hlow b hb, charClass_ofNat_byte]
  · unfold charClass byteClass
    rw [if_neg (hhigh b hb), if_neg hb]


/-! ## C5: a cell that is not a number in a condition -/

theorem float64_ne_nan_left (b : float64) : float64.ne .nan b = true := by
  cases b <;> rfl

theorem float64_ne_nan_right (a : float64) : float64.ne a .nan = true := by
  cases a <;> rfl

theorem float64_lt_nan_left (b : float64) : float64.lt .nan b = false := by
  cases b <;> rfl

theorem float64_lt_nan_right (a : float64) : float64.lt a .nan = false := by
  cases a <;> rfl

theorem float64_ge_nan_left (b : float64) : float64.ge .nan b = false := by
  cases b <;> rfl

/-- For libraries without NaN and infinities the conditions with `float64` comparisons are
the conditions on rational numbers. -/
theorem rowMatchesGroupF_of_finite (L : GoLib) (LF : FloatLib)
    (hL : ∀ s, LF.ParseFloat s = (L.ParseFloat s).map float64.num)
    (row : List (String × String)) (group : List Condition) :
    rowMatchesGroupF LF row (group.map Condition.toF) = rowMatchesGroup L row group := by
  induction group with
  | nil => rfl
  | cons cond rest ih =>
    have hp : ∀ raw, parseNumberStringF LF raw = (parseNumberString L raw).map float64.num := by
      intro raw
      unfold parseNumberStringF parseNumberString
      simp only
      split_ifs
      · rfl
      · exact hL _
    simp only [List.map_cons, rowMatchesGroupF, rowMatchesGroup, Condition.toF]
    cases hm : mapFind row cond.Field with
    | none => rfl
    | some raw =>
      simp only [hp raw]
      cases hv : parseNumberString L raw with
      | none => rfl
      | some val =>
        simp only [Option.map_some', ih, float64.ne, float64.eq, float64.lt, float64.ge,
          Bool.not_eq_true', decide_eq_false_iff_not, decide_eq_true_eq, Bool.or_eq_true,
          ne_eq, ge_iff_le]
        by_cases h1 : cond.Kind = ConditionEq
        · simp only [h1, if_true]
        · simp only [h1, if_false]
          by_cases h2 : cond.Kind = ConditionRange
          · simp only [h2, if_true]
            by_cases h3 : cond.Low = cond.High
            · simp only [h3, if_true]
            · simp only [h3, if_false]
              have e : (val < cond.Low ∨ cond.High < val ∨ val = cond.High) ↔
                  (val < cond.Low ∨ cond.High ≤ val) := by
                rw [le_iff_lt_or_eq]
                constructor
                · rintro (h | h | h)
                  · exact Or.inl h
                  · exact Or.inr (Or.inl h)
                  · exact Or.inr (Or.inr h.symm)
                · rintro (h | h | h)
                  · exact Or.inl h
                  · exact Or.inr (Or.inl h)
                  · exact Or.inr (Or.inr h.symm)
              simp only [e]
          · simp only [h2, if_false]

/-- C5: A cell that holds the text `NaN` parses, and its value satisfies every Range
condition whose bounds differ, whatever the bounds, although it lies in no interval; the
Equality condition and the Range condition with equal bounds reject it. For a cell that
parses to a finite number and finite bounds the conditions are as the claim says. -/
theorem rowMatchesGroupF_nan_in_range :
    parseNumberStringF exampleFloatLib "NaN" = some .nan ∧
    rowMatchesGroupF exampleFloatLib [("PCI", "NaN")]
      [⟨"PCI", ConditionRange, .num 10, .num 20⟩] = true ∧
    rowMatchesGroupF exampleFloatLib [("PCI", "NaN")]
      [⟨"PCI", ConditionEq, .num 10, .num 10⟩] = false ∧
    rowMatchesGroupF exampleFloatLib [("PCI", "NaN")]
      [⟨"PCI", ConditionRange, .num 10, .num 10⟩] = false ∧
    (∀ (L : FloatLib) (row : List (String × String)) (cond : ConditionF) (raw : String),
      mapFind row cond.Field = some raw → parseNumberStringF L raw = some .nan →
      (cond.Kind = ConditionRange → cond.Low.eq cond.High = false →
        rowMatchesGroupF L row [cond] = true) ∧
      (cond.Kind = ConditionRange → cond.Low.eq cond.High = true →
        rowMatchesGroupF L row [cond] = false) ∧
      (cond.Kind = ConditionEq → rowMatchesGroupF L row [cond] = false)) ∧
    (∀ (L : FloatLib) (row : List (String × String)) (cond : ConditionF) (raw : String)
      (v lo hi : ℚ), mapFind row cond.Field = some raw →
      parseNumberStringF L raw = some (.num v) → cond.Low = .num lo → cond.High = .num hi →
      (cond.Kind = ConditionEq → (rowMatchesGroupF L row [cond] = true ↔ v = lo)) ∧
      (cond.Kind = ConditionRange → lo < hi →
        (rowMatchesGroupF L row [cond] = true ↔ lo ≤ v ∧ v < hi)) ∧
      (cond.Kind = ConditionRange → lo = hi →
        (rowMatchesGroupF L row [cond] = true ↔ v = lo))) := by
  have hne : ConditionRange ≠ ConditionEq := by decide
  refine ⟨by decide, by with_unfolding_all decide, by with_unfolding_all decide,
    by with_unfolding_all decide, ?_, ?_⟩
  · intro L row cond raw hraw hv
    refine ⟨?_, ?_, ?_⟩
    · intro hk hlh
      simp [rowMatchesGroupF, hraw, hv, hk, hne, hlh, float64_lt_nan_left,
        float64_ge_nan_left]
    · intro hk hlh
      simp [rowMatchesGroupF, hraw, hv, hk, hne, hlh, float64_ne_nan_left]
    · intro hk
      simp [rowMatchesGroupF, hraw, hv, hk, float64_ne_nan_left]
  · intro L row cond raw v lo hi hraw hv hlo hhi
    refine ⟨?_, ?_, ?_⟩
    · intro hk
      simp [rowMatchesGroupF, hraw, hv, hk, hlo, float64.ne, float64.eq]
    · intro hk hlt
      have hlh : ¬ lo = hi := ne_of_lt hlt
      simp only [rowMatchesGroupF, hraw, hv, hk, hne, hlo, hhi, float64.eq, float64.lt,
        float64.ge, if_false, if_true, hlh, decide_False, Bool.false_eq_true,
        Bool.or_eq_true, decide_eq_true_eq]
      by_cases hc : v < lo ∨ hi < v ∨ v = hi
      · simp only [hc, if_true, Bool.false_eq_true, false_iff, not_and, not_lt]
        intro hle
        rcases hc with hc | hc | hc
        · exact absurd hle (not_le.mpr hc)
        · exact le_of_lt hc
        · exact le_of_eq hc.symm
      · simp only [hc, if_false, true_iff]
        simp only [not_or, not_lt] at hc
        exact ⟨hc.1, lt_of_le_of_ne hc.2.1 hc.2.2⟩
    · intro hk heq
      simp [rowMatchesGroupF, hraw, hv, hk, hne, hlo, hhi, heq, float64.ne, float64.eq]

/-! ## C35 and C1: a mean that is not a number in the tie-break -/

/-- A group whose mean is NaN is not placed before any group by the comparator. -/
theorem zoneFreqLessF_nan_left (L : FloatLib) (a b : zoneFreqStatF)
    (h : a.RSRPAvg = .nan) : zoneFreqLessF L a b = false := by
  unfold zoneFreqLessF
  rw [h, float64_ne_nan_left, if_pos rfl]
  unfold float64.gt
  exact float64_lt_nan_right _

/-- No group is placed before a group whose mean is NaN by the comparator. -/
theorem zoneFreqLessF_nan_right (L : FloatLib) (a b : zoneFreqStatF)
    (h : b.RSRPAvg = .nan) : zoneFreqLessF L a b = false := by
  unfold zoneFreqLessF
  rw [h, float64_ne_nan_right, if_pos rfl]
  unfold float64.gt
  exact float64_lt_nan_left _

theorem sortSlice_pair {α : Type} (less : α → α → Bool) (a b : α) (h : less b a = false) :
    sortSlice less [a, b] = [a, b] := by
  simp [sortSlice, List.insertionSort, List.orderedInsert, h]

theorem sortSlice_singleton {α : Type} (less : α → α → Bool) (a : α) :
    sortSlice less [a] = [a] := by
  simp [sortSlice, List.insertionSort, List.orderedInsert]

/-- A map of two groups of one (zone, operator) pair that the comparator does not put in
the other order: the group that the map yields first is reported. -/
theorem CalculateZoneStatsNativeEnumF_pair (L : FloatLib) (A : FloatArith) (ctx : Context)
    (cfg : ProcessingConfig) (t : PyProjTransformer) (e1 e2 : aggKey × aggValF) (p : Point)
    (hkey : chosenKeyOfF (toZoneFreqStatF A e1) = chosenKeyOfF (toZoneFreqStatF A e2))
    (hless : zoneFreqLessF L (toZoneFreqStatF A e2) (toZoneFreqStatF A e1) = false)
    (hinv : t.Inverse ctx [zoneCenterF cfg (toZoneFreqStatF A e1)] = .ok [p]) :
    CalculateZoneStatsNativeEnumF L A ctx [e1, e2] cfg t =
      .ok [mkZoneStatF cfg (toZoneFreqStatF A e1) p] := by
  unfold CalculateZoneStatsNativeEnumF
  simp only [List.map_cons, List.map_nil]
  rw [sortSlice_pair _ _ _ hless]
  have hch : chooseLoopF [toZoneFreqStatF A e1, toZoneFreqStatF A e2] [] =
      [toZoneFreqStatF A e1] := by
    simp [chooseLoopF, hkey]
  simp only [hch, List.map_cons, List.map_nil, hinv, List.zip_cons_cons, List.zip_nil_right,
    sortSlice_singleton]

theorem zoneCenterF_of_key (cfg : ProcessingConfig) (a b : zoneFreqStatF)
    (hkey : chosenKeyOfF a = chosenKeyOfF b) : zoneCenterF cfg a = zoneCenterF cfg b := by
  unfold chosenKeyOfF at hkey
  simp only [chosenKey.mk.injEq] at hkey
  unfold zoneCenterF
  rw [hkey.2.2.1, hkey.2.2.2.1]

/-- C35: When the mean RSRP of a group is NaN, the result depends on the enumeration order
of the grouping map. For a map of two groups of one (zone, operator) pair, one of them with
the mean NaN, the comparator of the first sort orders the two groups in neither direction,
the sort leaves them in the order of the enumeration, and each of the two enumeration
orders reports the group that it yields first: the two results differ when the groups
differ in frequency. -/
theorem CalculateZoneStatsNativeEnumF_depends_on_enumeration (L : FloatLib) (A : FloatArith)
    (ctx : Context) (cfg : ProcessingConfig) (t : PyProjTransformer)
    (e1 e2 : aggKey × aggValF) (p : Point)
    (hkey : chosenKeyOfF (toZoneFreqStatF A e1) = chosenKeyOfF (toZoneFreqStatF A e2))
    (hnan : (toZoneFreqStatF A e1).RSRPAvg = .nan)
    (hfreq : e1.1.Freq ≠ e2.1.Freq)
    (hinv : t.Inverse ctx [zoneCenterF cfg (toZoneFreqStatF A e1)] = .ok [p]) :
    [e2, e1].Perm [e1, e2] ∧
    zoneFreqLessF L (toZoneFreqStatF A e1) (toZoneFreqStatF A e2) = false ∧
    zoneFreqLessF L (toZoneFreqStatF A e2) (toZoneFreqStatF A e1) = false ∧
    CalculateZoneStatsNativeEnumF L A ctx [e1, e2] cfg t =
      .ok [mkZoneStatF cfg (toZoneFreqStatF A e1) p] ∧
    CalculateZoneStatsNativeEnumF L A ctx [e2, e1] cfg t =
      .ok [mkZoneStatF cfg (toZoneFreqStatF A e2) p] ∧
    CalculateZoneStatsNativeEnumF L A ctx [e1, e2] cfg t ≠
      CalculateZoneStatsNativeEnumF L A ctx [e2, e1] cfg t := by
  have h12 := zoneFreqLessF_nan_left L _ (toZoneFreqStatF A e2) hnan
  have h21 := zoneFreqLessF_nan_right L (toZoneFreqStatF A e2) _ hnan
  have hinv2 : t.Inverse ctx [zoneCenterF cfg (toZoneFreqStatF A e2)] = .ok [p] := by
    rw [← zoneCenterF_of_key cfg _ _ hkey]
    exact hinv
  have r1 := CalculateZoneStatsNativeEnumF_pair L A ctx cfg t e1 e2 p hkey h21 hinv
  have r2 := CalculateZoneStatsNativeEnumF_pair L A ctx cfg t e2 e1 p hkey.symm h12 hinv2
  refine ⟨List.Perm.swap _ _ _, h12, h21, r1, r2, ?_⟩
  rw [r1, r2]
  intro h
  have h2 := congrArg ZoneStatF.NajcastejsiaFrekvencia (List.cons.inj (Except.ok.inj h)).1
  exact hfreq h2

/-- C35 on an example: the measurement with frequency 20 has the RSRP cell `NaN`, the one
with frequency 100 has RSRP -100; the enumeration that yields the group of frequency 20
first reports it, the other enumeration reports the group of frequency 100. -/
theorem CalculateZoneStatsNativeEnumF_depends_on_enumeration_witness :
    aggregateF exampleFloatArith exampleRowsNaN =
      [(⟨"100_200", "231_01", 100, 200, "231", "01", "7", "20"⟩,
          ⟨.nan, 1, [1], .num 0, 0, 0, 0⟩),
       (⟨"100_200", "231_01", 100, 200, "231", "01", "7", "100"⟩,
          ⟨.num (-100), 1, [1], .num 0, 0, 0, 0⟩)] ∧
    CalculateZoneStatsNativeEnumF exampleFloatLib exampleFloatArith liveContext
      (aggregateF exampleFloatArith exampleRowsNaN) exampleConfig idTransformer =
      .ok [exampleStatF "20" .nan "RSRP_BAD"] ∧
    CalculateZoneStatsNativeEnumF exampleFloatLib exampleFloatArith liveContext
      (aggregateF exampleFloatArith exampleRowsNaN).reverse exampleConfig idTransformer =
      .ok [exampleStatF "100" (.num (-100)) "RSRP_GOOD"] := by
  have hagg : aggregateF exampleFloatArith exampleRowsNaN =
      [(⟨"100_200", "231_01", 100, 200, "231", "01", "7", "20"⟩,
          ⟨.nan, 1, [1], .num 0, 0, 0, 0⟩),
       (⟨"100_200", "231_01", 100, 200, "231", "01", "7", "100"⟩,
          ⟨.num (-100), 1, [1], .num 0, 0, 0, 0⟩)] := by with_unfolding_all decide
  have h := CalculateZoneStatsNativeEnumF_depends_on_enumeration exampleFloatLib
    exampleFloatArith liveContext exampleConfig idTransformer
    (⟨"100_200", "231_01", 100, 200, "231", "01", "7", "20"⟩, ⟨.nan, 1, [1], .num 0, 0, 0, 0⟩)
    (⟨"100_200", "231_01", 100, 200, "231", "01", "7", "100"⟩,
      ⟨.num (-100), 1, [1], .num 0, 0, 0, 0⟩) ⟨150, 250⟩
    (by with_unfolding_all decide) (by with_unfolding_all decide) (by decide)
    (by with_unfolding_all decide)
  refine ⟨hagg, ?_, ?_⟩
  · rw [hagg, h.2.2.2.1]
    with_unfolding_all decide
  · rw [hagg]
    show CalculateZoneStatsNativeEnumF exampleFloatLib exampleFloatArith liveContext
      [_, _] exampleConfig idTransformer = _
    rw [h.2.2.2.2.1]
    with_unfolding_all decide

/-- C1: When the mean RSRP of a group is NaN, the reported group is not the first group
under an order. The map of `exampleRowsNaN` has two groups of one (zone, operator) pair,
frequency 20 with the mean NaN and frequency 100 with the mean -100; whatever the order
`before` of the groups, as long as it does not place two groups before each other, one
enumeration order of the map makes `CalculateZoneStatsNative` report a group that does not
come before the other group of the pair. -/
theorem CalculateZoneStatsNativeEnumF_reports_not_first
    (before : zoneFreqStatF → zoneFreqStatF → Prop)
    (hasym : ∀ g h, before g h → ¬ before h g) :
    ∃ enum : List (aggKey × aggValF), enum.Perm (aggregateF exampleFloatArith exampleRowsNaN) ∧
      ∃ (s : ZoneStatF) (g h : zoneFreqStatF),
        CalculateZoneStatsNativeEnumF exampleFloatLib exampleFloatArith liveContext enum
          exampleConfig idTransformer = .ok [s] ∧
        reportsGroupF s g ∧
        g ∈ enum.map (toZoneFreqStatF exampleFloatArith) ∧
        h ∈ enum.map (toZoneFreqStatF exampleFloatArith) ∧
        chosenKeyOfF h = chosenKeyOfF g ∧ h ≠ g ∧ ¬ before g h := by
  have hagg : aggregateF exampleFloatArith exampleRowsNaN =
      [(⟨"100_200", "231_01", 100, 200, "231", "01", "7", "20"⟩,
          ⟨.nan, 1, [1], .num 0, 0, 0, 0⟩),
       (⟨"100_200", "231_01", 100, 200, "231", "01", "7", "100"⟩,
          ⟨.num (-100), 1, [1], .num 0, 0, 0, 0⟩)] := by with_unfolding_all decide
  have hg1 : toZoneFreqStatF exampleFloatArith
      (⟨"100_200", "231_01", 100, 200, "231", "01", "7", "20"⟩,
        ⟨.nan, 1, [1], .num 0, 0, 0, 0⟩) = exampleGroupF "20" .nan := by
    with_unfolding_all decide
  have hg2 : toZoneFreqStatF exampleFloatArith
      (⟨"100_200", "231_01", 100, 200, "231", "01", "7", "100"⟩,
        ⟨.num (-100), 1, [1], .num 0, 0, 0, 0⟩) = exampleGroupF "100" (.num (-100)) := by
    with_unfolding_all decide
  have hne : exampleGroupF "100" (.num (-100)) ≠ exampleGroupF "20" .nan := by
    with_unfolding_all decide
  by_cases hb : before (exampleGroupF "20" .nan) (exampleGroupF "100" (.num (-100)))
  · refine ⟨(aggregateF exampleFloatArith exampleRowsNaN).reverse, List.reverse_perm _,
      exampleStatF "100" (.num (-100)) "RSRP_GOOD", exampleGroupF "100" (.num (-100)),
      exampleGroupF "20" .nan, ?_, ?_, ?_, ?_, ?_, hne.symm, hasym _ _ hb⟩
    · rw [hagg]; with_unfolding_all decide
    · unfold reportsGroupF; with_unfolding_all decide
    · rw [hagg]; simp [hg1, hg2]
    · rw [hagg]; simp [hg1, hg2]
    · with_unfolding_all decide
  · refine ⟨aggregateF exampleFloatArith exampleRowsNaN, List.Perm.refl _,
      exampleStatF "20" .nan "RSRP_BAD", exampleGroupF "20" .nan,
      exampleGroupF "100" (.num (-100)), ?_, ?_, ?_, ?_, ?_, hne, hb⟩
    · rw [hagg]; with_unfolding_all decide
    · unfold reportsGroupF; with_unfolding_all decide
    · rw [hagg]; simp [hg1, hg2]
    · rw [hagg]; simp [hg1, hg2]
    · with_unfolding_all decide

/-- C1 on an order: with the groups ordered by frequency as text, the enumeration that
yields the group of frequency 20 first reports it, though the text `100` is the smaller. -/
theorem CalculateZoneStatsNativeEnumF_reports_not_first_witness :
    ∃ enum : List (aggKey × aggValF), enum.Perm (aggregateF exampleFloatArith exampleRowsNaN) ∧
      ∃ (s : ZoneStatF) (g h : zoneFreqStatF),
        CalculateZoneStatsNativeEnumF exampleFloatLib exampleFloatArith liveContext enum
          exampleConfig idTransformer = .ok [s] ∧
        reportsGroupF s g ∧
        g ∈ enum.map (toZoneFreqStatF exampleFloatArith) ∧
        h ∈ enum.map (toZoneFreqStatF exampleFloatArith) ∧
        chosenKeyOfF h = chosenKeyOfF g ∧ h ≠ g ∧ ¬ g.Key.Freq < h.Key.Freq :=
  CalculateZoneStatsNativeEnumF_reports_not_first (fun g h => g.Key.Freq < h.Key.Freq)
    (fun _ _ h1 h2 => lt_asymm h1 h2)

end Backend
